import Mathlib

/-!
# Firecracker counter engine: a shallow embedding

The definitions below follow `src/firecracker/*.c` function by function.
Machine integers are natural numbers or integers with explicit reductions
modulo `2 ^ w` wherever the C code can wrap.  Arrays are lists, indices are
natural numbers, and the output stream is a list of structured lines.
-/

namespace Firecracker

/-! ## Machine integer helpers -/

/-- Conversion of a C integer to `uint32_t` (reduction modulo `2 ^ 32`). -/
def toU32 (x : Int) : Nat := (x % 4294967296).toNat

/-- Conversion of a C integer to `uint64_t` (reduction modulo `2 ^ 64`);
for an `int32_t` argument this is the sign extension the C conversion performs. -/
def toU64 (x : Int) : Nat := (x % 18446744073709551616).toNat

/-- Conversion of an integer to `int` / `int32_t`: two's complement wrap-around
(what gcc and clang do for out-of-range conversions and overflowing arithmetic). -/
def toI32 (x : Int) : Int := (x + 2147483648) % 4294967296 - 2147483648

/-! ## Data model (`firecracker.h`) -/

/-- The struct `fc_timeval_t`: `int32_t ts_sec`, `uint32_t ts_usec`. -/
structure fc_timeval_t where
  ts_sec : Int
  ts_usec : Nat
  deriving DecidableEq, Repr, Inhabited

/-- The struct `fc_pkt_t`. -/
structure fc_pkt_t where
  saddr : Nat
  daddr : Nat
  sport : Nat
  dport : Nat
  proto : Nat
  flags : Nat
  len : Nat
  ts : fc_timeval_t
  deriving DecidableEq, Repr, Inhabited

/-- The range constraints the C field types impose on a record. -/
def fc_pkt_t.wf (p : fc_pkt_t) : Prop :=
  p.saddr < 4294967296 ∧ p.daddr < 4294967296 ∧ p.sport < 65536 ∧ p.dport < 65536 ∧
  p.proto < 256 ∧ p.flags < 256 ∧ p.len < 65536 ∧
  -2147483648 ≤ p.ts.ts_sec ∧ p.ts.ts_sec < 2147483648 ∧ p.ts.ts_usec < 4294967296

instance (p : fc_pkt_t) : Decidable p.wf := by
  unfold fc_pkt_t.wf; infer_instance

/-- The struct `fc_chunk_t`: a contiguous array of records; `count` is its length. -/
structure fc_chunk_t where
  pkts : List fc_pkt_t
  deriving DecidableEq, Repr, Inhabited

/-- The `count` member of `fc_chunk_t`. -/
def fc_chunk_t.count (c : fc_chunk_t) : Nat := c.pkts.length

/-- The record `chunk->pkts[i]` (`pkts + i`); reads past the array are undefined in C. -/
def fc_chunk_t.at (c : fc_chunk_t) (i : Nat) : fc_pkt_t := c.pkts.getD i default

/-- The enum `fc_field_name_t`. -/
inductive fc_field_name_t where
  | FC_FIELD_NAME_SADDR
  | FC_FIELD_NAME_DADDR
  | FC_FIELD_NAME_SPORT
  | FC_FIELD_NAME_DPORT
  | FC_FIELD_NAME_PROTO
  | FC_FIELD_NAME_FLAGS
  | FC_FIELD_NAME_LEN
  | FC_FIELD_NAME_SEC
  | FC_FIELD_NAME_USEC
  deriving DecidableEq, Repr, Inhabited

open fc_field_name_t

/-- The struct `fc_query_field_t`: a field name and a `uint8_t` width. -/
structure fc_query_field_t where
  name : fc_field_name_t
  width : Nat
  deriving DecidableEq, Repr, Inhabited

/-- The struct `fc_query_t`: `fields` holds the first `n_fields` entries of the
field array, `show_max` is the `uint64_t` member. -/
structure fc_query_t where
  query_str : String
  fields : List fc_query_field_t
  show_max : Nat
  show_query : Bool
  deriving DecidableEq, Repr, Inhabited

/-- The struct `fc_filter_field_t`. -/
structure fc_filter_field_t where
  name : fc_field_name_t
  width : Nat
  value : Nat
  deriving DecidableEq, Repr, Inhabited

/-- The struct `fc_filter_t`: `fields` holds the first `n_fields` entries. -/
structure fc_filter_t where
  fields : List fc_filter_field_t
  deriving DecidableEq, Repr, Inhabited

/-- The struct `fc_timespan_t`: `uint64_t base_sec`, `uint32_t length_sec`. -/
structure fc_timespan_t where
  base_sec : Nat
  length_sec : Nat
  deriving DecidableEq, Repr, Inhabited

/-! ## Field access and masks (`process.c`) -/

/-- The function `fetch_field`: the named member promoted to `uint32_t`; the
`default` branch (reached by `FC_FIELD_NAME_FLAGS`) returns 0. -/
def fetch_field (pkt : fc_pkt_t) : fc_field_name_t → Nat
  | FC_FIELD_NAME_SADDR => pkt.saddr
  | FC_FIELD_NAME_DADDR => pkt.daddr
  | FC_FIELD_NAME_SPORT => pkt.sport
  | FC_FIELD_NAME_DPORT => pkt.dport
  | FC_FIELD_NAME_PROTO => pkt.proto
  | FC_FIELD_NAME_LEN => pkt.len
  | FC_FIELD_NAME_SEC => toU32 pkt.ts.ts_sec
  | FC_FIELD_NAME_USEC => pkt.ts.ts_usec
  | FC_FIELD_NAME_FLAGS => 0

/-- The expression `0xffffffff & ~((1 << (32 - width)) - 1)` on 32 bits.  The
shift count is reduced modulo 32 (as the hardware shift does); for widths
1..32 it is already in range. -/
def width_mask (width : Nat) : Nat :=
  4294967295 &&& (4294967295 ^^^ (((1 <<< ((288 - width) % 32)) + 4294967295) % 4294967296))

/-- The masking step shared by `comparator_group` and `fc_filter_pkt`:
`if (width > 0) { val &= mask; }`. -/
def apply_width (width : Nat) (val : Nat) : Nat :=
  if width > 0 then val &&& width_mask width else val

/-! ## Sorting -/

/-- The libc routines `qsort` / `qsort_r`, driven by a C comparator returning a
negative, zero or positive `int`: modelled as a stable insertion sort that
places `a` before `b` when `cmp a b <= 0`. -/
def qsort {α : Type} (cmp : α → α → Int) (l : List α) : List α :=
  l.insertionSort (fun a b => cmp a b ≤ 0)

/-- The loop of `comparator_sort` / `comparator_group` over the query fields,
on the two rows of already fetched (and possibly masked) values. -/
def compare_fields : List (Nat × Nat) → Int
  | [] => 0
  | (val1, val2) :: rest =>
    if val1 < val2 then -1
    else if val1 > val2 then 1
    else compare_fields rest

/-- The function `comparator_sort`: full-width field values in query order,
ties broken by `(ts_sec, ts_usec)`. -/
def comparator_sort (chunk : fc_chunk_t) (query : fc_query_t) (ind1 ind2 : Nat) : Int :=
  let pkt1 := chunk.at ind1
  let pkt2 := chunk.at ind2
  let r := compare_fields
    (query.fields.map (fun f => (fetch_field pkt1 f.name, fetch_field pkt2 f.name)))
  if r ≠ 0 then r
  else if pkt1.ts.ts_sec < pkt2.ts.ts_sec then -1
  else if pkt1.ts.ts_sec > pkt2.ts.ts_sec then 1
  else if pkt1.ts.ts_usec < pkt2.ts.ts_usec then -1
  else if pkt1.ts.ts_usec > pkt2.ts.ts_usec then 1
  else 0

/-- The function `comparator_group`: field values masked to the field widths,
in query order, no tie-break. -/
def comparator_group (chunk : fc_chunk_t) (query : fc_query_t) (ind1 ind2 : Nat) : Int :=
  let pkt1 := chunk.at ind1
  let pkt2 := chunk.at ind2
  compare_fields
    (query.fields.map (fun f =>
      (apply_width f.width (fetch_field pkt1 f.name),
       apply_width f.width (fetch_field pkt2 f.name))))

/-- The function `fc_create_index`: the identity index `base .. base+count-1`
sorted with `comparator_sort` (the `order` array of `fc_elems_t`). -/
def fc_create_index (chunk : fc_chunk_t) (base count : Nat) (query : fc_query_t) : List Nat :=
  qsort (comparator_sort chunk query) (List.range' base count)

/-- The struct `fc_count_order_t`. -/
structure fc_count_order_t where
  index : Nat
  count : Nat
  deriving DecidableEq, Repr, Inhabited

/-- The function `count_compare`: `return o2->count - o1->count;`, a `uint64_t`
difference converted to `int`. -/
def count_compare (o1 o2 : fc_count_order_t) : Int :=
  toI32 (toU64 ((o2.count : Int) - (o1.count : Int)))

/-- The grouping loop of `fc_compute_counts_subset` (`while (tail < elems.count)`),
returning for every group the run of index entries it covers: the head and the
entries after it for which `comparator_group(order[head], order[tail])` is 0.
The first argument bounds the number of iterations of the outer loop. -/
def group_runs (chunk : fc_chunk_t) (query : fc_query_t) : Nat → List Nat → List (List Nat)
  | 0, _ => []
  | _, [] => []
  | fuel + 1, head :: rest =>
    (head :: rest.takeWhile (fun t => comparator_group chunk query head t == 0)) ::
      group_runs chunk query fuel
        (rest.dropWhile (fun t => comparator_group chunk query head t == 0))

/-- The `counts` array filled by the grouping loop: `index = order[head]`,
`count = subcount`. -/
def group_counts (chunk : fc_chunk_t) (query : fc_query_t) (order : List Nat) :
    List fc_count_order_t :=
  (group_runs chunk query order.length order).map
    (fun run => { index := run.headD 0, count := run.length })

/-- The top-N step: `if (show_max >= 0) { if (show_max > 0) qsort(...);
if (show_max < n_counts) n_counts = show_max; }` on the unsigned `show_max`. -/
def select_counts (query : fc_query_t) (counts : List fc_count_order_t) :
    List fc_count_order_t :=
  let sorted := if query.show_max > 0 then qsort count_compare counts else counts
  if query.show_max < counts.length then sorted.take query.show_max else sorted

/-- One line of output. `count` and `norm` are the `C` and `N` lines of
`print_count` (the record is the group representative, `norm` keeps numerator
and denominator), `term` is the `T` line. -/
inductive fc_line where
  | count (count : Nat) (start_time : Nat) (pkt : fc_pkt_t)
  | norm (count total : Nat) (start_time : Nat) (pkt : fc_pkt_t)
  | term (total : Nat) (start_time : Nat) (query_str : String)
  deriving DecidableEq, Repr

/-- The function `fc_compute_counts_subset`; `start_time` is the `uint32_t`
parameter. -/
def fc_compute_counts_subset (chunk : fc_chunk_t) (base count : Nat) (query : fc_query_t)
    (start_time : Nat) (print_normalized : Bool) : List fc_line :=
  if count = 0 then [fc_line.term 0 start_time query.query_str]
  else
    let order := fc_create_index chunk base count query
    let counts := select_counts query (group_counts chunk query order)
    counts.map (fun c => fc_line.count c.count start_time (chunk.at c.index)) ++
    (if print_normalized then
      counts.map (fun c => fc_line.norm c.count order.length start_time (chunk.at c.index))
     else []) ++
    [fc_line.term order.length start_time query.query_str]

/-! ## Windowing (`fc_compute_counts`) -/

/-- The arguments of one call `fc_compute_counts_subset(chunk, base, count, query,
start_time, ...)` made by `fc_compute_counts`; `start_time` is the `uint32_t`
parameter, so the 64-bit `start_span` is reduced modulo `2 ^ 32`. -/
structure subset_call where
  base : Nat
  count : Nat
  start_time : Nat
  deriving DecidableEq, Repr, Inhabited

/-- The inner loop `while (curr_time > end_span)` of `fc_compute_counts`, on
the state `(start_span, end_span)`: each iteration calls the subset routine
with count 0 and advances both bounds by `length_sec` (64-bit unsigned
arithmetic).  The first argument bounds the number of iterations; the result
is `none` when the bound is exhausted before the loop exits. -/
def skip_empty_spans (length_sec curr_time start : Nat) :
    Nat → Nat → Nat → Option (List subset_call × Nat × Nat)
  | 0, _, _ => none
  | fuel + 1, start_span, end_span =>
    if curr_time > end_span then
      (skip_empty_spans length_sec curr_time start fuel end_span
          ((end_span + length_sec) % 18446744073709551616)).map
        (fun r => ({ base := start, count := 0, start_time := start_span % 4294967296 } :: r.1,
                   r.2))
    else some ([], start_span, end_span)

/-- The number of iterations granted to the inner loop: `end_span` ranges over
`2 ^ 64` values and the step is constant, so a loop that has not exited after
`2 ^ 64` iterations never exits. -/
def span_fuel : Nat := 18446744073709551616

/-- The loop `for (i = 0; i < chunk->count; i++)` of `fc_compute_counts`, run on
the records from index `i` on, with the loop state `(start, start_span,
end_span)`.  It returns the calls made and the final state. -/
def window_loop (length_sec : Nat) :
    List fc_pkt_t → Nat → Nat → Nat → Nat → Option (List subset_call × Nat × Nat × Nat)
  | [], _, start, start_span, end_span => some ([], start, start_span, end_span)
  | pkt :: rest, i, start, start_span, end_span =>
    let curr_time := toU64 pkt.ts.ts_sec
    if curr_time ≥ end_span then
      match skip_empty_spans length_sec curr_time i span_fuel end_span
          ((end_span + length_sec) % 18446744073709551616) with
      | none => none
      | some (empties, start_span2, end_span2) =>
        (window_loop length_sec rest (i + 1) i start_span2 end_span2).map
          (fun r => ({ base := start, count := i - start,
                       start_time := start_span % 4294967296 } :: (empties ++ r.1), r.2))
    else window_loop length_sec rest (i + 1) start start_span end_span

/-- The calls to `fc_compute_counts_subset` that `fc_compute_counts` makes, in
order; `timespan = none` is the NULL pointer.  The result is `none` when the
inner loop does not terminate. -/
def fc_compute_counts_calls (chunk : fc_chunk_t) (timespan : Option fc_timespan_t) :
    Option (List subset_call) :=
  match timespan with
  | none => some [{ base := 0, count := chunk.count,
                    start_time := toU32 (chunk.at 0).ts.ts_sec }]
  | some span =>
    if span.length_sec = 0 then
      some [{ base := 0, count := chunk.count, start_time := toU32 (chunk.at 0).ts.ts_sec }]
    else
      match window_loop span.length_sec chunk.pkts 0 0 span.base_sec
          ((span.base_sec + span.length_sec) % 18446744073709551616) with
      | none => none
      | some (calls, start, start_span, _) =>
        if chunk.count - start > 0 then
          some (calls ++ [{ base := start, count := chunk.count - start,
                            start_time := start_span % 4294967296 }])
        else some calls

/-- The function `fc_compute_counts`: the lines written to `fout` (the return
code is 0 whenever the function returns, allocation failures aside). -/
def fc_compute_counts (chunk : fc_chunk_t) (query : fc_query_t)
    (timespan : Option fc_timespan_t) (normalized : Bool) : Option (List fc_line) :=
  (fc_compute_counts_calls chunk timespan).map (fun calls =>
    calls.flatMap (fun c =>
      fc_compute_counts_subset chunk c.base c.count query c.start_time normalized))

/-! ## Filters (`filter.c`) -/

/-- The loop of `fc_filter_pkt` over the filter fields: 0 at the first field
whose masked record value differs from the masked filter value, 1 otherwise. -/
def filter_fields (pkt : fc_pkt_t) : List fc_filter_field_t → Nat
  | [] => 1
  | f :: rest =>
    if apply_width f.width (fetch_field pkt f.name) ≠ apply_width f.width f.value then 0
    else filter_fields pkt rest

/-- The function `fc_filter_pkt`. -/
def fc_filter_pkt (pkt : fc_pkt_t) (filter : fc_filter_t) : Nat :=
  filter_fields pkt filter.fields

/-! ## Chains (`chain.c`) -/

/-- The constant `PKTS_PER_CHUNK`. -/
def PKTS_PER_CHUNK : Nat := 256 * 1024

/-- The struct `pkt_chunk_t` without its `next` link: the slot array `pkts`
(slots at `cnt` and above hold stale data) and the fill count `cnt`. -/
structure pkt_chunk_t where
  pkts : Nat → fc_pkt_t
  cnt : Nat

/-- The struct `pkt_chain_t`: `linked` are the chunks from `first` up to, and
excluding, `curr`, in link order; `curr = none` is the empty chain
(`first == NULL`). -/
structure pkt_chain_t where
  linked : List pkt_chunk_t
  curr : Option pkt_chunk_t

/-- The chunks of a chain in link order (`first`, `first->next`, ...). -/
def pkt_chain_t.chunks (chain : pkt_chain_t) : List pkt_chunk_t :=
  chain.linked ++ chain.curr.toList

/-- The records `pkts[0 .. cnt-1]` of a chunk, what `memcpy(dst, curr->pkts,
curr->cnt * sizeof(fc_pkt_t))` copies. -/
def pkt_chunk_t.contents (c : pkt_chunk_t) : List fc_pkt_t :=
  (List.range c.cnt).map c.pkts

/-- A freshly allocated chunk with `cnt = 0` (slot contents are unspecified). -/
def new_chunk : pkt_chunk_t := { pkts := fun _ => default, cnt := 0 }

/-- The function `fc_extend_chain` (allocation always succeeds). -/
def fc_extend_chain (chain : pkt_chain_t) : pkt_chain_t :=
  match chain.curr with
  | none => { linked := [], curr := some new_chunk }
  | some c =>
    if c.cnt = PKTS_PER_CHUNK then { linked := chain.linked ++ [c], curr := some new_chunk }
    else chain

/-- The function `pcap_chain_to_chunk`: the chunk contents copied in link order. -/
def pcap_chain_to_chunk (chain : pkt_chain_t) : fc_chunk_t :=
  { pkts := chain.chunks.flatMap pkt_chunk_t.contents }

/-! ## Merge (`input.c`) -/

/-- The function `compare_secs`: `ts_sec` difference as `int`, or, for equal
seconds, the `uint32_t` difference of `ts_usec` converted to `int`. -/
def compare_secs (pkt1 pkt2 : fc_pkt_t) : Int :=
  if pkt1.ts.ts_sec ≠ pkt2.ts.ts_sec then toI32 (pkt1.ts.ts_sec - pkt2.ts.ts_sec)
  else toI32 (toU32 ((pkt1.ts.ts_usec : Int) - (pkt2.ts.ts_usec : Int)))

/-- The function `fc_merge_chains`: return code and destination chunk
(allocation always succeeds; the 64-bit totals cannot wrap, a chain of `2 ^ 64`
records does not fit in memory). -/
def fc_merge_chains (chains : List pkt_chain_t) : Int × fc_chunk_t :=
  let copied := chains.flatMap (fun c => c.chunks.flatMap pkt_chunk_t.contents)
  if copied.length = 0 then (0, { pkts := [] })
  else (0, { pkts := qsort compare_secs copied })

/-! ## FC5 encoding (`fc5.c`) -/

/-- Byte swap of a 32-bit value. -/
def bswap32 (x : Nat) : Nat :=
  (x % 256) * 16777216 + (x / 256 % 256) * 65536 + (x / 65536 % 256) * 256 + x / 16777216 % 256

/-- Byte swap of a 16-bit value. -/
def bswap16 (x : Nat) : Nat := (x % 256) * 256 + x / 256 % 256

/-- The function `ntohl` on a host that is little-endian (`le = true`) or
big-endian. -/
def ntohl (le : Bool) (x : Nat) : Nat := if le then bswap32 x else x % 4294967296

/-- The function `ntohs`. -/
def ntohs (le : Bool) (x : Nat) : Nat := if le then bswap16 x else x % 65536

/-- The bytes of a `uint32_t` in the memory of the host. -/
def store32 (le : Bool) (x : Nat) : List Nat :=
  if le then [x % 256, x / 256 % 256, x / 65536 % 256, x / 16777216 % 256]
  else [x / 16777216 % 256, x / 65536 % 256, x / 256 % 256, x % 256]

/-- The bytes of a `uint16_t` in the memory of the host. -/
def store16 (le : Bool) (x : Nat) : List Nat :=
  if le then [x % 256, x / 256 % 256] else [x / 256 % 256, x % 256]

/-- The `uint32_t` that four bytes of host memory hold. -/
def load32 (le : Bool) (b0 b1 b2 b3 : Nat) : Nat :=
  if le then b0 + b1 * 256 + b2 * 65536 + b3 * 16777216
  else b3 + b2 * 256 + b1 * 65536 + b0 * 16777216

/-- The `uint16_t` that two bytes of host memory hold. -/
def load16 (le : Bool) (b0 b1 : Nat) : Nat :=
  if le then b0 + b1 * 256 else b1 + b0 * 256

/-- The body of the loop of `fc_fc5_write`: the converted copy `new_pkt` as the
24 bytes that `fwrite(&new_pkt, sizeof(fc_pkt_t), 1, fout)` emits. -/
def fc5_write_pkt (le : Bool) (pkt : fc_pkt_t) : List Nat :=
  store32 le (ntohl le pkt.saddr) ++ store32 le (ntohl le pkt.daddr) ++
  store16 le (ntohs le pkt.sport) ++ store16 le (ntohs le pkt.dport) ++
  [pkt.proto % 256, pkt.flags % 256] ++ store16 le (ntohs le pkt.len) ++
  store32 le (toU32 (toI32 (ntohl le (toU32 pkt.ts.ts_sec)))) ++
  store32 le (ntohl le pkt.ts.ts_usec)

/-- The function `fc_fc5_write`: the bytes written to `fout` (every `fwrite`
succeeds, so the return code is 0). -/
def fc_fc5_write (le : Bool) (chunk : fc_chunk_t) : List Nat :=
  chunk.pkts.flatMap (fc5_write_pkt le)

/-- The record stored at `chain->curr->pkts[curr_cnt]`, with `cnt` incremented
only when `keep` holds; the chain has been extended before. -/
def chain_store (chain : pkt_chain_t) (pkt : fc_pkt_t) (keep : Bool) : pkt_chain_t :=
  match chain.curr with
  | none => chain
  | some c =>
    { linked := chain.linked,
      curr := some { pkts := fun i => if i = c.cnt then pkt else c.pkts i,
                     cnt := if keep then c.cnt + 1 else c.cnt } }

/-- The loop of `fc_fc5_read`: `fread` delivers one record while at least 24
bytes remain; the record is converted, stored in the extended chain and counted
when there is no filter or the filter accepts it. -/
def fc5_read_loop (le : Bool) (filter : Option fc_filter_t) :
    List Nat → pkt_chain_t → pkt_chain_t
  | a0 :: a1 :: a2 :: a3 :: d0 :: d1 :: d2 :: d3 :: e0 :: e1 :: p0 :: p1 :: pr :: fl ::
      l0 :: l1 :: s0 :: s1 :: s2 :: s3 :: u0 :: u1 :: u2 :: u3 :: rest, chain =>
    let pkt : fc_pkt_t :=
      { saddr := ntohl le (load32 le a0 a1 a2 a3),
        daddr := ntohl le (load32 le d0 d1 d2 d3),
        sport := ntohs le (load16 le e0 e1),
        dport := ntohs le (load16 le p0 p1),
        proto := pr,
        flags := fl,
        len := ntohs le (load16 le l0 l1),
        ts := { ts_sec := toI32 (ntohl le (toU32 (toI32 (load32 le s0 s1 s2 s3)))),
                ts_usec := ntohl le (load32 le u0 u1 u2 u3) } }
    let keep := match filter with
      | none => true
      | some f => fc_filter_pkt pkt f != 0
    fc5_read_loop le filter rest (chain_store (fc_extend_chain chain) pkt keep)
  | _, chain => chain

/-- The function `fc_fc5_read` on the bytes of the input file (each a value
below 256): return code and resulting chain. -/
def fc_fc5_read (le : Bool) (input : List Nat) (filter : Option fc_filter_t) :
    Int × pkt_chain_t :=
  (0, fc5_read_loop le filter input { linked := [], curr := none })

/-! ## Notions used to state the properties -/

/-- The masked key of a record under a query: every field value masked to the
width of its field (width 0 keeps the full value). -/
def masked_key (query : fc_query_t) (pkt : fc_pkt_t) : List Nat :=
  query.fields.map (fun f => apply_width f.width (fetch_field pkt f.name))

/-- The mask of the filter semantics as the specification words it:
`mask(0) = 0xFFFFFFFF` and `mask(w) = NOT((1 << (32 - w)) - 1)` on 32 bits. -/
def spec_mask (w : Nat) : Nat :=
  if w = 0 then 4294967295 else 4294967295 - ((1 <<< (32 - w)) - 1)

/-- The `(total, start_time)` pairs of the terminator lines of an output, in
output order. -/
def terminators : List fc_line → List (Nat × Nat)
  | [] => []
  | fc_line.term total start_time _ :: rest => (total, start_time) :: terminators rest
  | _ :: rest => terminators rest

/-- A record with the given source address, protocol and second, all other
members zero (used to write concrete inputs). -/
def mk_pkt (saddr proto : Nat) (ts_sec : Int) : fc_pkt_t :=
  { saddr := saddr, daddr := 0, sport := 0, dport := 0, proto := proto, flags := 0,
    len := 0, ts := { ts_sec := ts_sec, ts_usec := 0 } }

/-- A one-chunk chain holding the given records. -/
def chain_of (l : List fc_pkt_t) : pkt_chain_t :=
  { linked := [], curr := some { pkts := fun i => l.getD i default, cnt := l.length } }

/-- A record with the given timestamp, all other members zero. -/
def mk_ts (ts_sec : Int) (ts_usec : Nat) : fc_pkt_t :=
  { saddr := 0, daddr := 0, sport := 0, dport := 0, proto := 0, flags := 0,
    len := 0, ts := { ts_sec := ts_sec, ts_usec := ts_usec } }

/-- The lexicographic order on `(ts_sec, ts_usec)`. -/
def ts_le (a b : fc_pkt_t) : Prop :=
  a.ts.ts_sec < b.ts.ts_sec ∨ (a.ts.ts_sec = b.ts.ts_sec ∧ a.ts.ts_usec ≤ b.ts.ts_usec)

instance (a b : fc_pkt_t) : Decidable (ts_le a b) := by
  unfold ts_le; infer_instance

/-- The value of `show_max` when `-m` is not given: `-1` stored in the
`uint64_t` member. -/
def show_all : Nat := 18446744073709551615

/-- The compiled query `P` with the given `show_max`. -/
def query_P (show_max : Nat) : fc_query_t :=
  { query_str := "P", fields := [{ name := FC_FIELD_NAME_PROTO, width := 0 }],
    show_max := show_max, show_query := false }

/-- The compiled query `S24P`: source address masked to 24 bits, then protocol. -/
def query_S24P : fc_query_t :=
  { query_str := "S24P",
    fields := [{ name := FC_FIELD_NAME_SADDR, width := 24 },
               { name := FC_FIELD_NAME_PROTO, width := 0 }],
    show_max := show_all, show_query := false }

/-- Three records of one window: sources 1.1.1.1, 1.1.1.2 and 1.1.1.3 with
protocols 6, 17 and 6. -/
def split_window : fc_chunk_t :=
  { pkts := [mk_pkt 16843009 6 0, mk_pkt 16843010 17 0, mk_pkt 16843011 6 0] }

/-- The index ranges of the calls are consecutive: each starts where the one
before it ends, the first at `s` and the last ending at `e`. -/
def ranges_cover : Nat → List subset_call → Nat → Prop
  | s, [], e => s = e
  | s, c :: cs, e => c.base = s ∧ ranges_cover (s + c.count) cs e

/-- The start times of the calls are `t`, `t + L`, `t + 2L`, ... in order. -/
def spans_from (L : Nat) : Nat → List subset_call → Prop
  | _, [] => True
  | t, c :: cs => c.start_time = t ∧ spans_from L (t + L) cs

/-- Whether record index `i` lies in the index range `[base, base + count)` of a call. -/
def in_range (i : Nat) (c : subset_call) : Bool :=
  decide (c.base ≤ i ∧ i < c.base + c.count)

/-- Four protocol-6 records at seconds 0, 3, 11 and 25. -/
def sample_windows : fc_chunk_t :=
  { pkts := [mk_pkt 0 6 0, mk_pkt 0 6 3, mk_pkt 0 6 11, mk_pkt 0 6 25] }

/-- A window holding one protocol-1 record followed by `n` protocol-6 records. -/
def big_window (n : Nat) : fc_chunk_t :=
  { pkts := mk_pkt 0 1 0 :: List.replicate n (mk_pkt 0 6 0) }

/-- The number of protocol-6 records of the large window: `2 ^ 31 + 2`. -/
def big_count : Nat := 2147483650

/-- A TCP record whose `flags` member is 2 (SYN). -/
def syn_pkt : fc_pkt_t :=
  { saddr := 167838211, daddr := 167838212, sport := 40000, dport := 80, proto := 6,
    flags := 2, len := 60, ts := { ts_sec := 100, ts_usec := 5 } }

/-- A one-field filter `(name, width, value)`. -/
def one_field_filter (name : fc_field_name_t) (width value : Nat) : fc_filter_t :=
  { fields := [{ name := name, width := width, value := value }] }

/-- The `(count, total_count)` pairs of the normalized lines of an output, in
output order: numerator and denominator of the fraction `print_count` prints. -/
def norm_pairs : List fc_line → List (Nat × Nat)
  | [] => []
  | fc_line.norm c total _ _ :: rest => (c, total) :: norm_pairs rest
  | _ :: rest => norm_pairs rest

/-- The fractions of the normalized lines, in exact rational arithmetic. -/
def norm_fractions (lines : List fc_line) : List ℚ :=
  (norm_pairs lines).map (fun p => (p.1 : ℚ) / (p.2 : ℚ))

/-- The four bytes of a 32-bit value in big-endian order. -/
def be32 (x : Nat) : List Nat := [x / 16777216 % 256, x / 65536 % 256, x / 256 % 256, x % 256]

/-- The two bytes of a 16-bit value in big-endian order. -/
def be16 (x : Nat) : List Nat := [x / 256 % 256, x % 256]

/-- The FC5 block of a record as the specification describes it: `saddr` and
`daddr` (4 bytes each), `sport` and `dport` (2 bytes each), `proto` and `flags`
(1 byte each), `len` (2 bytes), `ts_sec` (two's complement) and `ts_usec`
(4 bytes each), every multi-byte value big-endian. -/
def fc5_layout (r : fc_pkt_t) : List Nat :=
  be32 r.saddr ++ be32 r.daddr ++ be16 r.sport ++ be16 r.dport ++ [r.proto, r.flags] ++
  be16 r.len ++ be32 (toU32 r.ts.ts_sec) ++ be32 r.ts.ts_usec

/-- The function `fc_apply_filter`: the `order` array of the result, the indices
`base .. base+count-1` whose record `fc_filter_pkt` accepts (`elems->count` is
its length, the return code is 0). -/
def fc_apply_filter (filter : fc_filter_t) (chunk : fc_chunk_t) (base count : Nat) : List Nat :=
  (List.range' base count).filter (fun i => fc_filter_pkt (chunk.at i) filter != 0)

/-- The chain that `fc_fc5_read` builds from the FC5 file holding the records
`rs`, with the filter applied while reading. -/
def read_inline (le : Bool) (f : fc_filter_t) (rs : List fc_pkt_t) : pkt_chain_t :=
  (fc_fc5_read le (fc_fc5_write le { pkts := rs }) (some f)).2

/-- The chain that `fc_fc5_read` builds from the FC5 file holding the records
`rs`, without a filter. -/
def read_plain (le : Bool) (rs : List fc_pkt_t) : pkt_chain_t :=
  (fc_fc5_read le (fc_fc5_write le { pkts := rs }) none).2

/-- The records that consecutive complete 24-byte blocks of a byte string
decode to (the conversions of the loop body of `fc_fc5_read`); an incomplete
last block is dropped. -/
def fc5_decode (le : Bool) : List Nat → List fc_pkt_t
  | a0 :: a1 :: a2 :: a3 :: d0 :: d1 :: d2 :: d3 :: e0 :: e1 :: p0 :: p1 :: pr :: fl ::
      l0 :: l1 :: s0 :: s1 :: s2 :: s3 :: u0 :: u1 :: u2 :: u3 :: rest =>
    { saddr := ntohl le (load32 le a0 a1 a2 a3),
      daddr := ntohl le (load32 le d0 d1 d2 d3),
      sport := ntohs le (load16 le e0 e1),
      dport := ntohs le (load16 le p0 p1),
      proto := pr,
      flags := fl,
      len := ntohs le (load16 le l0 l1),
      ts := { ts_sec := toI32 (ntohl le (toU32 (toI32 (load32 le s0 s1 s2 s3)))),
              ts_usec := ntohl le (load32 le u0 u1 u2 u3) } } :: fc5_decode le rest
  | _ => []

/-! ## C strings and libc scanning routines

A C string is the list of its characters before the terminating NUL; a
pointer into it is a suffix of the list. -/

/-- The libc predicate `isspace` in the C locale: space, `\t`, `\n`, `\v`,
`\f`, `\r`. -/
def isspace (c : Char) : Bool := c.toNat = 32 || (9 ≤ c.toNat && c.toNat ≤ 13)

/-- The libc predicate `isdigit`. -/
def isdigit (c : Char) : Bool := 48 ≤ c.toNat && c.toNat ≤ 57

/-- The number a string of decimal digits denotes. -/
def digits_value (ds : List Char) : Nat :=
  ds.foldl (fun acc c => acc * 10 + (c.toNat - 48)) 0

/-- The optional sign that `strtol` and the `scanf` conversions accept: whether
it is a minus sign, and the text after it. -/
def skip_sign : List Char → Bool × List Char
  | c :: rest => if c = '-' then (true, rest) else if c = '+' then (false, rest)
                 else (false, c :: rest)
  | [] => (false, [])

/-- The libc routines `strtol` and `strtoll` with base 10 on a 64-bit `long`:
white space is skipped, an optional sign and the longest run of digits are
converted, out-of-range values are clamped to `LONG_MIN` / `LONG_MAX`; the
second component is `endptr`.  Without any digit the result is 0 and `endptr`
is the start of the string. -/
def strtol (s : List Char) : Int × List Char :=
  let u := skip_sign (s.dropWhile isspace)
  let ds := u.2.takeWhile isdigit
  if ds = [] then (0, s)
  else
    let v : Int := if u.1 then -(digits_value ds : Int) else (digits_value ds : Int)
    (max (-9223372036854775808) (min 9223372036854775807 v), u.2.dropWhile isdigit)

/-- The character a pointer points at (`*p`); `none` is the terminating NUL. -/
def deref (p : List Char) : Option Char := p.head?

/-- The value the libc conversion to `unsigned long` gives for a run of digits
denoting `v`: `ULONG_MAX` on overflow, otherwise `v`, negated modulo `2 ^ 64`
after a minus sign. -/
def ulong_value (neg : Bool) (v : Nat) : Nat :=
  if v > 18446744073709551615 then 18446744073709551615
  else if neg then (18446744073709551616 - v) % 18446744073709551616 else v

/-- The `scanf` conversion `%hhu`: white space is skipped, an optionally signed
run of digits is converted as an `unsigned long` and stored in an
`unsigned char`; `none` when there is no digit.  The second component is the
unread input. -/
def scan_hhu (s : List Char) : Option (Nat × List Char) :=
  let u := skip_sign (s.dropWhile isspace)
  let ds := u.2.takeWhile isdigit
  if ds = [] then none
  else some (ulong_value u.1 (digits_value ds) % 256, u.2.dropWhile isdigit)

/-- A literal character of a `scanf` format: the unread input after it, or
`none` when the next character differs. -/
def scan_lit (c : Char) : List Char → Option (List Char)
  | d :: rest => if d = c then some rest else none
  | [] => none

/-- The call `sscanf(str, "%hhu.%hhu.%hhu.%hhu%n", &b3, &b2, &b1, &b0,
&consumed)` when it returns 4: the four bytes and `str + consumed`; `none`
when the return value is not 4. -/
def sscanf_quad (s : List Char) : Option (Nat × Nat × Nat × Nat × List Char) :=
  (scan_hhu s).bind fun r3 =>
  (scan_lit '.' r3.2).bind fun s2 =>
  (scan_hhu s2).bind fun r2 =>
  (scan_lit '.' r2.2).bind fun s1 =>
  (scan_hhu s1).bind fun r1 =>
  (scan_lit '.' r1.2).bind fun s0 =>
  (scan_hhu s0).bind fun r0 =>
  some (r3.1, r2.1, r1.1, r0.1, r0.2)

/-- The end of an iteration of the loop of `fc_str2filter`, after
`field_index++`: `next` is the rest of the loop applied to the text after a
`/`. -/
def filter_field_end (str : List Char) (fields : List fc_filter_field_t)
    (next : List Char → Option (Int × fc_filter_t)) : Option (Int × fc_filter_t) :=
  match str with
  | [] => some (0, { fields := fields })
  | c :: rest => if c = '/' then next rest else some (-1, { fields := [] })

/-- The loop `while (*str != '\0')` of `fc_str2filter` with the fields stored so
far; the first argument bounds the number of iterations (`none` when it is
exhausted).  On an error return the filter is the caller's empty filter
(`n_fields` is not assigned). -/
def str2filter_loop : Nat → List Char → List fc_filter_field_t → Option (Int × fc_filter_t)
  | 0, _, _ => none
  | _ + 1, [], fields => some (0, { fields := fields })
  | fuel + 1, c :: rest, fields =>
    if c = 'S' ∨ c = 'D' then
      let w := strtol rest
      if deref w.2 ≠ some '=' then some (-1, { fields := [] })
      else
        match sscanf_quad w.2.tail with
        | none => some (-1, { fields := [] })
        | some (b3, b2, b1, b0, str2) =>
          filter_field_end str2
            (fields ++ [{ name := if c = 'S' then FC_FIELD_NAME_SADDR else FC_FIELD_NAME_DADDR,
                          width := toU32 w.1 % 256,
                          value := (b3 <<< 24 ||| b2 <<< 16 ||| b1 <<< 8 ||| b0) % 4294967296 }])
            (fun s => str2filter_loop fuel s
              (fields ++ [{ name := if c = 'S' then FC_FIELD_NAME_SADDR
                                    else FC_FIELD_NAME_DADDR,
                            width := toU32 w.1 % 256,
                            value := (b3 <<< 24 ||| b2 <<< 16 ||| b1 <<< 8 ||| b0) %
                              4294967296 }]))
    else if c = 'E' ∨ c = 'A' ∨ c = 'P' ∨ c = 's' then
      let w := strtol rest
      if deref w.2 ≠ some '=' then some (-1, { fields := [] })
      else
        let str1 := w.2.tail
        let v := strtol str1
        let str2 := if v.2.length + 1 ≠ str1.length then v.2 else str1.tail
        filter_field_end str2
          (fields ++ [{ name := if c = 'E' then FC_FIELD_NAME_SPORT
                                else if c = 'A' then FC_FIELD_NAME_DPORT
                                else if c = 'P' then FC_FIELD_NAME_PROTO
                                else FC_FIELD_NAME_SEC,
                        width := toU32 w.1 % 256, value := toU32 v.1 }])
          (fun s => str2filter_loop fuel s
            (fields ++ [{ name := if c = 'E' then FC_FIELD_NAME_SPORT
                                  else if c = 'A' then FC_FIELD_NAME_DPORT
                                  else if c = 'P' then FC_FIELD_NAME_PROTO
                                  else FC_FIELD_NAME_SEC,
                          width := toU32 w.1 % 256, value := toU32 v.1 }]))
    else some (-1, { fields := [] })

/-- The function `fc_str2filter`: return code and compiled filter.  Every
iteration of the loop consumes at least one character, so `length + 1`
iterations are enough. -/
def fc_str2filter (str : List Char) : Option (Int × fc_filter_t) :=
  str2filter_loop (str.length + 1) str []

/-- The loop `while (*str != '\0')` of `fc_str2query` with the fields stored so
far: the eight accepted names, each followed by an optional width read with
`strtol`; the first argument bounds the number of iterations.  The result is
the return code and the fields stored (none on the error return). -/
def str2query_loop : Nat → List Char → List fc_query_field_t →
    Option (Int × List fc_query_field_t)
  | 0, _, _ => none
  | _ + 1, [], fields => some (0, fields)
  | fuel + 1, c :: rest, fields =>
    if c = 'S' ∨ c = 'D' ∨ c = 'E' ∨ c = 'A' ∨ c = 'P' ∨ c = 's' ∨ c = 'u' ∨ c = 'L' then
      let w := strtol rest
      str2query_loop fuel (if w.2.length ≠ rest.length then w.2 else rest)
        (fields ++ [{ name := if c = 'S' then FC_FIELD_NAME_SADDR
                              else if c = 'D' then FC_FIELD_NAME_DADDR
                              else if c = 'E' then FC_FIELD_NAME_SPORT
                              else if c = 'A' then FC_FIELD_NAME_DPORT
                              else if c = 'P' then FC_FIELD_NAME_PROTO
                              else if c = 's' then FC_FIELD_NAME_SEC
                              else if c = 'u' then FC_FIELD_NAME_USEC
                              else FC_FIELD_NAME_LEN,
                      width := toU32 w.1 % 256 }])
    else some (-1, [])

/-- The function `fc_str2query` on the query it is given: on success the fields
and `n_fields` are stored, `query_str` is `strdup(str)` with `str` at the
terminating NUL, that is the empty string, and `show_max` is 0; on the error
return the query is left as it was (allocation always succeeds). -/
def fc_str2query (str : List Char) (query : fc_query_t) : Option (Int × fc_query_t) :=
  (str2query_loop (str.length + 1) str []).map fun r =>
    if r.1 = 0 then
      (0, { query_str := "", fields := r.2, show_max := 0, show_query := query.show_query })
    else (r.1, query)

/-- A character at which a scan of digits stops and that is neither white
space nor a sign: the first character of `p` when there is one. -/
def stops_scan (p : List Char) : Prop :=
  ∀ c, p.head? = some c → isdigit c = false ∧ isspace c = false ∧ c ≠ '-' ∧ c ≠ '+'

/-- The text consists of decimal digits only. -/
def all_digits (ds : List Char) : Prop := ∀ c ∈ ds, isdigit c = true

instance (ds : List Char) : Decidable (all_digits ds) := by
  unfold all_digits; infer_instance

/-- The character of a field name (the enumerator values of `fc_field_name_t`). -/
def name_char : fc_field_name_t → Char
  | FC_FIELD_NAME_SADDR => 'S'
  | FC_FIELD_NAME_DADDR => 'D'
  | FC_FIELD_NAME_SPORT => 'E'
  | FC_FIELD_NAME_DPORT => 'A'
  | FC_FIELD_NAME_PROTO => 'P'
  | FC_FIELD_NAME_FLAGS => 'F'
  | FC_FIELD_NAME_LEN => 'L'
  | FC_FIELD_NAME_SEC => 's'
  | FC_FIELD_NAME_USEC => 'u'

/-- A token `NAME [WIDTH]` of the query grammar: the name and the digits of the
width (empty when the width is absent). -/
structure query_token where
  name : fc_field_name_t
  width : List Char
  deriving DecidableEq, Repr

/-- The token is one of the grammar: a name among S, D, E, A, P, s, u, L and a
width that is absent or a decimal in `[0, 32]`. -/
def query_token.wf (t : query_token) : Prop :=
  t.name ≠ FC_FIELD_NAME_FLAGS ∧ all_digits t.width ∧ digits_value t.width ≤ 32

instance (t : query_token) : Decidable t.wf := by
  unfold query_token.wf; infer_instance

/-- The text of a query token. -/
def query_token.text (t : query_token) : List Char := name_char t.name :: t.width

/-- The text of a query: its tokens written one after the other. -/
def render_query (toks : List query_token) : List Char := toks.flatMap query_token.text

/-- The field a query token stands for: its name and width, 0 when absent. -/
def query_token.compile (t : query_token) : fc_query_field_t :=
  { name := t.name, width := digits_value t.width }

/-- Whether a character is one of the eight names `fc_str2query` accepts. -/
def is_query_name (c : Char) : Prop :=
  c = 'S' ∨ c = 'D' ∨ c = 'E' ∨ c = 'A' ∨ c = 'P' ∨ c = 's' ∨ c = 'u' ∨ c = 'L'

instance (c : Char) : Decidable (is_query_name c) := by
  unfold is_query_name; infer_instance

/-- The tokens of the query `S24P`. -/
def tokens_S24P : List query_token :=
  [{ name := FC_FIELD_NAME_SADDR, width := ['2', '4'] },
   { name := FC_FIELD_NAME_PROTO, width := [] }]

/-- A field `NAME [WIDTH] '=' VALUE` of the filter grammar, as text: an address
field (`S` when `src`, else `D`) with the digits of its width and of its four
octets, or a numeric field with the digits of its width and of its value. -/
inductive filter_token where
  | addr (src : Bool) (width o3 o2 o1 o0 : List Char)
  | num (name : fc_field_name_t) (width value : List Char)
  deriving DecidableEq, Repr

/-- A non-empty run of digits denoting a number that is at most `bound`. -/
def digits_upto (bound : Nat) (ds : List Char) : Prop :=
  all_digits ds ∧ ds ≠ [] ∧ digits_value ds ≤ bound

instance (bound : Nat) (ds : List Char) : Decidable (digits_upto bound ds) := by
  unfold digits_upto; infer_instance

/-- The field is one of the grammar: width absent or a decimal in `[0, 32]`,
octets at most 255, a numeric value below `2 ^ 32` and a numeric name among
E, A, P, s. -/
def filter_token.wf : filter_token → Prop
  | filter_token.addr _ width o3 o2 o1 o0 =>
    all_digits width ∧ digits_value width ≤ 32 ∧ digits_upto 255 o3 ∧ digits_upto 255 o2 ∧
    digits_upto 255 o1 ∧ digits_upto 255 o0
  | filter_token.num name width value =>
    (name = FC_FIELD_NAME_SPORT ∨ name = FC_FIELD_NAME_DPORT ∨ name = FC_FIELD_NAME_PROTO ∨
      name = FC_FIELD_NAME_SEC) ∧
    all_digits width ∧ digits_value width ≤ 32 ∧ digits_upto 4294967295 value

instance (t : filter_token) : Decidable t.wf := by
  cases t <;> unfold filter_token.wf <;> infer_instance

/-- The text of a filter field. -/
def filter_token.text : filter_token → List Char
  | filter_token.addr src width o3 o2 o1 o0 =>
    (if src then 'S' else 'D') :: (width ++ '=' :: (o3 ++ '.' :: (o2 ++ '.' :: (o1 ++ '.' :: o0))))
  | filter_token.num name width value => name_char name :: (width ++ '=' :: value)

/-- The compiled field a filter field stands for: width 0 when absent, value
`a * 2^24 + b * 2^16 + c * 2^8 + d` for the dotted quad `a.b.c.d`. -/
def filter_token.compile : filter_token → fc_filter_field_t
  | filter_token.addr src width o3 o2 o1 o0 =>
    { name := if src then FC_FIELD_NAME_SADDR else FC_FIELD_NAME_DADDR,
      width := digits_value width,
      value := digits_value o3 * 16777216 + digits_value o2 * 65536 + digits_value o1 * 256 +
        digits_value o0 }
  | filter_token.num name width value =>
    { name := name, width := digits_value width, value := digits_value value }

/-- The text of a filter: its fields separated by `/`. -/
def render_filter : List filter_token → List Char
  | [] => []
  | [t] => t.text
  | t :: t2 :: ts => t.text ++ '/' :: render_filter (t2 :: ts)

/-- The compiled filter `S24=1.1.1.0/D24=2.2.2.0/P=6`. -/
def filter_S24_D24_P : fc_filter_t :=
  { fields := [{ name := FC_FIELD_NAME_SADDR, width := 24, value := 16843008 },
               { name := FC_FIELD_NAME_DADDR, width := 24, value := 33686016 },
               { name := FC_FIELD_NAME_PROTO, width := 0, value := 6 }] }

/-- The fields of the filter text `S24=1.1.1.0/P=6`. -/
def tokens_S24_P : List filter_token :=
  [filter_token.addr true ['2', '4'] ['1'] ['1'] ['1'] ['0'],
   filter_token.num FC_FIELD_NAME_PROTO [] ['6']]

/-! ## The CSV reader (`c25.c`) -/

/-- The constant `MAX_LINE_LEN`. -/
def MAX_LINE_LEN : Nat := 2048

/-- The characters one `fgets` call stores when `room` more characters fit in
the buffer, and the unread rest of the file: reading stops after a newline,
at the end of the file, or when the buffer is full. -/
def fgets_chars : Nat → List Char → List Char × List Char
  | 0, rest => ([], rest)
  | _ + 1, [] => ([], [])
  | room + 1, c :: rest =>
    if c = '\n' then ([c], rest)
    else ((fgets_chars room rest).1.cons c, (fgets_chars room rest).2)

/-- The C string held in a buffer: the characters before the first NUL. -/
def c_string (buf : List Char) : List Char := buf.takeWhile (fun c => c != '\x00')

/-- The libc routine `fgets(buf, n, file)` on a file whose characters are its
bytes: `none` (a NULL result) at the end of the file, otherwise the C string
in `buf`, and the unread rest of the file.  At most `n - 1` bytes are stored,
followed by a NUL; the callers use `buf` as a C string, which ends at the
first NUL, so a NUL byte read from the file cuts the string. -/
def fgets (n : Nat) (file : List Char) : Option (List Char × List Char) :=
  if file = [] then none
  else some (c_string (fgets_chars (n - 1) file).1, (fgets_chars (n - 1) file).2)

/-- The libc routine `strchr(s, c)` for a character other than NUL: the suffix
starting at the first occurrence, `none` (a NULL result) without one. -/
def strchr (c : Char) : List Char → Option (List Char)
  | [] => none
  | d :: rest => if d = c then some (d :: rest) else strchr c rest

/-- The end pointer of the libc routine `strtod` on decimal input: white space
and an optional sign are skipped, then digits with an optional `.` (at least
one digit in all) and an optional exponent (`e` or `E`, an optional sign and
at least one digit) are converted.  Without a digit nothing is converted and
the end pointer is the start of the string.  (The call site passes text that
starts with `.`, which excludes the hexadecimal, infinity and NaN forms.) -/
def strtod_end (s : List Char) : List Char :=
  let u := (skip_sign (s.dropWhile isspace)).2
  let ip := u.takeWhile isdigit
  let r1 := u.dropWhile isdigit
  let fp := match scan_lit '.' r1 with
    | some t => t.takeWhile isdigit
    | none => []
  let r2 := match scan_lit '.' r1 with
    | some t => t.dropWhile isdigit
    | none => r1
  if ip = [] ∧ fp = [] then s
  else
    match r2 with
    | [] => r2
    | e :: t =>
      if e = 'e' ∨ e = 'E' then
        if ((skip_sign t).2.takeWhile isdigit) = [] then r2
        else (skip_sign t).2.dropWhile isdigit
      else r2

/-- The outcome of scanning a line: a value, an error code that `fc_csv_read`
returns, or the dereference of a NULL pointer. -/
inductive csv_scan (α : Type) where
  | ok (a : α)
  | error (rc : Int)
  | fault
  deriving DecidableEq, Repr

/-- The loop `for (int i = 0; i < 3; i++)` of `fc_csv_read` with `n` rounds
left: `endptr = strchr(endptr + 1, ',')` followed by the test of `*endptr`. -/
def csv_skip_fields : Nat → List Char → csv_scan (List Char)
  | 0, endptr => .ok endptr
  | n + 1, endptr =>
    match strchr ',' endptr.tail with
    | none => .fault
    | some e => if deref e ≠ some ',' then .error (-8) else csv_skip_fields n e

/-- The part of the loop body of `fc_csv_read` after the seven leading
integers: the three skipped fields, the seconds, the fraction and the
terminator test, with `endptr` at the comma after `len`.  The parameter
`usec` stands for the floating-point computation
`(uint32_t) (1000000 * strtod(endptr, _))` as a function of the text at
`endptr`. -/
def csv_parse_tail (usec : List Char → Nat) (saddr daddr proto sport dport len : Int)
    (endptr : List Char) : csv_scan fc_pkt_t :=
  match csv_skip_fields 3 endptr with
  | .fault => .fault
  | .error rc => .error rc
  | .ok endptr =>
    let ts_sec := strtol endptr.tail
    if deref ts_sec.2 ≠ some '.' then .error (-9) else
    if deref (strtod_end ts_sec.2) ≠ some ',' ∧ deref (strtod_end ts_sec.2) ≠ some '\n' then
      .error (-10)
    else
      .ok { saddr := toU32 saddr,
            daddr := toU32 daddr,
            proto := toU32 proto % 256,
            sport := toU32 sport % 65536,
            dport := toU32 dport % 65536,
            len := toU32 len % 65536,
            ts := { ts_sec := toI32 (toU32 ts_sec.1),
                    ts_usec := usec ts_sec.2 % 4294967296 },
            flags := 0 }

/-- The body of the loop of `fc_csv_read` up to the call of `fc_extend_chain`:
the record parsed from the line in `buf`. -/
def csv_parse_line (usec : List Char → Nat) (p : List Char) : csv_scan fc_pkt_t :=
  let saddr := strtol p
  if deref saddr.2 ≠ some ',' then .error (-1) else
  let daddr := strtol saddr.2.tail
  if deref daddr.2 ≠ some ',' then .error (-2) else
  let proto := strtol daddr.2.tail
  if deref proto.2 ≠ some ',' then .error (-3) else
  let sport := strtol proto.2.tail
  if deref sport.2 ≠ some ',' then .error (-4) else
  let dport := strtol sport.2.tail
  if deref dport.2 ≠ some ',' then .error (-5) else
  let dummy := strtol dport.2.tail
  if deref dummy.2 ≠ some ',' then .error (-6) else
  let len := strtol dummy.2.tail
  if deref len.2 ≠ some ',' then .error (-7) else
  csv_parse_tail usec saddr.1 daddr.1 proto.1 sport.1 dport.1 len.1 len.2

/-- The result of `fc_csv_read`: the return code with the chain built so far,
or the dereference of a NULL pointer. -/
inductive csv_result where
  | returned (rc : Int) (chain : pkt_chain_t)
  | fault

/-- The return code of a run that returned. -/
def csv_result.rc : csv_result → Option Int
  | .returned rc _ => some rc
  | .fault => none

/-- The records of the chain a run left behind, in link order. -/
def csv_result.records : csv_result → List fc_pkt_t
  | .returned _ chain => (pcap_chain_to_chunk chain).pkts
  | .fault => []

/-- The loop `for (;;)` of `fc_csv_read` on the unread characters of the file;
every round reads at least one character, `none` means the fuel ran out. -/
def csv_read_loop (usec : List Char → Nat) (filter : Option fc_filter_t) :
    Nat → List Char → pkt_chain_t → Option csv_result
  | 0, _, _ => none
  | fuel + 1, file, chain =>
    match fgets MAX_LINE_LEN file with
    | none => some (.returned 0 chain)
    | some (buf, rest) =>
      match csv_parse_line usec buf with
      | .fault => some .fault
      | .error rc => some (.returned rc chain)
      | .ok pkt =>
        let keep := match filter with
          | none => true
          | some f => fc_filter_pkt pkt f != 0
        csv_read_loop usec filter fuel rest (chain_store (fc_extend_chain chain) pkt keep)

/-- The function `fc_csv_read` on the characters of the input file
(allocation always succeeds). -/
def fc_csv_read (usec : List Char → Nat) (file : List Char) (filter : Option fc_filter_t) :
    Option csv_result :=
  csv_read_loop usec filter (file.length + 1) file { linked := [], curr := none }

/-! ### The CSV row grammar -/

/-- A decimal integer as written in a CSV column: an optional minus sign and
a run of digits. -/
structure csv_int where
  neg : Bool
  digits : List Char
  deriving DecidableEq, Repr

/-- The integer is written with at least one digit and digits only. -/
def csv_int.wf (n : csv_int) : Prop := n.digits ≠ [] ∧ all_digits n.digits

instance (n : csv_int) : Decidable n.wf := by
  unfold csv_int.wf; infer_instance

/-- The number the column denotes. -/
def csv_int.value (n : csv_int) : Int :=
  if n.neg then -(digits_value n.digits : Int) else (digits_value n.digits : Int)

/-- The number is in the range of `long long`. -/
def csv_int.fits (n : csv_int) : Prop :=
  -9223372036854775808 ≤ n.value ∧ n.value ≤ 9223372036854775807

instance (n : csv_int) : Decidable n.fits := by
  unfold csv_int.fits; infer_instance

/-- The characters of the column. -/
def csv_int.text (n : csv_int) : List Char :=
  if n.neg then n.digits.cons '-' else n.digits

/-- A line `s,d,p,sp,dp,x,len,f1,f2,f3,SEC.FRAC` followed by a newline
(`more = none`) or by `,`, further text and a newline. -/
structure csv_row where
  s : csv_int
  d : csv_int
  p : csv_int
  sp : csv_int
  dp : csv_int
  x : csv_int
  len : csv_int
  f1 : List Char
  f2 : List Char
  f3 : List Char
  sec : csv_int
  frac : List Char
  more : Option (List Char)
  deriving DecidableEq, Repr

/-- The text carries neither a comma nor a newline. -/
def plain_field (f : List Char) : Prop := ∀ c ∈ f, c ≠ ',' ∧ c ≠ '\n'

/-- Every character of the text is a byte other than NUL (a code from 1 to
255), as in a text file read byte by byte. -/
def c_bytes (t : List Char) : Prop := ∀ c ∈ t, 0 < c.toNat ∧ c.toNat < 256

instance (t : List Char) : Decidable (c_bytes t) := by
  unfold c_bytes; infer_instance

instance (f : List Char) : Decidable (plain_field f) := by
  unfold plain_field; infer_instance

/-- The grammar of a row: the eight integers are decimal, the three skipped
fields carry no comma, the fraction is a non-empty run of digits and no
newline occurs inside the line. -/
def csv_row.wf (r : csv_row) : Prop :=
  r.s.wf ∧ r.d.wf ∧ r.p.wf ∧ r.sp.wf ∧ r.dp.wf ∧ r.x.wf ∧ r.len.wf ∧
  plain_field r.f1 ∧ plain_field r.f2 ∧ plain_field r.f3 ∧ r.sec.wf ∧
  r.frac ≠ [] ∧ all_digits r.frac ∧ ∀ c ∈ r.more.getD [], c ≠ '\n'

instance (r : csv_row) : Decidable r.wf := by
  unfold csv_row.wf; infer_instance

/-- The eight integers are in the range of `long long`. -/
def csv_row.fits (r : csv_row) : Prop :=
  r.s.fits ∧ r.d.fits ∧ r.p.fits ∧ r.sp.fits ∧ r.dp.fits ∧ r.x.fits ∧ r.len.fits ∧ r.sec.fits

instance (r : csv_row) : Decidable r.fits := by
  unfold csv_row.fits; infer_instance

/-- The text of a row from the `.` of the timestamp on, newline included. -/
def csv_row.fraction (r : csv_row) : List Char :=
  (r.frac ++ match r.more with
    | none => ['\n']
    | some m => (m ++ ['\n']).cons ',').cons '.'

/-- The characters of the line, newline included. -/
def csv_row.text (r : csv_row) : List Char :=
  r.s.text ++ ',' :: (r.d.text ++ ',' :: (r.p.text ++ ',' :: (r.sp.text ++ ',' ::
    (r.dp.text ++ ',' :: (r.x.text ++ ',' :: (r.len.text ++ ',' :: (r.f1 ++ ',' ::
      (r.f2 ++ ',' :: (r.f3 ++ ',' :: (r.sec.text ++ r.fraction))))))))))

/-- The record the row denotes, in the words of the specification, with the
second reduced to 32 bits: `saddr = s mod 2^32`, `daddr = d mod 2^32`,
`proto = p mod 2^8`, `sport = sp mod 2^16`, `dport = dp mod 2^16`,
`len = len mod 2^16`, `flags = 0`. -/
def csv_row.record (usec : List Char → Nat) (r : csv_row) : fc_pkt_t :=
  { saddr := (r.s.value % 4294967296).toNat,
    daddr := (r.d.value % 4294967296).toNat,
    proto := (r.p.value % 256).toNat,
    sport := (r.sp.value % 65536).toNat,
    dport := (r.dp.value % 65536).toNat,
    len := (r.len.value % 65536).toNat,
    ts := { ts_sec := toI32 r.sec.value, ts_usec := usec r.fraction % 4294967296 },
    flags := 0 }

/-- A decimal integer column from its text, for examples. -/
def csv_num (t : String) : csv_int := { neg := false, digits := t.toList }

/-- The example row `1,2,6,3,4,0,60,a,b,c,SEC.5` with the given seconds. -/
def sample_row (sec : String) : csv_row :=
  { s := csv_num "1", d := csv_num "2", p := csv_num "6", sp := csv_num "3",
    dp := csv_num "4", x := csv_num "0", len := csv_num "60",
    f1 := ['a'], f2 := ['b'], f3 := ['c'], sec := csv_num sec, frac := ['5'], more := none }

/-- The example row with the source address column `9223372036854775808`
(`2 ^ 63`). -/
def wide_row : csv_row :=
  { sample_row "7" with s := csv_num "9223372036854775808" }

/-- The example row whose eighth column is 2040 letters long: the line has
2064 characters before its newline. -/
def long_row : csv_row :=
  { sample_row "7" with f1 := List.replicate 2040 'a' }

/-- The example row whose eighth column is a single NUL byte. -/
def nul_row : csv_row :=
  { sample_row "7" with f1 := ['\x00'] }

/-! ### Malformed CSV lines -/

/-- Leading integer columns, each followed by a comma, before the text
`tail`. -/
def csv_leading : List csv_int → List Char → List Char
  | [], tail => tail
  | n :: ns, tail => n.text ++ ',' :: csv_leading ns tail

/-- The text starts with an exponent as `strtod` reads it: `e` or `E`, an
optional sign and a digit. -/
def starts_exponent : List Char → Bool
  | [] => false
  | e :: t => (e == 'e' || e == 'E') && (((skip_sign t).2.head?.map isdigit).getD false)

/-- The character at the start of `t` is not a digit and none of `cs`. -/
def next_is_not (cs : List Char) (t : List Char) : Prop :=
  ∀ c, t.head? = some c → isdigit c = false ∧ c ∉ cs

instance (cs t : List Char) : Decidable (next_is_not cs t) := by
  unfold next_is_not
  cases t with
  | nil => exact isTrue (by intro c hc; cases hc)
  | cons d r =>
    exact decidable_of_iff (isdigit d = false ∧ d ∉ cs) (by
      constructor
      · intro h c hc
        simp only [List.head?_cons, Option.some.injEq] at hc
        subst hc
        exact h
      · intro h
        exact h d rfl)

/-- A malformed line, newline included.  `leading`: fewer than seven leading
integers are followed by `,` and the next integer `n` is followed by `tail`.
`seconds`: seven integers and three further fields are followed by `,`, and
the seconds are followed by `tail`.  `fraction`: the seconds are followed by
`.`, the digits `frac` and `tail`. -/
inductive csv_bad_line where
  | leading (ints : List csv_int) (n : csv_int) (tail : List Char)
  | seconds (ints : List csv_int) (f1 f2 f3 : List Char) (sec : csv_int) (tail : List Char)
  | fraction (ints : List csv_int) (f1 f2 f3 : List Char) (sec : csv_int)
      (frac tail : List Char)

/-- The characters of the malformed line, newline included. -/
def csv_bad_line.text : csv_bad_line → List Char
  | .leading ints n tail => csv_leading ints (n.text ++ (tail ++ ['\n']))
  | .seconds ints f1 f2 f3 sec tail =>
    csv_leading ints (f1 ++ ',' :: (f2 ++ ',' :: (f3 ++ ',' :: (sec.text ++ (tail ++ ['\n'])))))
  | .fraction ints f1 f2 f3 sec frac tail =>
    csv_leading ints (f1 ++ ',' :: (f2 ++ ',' :: (f3 ++ ',' ::
      (sec.text ++ '.' :: (frac ++ (tail ++ ['\n']))))))

/-- The stage at which the line is malformed: the number `k` of the leading
integer that is not followed by `,`, 9 for the seconds, 10 for the fraction. -/
def csv_bad_line.stage : csv_bad_line → Nat
  | .leading ints _ _ => ints.length + 1
  | .seconds _ _ _ _ _ _ => 9
  | .fraction _ _ _ _ _ _ _ => 10

/-- The conditions on a malformed line: the integers are decimal, the skipped
fields carry no comma, `tail` carries no newline, and the character after the
offending column (the newline when `tail` is empty) is not a digit and not
the separator expected there; for the fraction it starts no exponent
either. -/
def csv_bad_line.wf : csv_bad_line → Prop
  | .leading ints n tail =>
    ints.length < 7 ∧ (∀ m ∈ ints, m.wf) ∧ n.wf ∧ (∀ c ∈ tail, c ≠ '\n') ∧
    next_is_not [','] (tail ++ ['\n'])
  | .seconds ints f1 f2 f3 sec tail =>
    ints.length = 7 ∧ (∀ m ∈ ints, m.wf) ∧ plain_field f1 ∧ plain_field f2 ∧ plain_field f3 ∧
    sec.wf ∧ (∀ c ∈ tail, c ≠ '\n') ∧ next_is_not ['.'] (tail ++ ['\n'])
  | .fraction ints f1 f2 f3 sec frac tail =>
    ints.length = 7 ∧ (∀ m ∈ ints, m.wf) ∧ plain_field f1 ∧ plain_field f2 ∧ plain_field f3 ∧
    sec.wf ∧ all_digits frac ∧ (∀ c ∈ tail, c ≠ '\n') ∧
    next_is_not [',', '\n'] (tail ++ ['\n']) ∧ starts_exponent tail = false

instance (b : csv_bad_line) : Decidable b.wf := by
  cases b <;> unfold csv_bad_line.wf <;> infer_instance

/-- The return code of `fc_csv_read` without a filter and the records of the
chain it leaves behind. -/
def csv_outcome (usec : List Char → Nat) (file : List Char) :
    Option (Option Int × List fc_pkt_t) :=
  (fc_csv_read usec file none).map (fun res => (res.rc, res.records))

/-- Seven leading integer columns for examples. -/
def sample_ints : List csv_int :=
  [csv_num "1", csv_num "2", csv_num "6", csv_num "3", csv_num "4", csv_num "0", csv_num "60"]

/-- The example line `1,2x`: the second integer is followed by `x`. -/
def bad_second : csv_bad_line := .leading [csv_num "1"] (csv_num "2") ['x']

/-- The example line `1,2,6,3,4,0,60,a,b,c,7:5`. -/
def bad_seconds : csv_bad_line :=
  .seconds sample_ints ['a'] ['b'] ['c'] (csv_num "7") [':', '5']

/-- The example line `1,2,6,3,4,0,60,a,b,c,7.5;`. -/
def bad_fraction : csv_bad_line :=
  .fraction sample_ints ['a'] ['b'] ['c'] (csv_num "7") ['5'] [';']

/-- The example line `1,2,6,3,4,0,60,a,b,c,7.5e3`: the fraction is followed
by an exponent. -/
def exponent_line : List Char := "1,2,6,3,4,0,60,a,b,c,7.5e3\n".toList

/-- The example line whose eighth column is 2040 letters long and whose
seconds are followed by `:`. -/
def long_bad_seconds : csv_bad_line :=
  .seconds sample_ints (List.replicate 2040 'a') ['b'] ['c'] (csv_num "7") [':', '5']

/-- The example line whose eighth column is a single NUL byte and whose
seconds are followed by `:`. -/
def nul_bad_seconds : csv_bad_line :=
  .seconds sample_ints ['\x00'] ['b'] ['c'] (csv_num "7") [':', '5']

/-! ## The pcap reader (`p25.c`) -/

/-- The struct `pcap_pkthdr`: the timestamp (`tv_sec`, `tv_usec`), the number
of captured bytes and the length of the packet on the wire. -/
structure pcap_pkthdr where
  tv_sec : Int
  tv_usec : Int
  caplen : Nat
  len : Nat
  deriving DecidableEq, Repr, Inhabited

/-- The constant `ETHERTYPE_IP`. -/
def ETHERTYPE_IP : Nat := 0x0800

/-- The constant `ETHERTYPE_VLAN`. -/
def ETHERTYPE_VLAN : Nat := 0x8100

/-- The record that `handler` of `p25.c` builds from a frame, `none` when it
returns before building one.  `packet i` is the byte at `packet + i`; the
function reads it without consulting `pkthdr->caplen`.  The Ethernet header
takes `sizeof(struct ether_header)` = 14 bytes with the ethertype at 12, and
`ip_hl` is the low half of the first byte of the IP header. -/
def handler_record (le : Bool) (pkthdr : pcap_pkthdr) (packet : Nat → Nat) : Option fc_pkt_t :=
  if ntohs le (load16 le (packet 12) (packet 13)) ≠ ETHERTYPE_IP then none
  else
    let proto_hdr := 14 + (packet 14 % 16) * 4
    some { saddr := ntohl le (load32 le (packet 26) (packet 27) (packet 28) (packet 29)),
           daddr := ntohl le (load32 le (packet 30) (packet 31) (packet 32) (packet 33)),
           proto := packet 23,
           sport := ntohs le (load16 le (packet proto_hdr) (packet (proto_hdr + 1))),
           dport := ntohs le (load16 le (packet (proto_hdr + 2)) (packet (proto_hdr + 3))),
           len := ntohs le (load16 le (packet 16) (packet 17)),
           ts := { ts_sec := toI32 pkthdr.tv_sec, ts_usec := toU32 pkthdr.tv_usec },
           flags := 0 }

/-- The function `handler` of `p25.c`: the record is stored in the extended
chain and counted when there is no filter or the filter accepts it
(allocation always succeeds). -/
def handler (le : Bool) (filter : Option fc_filter_t) (pkthdr : pcap_pkthdr)
    (packet : Nat → Nat) (chain : pkt_chain_t) : pkt_chain_t :=
  match handler_record le pkthdr packet with
  | none => chain
  | some info =>
    let keep := match filter with
      | none => true
      | some f => fc_filter_pkt info f != 0
    chain_store (fc_extend_chain chain) info keep

/-- The function `fc_pcap_read` on the packets that `pcap_loop` delivers, in
file order; `none` stands for a file that `pcap_fopen_offline` rejects. -/
def fc_pcap_read (le : Bool) (file : Option (List (pcap_pkthdr × (Nat → Nat))))
    (filter : Option fc_filter_t) : Int × pkt_chain_t :=
  match file with
  | none => (-1, { linked := [], curr := none })
  | some packets =>
    (0, packets.foldl (fun chain p => handler le filter p.1 p.2 chain)
          { linked := [], curr := none })

/-- The memory at `packet`: the captured bytes, followed by zero bytes. -/
def frame_of (bytes : List Nat) : Nat → Nat := fun i => bytes.getD i 0

/-- An Ethernet frame for examples: ethertype, then an IPv4 header of 20
bytes from 10.1.2.3 to 10.0.0.1 with the given fragment-offset bytes and
protocol, then the payload. -/
def sample_frame (ethertype0 ethertype1 off0 off1 proto : Nat) (payload : List Nat) :
    List Nat :=
  [2, 0, 0, 0, 0, 1, 2, 0, 0, 0, 0, 2, ethertype0, ethertype1,
   0x45, 0, 0, 40, 0, 7, off0, off1, 64, proto, 0, 0, 10, 1, 2, 3, 10, 0, 0, 1] ++ payload

/-- A capture header for examples. -/
def sample_hdr (caplen : Nat) : pcap_pkthdr :=
  { tv_sec := 1700000000, tv_usec := 250000, caplen := caplen, len := 54 }

/-- Modelled from the spec: the ports the specification assigns to a frame
from the protocol and the first four bytes after the IP header: the two
big-endian words for TCP (6), UDP (17) and SCTP (132), type and code for
ICMP (1), zeros otherwise. -/
def spec_ports (proto b0 b1 b2 b3 : Nat) : Nat × Nat :=
  if proto = 6 ∨ proto = 17 ∨ proto = 132 then (b0 * 256 + b1, b2 * 256 + b3)
  else if proto = 1 then (b0, b1)
  else (0, 0)

/-- Modelled from the spec: the validity conditions the specification states
for a frame, with the Ethernet link offset 14: IPv4 ethertype, a capture of at
least `14 + 20` and `14 + 4 * ip_hl + 4` bytes, and fragment offset 0. -/
def spec_valid (pkthdr : pcap_pkthdr) (packet : Nat → Nat) : Prop :=
  packet 12 * 256 + packet 13 = ETHERTYPE_IP ∧ pkthdr.caplen ≥ 14 + 20 ∧
  pkthdr.caplen ≥ 14 + 4 * (packet 14 % 16) + 4 ∧
  (packet 20 * 256 + packet 21) % 8192 = 0

instance (pkthdr : pcap_pkthdr) (packet : Nat → Nat) : Decidable (spec_valid pkthdr packet) := by
  unfold spec_valid; infer_instance

/-- An ICMP echo request (type 8, code 0, checksum `0xf7ff`). -/
def icmp_frame : List Nat := sample_frame 8 0 0 0 1 [8, 0, 0xf7, 0xff, 0, 0, 0, 0]

/-- A GRE packet (protocol 47). -/
def gre_frame : List Nat := sample_frame 8 0 0 0 47 [0x20, 0, 0x88, 0xbe, 0, 0, 0, 0]

/-- A TCP segment from port 49152 to port 443. -/
def tcp_frame : List Nat :=
  sample_frame 8 0 0x40 0 6 [0xC0, 0, 1, 0xBB, 0, 0, 0, 1, 0, 0, 0, 0, 0x50, 2, 0xff, 0xff,
    0, 0, 0, 0]

/-- A UDP fragment with fragment offset 185. -/
def fragment_frame : List Nat := sample_frame 8 0 0 185 17 [1, 2, 3, 4, 5, 6, 7, 8]

/-- A capture of the 14 bytes of the Ethernet header only. -/
def short_frame : List Nat := [2, 0, 0, 0, 0, 1, 2, 0, 0, 0, 0, 2, 8, 0]

/-! ## Link headers (`cpcap2csv.c`) -/

/-- The constant `DLT_EN10MB`. -/
def DLT_EN10MB : Nat := 1

/-- The constant `DLT_RAW`. -/
def DLT_RAW : Nat := 12

/-- The constant `DLT_LINUX_SLL`. -/
def DLT_LINUX_SLL : Nat := 113

/-- The loop `for (uint16_t i = 0; i < 4; i++)` of `dlt_offset` with `n`
iterations left: the ethertype of the header at `packet + i * 4` is read at
offset 12. -/
def dlt_offset_loop (le : Bool) (packet : Nat → Nat) : Nat → Nat → Int
  | 0, _ => -1
  | n + 1, i =>
    if ntohs le (load16 le (packet (i * 4 + 12)) (packet (i * 4 + 13))) = ETHERTYPE_IP then
      14 + (i : Int) * 4
    else if ntohs le (load16 le (packet (i * 4 + 12)) (packet (i * 4 + 13))) ≠ ETHERTYPE_VLAN
      then -1
    else dlt_offset_loop le packet n (i + 1)

/-- The function `dlt_offset` for the link type that `pcap_datalink` reports. -/
def dlt_offset (le : Bool) (linktype : Nat) (packet : Nat → Nat) : Int :=
  if linktype = DLT_RAW then 0
  else if linktype = DLT_EN10MB then dlt_offset_loop le packet 4 0
  else if linktype = DLT_LINUX_SLL then 16
  else -1

/-- The big-endian 16-bit word at offset `off` of the frame. -/
def word_at (packet : Nat → Nat) (off : Nat) : Nat := packet off * 256 + packet (off + 1)

/-- An Ethernet frame with `k` stacked VLAN tags: the VLAN ethertype at
offsets 12, 16, ..., `12 + 4 * (k - 1)`. -/
def vlan_tags (k : Nat) (packet : Nat → Nat) : Prop :=
  ∀ j < k, word_at packet (12 + 4 * j) = ETHERTYPE_VLAN

/-- An Ethernet frame with four VLAN tags followed by the IPv4 ethertype. -/
def four_tags_frame : List Nat :=
  [2, 0, 0, 0, 0, 1, 2, 0, 0, 0, 0, 2, 0x81, 0, 0, 1, 0x81, 0, 0, 2, 0x81, 0, 0, 3,
   0x81, 0, 0, 4, 8, 0, 0x45, 0, 0, 40]

/-- The record of `tcp_frame` under `sample_hdr`. -/
def tcp_record : fc_pkt_t :=
  { saddr := 167838211, daddr := 167772161, sport := 49152, dport := 443, proto := 6,
    flags := 0, len := 40, ts := { ts_sec := 1700000000, ts_usec := 250000 } }

/-! ## Reader selection (`input.c`) -/

/-- The enum `fc_input_type_t`, in the order of its declaration
(`FC_INPUT_ERROR` is 0). -/
inductive fc_input_type_t where
  | FC_INPUT_ERROR
  | FC_INPUT_PCAP
  | FC_INPUT_PCAP_GZ
  | FC_INPUT_CSV
  | FC_INPUT_CSV_GZ
  | FC_INPUT_FC5
  | FC_INPUT_FC5_GZ
  | FC_INPUT_PCAP_LZ4
  | FC_INPUT_CSV_LZ4
  | FC_INPUT_FC5_LZ4
  deriving DecidableEq, Repr, Inhabited

open fc_input_type_t

/-- The table `suffixes` of `find_input_type`, without its NULL sentinel. -/
def suffixes : List (List Char × fc_input_type_t) :=
  [(".pcap".toList, FC_INPUT_PCAP),
   (".pcap.gz".toList, FC_INPUT_PCAP_GZ),
   (".pcap.lz4".toList, FC_INPUT_PCAP_LZ4),
   (".csv".toList, FC_INPUT_CSV),
   (".csv.gz".toList, FC_INPUT_CSV_GZ),
   (".csv.lz4".toList, FC_INPUT_CSV_LZ4),
   (".fc5".toList, FC_INPUT_FC5),
   (".fc5.gz".toList, FC_INPUT_FC5_GZ),
   (".fc5.lz4".toList, FC_INPUT_FC5_LZ4)]

/-- The loop of `find_input_type` over the rest of the table: the code of the
first entry with `fname_len >= suffix_len` and
`!strcmp(suffix, fname + fname_len - suffix_len)`. -/
def find_input_type_loop (fname : List Char) : List (List Char × fc_input_type_t) →
    fc_input_type_t
  | [] => FC_INPUT_ERROR
  | (suffix, code) :: rest =>
    if fname.length ≥ suffix.length ∧ suffix = fname.drop (fname.length - suffix.length) then
      code
    else find_input_type_loop fname rest

/-- The function `find_input_type`. -/
def find_input_type (fname : List Char) : fc_input_type_t :=
  find_input_type_loop fname suffixes

/-- The reader a call dispatches to. -/
inductive fc_reader where
  | pcap
  | csv
  | fc5
  deriving DecidableEq, Repr

/-- What a call of `fc_read_file` or `fc_read_stdin` does: its return code,
the reader it ran (`none` when no input was read) and the lines it wrote to
`stderr`. -/
structure fc_read_outcome where
  rc : Int
  reader : Option fc_reader
  stderr : List String
  deriving DecidableEq, Repr

/-- The `switch (fin_type)` of `fc_read_file` and `fc_read_stdin`: the reader
of the input type, `none` in the `default` branch. -/
def reader_of : fc_input_type_t → Option fc_reader
  | FC_INPUT_PCAP => some .pcap
  | FC_INPUT_PCAP_GZ => some .pcap
  | FC_INPUT_PCAP_LZ4 => some .pcap
  | FC_INPUT_CSV => some .csv
  | FC_INPUT_CSV_GZ => some .csv
  | FC_INPUT_CSV_LZ4 => some .csv
  | FC_INPUT_FC5 => some .fc5
  | FC_INPUT_FC5_GZ => some .fc5
  | FC_INPUT_FC5_LZ4 => some .fc5
  | FC_INPUT_ERROR => none

/-- The value of the enum constant, as `%d` prints it. -/
def fc_input_type_t.code : fc_input_type_t → Nat
  | FC_INPUT_ERROR => 0
  | FC_INPUT_PCAP => 1
  | FC_INPUT_PCAP_GZ => 2
  | FC_INPUT_CSV => 3
  | FC_INPUT_CSV_GZ => 4
  | FC_INPUT_FC5 => 5
  | FC_INPUT_FC5_GZ => 6
  | FC_INPUT_PCAP_LZ4 => 7
  | FC_INPUT_CSV_LZ4 => 8
  | FC_INPUT_FC5_LZ4 => 9

/-- The function `fc_input_open`: return code and `stderr` lines; `opens`
tells whether `fopen` or `popen` succeeds. -/
def fc_input_open (fname : List Char) (type : fc_input_type_t) (opens : Bool) :
    Int × List String :=
  match reader_of type with
  | none => (-1, ["ERROR: unknown input type [" ++ String.mk fname ++ "]\n"])
  | some _ =>
    if opens then (0, []) else (-3, ["ERROR: could not open [" ++ String.mk fname ++ "]\n"])

/-- The function `fc_read_file`; `opens` tells whether the file can be opened
and `read_rc` is the return code of the reader that runs.  The return code of
`fc_input_open` is overwritten, and `fc_input_close` returns 0 for every known
type. -/
def fc_read_file (opens : Bool) (read_rc : Int) (fname : List Char) : fc_read_outcome :=
  let fin_type := find_input_type fname
  let opened := fc_input_open fname fin_type opens
  match reader_of fin_type with
  | none =>
    { rc := -1, reader := none,
      stderr := opened.2 ++
        ["ERROR: unknown input type [type=" ++ toString fin_type.code ++ "]\n"] }
  | some r =>
    { rc := if read_rc ≠ 0 then -1 else 0, reader := some r, stderr := opened.2 }

/-- The function `fc_read_stdin`; `type = none` is the NULL pointer, the fake
file name is `.` followed by the type, and `read_rc` is the return code of
the reader that runs.  (The NUL that `sprintf` adds after the `%c` of the
format lands one byte past the `2 + strlen(type)` bytes allocated; the model
does not track it.) -/
def fc_read_stdin (type : Option (List Char)) (read_rc : Int) : fc_read_outcome :=
  let type := type.getD "csv".toList
  let fin_type := find_input_type ('.' :: type)
  if fin_type = FC_INPUT_ERROR then
    { rc := -1, reader := none,
      stderr := ["ERROR: unknown stdin format [" ++ String.mk type ++ "]\n"] }
  else if fin_type ≠ FC_INPUT_PCAP ∧ fin_type ≠ FC_INPUT_CSV ∧ fin_type ≠ FC_INPUT_FC5 then
    { rc := -1, reader := none,
      stderr := ["ERROR: unsupported stdin format [" ++ String.mk type ++ "]\n"] }
  else
    match reader_of fin_type with
    | none =>
      { rc := -1, reader := none,
        stderr := ["ERROR: unknown input type [type=" ++ toString fin_type.code ++ "]\n"] }
    | some r => { rc := if read_rc ≠ 0 then -1 else 0, reader := some r, stderr := [] }

/-- A filter text with seventeen fields. -/
def seventeen_fields : List Char :=
  "P=6/P=6/P=6/P=6/P=6/P=6/P=6/P=6/P=6/P=6/P=6/P=6/P=6/P=6/P=6/P=6/P=6".toList

/-! ## Output text (`process.c`) and the evaluation in `main` (`firecracker.c`) -/

/-- Conversion of an integer to `long` (64-bit two's complement). -/
def toI64 (x : Int) : Int :=
  (x + 9223372036854775808) % 18446744073709551616 - 9223372036854775808

/-- The text of the `printf` conversions `%u` and `%lu`. -/
def fmt_u (n : Nat) : String := toString n

/-- The text of the `printf` conversions `%d` and `%ld`. -/
def fmt_d (i : Int) : String := toString i

/-- The text of `"%u.%u.%u.%u"` applied to `0xff & (val >> 24)`,
`0xff & (val >> 16)`, `0xff & (val >> 8)` and `0xff & val`. -/
def fmt_quad (val : Nat) : String :=
  fmt_u (255 &&& (val >>> 24)) ++ "." ++ fmt_u (255 &&& (val >>> 16)) ++ "." ++
    fmt_u (255 &&& (val >>> 8)) ++ "." ++ fmt_u (255 &&& val)

/-- One round of the loop of `print_count` over the query fields: the text
written for the field. -/
def print_count_field (pkt : fc_pkt_t) (f : fc_query_field_t) : String :=
  let val := width_mask f.width &&& fetch_field pkt f.name
  if f.name = FC_FIELD_NAME_SADDR ∨ f.name = FC_FIELD_NAME_DADDR then
    if f.width > 0 ∧ f.width ≠ 32 then
      "," ++ String.singleton (name_char f.name) ++ fmt_u f.width ++ "," ++ fmt_quad val ++
        "/" ++ fmt_u f.width
    else "," ++ String.singleton (name_char f.name) ++ "," ++ fmt_quad val
  else
    if f.width > 0 ∧ f.width ≠ 32 then
      "," ++ String.singleton (name_char f.name) ++ fmt_u f.width ++ "," ++ fmt_u val
    else "," ++ String.singleton (name_char f.name) ++ "," ++ fmt_u val

/-- The function `print_count`: the line written to `fout`.  The parameter
`fmt_g` stands for the text that `%g` prints for the quotient of the two
counts as doubles; `start_time` is the `uint32_t` parameter printed with
`%d`. -/
def print_count (fmt_g : Nat → Nat → String) (count : Nat) (pkt : fc_pkt_t)
    (query : fc_query_t) (start_time : Nat) (normalized : Bool) (total_count : Nat) : String :=
  (if normalized then
      "N," ++ fmt_g count total_count ++ ",start_time," ++ fmt_d (toI32 start_time)
    else "C," ++ fmt_d (toI64 count) ++ ",start_time," ++ fmt_d (toI32 start_time)) ++
  String.join (query.fields.map (print_count_field pkt)) ++
  (if query.show_query then "," ++ query.query_str else "") ++ "\n"

/-- The text of an output line of `fc_compute_counts_subset` for the query.
The `C` line does not read `total_count`; the `T` line is
`"T,%ld,start_time,%d,%s\n"`. -/
def fc_line.text (fmt_g : Nat → Nat → String) (query : fc_query_t) : fc_line → String
  | .count c start_time pkt => print_count fmt_g c pkt query start_time false 0
  | .norm c total start_time pkt => print_count fmt_g c pkt query start_time true total
  | .term total start_time query_str =>
    "T," ++ fmt_d (toI64 total) ++ ",start_time," ++ fmt_d (toI32 start_time) ++ "," ++
      query_str ++ "\n"

/-- The loop `for (i = 0; i < chunk.count; i++)` of the alignment step of
`main`, with the `uint32_t` index `i`: the aligned chunk starts at the first
record whose `ts_sec % alignment` is 0 (the remainder of C), and it is empty
when the loop ends without one.  The first argument bounds the number of
iterations; the result is `none` when the bound is exhausted. -/
def align_loop (alignment : Int) (chunk : fc_chunk_t) : Nat → Nat → Option fc_chunk_t
  | 0, _ => none
  | fuel + 1, i =>
    if i < chunk.count then
      if (chunk.at i).ts.ts_sec.tmod alignment = 0 then some { pkts := chunk.pkts.drop i }
      else align_loop alignment chunk fuel ((i + 1) % 4294967296)
    else some { pkts := [] }

/-- The number of iterations granted to the alignment loop: its state is the
index `i`, which ranges over `2 ^ 32` values, so a loop that has not exited
after `2 ^ 32 + 1` iterations never exits. -/
def align_fuel : Nat := 4294967297

/-- The alignment step of `main`: `aligned_chunk` for the `int` option
`alignment`; `none` when the loop does not terminate. -/
def main_align (alignment : Int) (chunk : fc_chunk_t) : Option fc_chunk_t :=
  if alignment > 0 then align_loop alignment chunk align_fuel 0 else some chunk

/-- The loop of `main` over the queries for a chunk that is not empty: the
lines that the calls of `fc_compute_counts` write, `none` when one of them
does not terminate. -/
def main_queries (fmt_g : Nat → Nat → String) (chunk : fc_chunk_t)
    (timespan : fc_timespan_t) (normalized : Bool) : List fc_query_t → Option (List String)
  | [] => some []
  | q :: rest =>
    match fc_compute_counts chunk q (some timespan) normalized with
    | none => none
    | some lines =>
      (main_queries fmt_g chunk timespan normalized rest).map
        (fun out => lines.map (fc_line.text fmt_g q) ++ out)

/-- The output step of `main`: the lines written to `fout` for the aligned
chunk.  The timespan starts at the second of the first record and has the
length of the `int` option `interval`. -/
def main_output (fmt_g : Nat → Nat → String) (queries : List fc_query_t) (interval : Int)
    (normalized : Bool) (aligned_chunk : fc_chunk_t) : Option (List String) :=
  if aligned_chunk.count = 0 then
    some (queries.map (fun q => "T,0,start_time,0," ++ q.query_str ++ "\n"))
  else
    main_queries fmt_g aligned_chunk
      { base_sec := toU64 (aligned_chunk.at 0).ts.ts_sec, length_sec := toU32 interval }
      normalized queries

/-- The part of `main` after the merge: alignment and output. -/
def main_evaluate (fmt_g : Nat → Nat → String) (alignment : Int) (queries : List fc_query_t)
    (interval : Int) (normalized : Bool) (chunk : fc_chunk_t) : Option (List String) :=
  (main_align alignment chunk).bind (main_output fmt_g queries interval normalized)

/-- A chunk of `2 ^ 32` records, all with second 1. -/
def huge_chunk : fc_chunk_t := { pkts := List.replicate 4294967296 (mk_ts 1 0) }

/-- The queries `S24P` and `P` with their texts, for examples. -/
def sample_queries : List fc_query_t :=
  [{ query_S24P with query_str := "S24P", show_query := true },
   { query_P show_all with query_str := "P", show_query := true }]

/-- Modelled from the spec: the dotted quad `a.b.c.d` of a 32-bit address. -/
def spec_quad (v : Nat) : String :=
  toString (v / 16777216 % 256) ++ "." ++ toString (v / 65536 % 256) ++ "." ++
    toString (v / 256 % 256) ++ "." ++ toString (v % 256)

/-- Modelled from the spec: the value with its low `32 - w` bits cleared. -/
def clear_low (w v : Nat) : Nat := v / 2 ^ (32 - w) * 2 ^ (32 - w)

/-- Modelled from the spec: the text of a count-line field of width
`1 <= w <= 32`: `,<letter><w>,<value>` below 32 and `,<letter>,<value>` at
32, the value as a dotted quad for S and D (followed by `/<w>` below 32) and
in decimal otherwise. -/
def spec_field_text (pkt : fc_pkt_t) (f : fc_query_field_t) : String :=
  "," ++ String.singleton (name_char f.name) ++
    (if f.width = 32 then "" else toString f.width) ++ "," ++
    (if f.name = FC_FIELD_NAME_SADDR ∨ f.name = FC_FIELD_NAME_DADDR then
      spec_quad (clear_low f.width (fetch_field pkt f.name)) ++
        (if f.width = 32 then "" else "/" ++ toString f.width)
     else toString (clear_low f.width (fetch_field pkt f.name)))

/-! ## Append steps of the readers -/

/-- The append steps that the readers share (`fc_csv_read`, `fc_fc5_read`,
`handler`): for every record in turn, `fc_extend_chain` (succeeding), the
record written at `pkts[cnt]` of the tail chunk, and `cnt` incremented when
the flag is set. -/
def append_steps (steps : List (fc_pkt_t × Bool)) (chain : pkt_chain_t) : pkt_chain_t :=
  steps.foldl (fun c s => chain_store (fc_extend_chain c) s.1 s.2) chain

/-! ## Command line (`firecracker.c`) -/

/-- One option as `getopt` delivers it for the option string
`"A:hF:I:m:no:s:t:T"`: the letter with its argument; `bad` is any other
result. -/
inductive fc_opt where
  | A (optarg : List Char)
  | h
  | F (optarg : List Char)
  | I (optarg : List Char)
  | m (optarg : List Char)
  | n
  | o (optarg : List Char)
  | s (optarg : List Char)
  | t (optarg : List Char)
  | T
  | bad
  deriving DecidableEq, Repr

/-- The struct `firecracker_args_t` (without the unused `tag`); `show_max`,
`interval` and `alignment` are `int` members, and `filter_str` and
`query_strs` are the locals of `parse_args` that the option loop fills. -/
structure firecracker_args_t where
  input_fnames : List (List Char)
  show_max : Int
  queries : List fc_query_t
  filter : fc_filter_t
  interval : Int
  output_fname : Option (List Char)
  show_query : Bool
  alignment : Int
  stdin_type : List Char
  normalized : Bool
  filter_str : Option (List Char)
  query_strs : List (List Char)
  deriving DecidableEq, Repr

/-- The constant `MAX_QUERIES`. -/
def MAX_QUERIES : Nat := 25

/-- How `parse_args` ends: it returns 0 with the arguments filled in, it
returns -1, it prints the usage and calls `exit(0)`, or it stores a query
string past the end of the array `query_strs` (undefined in C). -/
inductive parse_outcome where
  | parsed (args : firecracker_args_t)
  | failed
  | usage_exit
  | overrun
  deriving DecidableEq, Repr

/-- The values `parse_args` stores before the option loop. -/
def initial_args : firecracker_args_t :=
  { input_fnames := [], show_max := -1, queries := [], filter := { fields := [] },
    interval := 900, output_fname := none, show_query := false, alignment := 0,
    stdin_type := "csv".toList, normalized := false, filter_str := none, query_strs := [] }

/-- The loop `while ((opt = getopt(...)) != -1)` of `parse_args`; the result
is the state after the loop, or the way the function ends inside it.  The
values of `strtol` and `atol` are converted to `int`; `query_strs` is
written without a test against `MAX_QUERIES`, so the option `-t` given more
than `MAX_QUERIES` times writes past its end. -/
def parse_opts : List fc_opt → firecracker_args_t → firecracker_args_t ⊕ parse_outcome
  | [], args => .inl args
  | .A optarg :: rest, args =>
    if toI32 (strtol optarg).1 < 0 then .inr .failed
    else parse_opts rest { args with alignment := toI32 (strtol optarg).1 }
  | .h :: _, _ => .inr .usage_exit
  | .F optarg :: rest, args => parse_opts rest { args with filter_str := some optarg }
  | .I optarg :: rest, args =>
    if toI32 (strtol optarg).1 < 1 then .inr .failed
    else parse_opts rest { args with interval := toI32 (strtol optarg).1 }
  | .m optarg :: rest, args =>
    if toI32 (strtol optarg).1 < 0 then .inr .failed
    else parse_opts rest { args with show_max := toI32 (strtol optarg).1 }
  | .n :: rest, args => parse_opts rest { args with normalized := true }
  | .o optarg :: rest, args => parse_opts rest { args with output_fname := some optarg }
  | .s optarg :: rest, args => parse_opts rest { args with stdin_type := optarg }
  | .t optarg :: rest, args =>
    if args.query_strs.length ≥ MAX_QUERIES then .inr .overrun
    else parse_opts rest { args with query_strs := args.query_strs ++ [optarg] }
  | .T :: rest, args => parse_opts rest { args with show_query := true }
  | .bad :: _, _ => .inr .failed

/-- The loop of `parse_args` over the query strings: `fc_str2query` on each,
then `show_max` (the `int` converted to `uint64_t`), `query_str` and
`show_query` are stored in the query.  The inner `none` is the return of -1
for a bad query, the outer `none` comes from `fc_str2query`. -/
def parse_queries (show_max : Int) (show_query : Bool) :
    List (List Char) → Option (Option (List fc_query_t))
  | [] => some (some [])
  | str :: rest =>
    match fc_str2query str default with
    | none => none
    | some (rc, q) =>
      if rc ≠ 0 then some none
      else
        (parse_queries show_max show_query rest).map (fun r => r.map (fun qs =>
          { q with show_max := toU64 show_max, query_str := String.mk str,
                   show_query := show_query } :: qs))

/-- The function `parse_args` on the options that `getopt` delivers and the
remaining arguments `argv + optind`. -/
def parse_args (opts : List fc_opt) (files : List (List Char)) : Option parse_outcome :=
  match parse_opts opts initial_args with
  | .inr ended => some ended
  | .inl args =>
    let query_strs := if args.query_strs = [] then ["PA".toList] else args.query_strs
    let show_query := if query_strs.length > 1 then true else args.show_query
    match parse_queries args.show_max show_query query_strs with
    | none => none
    | some none => some .failed
    | some (some queries) =>
      match args.filter_str with
      | none =>
        some (.parsed { args with query_strs := query_strs, show_query := show_query,
                                  queries := queries, input_fnames := files })
      | some filter_str =>
        match fc_str2filter filter_str with
        | none => none
        | some (rc, filter) =>
          if rc ≠ 0 then some .failed
          else
            some (.parsed { args with query_strs := query_strs, show_query := show_query,
                                      queries := queries, filter := filter,
                                      input_fnames := files })

/-- The option `-m` does not occur among the options. -/
def no_show_max (opts : List fc_opt) : Prop := ∀ o ∈ opts, ∀ optarg, o ≠ .m optarg

instance (opts : List fc_opt) : Decidable (no_show_max opts) :=
  decidable_of_iff (∀ o ∈ opts, (match o with | .m _ => false | _ => true) = true) (by
    unfold no_show_max
    constructor
    · intro h o ho optarg he
      have := h o ho
      rw [he] at this
      cases this
    · intro h o ho
      cases o <;> first | rfl | exact absurd rfl (h _ ho _))

/-- The arguments of the option `-t`, in order. -/
def query_options : List fc_opt → List (List Char)
  | [] => []
  | .t optarg :: rest => optarg :: query_options rest
  | _ :: rest => query_options rest

/-- The arguments that `parse_args` fills in for the command line
`-t P -n a.csv`. -/
def sample_args : firecracker_args_t :=
  { initial_args with
    input_fnames := ["a.csv".toList], normalized := true, query_strs := ["P".toList],
    queries := [{ query_str := "P", fields := [{ name := FC_FIELD_NAME_PROTO, width := 0 }],
                  show_max := 18446744073709551615, show_query := false }] }

/-! ## Records read by the evaluation (`process.c`) -/

/-- The runs of index entries that the grouping loop of
`fc_compute_counts_subset` forms for the window `[base, base + count)`: one
run per entry of the `counts` array. -/
def window_runs (chunk : fc_chunk_t) (base count : Nat) (query : fc_query_t) :
    List (List Nat) :=
  group_runs chunk query (fc_create_index chunk base count query).length
    (fc_create_index chunk base count query)

/-- The compiled query `S24`: the source address masked to 24 bits. -/
def query_S24 : fc_query_t :=
  { query_str := "S24", fields := [{ name := FC_FIELD_NAME_SADDR, width := 24 }],
    show_max := show_all, show_query := false }

/-- Four records of one window with the sources 1.1.2.1, 1.1.1.7, 1.1.2.9 and
1.1.1.3, in this order. -/
def mixed_window : fc_chunk_t :=
  { pkts := [mk_pkt 16843265 6 0, mk_pkt 16843015 6 1, mk_pkt 16843273 17 2,
             mk_pkt 16843011 6 3] }

/-! ## The row filter (`C/filter-ip.c`) -/

/-- The constant `MIN_ALLOWED_PREFIX_LEN`. -/
def MIN_ALLOWED_PREFIX_LEN : Nat := 14

/-- The constant `SUBNET_BUFSIZE`. -/
def SUBNET_BUFSIZE : Nat := 128

/-- The constant `FILTER_BUFSIZE`. -/
def FILTER_BUFSIZE : Nat := 8192

/-- The `scanf` conversion `%lu`: white space is skipped and an optionally
signed run of digits is converted to an `unsigned long`; `none` when there is
no digit.  The second component is the unread input. -/
def scan_lu (s : List Char) : Option (Nat × List Char) :=
  let u := skip_sign (s.dropWhile isspace)
  let ds := u.2.takeWhile isdigit
  if ds = [] then none
  else some (ulong_value u.1 (digits_value ds), u.2.dropWhile isdigit)

/-- The call `sscanf(str, "%lu.%lu.%lu.%lu", &q[3], &q[2], &q[1], &q[0])` when
it returns 4: the four values and the unread input; `none` when the return
value is not 4. -/
def sscanf_lu_quad (s : List Char) : Option (Nat × Nat × Nat × Nat × List Char) :=
  (scan_lu s).bind fun r3 =>
  (scan_lit '.' r3.2).bind fun s2 =>
  (scan_lu s2).bind fun r2 =>
  (scan_lit '.' r2.2).bind fun s1 =>
  (scan_lu s1).bind fun r1 =>
  (scan_lit '.' r1.2).bind fun s0 =>
  (scan_lu s0).bind fun r0 =>
  some (r3.1, r2.1, r1.1, r0.1, r0.2)

/-- The value of a digit of `strtoul` in the given base, `none` for any other
character. -/
def digit_in_base (base : Nat) (c : Char) : Option Nat :=
  let v := if 48 ≤ c.toNat ∧ c.toNat ≤ 57 then c.toNat - 48
           else if 97 ≤ c.toNat ∧ c.toNat ≤ 122 then c.toNat - 87
           else if 65 ≤ c.toNat ∧ c.toNat ≤ 90 then c.toNat - 55
           else base
  if v < base then some v else none

/-- The number that the longest run of digits of the base at the start of the
text denotes, with the number of digits read. -/
def base_value (base : Nat) : List Char → Nat → Nat → Nat × Nat
  | [], acc, n => (acc, n)
  | c :: rest, acc, n =>
    match digit_in_base base c with
    | some v => base_value base rest (acc * base + v) (n + 1)
    | none => (acc, n)

/-- The libc routine `strtoul(s, NULL, base)` for the bases 10 and 16 on a
64-bit `unsigned long`: white space and an optional sign are skipped, with
base 16 also an optional `0x` or `0X`; the result is 0 when no digit
follows. -/
def strtoul (base : Nat) (s : List Char) : Nat :=
  let u := skip_sign (s.dropWhile isspace)
  let body := match u.2 with
    | c :: d :: rest => if base = 16 ∧ c = '0' ∧ (d = 'x' ∨ d = 'X') then rest else u.2
    | _ => u.2
  let r := base_value base body 0 0
  if r.2 = 0 then 0 else ulong_value u.1 r.1

/-- The message `"ERROR: bad subnet spec [%s]\n"`. -/
def bad_subnet_spec (subnet_name : List Char) : String :=
  "ERROR: bad subnet spec [" ++ String.mk subnet_name ++ "]\n"

/-- The part of `add_subnet` after the text is scanned: the test of the four
values, `base_addr`, and the loop that appends `base_addr + i` for
`i < subnet_size` (32-bit arithmetic).  The result is the return code, the
array and the text written to `stderr`. -/
def store_subnet (subnet_name : List Char) (seen : List Nat)
    (q3 q2 q1 q0 subnet_size subnet_mask : Nat) : Int × List Nat × List String :=
  if q3 > 255 ∨ q2 > 255 ∨ q1 > 255 ∨ q0 > 255 then
    (-1, seen, [bad_subnet_spec subnet_name])
  else
    (0,
     seen ++ (List.range subnet_size).map (fun i =>
       ((((q3 <<< 24 ||| q2 <<< 16 ||| q1 <<< 8 ||| q0) % 4294967296) &&& subnet_mask) + i) %
         4294967296),
     [])

/-- The function `add_subnet` on the array `seen` (its growth with `realloc`
always succeeds): the return code, the array and the text written to
`stderr`. -/
def add_subnet (subnet_name : List Char) (seen : List Nat) : Int × List Nat × List String :=
  if strchr '/' subnet_name ≠ none then
    match sscanf_lu_quad subnet_name with
    | none => (-1, seen, [bad_subnet_spec subnet_name])
    | some (q3, q2, q1, q0, rest) =>
      match (scan_lit '/' rest).bind scan_lu with
      | none => (-1, seen, [bad_subnet_spec subnet_name])
      | some (prefix_len, _) =>
        if prefix_len > 32 then (-1, seen, [bad_subnet_spec subnet_name])
        else if prefix_len < MIN_ALLOWED_PREFIX_LEN then
          (-1, seen, ["ERROR: prefix for [" ++ String.mk subnet_name ++ "] is too short [" ++
            fmt_u prefix_len ++ " < " ++ fmt_u MIN_ALLOWED_PREFIX_LEN ++ "]\n"])
        else
          store_subnet subnet_name seen q3 q2 q1 q0 (1 <<< (32 - prefix_len))
            (if prefix_len = 32 then 4294967295
             else 4294967295 ^^^ (4294967295 &&& (4294967295 >>> prefix_len)))
  else
    match sscanf_lu_quad subnet_name with
    | none => (-1, seen, [bad_subnet_spec subnet_name])
    | some (q3, q2, q1, q0, _) => store_subnet subnet_name seen q3 q2 q1 q0 1 4294967295

/-- The loop of `read_subnets` over the lines of the file; the first argument
bounds the number of iterations.  A line is cut at its newline (the only one,
as `fgets` stops there) and then at the first `#`; an empty rest is skipped. -/
def read_subnets_loop : Nat → List Char → List Nat → Option (Int × List Nat × List String)
  | 0, _, _ => none
  | fuel + 1, file, seen =>
    match fgets SUBNET_BUFSIZE file with
    | none => some (0, seen, [])
    | some (buf, rest) =>
      if '\n' ∉ buf then
        some (-2, seen, ["ERROR: line too long [" ++ String.mk buf ++ "...]\n"])
      else
        let line := (buf.takeWhile (fun c => c != '\n')).takeWhile (fun c => c != '#')
        if line.length = 0 then read_subnets_loop fuel rest seen
        else
          let r := add_subnet line seen
          if r.1 ≠ 0 then some (-1, r.2.1, r.2.2)
          else read_subnets_loop fuel rest r.2.1

/-- The function `read_subnets`; `file` is the text of the file `fname`, or
`none` when `fopen` fails. -/
def read_subnets (fname : List Char) (file : Option (List Char)) (seen : List Nat) :
    Option (Int × List Nat × List String) :=
  match file with
  | none => some (-1, seen, ["ERROR: count not open [" ++ String.mk fname ++ "]\n"])
  | some text => read_subnets_loop (text.length + 1) text seen

/-- The loop of `strnthchr`: `nth` times, move behind the next separator. -/
def strnthchr_loop (sep : Char) : Nat → List Char → Option (List Char)
  | 0, pos => some pos
  | n + 1, pos =>
    match strchr sep pos with
    | none => none
    | some p => strnthchr_loop sep n p.tail

/-- The function `strnthchr`: the text after the `nth` separator, NULL when
there are fewer separators or that text is empty; the loop does not run for
`nth <= 0`. -/
def strnthchr (str : List Char) (sep : Char) (nth : Int) : Option (List Char) :=
  match strnthchr_loop sep nth.toNat str with
  | none => none
  | some pos => if pos = [] then none else some pos

/-- The function `uint32_compare`. -/
def uint32_compare (val0 val1 : Nat) : Int :=
  if val0 < val1 then -1 else if val0 > val1 then 1 else 0

/-- The libc routine `bsearch` with `uint32_compare` on the sorted array:
whether the result is not NULL, that is whether the key occurs. -/
def bsearch (key : Nat) (base : List Nat) : Bool := base.contains key

/-- The variables of `main` that `parse_args` sets. -/
structure filter_ip_args where
  sep : Char
  nth : Int
  format : Char
  inverse : Bool
  fname : Option (List Char)
  subnet : Option (List Char)
  deriving DecidableEq, Repr

/-- The values the variables have when no option is given. -/
def filter_ip_defaults : filter_ip_args :=
  { sep := ',', nth := 0, format := 'd', inverse := false, fname := none, subnet := none }

/-- What a run of `main` leaves: the exit code, the rows written to `stdout`
and the text written to `stderr`. -/
structure filter_ip_result where
  rc : Int
  stdout : List (List Char)
  stderr : List String
  deriving DecidableEq, Repr

/-- The lookup at the end of the loop body of `main`: the row is written when
`inverse ^ unmatched` is not 0. -/
def lookup_row (args : filter_ip_args) (addresses : List Nat) (line : List Char)
    (addr : Nat) : Option Int × List (List Char) × List String :=
  if xor args.inverse (!(bsearch addr addresses)) then (none, [line], []) else (none, [], [])

/-- The two tests of `case 'q'` that end `main` with `bad address`: `sscanf`
does not return 4, or one of the four values is above 255. -/
def bad_address (field : List Char) : Bool :=
  match sscanf_lu_quad field with
  | none => true
  | some (q3, q2, q1, q0, _) => decide (q3 > 255 ∨ q2 > 255 ∨ q1 > 255 ∨ q0 > 255)

/-- The body of the loop of `main` for one line read by `fgets`: the return
code when `main` returns here, the rows written and the text written to
`stderr`.  The block of `case 'q'` does not end with `break`, so control goes
on into `default`. -/
def filter_ip_row (args : filter_ip_args) (addresses : List Nat) (lineno : Nat)
    (line : List Char) : Option Int × List (List Char) × List String :=
  if '\n' ∉ line then
    (none, [], ["WARNING: line " ++ fmt_u lineno ++ " too long [" ++ String.mk line ++ "]\n"])
  else
    match strnthchr line args.sep (args.nth - 1) with
    | none => (none, [], [])
    | some field =>
      if args.format = 'd' then
        lookup_row args addresses line (strtoul 10 field % 4294967296)
      else if args.format = 'x' then
        lookup_row args addresses line (strtoul 16 field % 4294967296)
      else if args.format = 'q' ∧ bad_address field = true then
        (some (-1), [], ["ERROR: bad address [" ++ String.mk field ++ "]\n"])
      else
        (some (-1), [], ["ERROR: unsupported format [" ++ String.mk [args.format] ++ "]\n"])

/-- The loop `while (NULL != fgets(line, FILTER_BUFSIZE, stdin))` of `main`
with the line number; the first argument bounds the number of iterations.
When the loop ends `main` returns 0. -/
def filter_ip_rows (args : filter_ip_args) (addresses : List Nat) :
    Nat → List Char → Nat → Option filter_ip_result
  | 0, _, _ => none
  | fuel + 1, stdin, lineno =>
    match fgets FILTER_BUFSIZE stdin with
    | none => some { rc := 0, stdout := [], stderr := [] }
    | some (line, rest) =>
      let r := filter_ip_row args addresses (lineno + 1) line
      match r.1 with
      | some rc => some { rc := rc, stdout := r.2.1, stderr := r.2.2 }
      | none =>
        (filter_ip_rows args addresses fuel rest (lineno + 1)).map (fun t =>
          { t with stdout := r.2.1 ++ t.stdout, stderr := r.2.2 ++ t.stderr })

/-- The array of addresses `main` builds: from the file when a file name is
given, otherwise from the subnet of `-s` when there is one.  `fopen` gives the
text of a file, `none` when it cannot be opened. -/
def filter_ip_addresses (args : filter_ip_args) (fopen : List Char → Option (List Char)) :
    Option (Int × List Nat × List String) :=
  match args.fname with
  | some fname => read_subnets fname (fopen fname) []
  | none =>
    match args.subnet with
    | some subnet => some (add_subnet subnet [])
    | none => some (0, [], [])

/-- The function `main` of `filter-ip` after `parse_args` has returned 0
(`malloc` succeeds). -/
def filter_ip_main (args : filter_ip_args) (fopen : List Char → Option (List Char))
    (stdin : List Char) : Option filter_ip_result :=
  (filter_ip_addresses args fopen).bind fun built =>
    if built.1 ≠ 0 then some { rc := -1, stdout := [], stderr := built.2.2 }
    else
      (filter_ip_rows args
          (if built.2.1.length > 0 then qsort uint32_compare built.2.1 else built.2.1)
          (stdin.length + 1) stdin 0).map
        (fun t => { t with stderr := built.2.2 ++ t.stderr })

/-- A file system with the one file `nets` holding the line `10.0.0.0/30`. -/
def sample_fopen (fname : List Char) : Option (List Char) :=
  if fname = "nets".toList then some "10.0.0.0/30\n".toList else none

/-- One record at second -5 (five seconds before the epoch). -/
def neg_window : fc_chunk_t := { pkts := [mk_ts (-5) 0] }

/-- The timespan `main` builds for `neg_window` with `-I 1073741824`: the
`uint64_t` member `base_sec` holds the sign-extended second `2 ^ 64 - 5`, the
length is `2 ^ 30`. -/
def neg_span : fc_timespan_t := { base_sec := 18446744073709551611, length_sec := 1073741824 }

/-! ## Theorems -/

/-! ### Masks and filter matching -/

theorem width_mask_eq_spec (w : Nat) (h1 : 1 ≤ w) (h2 : w ≤ 32) :
    width_mask w = spec_mask w := by
  interval_cases w <;> rfl

theorem and_full (x : Nat) (h : x < 4294967296) : x &&& 4294967295 = x := by
  have := Nat.and_pow_two_sub_one_eq_mod x 32
  norm_num at this
  rw [this]; omega

theorem fetch_field_lt (pkt : fc_pkt_t) (h : pkt.wf) (n : fc_field_name_t) :
    fetch_field pkt n < 4294967296 := by
  obtain ⟨h1, h2, h3, h4, h5, h6, h7, h8, h9, h10⟩ := h
  cases n <;> simp only [fetch_field, toU32] <;> omega

theorem apply_width_eq_spec (w x : Nat) (hw : w ≤ 32) (hx : x < 4294967296) :
    apply_width w x = x &&& spec_mask w := by
  unfold apply_width
  by_cases h : w > 0
  · rw [if_pos h, width_mask_eq_spec w h hw]
  · have h0 : w = 0 := by omega
    subst h0
    simp only [spec_mask, if_true, gt_iff_lt, lt_self_iff_false, if_false]
    exact (and_full x hx).symm

theorem filter_fields_eq_one (pkt : fc_pkt_t) (hp : pkt.wf) :
    ∀ fields : List fc_filter_field_t,
      (∀ f ∈ fields, f.width ≤ 32 ∧ f.value < 4294967296) →
      (filter_fields pkt fields = 1 ↔
        ∀ f ∈ fields,
          fetch_field pkt f.name &&& spec_mask f.width = f.value &&& spec_mask f.width)
  | [], _ => by simp [filter_fields]
  | f :: rest, h => by
    have hf := h f (List.mem_cons_self _ _)
    have ih := filter_fields_eq_one pkt hp rest (fun g hg => h g (List.mem_cons_of_mem _ hg))
    rw [filter_fields, apply_width_eq_spec _ _ hf.1 (fetch_field_lt pkt hp f.name),
      apply_width_eq_spec _ _ hf.1 hf.2]
    by_cases heq : fetch_field pkt f.name &&& spec_mask f.width = f.value &&& spec_mask f.width
    · simp [heq, ih]
    · simp [heq]

/-- C5 (filter matching): for a record and a filter whose members are in the
range of their C types and whose widths are at most 32, `fc_filter_pkt` returns
1 exactly when, for every filter field, the record value and the filter value
agree after both are ANDed with `mask(width)`; a filter without fields accepts
every record. -/
theorem fc_filter_pkt_matching (pkt : fc_pkt_t) (filter : fc_filter_t) (hp : pkt.wf)
    (hf : ∀ f ∈ filter.fields, f.width ≤ 32 ∧ f.value < 4294967296) :
    (fc_filter_pkt pkt filter = 1 ↔
      ∀ f ∈ filter.fields,
        fetch_field pkt f.name &&& spec_mask f.width = f.value &&& spec_mask f.width) ∧
    fc_filter_pkt pkt { fields := [] } = 1 :=
  ⟨filter_fields_eq_one pkt hp filter.fields hf, rfl⟩

/-- Witness for C5: the filter `S8=10.0.0.0` on a record from 10.1.2.3. -/
theorem fc_filter_pkt_matching_witness :
    (mk_pkt 167838211 6 0).wf ∧
    (∀ f ∈ ({ fields := [⟨FC_FIELD_NAME_SADDR, 8, 167772160⟩] } : fc_filter_t).fields,
        f.width ≤ 32 ∧ f.value < 4294967296) ∧
    ((fc_filter_pkt (mk_pkt 167838211 6 0)
        { fields := [⟨FC_FIELD_NAME_SADDR, 8, 167772160⟩] } = 1 ↔
      ∀ f ∈ ({ fields := [⟨FC_FIELD_NAME_SADDR, 8, 167772160⟩] } : fc_filter_t).fields,
        fetch_field (mk_pkt 167838211 6 0) f.name &&& spec_mask f.width =
          f.value &&& spec_mask f.width) ∧
      fc_filter_pkt (mk_pkt 167838211 6 0) { fields := [] } = 1) :=
  ⟨by decide, by decide,
   fc_filter_pkt_matching (mk_pkt 167838211 6 0)
      { fields := [⟨FC_FIELD_NAME_SADDR, 8, 167772160⟩] } (by decide) (by decide)⟩

/-! ### Merge -/

theorem length_contents (c : pkt_chunk_t) : c.contents.length = c.cnt := by
  simp [pkt_chunk_t.contents]

theorem length_flatMap_contents (l : List pkt_chunk_t) :
    (l.flatMap pkt_chunk_t.contents).length = (l.map pkt_chunk_t.cnt).sum := by
  induction l with
  | nil => rfl
  | cons c l ih => simp [length_contents, ih]

theorem length_copied (chains : List pkt_chain_t) :
    (chains.flatMap (fun c => c.chunks.flatMap pkt_chunk_t.contents)).length =
      ((chains.flatMap pkt_chain_t.chunks).map pkt_chunk_t.cnt).sum := by
  induction chains with
  | nil => rfl
  | cons c l ih =>
    rw [List.flatMap_cons, List.flatMap_cons, List.length_append, List.map_append,
      List.sum_append, ih, length_flatMap_contents]

theorem qsort_perm {α : Type} (cmp : α → α → Int) (l : List α) : (qsort cmp l).Perm l :=
  List.perm_insertionSort _ l

theorem length_qsort {α : Type} (cmp : α → α → Int) (l : List α) :
    (qsort cmp l).length = l.length :=
  List.length_insertionSort _ l

/-- C7 (merge totality): `fc_merge_chains` returns 0, the count of the
destination chunk is the sum of the `cnt` of every chunk of every chain, the
destination array is a permutation of the chunk contents concatenated in chain
order and then chunk order, and it is empty when that total is 0. -/
theorem fc_merge_chains_totality (chains : List pkt_chain_t) :
    (fc_merge_chains chains).1 = 0 ∧
    (fc_merge_chains chains).2.count =
      ((chains.flatMap pkt_chain_t.chunks).map pkt_chunk_t.cnt).sum ∧
    (fc_merge_chains chains).2.pkts.Perm
      (chains.flatMap (fun c => c.chunks.flatMap pkt_chunk_t.contents)) ∧
    (((chains.flatMap pkt_chain_t.chunks).map pkt_chunk_t.cnt).sum = 0 →
      (fc_merge_chains chains).2.pkts = []) := by
  rw [← length_copied]
  unfold fc_merge_chains
  by_cases h : (chains.flatMap (fun c => c.chunks.flatMap pkt_chunk_t.contents)).length = 0
  · simp only [h, if_true, fc_chunk_t.count]
    have h' := List.eq_nil_of_length_eq_zero h
    simp [h']
  · rw [if_neg h]
    refine ⟨rfl, ?_, qsort_perm _ _, fun h0 => absurd h0 h⟩
    simp only [fc_chunk_t.count, length_qsort]

/-- C6 (merge ordering): the claim fails on the code.  `compare_secs` returns a
difference converted to `int`: for the records `(0, 0)` and `(0, 3000000000)`
of one chain the `uint32_t` difference of the microseconds is 1294967296, a
positive `int`, so `fc_merge_chains` puts `(0, 3000000000)` first; for the
seconds 2000000000 and -2000000000 the `int` difference wraps to a negative
value and the later record stays first.  Neither output is non-decreasing in
`(ts_sec, ts_usec)`. -/
theorem fc_merge_chains_misorders :
    (fc_merge_chains [chain_of [mk_ts 0 0, mk_ts 0 3000000000]]).2.pkts =
      [mk_ts 0 3000000000, mk_ts 0 0] ∧
    ¬ (fc_merge_chains [chain_of [mk_ts 0 0, mk_ts 0 3000000000]]).2.pkts.Pairwise ts_le ∧
    (fc_merge_chains [chain_of [mk_ts 2000000000 0], chain_of [mk_ts (-2000000000) 0]]).2.pkts =
      [mk_ts 2000000000 0, mk_ts (-2000000000) 0] ∧
    ¬ (fc_merge_chains
        [chain_of [mk_ts 2000000000 0], chain_of [mk_ts (-2000000000) 0]]).2.pkts.Pairwise
          ts_le := by
  decide

/-! ### Grouping and windowing on concrete inputs -/

/-- C1 (grouping equivalence): the claim fails on the code.  With the query
`S24P` and the sources 1.1.1.1, 1.1.1.2, 1.1.1.3 with protocols 6, 17, 6, the
full-width sort leaves the protocol-17 record between the two protocol-6
records, so `fc_compute_counts_subset` forms three groups of one record and
prints three count lines, although the first and the third record have the same
masked key (1.1.1.0, 6). -/
theorem grouping_splits_equal_keys :
    group_runs split_window query_S24P 3 (fc_create_index split_window 0 3 query_S24P) =
      [[0], [1], [2]] ∧
    masked_key query_S24P (split_window.at 0) = masked_key query_S24P (split_window.at 2) ∧
    fc_compute_counts_subset split_window 0 3 query_S24P 0 false =
      [fc_line.count 1 0 (mk_pkt 16843009 6 0), fc_line.count 1 0 (mk_pkt 16843010 17 0),
       fc_line.count 1 0 (mk_pkt 16843011 6 0), fc_line.term 3 0 "S24P"] := by
  decide

/-- C2 (window membership): the claim fails on the code.  For records at
seconds 0, 20, 21 and window length 10 with base 0, `fc_compute_counts` counts
the record at second 20 (index 1) in the window emitted with start time 10,
and 20 is not below 10 + 10: after closing a window the inner loop tests
`curr_time > end_span`, not `>=`. -/
theorem window_keeps_end_second :
    fc_compute_counts_calls { pkts := [mk_pkt 0 6 0, mk_pkt 0 6 20, mk_pkt 0 6 21] }
        (some { base_sec := 0, length_sec := 10 }) =
      some [⟨0, 1, 0⟩, ⟨1, 1, 10⟩, ⟨2, 1, 20⟩] ∧
    (({ pkts := [mk_pkt 0 6 0, mk_pkt 0 6 20, mk_pkt 0 6 21] } : fc_chunk_t).at 1).ts.ts_sec =
      20 ∧
    ¬ ((20 : Int) < 10 + 10) := by
  decide

/-- C4 (empty-window emission): the claim fails on the code.  For records at
seconds 0 and 20 and window length 10 with base 0, no record lies in
`[10, 20)`, yet no terminator with total 0 is written for start time 10: the
record at second 20 is counted there and the terminator for 10 has total 1. -/
theorem empty_window_not_emitted :
    fc_compute_counts { pkts := [mk_pkt 0 6 0, mk_pkt 0 6 20] } (query_P show_all)
        (some { base_sec := 0, length_sec := 10 }) false =
      some [fc_line.count 1 0 (mk_pkt 0 6 0), fc_line.term 1 0 "P",
            fc_line.count 1 10 (mk_pkt 0 6 20), fc_line.term 1 10 "P"] ∧
    (∀ p ∈ [mk_pkt 0 6 0, mk_pkt 0 6 20], ¬ (10 ≤ p.ts.ts_sec ∧ p.ts.ts_sec < 20)) := by
  decide

/-! ### Window totals -/

theorem sum_length_group_runs (chunk : fc_chunk_t) (query : fc_query_t) :
    ∀ (fuel : Nat) (l : List Nat), l.length ≤ fuel →
      ((group_runs chunk query fuel l).map List.length).sum = l.length
  | 0, l, h => by
    have : l = [] := List.eq_nil_of_length_eq_zero (by omega)
    subst this; rfl
  | fuel + 1, [], _ => rfl
  | fuel + 1, head :: rest, h => by
    have hlen := congrArg List.length
      (List.takeWhile_append_dropWhile (fun t => comparator_group chunk query head t == 0) rest)
    rw [List.length_append] at hlen
    have ih := sum_length_group_runs chunk query fuel
      (rest.dropWhile (fun t => comparator_group chunk query head t == 0))
      (by simp only [List.length_cons] at h; omega)
    simp only [group_runs, List.map_cons, List.sum_cons, List.length_cons, ih]
    omega

theorem length_fc_create_index (chunk : fc_chunk_t) (base count : Nat) (query : fc_query_t) :
    (fc_create_index chunk base count query).length = count := by
  simp [fc_create_index, length_qsort]

theorem sum_group_counts (chunk : fc_chunk_t) (query : fc_query_t) (order : List Nat) :
    ((group_counts chunk query order).map fc_count_order_t.count).sum = order.length := by
  rw [← sum_length_group_runs chunk query order.length order (le_refl _)]
  simp [group_counts, Function.comp_def]

theorem terminators_append (l1 l2 : List fc_line) :
    terminators (l1 ++ l2) = terminators l1 ++ terminators l2 := by
  induction l1 with
  | nil => rfl
  | cons a l ih => cases a <;> simp [terminators, ih]

theorem terminators_count_map (st : Nat) (chunk : fc_chunk_t) (l : List fc_count_order_t) :
    terminators (l.map (fun c => fc_line.count c.count st (chunk.at c.index))) = [] := by
  induction l with
  | nil => rfl
  | cons a l ih => simp [terminators, ih]

theorem terminators_norm_map (st n : Nat) (chunk : fc_chunk_t) (l : List fc_count_order_t) :
    terminators (l.map (fun c => fc_line.norm c.count n st (chunk.at c.index))) = [] := by
  induction l with
  | nil => rfl
  | cons a l ih => simp [terminators, ih]

theorem terminators_subset (chunk : fc_chunk_t) (base count : Nat) (query : fc_query_t)
    (start_time : Nat) (normalized : Bool) :
    terminators (fc_compute_counts_subset chunk base count query start_time normalized) =
      [(count, start_time)] := by
  unfold fc_compute_counts_subset
  by_cases h : count = 0
  · subst h; rfl
  · rw [if_neg h]
    simp only [terminators_append, terminators_count_map, length_fc_create_index]
    cases normalized <;> simp [terminators, terminators_norm_map]

/-- C10 (window totals): for a non-empty window `[base, base+count)` and any
query (any `show_max`), the counts of the groups formed by
`fc_compute_counts_subset` sum to `count`, the output has exactly one
terminator, it is the last line and it carries `count`; protocols 6, 6, 17
under the query `P` give the groups (6, 2), (17, 1) and the terminator total 3. -/
theorem window_totals (chunk : fc_chunk_t) (base count : Nat) (query : fc_query_t)
    (start_time : Nat) (normalized : Bool) (h : 0 < count) :
    ((group_counts chunk query (fc_create_index chunk base count query)).map
        fc_count_order_t.count).sum = count ∧
    terminators (fc_compute_counts_subset chunk base count query start_time normalized) =
      [(count, start_time)] ∧
    (fc_compute_counts_subset chunk base count query start_time normalized).getLast? =
      some (fc_line.term count start_time query.query_str) ∧
    fc_compute_counts_subset { pkts := [mk_pkt 0 6 0, mk_pkt 0 6 1, mk_pkt 0 17 2] } 0 3
        (query_P show_all) 0 false =
      [fc_line.count 2 0 (mk_pkt 0 6 0), fc_line.count 1 0 (mk_pkt 0 17 2),
       fc_line.term 3 0 "P"] := by
  refine ⟨?_, terminators_subset _ _ _ _ _ _, ?_, by decide⟩
  · rw [sum_group_counts, length_fc_create_index]
  · unfold fc_compute_counts_subset
    rw [if_neg (by omega)]
    simp [length_fc_create_index]

/-- Witness for C10: the three-record window under the query `S24P`, with
normalized lines. -/
theorem window_totals_witness :
    0 < 3 ∧
    (((group_counts split_window query_S24P (fc_create_index split_window 0 3 query_S24P)).map
        fc_count_order_t.count).sum = 3 ∧
    terminators (fc_compute_counts_subset split_window 0 3 query_S24P 0 true) = [(3, 0)] ∧
    (fc_compute_counts_subset split_window 0 3 query_S24P 0 true).getLast? =
      some (fc_line.term 3 0 query_S24P.query_str) ∧
    fc_compute_counts_subset { pkts := [mk_pkt 0 6 0, mk_pkt 0 6 1, mk_pkt 0 17 2] } 0 3
        (query_P show_all) 0 false =
      [fc_line.count 2 0 (mk_pkt 0 6 0), fc_line.count 1 0 (mk_pkt 0 17 2),
       fc_line.term 3 0 "P"]) :=
  ⟨by decide, window_totals split_window 0 3 query_S24P 0 true (by decide)⟩

/-! ### FC5 round trip -/

theorem load32_store32 (le : Bool) (y : Nat) :
    (le = true → load32 le (y % 256) (y / 256 % 256) (y / 65536 % 256) (y / 16777216 % 256) =
      y % 4294967296) ∧
    (le = false → load32 le (y / 16777216 % 256) (y / 65536 % 256) (y / 256 % 256) (y % 256) =
      y % 4294967296) := by
  constructor <;> intro h <;> subst h <;> simp only [load32, if_true, if_false, Bool.false_eq_true] <;> omega

theorem load16_store16 (le : Bool) (y : Nat) :
    (le = true → load16 le (y % 256) (y / 256 % 256) = y % 65536) ∧
    (le = false → load16 le (y / 256 % 256) (y % 256) = y % 65536) := by
  constructor <;> intro h <;> subst h <;> simp only [load16, if_true, if_false, Bool.false_eq_true] <;> omega

theorem ntohl_lt (le : Bool) (x : Nat) : ntohl le x < 4294967296 := by
  cases le <;> simp only [ntohl, bswap32, if_true, if_false, Bool.false_eq_true] <;> omega

theorem ntohs_lt (le : Bool) (x : Nat) : ntohs le x < 65536 := by
  cases le <;> simp only [ntohs, bswap16, if_true, if_false, Bool.false_eq_true] <;> omega

theorem bytes4 (b0 b1 b2 b3 : Nat) (h0 : b0 < 256) (h1 : b1 < 256) (h2 : b2 < 256)
    (h3 : b3 < 256) :
    (b0 * 16777216 + b1 * 65536 + b2 * 256 + b3) % 256 = b3 ∧
    (b0 * 16777216 + b1 * 65536 + b2 * 256 + b3) / 256 % 256 = b2 ∧
    (b0 * 16777216 + b1 * 65536 + b2 * 256 + b3) / 65536 % 256 = b1 ∧
    (b0 * 16777216 + b1 * 65536 + b2 * 256 + b3) / 16777216 % 256 = b0 := by
  refine ⟨?_, ?_, ?_, ?_⟩ <;> omega

theorem bytes2 (b0 b1 : Nat) (h0 : b0 < 256) (h1 : b1 < 256) :
    (b0 * 256 + b1) % 256 = b1 ∧ (b0 * 256 + b1) / 256 % 256 = b0 := by
  refine ⟨?_, ?_⟩ <;> omega

theorem bswap32_bswap32 (x : Nat) (h : x < 4294967296) : bswap32 (bswap32 x) = x := by
  obtain ⟨k0, k1, k2, k3⟩ := bytes4 (x % 256) (x / 256 % 256) (x / 65536 % 256)
    (x / 16777216 % 256) (Nat.mod_lt _ (by decide)) (Nat.mod_lt _ (by decide))
    (Nat.mod_lt _ (by decide)) (Nat.mod_lt _ (by decide))
  unfold bswap32
  rw [k0, k1, k2, k3]
  clear k0 k1 k2 k3
  omega

theorem bswap16_bswap16 (x : Nat) (h : x < 65536) : bswap16 (bswap16 x) = x := by
  obtain ⟨k0, k1⟩ := bytes2 (x % 256) (x / 256 % 256) (Nat.mod_lt _ (by decide))
    (Nat.mod_lt _ (by decide))
  unfold bswap16
  rw [k0, k1]
  clear k0 k1
  omega

theorem ntohl_ntohl (le : Bool) (x : Nat) (h : x < 4294967296) : ntohl le (ntohl le x) = x := by
  cases le
  · simp only [ntohl, if_false, Bool.false_eq_true]; omega
  · simp only [ntohl, if_true]; exact bswap32_bswap32 x h

theorem ntohs_ntohs (le : Bool) (x : Nat) (h : x < 65536) : ntohs le (ntohs le x) = x := by
  cases le
  · simp only [ntohs, if_false, Bool.false_eq_true]; omega
  · simp only [ntohs, if_true]; exact bswap16_bswap16 x h

theorem toU32_toI32 (n : Nat) (h : n < 4294967296) : toU32 (toI32 (n : Int)) = n := by
  simp only [toU32, toI32]; omega

theorem toU32_lt (s : Int) : toU32 s < 4294967296 := by
  simp only [toU32]; omega

theorem toI32_toU32 (s : Int) (h1 : -2147483648 ≤ s) (h2 : s < 2147483648) :
    toI32 ((toU32 s : Nat) : Int) = s := by
  simp only [toU32, toI32]; omega

/-- The record that the loop body of `fc_fc5_read` decodes from the 24 bytes
written for `r` is `r` again. -/
theorem fc5_read_write_pkt (le : Bool) (r : fc_pkt_t) (hr : r.wf) (rest : List Nat)
    (chain : pkt_chain_t) :
    fc5_read_loop le none (fc5_write_pkt le r ++ rest) chain =
      fc5_read_loop le none rest (chain_store (fc_extend_chain chain) r true) := by
  obtain ⟨h1, h2, h3, h4, h5, h6, h7, h8, h9, h10⟩ := hr
  have e1 := ntohl_ntohl le r.saddr h1
  have e2 := ntohl_ntohl le r.daddr h2
  have e3 := ntohs_ntohs le r.sport h3
  have e4 := ntohs_ntohs le r.dport h4
  have e5 : r.proto % 256 = r.proto := Nat.mod_eq_of_lt h5
  have e6 : r.flags % 256 = r.flags := Nat.mod_eq_of_lt h6
  have e7 := ntohs_ntohs le r.len h7
  have e8 := ntohl_ntohl le (toU32 r.ts.ts_sec) (toU32_lt _)
  have e9 := toI32_toU32 r.ts.ts_sec h8 h9
  have e10 := ntohl_ntohl le r.ts.ts_usec h10
  have m32 : ∀ x, ntohl le x % 4294967296 = ntohl le x :=
    fun x => Nat.mod_eq_of_lt (ntohl_lt le x)
  have m16 : ∀ x, ntohs le x % 65536 = ntohs le x :=
    fun x => Nat.mod_eq_of_lt (ntohs_lt le x)
  have u32 : ∀ x, toU32 (toI32 ((ntohl le x : Nat) : Int)) = ntohl le x :=
    fun x => toU32_toI32 _ (ntohl_lt le x)
  cases le
  · simp only [fc5_write_pkt, store32, store16, if_false, Bool.false_eq_true,
      List.cons_append, List.nil_append, List.append_assoc]
    rw [fc5_read_loop]
    simp only [(load32_store32 false _).2 rfl, (load16_store16 false _).2 rfl, u32, m32, m16,
      e1, e2, e3, e4, e5, e6, e7, e8, e9, e10]
  · simp only [fc5_write_pkt, store32, store16, if_true,
      List.cons_append, List.nil_append, List.append_assoc]
    rw [fc5_read_loop]
    simp only [(load32_store32 true _).1 rfl, (load16_store16 true _).1 rfl, u32, m32, m16,
      e1, e2, e3, e4, e5, e6, e7, e8, e9, e10]

theorem contents_store (c : pkt_chunk_t) (r : fc_pkt_t) :
    pkt_chunk_t.contents
        { pkts := fun i => if i = c.cnt then r else c.pkts i, cnt := c.cnt + 1 } =
      c.contents ++ [r] := by
  simp only [pkt_chunk_t.contents, List.range_succ, List.map_append, List.map_cons,
    List.map_nil, if_true]
  congr 1
  apply List.map_congr_left
  intro i hi
  have hne : i ≠ c.cnt := by
    have := List.mem_range.mp hi
    omega
  rw [if_neg hne]

theorem contents_new_chunk : new_chunk.contents = [] := rfl

theorem curr_store_extend (chain : pkt_chain_t) (r : fc_pkt_t) (keep : Bool) :
    (chain_store (fc_extend_chain chain) r keep).curr ≠ none := by
  obtain ⟨linked, curr⟩ := chain
  cases curr with
  | none => simp only [fc_extend_chain, chain_store, ne_eq, reduceCtorEq, not_false_eq_true]
  | some c =>
    by_cases hfull : c.cnt = PKTS_PER_CHUNK
    · simp only [fc_extend_chain, if_pos hfull, chain_store, ne_eq, reduceCtorEq,
        not_false_eq_true]
    · simp only [fc_extend_chain, if_neg hfull, chain_store, ne_eq, reduceCtorEq,
        not_false_eq_true]

theorem chunks_store_extend (chain : pkt_chain_t) (r : fc_pkt_t)
    (hinv : chain.curr = none → chain.linked = []) :
    (chain_store (fc_extend_chain chain) r true).chunks.flatMap pkt_chunk_t.contents =
      chain.chunks.flatMap pkt_chunk_t.contents ++ [r] := by
  obtain ⟨linked, curr⟩ := chain
  cases curr with
  | none =>
    have hl : linked = [] := hinv rfl
    subst hl
    simp only [fc_extend_chain, chain_store, pkt_chain_t.chunks, if_true, Option.toList,
      List.flatMap_append, List.flatMap_cons, List.flatMap_nil, List.append_nil,
      List.nil_append, contents_store, contents_new_chunk]
  | some c =>
    by_cases hfull : c.cnt = PKTS_PER_CHUNK
    · simp only [fc_extend_chain, if_pos hfull, chain_store, pkt_chain_t.chunks, if_true,
        Option.toList, List.flatMap_append, List.flatMap_cons, List.flatMap_nil,
        List.append_nil, contents_store, contents_new_chunk, List.nil_append]
    · simp only [fc_extend_chain, if_neg hfull, chain_store, pkt_chain_t.chunks, if_true,
        Option.toList, List.flatMap_append, List.flatMap_cons, List.flatMap_nil,
        List.append_nil, contents_store, List.append_assoc]

theorem fc5_read_loop_write (le : Bool) :
    ∀ (rs : List fc_pkt_t), (∀ r ∈ rs, r.wf) → ∀ chain : pkt_chain_t,
      (chain.curr = none → chain.linked = []) →
      (fc5_read_loop le none (fc_fc5_write le { pkts := rs }) chain).chunks.flatMap
          pkt_chunk_t.contents =
        chain.chunks.flatMap pkt_chunk_t.contents ++ rs
  | [], _, chain, _ => by
    simp only [fc_fc5_write, List.flatMap_nil, List.append_nil]
    rw [fc5_read_loop]
    intros; contradiction
  | r :: rs, h, chain, hinv => by
    have ih := fc5_read_loop_write le rs (fun x hx => h x (List.mem_cons_of_mem _ hx))
      (chain_store (fc_extend_chain chain) r true)
      (fun hc => absurd hc (curr_store_extend chain r true))
    simp only [fc_fc5_write, List.flatMap_cons] at ih ⊢
    rw [fc5_read_write_pkt le r (h r (List.mem_cons_self _ _)), ih,
      chunks_store_extend chain r hinv, List.append_assoc, List.singleton_append]

/-- C8 (FC5 round trip): on a little-endian or a big-endian host, for every
sequence of records whose members are in the range of their C types, whatever
its length (the chain grows a new chunk every 262144 records),
`fc_fc5_read` without a filter on the bytes written by `fc_fc5_write` returns 0
and the flattened chain is the same sequence of records. -/
theorem fc5_round_trip (le : Bool) (rs : List fc_pkt_t) (hwf : ∀ r ∈ rs, r.wf) :
    (fc_fc5_read le (fc_fc5_write le { pkts := rs }) none).1 = 0 ∧
    pcap_chain_to_chunk (fc_fc5_read le (fc_fc5_write le { pkts := rs }) none).2 =
      { pkts := rs } := by
  refine ⟨rfl, ?_⟩
  simp only [pcap_chain_to_chunk, fc_fc5_read,
    fc5_read_loop_write le rs hwf { linked := [], curr := none } (fun _ => rfl)]
  rfl

/-- Witness for C8: two records, one with a negative second, on a
little-endian host. -/
theorem fc5_round_trip_witness :
    (∀ r ∈ [mk_pkt 16843009 6 (-5), mk_ts 7 999999], r.wf) ∧
    ((fc_fc5_read true
        (fc_fc5_write true { pkts := [mk_pkt 16843009 6 (-5), mk_ts 7 999999] }) none).1 = 0 ∧
     pcap_chain_to_chunk (fc_fc5_read true
        (fc_fc5_write true { pkts := [mk_pkt 16843009 6 (-5), mk_ts 7 999999] }) none).2 =
      { pkts := [mk_pkt 16843009 6 (-5), mk_ts 7 999999] }) :=
  ⟨by decide, fc5_round_trip true [mk_pkt 16843009 6 (-5), mk_ts 7 999999] (by decide)⟩

/-! ### Window partitioning -/

theorem ranges_cover_append : ∀ (l1 l2 : List subset_call) (s m e : Nat),
    ranges_cover s l1 m → ranges_cover m l2 e → ranges_cover s (l1 ++ l2) e
  | [], l2, s, m, e, h1, h2 => by
    simp only [ranges_cover] at h1
    subst h1; exact h2
  | c :: cs, l2, s, m, e, h1, h2 => by
    simp only [ranges_cover, List.cons_append] at h1 ⊢
    exact ⟨h1.1, ranges_cover_append cs l2 _ m e h1.2 h2⟩

theorem spans_from_append (L : Nat) : ∀ (l1 l2 : List subset_call) (t : Nat),
    spans_from L t l1 → spans_from L (t + l1.length * L) l2 → spans_from L t (l1 ++ l2)
  | [], l2, t, _, h2 => by simpa using h2
  | c :: cs, l2, t, h1, h2 => by
    simp only [spans_from, List.cons_append] at h1 ⊢
    refine ⟨h1.1, spans_from_append L cs l2 _ h1.2 ?_⟩
    have : t + L + cs.length * L = t + (c :: cs).length * L := by
      simp only [List.length_cons]; ring
    rw [this]; exact h2

theorem skip_empty_spans_spec (L ct start : Nat) (hL : 0 < L) (hL32 : L < 4294967296)
    (hct : ct < 2147483648) :
    ∀ (fuel ss es : Nat), es = ss + L → ss ≤ ct → ct - ss < fuel →
      ∃ calls ss2 es2, skip_empty_spans L ct start fuel ss es = some (calls, ss2, es2) ∧
        spans_from L ss calls ∧ ranges_cover start calls start ∧
        ss2 = ss + calls.length * L ∧ es2 = ss2 + L ∧ ss2 ≤ ct
  | 0, ss, es, _, _, hf => by omega
  | fuel + 1, ss, es, hes, hss, hf => by
    unfold skip_empty_spans
    by_cases hgt : ct > es
    · rw [if_pos hgt]
      have hmod : (es + L) % 18446744073709551616 = es + L := Nat.mod_eq_of_lt (by omega)
      rw [hmod]
      obtain ⟨calls, ss2, es2, heq, hsp, hrc, h1, h2, h3⟩ :=
        skip_empty_spans_spec L ct start hL hL32 hct fuel es (es + L) rfl (by omega) (by omega)
      refine ⟨{ base := start, count := 0, start_time := ss % 4294967296 } :: calls, ss2, es2,
        ?_, ?_, ?_, ?_, h2, h3⟩
      · rw [heq]; rfl
      · simp only [spans_from]
        refine ⟨Nat.mod_eq_of_lt (by omega), ?_⟩
        rw [← hes]; exact hsp
      · simp only [ranges_cover, Nat.add_zero]
        exact ⟨trivial, hrc⟩
      · rw [h1, hes]; simp only [List.length_cons]; ring
    · rw [if_neg hgt]
      exact ⟨[], ss, es, rfl, trivial, rfl, by simp, hes, hss⟩

theorem toU64_of_nonneg (s : Int) (h0 : 0 ≤ s) (h1 : s < 2147483648) :
    toU64 s = s.toNat ∧ s.toNat < 2147483648 := by
  simp only [toU64]; omega

theorem window_loop_spec (L : Nat) (hL : 0 < L) (hL32 : L < 4294967296) :
    ∀ (pkts : List fc_pkt_t) (i start ss es : Nat),
      (∀ p ∈ pkts, 0 ≤ p.ts.ts_sec ∧ p.ts.ts_sec < 2147483648) →
      es = ss + L → ss < 2147483648 → start ≤ i →
      ∃ calls start2 ss2 es2,
        window_loop L pkts i start ss es = some (calls, start2, ss2, es2) ∧
        spans_from L ss calls ∧ ranges_cover start calls start2 ∧
        ss2 = ss + calls.length * L ∧ ss2 < 2147483648 ∧ start2 ≤ i + pkts.length
  | [], i, start, ss, es, _, _, hss, hst =>
    ⟨[], start, ss, es, rfl, trivial, rfl, by simp, hss, by simpa using hst⟩
  | pkt :: rest, i, start, ss, es, hp, hes, hss, hst => by
    have hpkt := hp pkt (List.mem_cons_self _ _)
    have hrest : ∀ p ∈ rest, 0 ≤ p.ts.ts_sec ∧ p.ts.ts_sec < 2147483648 :=
      fun p h => hp p (List.mem_cons_of_mem _ h)
    obtain ⟨hct, hctlt⟩ := toU64_of_nonneg pkt.ts.ts_sec hpkt.1 hpkt.2
    unfold window_loop
    simp only [hct]
    by_cases hge : pkt.ts.ts_sec.toNat ≥ es
    · rw [if_pos hge]
      have hmod : (es + L) % 18446744073709551616 = es + L := Nat.mod_eq_of_lt (by omega)
      rw [hmod]
      obtain ⟨empties, ssa, esa, heq, hsp, hrc, h1, h2, h3⟩ :=
        skip_empty_spans_spec L pkt.ts.ts_sec.toNat i hL hL32 hctlt span_fuel es (es + L) rfl
          hge (by unfold span_fuel; omega)
      rw [heq]
      obtain ⟨calls, start2, ss2, es2, heq2, hsp2, hrc2, k1, k2, k3⟩ :=
        window_loop_spec L hL hL32 rest (i + 1) i ssa esa hrest h2 (by omega) (by omega)
      simp only [heq2, Option.map_some']
      refine ⟨_, start2, ss2, es2, rfl, ?_, ?_, ?_, k2, ?_⟩
      · simp only [spans_from]
        refine ⟨Nat.mod_eq_of_lt (by omega), ?_⟩
        rw [← hes]
        exact spans_from_append L empties calls es hsp (by rw [← h1]; exact hsp2)
      · simp only [ranges_cover]
        refine ⟨trivial, ?_⟩
        have : start + (i - start) = i := by omega
        rw [this]
        exact ranges_cover_append empties calls i i start2 hrc hrc2
      · rw [k1, h1, hes]
        simp only [List.length_cons, List.length_append]
        ring
      · simp only [List.length_cons]; omega
    · rw [if_neg hge]
      obtain ⟨calls, start2, ss2, es2, heq2, hsp2, hrc2, k1, k2, k3⟩ :=
        window_loop_spec L hL hL32 rest (i + 1) start ss es hrest hes hss (by omega)
      exact ⟨calls, start2, ss2, es2, heq2, hsp2, hrc2, k1, k2,
        by simp only [List.length_cons]; omega⟩

theorem ranges_cover_sum : ∀ (calls : List subset_call) (s e : Nat),
    ranges_cover s calls e → s + (calls.map subset_call.count).sum = e
  | [], s, e, h => by simpa [ranges_cover] using h
  | c :: cs, s, e, h => by
    simp only [ranges_cover] at h
    have := ranges_cover_sum cs _ e h.2
    simp only [List.map_cons, List.sum_cons]
    omega

theorem ranges_cover_base : ∀ (calls : List subset_call) (s e : Nat),
    ranges_cover s calls e → ∀ (k : Nat) (hk : k < calls.length),
      calls[k].base = s + ((calls.take k).map subset_call.count).sum
  | [], _, _, _, k, hk => by simp at hk
  | c :: cs, s, e, h, 0, _ => by
    simp only [ranges_cover] at h
    simp [h.1]
  | c :: cs, s, e, h, k + 1, hk => by
    simp only [ranges_cover] at h
    have := ranges_cover_base cs _ e h.2 k (by simpa using hk)
    simp only [List.getElem_cons_succ, List.take_succ_cons, List.map_cons, List.sum_cons]
    omega

theorem ranges_cover_once : ∀ (calls : List subset_call) (s e : Nat),
    ranges_cover s calls e → ∀ i : Nat,
      (calls.filter (in_range i)).length = if s ≤ i ∧ i < e then 1 else 0
  | [], s, e, h, i => by
    simp only [ranges_cover] at h
    subst h
    have : ¬ (s ≤ i ∧ i < s) := by omega
    simp [this]
  | c :: cs, s, e, h, i => by
    simp only [ranges_cover] at h
    have ih := ranges_cover_once cs _ e h.2 i
    have hsum := ranges_cover_sum cs _ e h.2
    by_cases hin : c.base ≤ i ∧ i < c.base + c.count
    · have hin' : in_range i c = true := by simp only [in_range, decide_eq_true_eq]; exact hin
      rw [List.filter_cons_of_pos hin', List.length_cons, ih]
      have h1 : ¬ (s + c.count ≤ i ∧ i < e) := by omega
      have h2 : s ≤ i ∧ i < e := by omega
      rw [if_neg h1, if_pos h2]
    · have hin' : ¬ in_range i c = true := by
        simp only [in_range, decide_eq_true_eq]; exact hin
      rw [List.filter_cons_of_neg hin', ih]
      by_cases h1 : s + c.count ≤ i ∧ i < e
      · rw [if_pos h1, if_pos (by omega)]
      · rw [if_neg h1, if_neg (by omega)]

theorem spans_from_start (L : Nat) : ∀ (calls : List subset_call) (t : Nat),
    spans_from L t calls → ∀ (k : Nat) (hk : k < calls.length),
      calls[k].start_time = t + k * L
  | [], _, _, k, hk => by simp at hk
  | c :: cs, t, h, 0, _ => by
    simp only [spans_from] at h
    simp [h.1]
  | c :: cs, t, h, k + 1, hk => by
    simp only [spans_from] at h
    have := spans_from_start L cs _ h.2 k (by simpa using hk)
    simp only [List.getElem_cons_succ]
    rw [this]; ring

theorem terminators_flatMap (chunk : fc_chunk_t) (query : fc_query_t) (normalized : Bool) :
    ∀ calls : List subset_call,
      terminators (calls.flatMap (fun c =>
        fc_compute_counts_subset chunk c.base c.count query c.start_time normalized)) =
      calls.map (fun c => (c.count, c.start_time))
  | [] => rfl
  | c :: cs => by
    rw [List.flatMap_cons, terminators_append, terminators_subset,
      terminators_flatMap chunk query normalized cs]
    rfl

theorem fc_compute_counts_calls_spec (chunk : fc_chunk_t) (span : fc_timespan_t)
    (hne : chunk.pkts ≠ []) (hwf : ∀ p ∈ chunk.pkts, p.wf)
    (hsorted : chunk.pkts.Pairwise (fun a b => a.ts.ts_sec ≤ b.ts.ts_sec))
    (hL : 0 < span.length_sec) (hL32 : span.length_sec < 4294967296)
    (hbase : (span.base_sec : Int) = (chunk.at 0).ts.ts_sec) :
    ∃ calls, fc_compute_counts_calls chunk (some span) = some calls ∧
      ranges_cover 0 calls chunk.count ∧ spans_from span.length_sec span.base_sec calls := by
  obtain ⟨pkts⟩ := chunk
  cases pkts with
  | nil => exact absurd rfl hne
  | cons p0 rest =>
    simp only [fc_chunk_t.at, List.getD_cons_zero] at hbase
    have hp0 := hwf p0 (List.mem_cons_self _ _)
    have hb : span.base_sec < 2147483648 := by
      have := hp0.2.2.2.2.2.2.2.2.1
      omega
    have hall : ∀ p ∈ p0 :: rest, 0 ≤ p.ts.ts_sec ∧ p.ts.ts_sec < 2147483648 := by
      intro p hp
      have hw := hwf p hp
      refine ⟨?_, hw.2.2.2.2.2.2.2.2.1⟩
      rcases List.mem_cons.mp hp with h | h
      · subst h; omega
      · have := (List.pairwise_cons.mp hsorted).1 p h
        omega
    obtain ⟨calls, start2, ss2, es2, heq, hsp, hrc, k1, k2, k3⟩ :=
      window_loop_spec span.length_sec hL hL32 (p0 :: rest) 0 0 span.base_sec
        (span.base_sec + span.length_sec) hall rfl hb (le_refl _)
    have hmod : (span.base_sec + span.length_sec) % 18446744073709551616 =
        span.base_sec + span.length_sec := Nat.mod_eq_of_lt (by omega)
    simp only [fc_compute_counts_calls, if_neg (Nat.pos_iff_ne_zero.mp hL), hmod, heq,
      fc_chunk_t.count]
    simp only [Nat.zero_add] at k3
    by_cases hlast : (p0 :: rest).length - start2 > 0
    · rw [if_pos hlast]
      refine ⟨_, rfl, ?_, ?_⟩
      · refine ranges_cover_append calls _ 0 start2 _ hrc ?_
        simp only [ranges_cover]
        exact ⟨trivial, by omega⟩
      · refine spans_from_append _ calls _ _ hsp ?_
        simp only [spans_from]
        exact ⟨by rw [← k1]; exact Nat.mod_eq_of_lt (by omega), trivial⟩
    · rw [if_neg hlast]
      refine ⟨calls, rfl, ?_, hsp⟩
      have : start2 = (p0 :: rest).length := by omega
      rw [← this]; exact hrc

theorem skip_empty_spans_exact (L ct start : Nat) (hL : 0 < L)
    (hct : ct < 18446744073709551616) :
    ∀ (k fuel ss : Nat), k < fuel → k * L ≤ ct →
      ∃ calls ss2, skip_empty_spans L ct start fuel ss (ct - k * L) = some (calls, ss2, ct) ∧
        calls.length = k ∧ (0 < k → ss2 = ct - L) ∧ (k = 0 → ss2 = ss) ∧
        (0 < k → calls[0]? = some ⟨start, 0, ss % 4294967296⟩) ∧
        ∀ j, j + 1 < k →
          calls[j + 1]? = some ⟨start, 0, (ct - k * L + j * L) % 4294967296⟩
  | 0, fuel, ss, hf, _ => by
    obtain ⟨f, rfl⟩ : ∃ f, fuel = f + 1 := ⟨fuel - 1, by omega⟩
    refine ⟨[], ss, ?_, rfl, fun h => absurd h (Nat.lt_irrefl 0), fun _ => rfl,
      fun h => absurd h (Nat.lt_irrefl 0), fun j hj => absurd hj (Nat.not_lt_zero _)⟩
    rw [Nat.zero_mul, Nat.sub_zero, skip_empty_spans, if_neg (Nat.lt_irrefl ct)]
  | k + 1, fuel, ss, hf, hk => by
    obtain ⟨f, rfl⟩ : ∃ f, fuel = f + 1 := ⟨fuel - 1, by omega⟩
    have hmul : (k + 1) * L = k * L + L := Nat.succ_mul k L
    have hlt : ct > ct - (k + 1) * L := by omega
    have hnext : (ct - (k + 1) * L + L) % 18446744073709551616 = ct - k * L := by
      rw [Nat.mod_eq_of_lt (by omega)]
      omega
    obtain ⟨calls, ss2, heq, hlen, h1, h2, h3, h4⟩ := skip_empty_spans_exact L ct start hL hct
      k f (ct - (k + 1) * L) (by omega) (by omega)
    refine ⟨⟨start, 0, ss % 4294967296⟩ :: calls, ss2, ?_, ?_, ?_, fun h => by omega,
      fun _ => List.getElem?_cons_zero, ?_⟩
    · rw [skip_empty_spans, if_pos hlt, hnext, heq]
      rfl
    · rw [List.length_cons, hlen]
    · intro _
      by_cases hk0 : k = 0
      · rw [h2 hk0]
        subst hk0
        omega
      · exact h1 (by omega)
    · intro j hj
      cases j with
      | zero =>
        simp only [List.getElem?_cons_succ, h3 (by omega : 0 < k), Nat.zero_mul, Nat.add_zero,
          Nat.zero_add]
      | succ j =>
        have hj2 : (j + 1) * L = j * L + L := Nat.succ_mul j L
        rw [List.getElem?_cons_succ, h4 j (by omega)]
        have : ct - k * L + j * L = ct - (k + 1) * L + (j + 1) * L := by omega
        rw [this]

theorem fc_compute_counts_calls_window (chunk : fc_chunk_t) (span : fc_timespan_t)
    (hz : span.length_sec ≠ 0) (calls : List subset_call) (start ss es : Nat)
    (hw : window_loop span.length_sec chunk.pkts 0 0 span.base_sec
      ((span.base_sec + span.length_sec) % 18446744073709551616) = some (calls, start, ss, es)) :
    fc_compute_counts_calls chunk (some span) =
      some (if chunk.count - start > 0 then
        calls ++ [{ base := start, count := chunk.count - start,
                    start_time := ss % 4294967296 }]
       else calls) := by
  unfold fc_compute_counts_calls
  simp only [if_neg hz, hw]
  split_ifs <;> rfl

theorem neg_window_calls :
    ∃ calls, fc_compute_counts_calls neg_window (some neg_span) = some calls ∧
      calls.length = 17179869184 ∧
      calls[0]? = some ⟨0, 0, 4294967291⟩ ∧ calls[4]? = some ⟨0, 0, 4294967291⟩ ∧
      calls.getLast? = some ⟨0, 1, 3221225467⟩ := by
  obtain ⟨empties, ss2, heq, hlen, h1, _, h3, h4⟩ := skip_empty_spans_exact 1073741824
    18446744073709551611 0 (by decide) (by decide) 17179869182 span_fuel 1073741819
    (by decide) (by decide)
  have e : 18446744073709551611 - 17179869182 * 1073741824 = 2147483643 := by decide
  rw [e] at heq h4
  have hs2 := h1 (by decide)
  have e2 : 18446744073709551611 - 1073741824 = 18446744072635809787 := by decide
  rw [e2] at hs2
  subst hs2
  have hct : toU64 (mk_ts (-5) 0).ts.ts_sec = 18446744073709551611 := by decide
  have hw : window_loop 1073741824 [mk_ts (-5) 0] 0 0 18446744073709551611
      ((18446744073709551611 + 1073741824) % 18446744073709551616) =
      some (⟨0, 0, 4294967291⟩ :: (empties ++ []), 0, 18446744072635809787,
        18446744073709551611) := by
    have e3 : (18446744073709551611 + 1073741824) % 18446744073709551616 = 1073741819 := by
      decide
    have e4 : (1073741819 + 1073741824) % 18446744073709551616 = 2147483643 := by decide
    have hge : (18446744073709551611 : Nat) ≥ 1073741819 := by decide
    rw [e3, window_loop]
    simp only [hct, hge, if_true, e4, heq, window_loop, Option.map_some']
  refine ⟨⟨0, 0, 4294967291⟩ :: (empties ++ []) ++ [⟨0, 1, 3221225467⟩], ?_, ?_, ?_, ?_, ?_⟩
  · have hpos : neg_window.count - 0 > 0 := by decide
    rw [fc_compute_counts_calls_window neg_window neg_span (by decide) _ _ _ _ hw, if_pos hpos]
    rfl
  · simp only [List.length_append, List.length_cons, List.length_nil, hlen]
  · simp only [List.cons_append, List.getElem?_cons_zero]
  · have h := h4 2 (by decide)
    have e5 : (2147483643 + 2 * 1073741824) % 4294967296 = 4294967291 := by decide
    rw [e5] at h
    simp only [List.append_nil, List.cons_append, List.getElem?_cons_succ]
    rw [List.getElem?_append_left (by rw [hlen]; decide)]
    exact h
  · rw [List.getLast?_append]
    rfl

/-- C3 (window partitioning) holds when the first second is not negative and
fails when it is negative.  For a non-empty array of records in the range of
their C types, sorted by `ts_sec`, with a first second `>= 0`, a window length
`0 < L < 2 ^ 32` and `base_sec` the first second as `main` passes it,
`fc_compute_counts` returns; the index ranges it passes to
`fc_compute_counts_subset` are consecutive from 0 and their counts sum to
`count`, so every record index lies in the range of exactly one call; the
terminators of the output are, in order, the `(count, start_time)` of the
calls, and the start time of the `k`-th one is `base_sec + k * L`.  The
window bounds are `uint64_t` and the `int32_t` second is sign-extended: for
the one record at second -5 and `L = 2 ^ 30`, `base_sec` is `2 ^ 64 - 5`, the
first bound wraps to `2 ^ 30 - 5`, and `fc_compute_counts` writes `2 ^ 34`
terminators for the one record; the first has total 0 although the record's
second is its start time, only the last one counts the record, and the start
time 4294967291 (printed as -5) of the first is repeated by the fifth. -/
theorem window_partitioning :
    (∀ (chunk : fc_chunk_t) (span : fc_timespan_t) (query : fc_query_t) (normalized : Bool),
      chunk.pkts ≠ [] → (∀ p ∈ chunk.pkts, p.wf) →
      chunk.pkts.Pairwise (fun a b => a.ts.ts_sec ≤ b.ts.ts_sec) →
      0 < span.length_sec → span.length_sec < 4294967296 →
      0 ≤ (chunk.at 0).ts.ts_sec → span.base_sec = toU64 (chunk.at 0).ts.ts_sec →
      ∃ calls lines,
        fc_compute_counts_calls chunk (some span) = some calls ∧
        fc_compute_counts chunk query (some span) normalized = some lines ∧
        (∀ (k : Nat) (hk : k < calls.length),
          calls[k].base = ((calls.take k).map subset_call.count).sum) ∧
        (calls.map subset_call.count).sum = chunk.count ∧
        (∀ i, i < chunk.count → (calls.filter (in_range i)).length = 1) ∧
        terminators lines = calls.map (fun c => (c.count, c.start_time)) ∧
        (∀ (k : Nat) (hk : k < calls.length),
          calls[k].start_time = span.base_sec + k * span.length_sec)) ∧
    (neg_window.pkts ≠ [] ∧ (∀ p ∈ neg_window.pkts, p.wf) ∧
      neg_window.pkts.Pairwise (fun a b => a.ts.ts_sec ≤ b.ts.ts_sec) ∧
      (neg_window.at 0).ts.ts_sec = -5 ∧
      0 < neg_span.length_sec ∧ neg_span.length_sec < 4294967296 ∧
      neg_span.base_sec = toU64 (neg_window.at 0).ts.ts_sec) ∧
    (∀ (query : fc_query_t) (normalized : Bool),
      ∃ calls lines,
        fc_compute_counts_calls neg_window (some neg_span) = some calls ∧
        fc_compute_counts neg_window query (some neg_span) normalized = some lines ∧
        terminators lines = calls.map (fun c => (c.count, c.start_time)) ∧
        calls.length = 17179869184 ∧
        calls[0]? = some ⟨0, 0, 4294967291⟩ ∧ calls[4]? = some ⟨0, 0, 4294967291⟩ ∧
        calls.getLast? = some ⟨0, 1, 3221225467⟩) := by
  refine ⟨?_, by decide, ?_⟩
  · intro chunk span query normalized hne hwf hsorted hL hL32 hnn hb
    have hbase : (span.base_sec : Int) = (chunk.at 0).ts.ts_sec := by
      have hw0 : (chunk.at 0).wf := by
        obtain ⟨pkts⟩ := chunk
        cases pkts with
        | nil => exact absurd rfl hne
        | cons p0 rest => exact hwf p0 (List.mem_cons_self _ _)
      have hlt : (chunk.at 0).ts.ts_sec < 2147483648 := hw0.2.2.2.2.2.2.2.2.1
      rw [hb, (toU64_of_nonneg _ hnn hlt).1]
      exact Int.toNat_of_nonneg hnn
    obtain ⟨calls, heq, hrc, hsp⟩ :=
      fc_compute_counts_calls_spec chunk span hne hwf hsorted hL hL32 hbase
    refine ⟨calls, _, heq, by rw [fc_compute_counts, heq]; rfl, ?_, ?_, ?_, ?_, ?_⟩
    · intro k hk
      rw [ranges_cover_base calls 0 _ hrc k hk, Nat.zero_add]
    · have := ranges_cover_sum calls 0 _ hrc
      omega
    · intro i hi
      rw [ranges_cover_once calls 0 _ hrc i, if_pos ⟨Nat.zero_le _, hi⟩]
    · exact terminators_flatMap chunk query normalized calls
    · exact spans_from_start _ calls _ hsp
  · intro query normalized
    obtain ⟨calls, heq, h1, h2, h3, h4⟩ := neg_window_calls
    exact ⟨calls, _, heq, by rw [fc_compute_counts, heq]; rfl,
      terminators_flatMap neg_window query normalized calls, h1, h2, h3, h4⟩

/-- Witness for C3: records at seconds 0, 3, 11, 25 with window length 10. -/
theorem window_partitioning_witness :
    (sample_windows.pkts ≠ [] ∧ (∀ p ∈ sample_windows.pkts, p.wf) ∧
      sample_windows.pkts.Pairwise (fun a b => a.ts.ts_sec ≤ b.ts.ts_sec) ∧
      0 < (10 : Nat) ∧ (10 : Nat) < 4294967296 ∧
      0 ≤ (sample_windows.at 0).ts.ts_sec ∧
      (0 : Nat) = toU64 (sample_windows.at 0).ts.ts_sec) ∧
    ∃ calls lines,
      fc_compute_counts_calls sample_windows (some { base_sec := 0, length_sec := 10 }) =
        some calls ∧
      fc_compute_counts sample_windows (query_P show_all)
        (some { base_sec := 0, length_sec := 10 }) false = some lines ∧
      (∀ (k : Nat) (hk : k < calls.length),
        calls[k].base = ((calls.take k).map subset_call.count).sum) ∧
      (calls.map subset_call.count).sum = sample_windows.count ∧
      (∀ i, i < sample_windows.count → (calls.filter (in_range i)).length = 1) ∧
      terminators lines = calls.map (fun c => (c.count, c.start_time)) ∧
      (∀ (k : Nat) (hk : k < calls.length), calls[k].start_time = 0 + k * 10) :=
  ⟨⟨by decide, by decide, by decide, by decide, by decide, by decide, by decide⟩,
   window_partitioning.1 sample_windows { base_sec := 0, length_sec := 10 } (query_P show_all)
     false (by decide) (by decide) (by decide) (by decide) (by decide) (by decide)
     (by decide)⟩

/-! ### Top-N selection on a large window -/

theorem big_window_at_zero (n : Nat) : (big_window n).at 0 = mk_pkt 0 1 0 := rfl

theorem big_window_at_succ (n k : Nat) (h1 : 1 ≤ k) (h2 : k ≤ n) :
    (big_window n).at k = mk_pkt 0 6 0 := by
  obtain ⟨j, rfl⟩ : ∃ j, k = j + 1 := ⟨k - 1, by omega⟩
  simp only [fc_chunk_t.at, big_window, List.getD_cons_succ]
  rw [List.getD_eq_getElem?_getD, List.getElem?_replicate_of_lt (by omega)]
  rfl

theorem comparator_sort_big_zero (n b : Nat) (h1 : 1 ≤ b) (h2 : b ≤ n) (m : Nat) :
    comparator_sort (big_window n) (query_P m) 0 b = -1 := by
  simp only [comparator_sort, big_window_at_zero, big_window_at_succ n b h1 h2]
  rfl

theorem comparator_sort_big_succ (n a b : Nat) (ha : 1 ≤ a) (ha2 : a ≤ n) (h1 : 1 ≤ b)
    (h2 : b ≤ n) (m : Nat) :
    comparator_sort (big_window n) (query_P m) a b = 0 := by
  simp only [comparator_sort, big_window_at_succ n a ha ha2, big_window_at_succ n b h1 h2]
  rfl

theorem comparator_group_big_zero (n b : Nat) (h1 : 1 ≤ b) (h2 : b ≤ n) (m : Nat) :
    comparator_group (big_window n) (query_P m) 0 b = -1 := by
  simp only [comparator_group, big_window_at_zero, big_window_at_succ n b h1 h2]
  rfl

theorem comparator_group_big_succ (n a b : Nat) (ha : 1 ≤ a) (ha2 : a ≤ n) (h1 : 1 ≤ b)
    (h2 : b ≤ n) (m : Nat) :
    comparator_group (big_window n) (query_P m) a b = 0 := by
  simp only [comparator_group, big_window_at_succ n a ha ha2, big_window_at_succ n b h1 h2]
  rfl

theorem fc_create_index_big (n m : Nat) :
    fc_create_index (big_window n) 0 (n + 1) (query_P m) = List.range' 0 (n + 1) := by
  unfold fc_create_index qsort
  apply List.Sorted.insertionSort_eq
  refine (List.pairwise_lt_range' 0 (n + 1)).imp_of_mem ?_
  intro a b ha hb hab
  rw [List.mem_range'_1] at ha hb
  by_cases h0 : a = 0
  · subst h0
    rw [comparator_sort_big_zero n b (by omega) (by omega)]
    decide
  · rw [comparator_sort_big_succ n a b (by omega) (by omega) (by omega) (by omega)]

theorem group_runs_nil (chunk : fc_chunk_t) (query : fc_query_t) (fuel : Nat) :
    group_runs chunk query fuel [] = [] := by
  cases fuel <;> rfl

theorem group_runs_big (n m : Nat) (hn : 1 ≤ n) :
    group_runs (big_window n) (query_P m) (n + 1) (List.range' 0 (n + 1)) =
      [[0], List.range' 1 n] := by
  obtain ⟨j, rfl⟩ : ∃ j, n = j + 1 := ⟨n - 1, by omega⟩
  have hall : ∀ x ∈ List.range' 2 j,
      (comparator_group (big_window (j + 1)) (query_P m) 1 x == 0) = true := by
    intro x hx
    rw [List.mem_range'_1] at hx
    rw [comparator_group_big_succ (j + 1) 1 x (by omega) (by omega) (by omega) (by omega)]
    rfl
  have hfirst : (comparator_group (big_window (j + 1)) (query_P m) 0 1 == 0) = false := by
    rw [comparator_group_big_zero (j + 1) 1 (by omega) (by omega)]
    rfl
  rw [List.range'_succ, List.range'_succ]
  simp only [group_runs, List.takeWhile_cons, List.dropWhile_cons, hfirst, Bool.false_eq_true,
    if_false, List.takeWhile_eq_self_iff.mpr hall, List.dropWhile_eq_nil_iff.mpr hall,
    group_runs_nil]

theorem fc_compute_counts_subset_big (n : Nat) (hn : 1 ≤ n)
    (hcmp : count_compare { index := 0, count := 1 } { index := 1, count := n } ≤ 0) :
    group_counts (big_window n) (query_P 1)
        (fc_create_index (big_window n) 0 (n + 1) (query_P 1)) =
      [{ index := 0, count := 1 }, { index := 1, count := n }] ∧
    fc_compute_counts_subset (big_window n) 0 (n + 1) (query_P 1) 0 false =
      [fc_line.count 1 0 (mk_pkt 0 1 0), fc_line.term (n + 1) 0 "P"] := by
  have hgc : group_counts (big_window n) (query_P 1) (List.range' 0 (n + 1)) =
      [{ index := 0, count := 1 }, { index := 1, count := n }] := by
    unfold group_counts
    rw [List.length_range', group_runs_big n 1 hn]
    obtain ⟨j, rfl⟩ : ∃ j, n = j + 1 := ⟨n - 1, by omega⟩
    simp only [List.map_cons, List.map_nil, List.headD_cons, List.length_cons, List.length_nil,
      List.range'_succ, List.length_range']
  refine ⟨by rw [fc_create_index_big, hgc], ?_⟩
  unfold fc_compute_counts_subset
  rw [if_neg (by omega), fc_create_index_big]
  simp only [hgc]
  have hsel : select_counts (query_P 1)
      [{ index := 0, count := 1 }, { index := 1, count := n }] = [{ index := 0, count := 1 }] := by
    simp only [select_counts, query_P, qsort, List.insertionSort, List.orderedInsert, hcmp,
      if_true, List.length_cons, List.length_nil]
    rfl
  simp only [hsel, List.map_cons, List.map_nil, Bool.false_eq_true, if_false, List.append_nil,
    List.length_range', List.singleton_append, big_window_at_zero]
  rfl

/-- C9 (top-N consistency): the claim fails on the code.  In a window of one
protocol-1 record and `2 ^ 31 + 2` protocol-6 records with the query `P` and
`show_max = 1`, the groups are (index 0, count 1) and (index 1, count
`2 ^ 31 + 2`); `count_compare` returns the `uint64_t` difference of the counts
converted to `int`, which is negative for (small, large) and positive for
(large, small), so the sort keeps the group of count 1 first and the only
count line printed is the one of count 1, while the group of count
`2 ^ 31 + 2` is not printed. -/
theorem top_n_keeps_smaller_group :
    group_counts (big_window big_count) (query_P 1)
        (fc_create_index (big_window big_count) 0 (big_count + 1) (query_P 1)) =
      [{ index := 0, count := 1 }, { index := 1, count := big_count }] ∧
    fc_compute_counts_subset (big_window big_count) 0 (big_count + 1) (query_P 1) 0 false =
      [fc_line.count 1 0 (mk_pkt 0 1 0), fc_line.term (big_count + 1) 0 "P"] ∧
    count_compare { index := 0, count := 1 } { index := 1, count := big_count } < 0 ∧
    count_compare { index := 1, count := big_count } { index := 0, count := 1 } > 0 :=
  ⟨(fc_compute_counts_subset_big big_count (by decide) (by decide)).1,
   (fc_compute_counts_subset_big big_count (by decide) (by decide)).2,
   by decide, by decide⟩

/-! ### Field projection -/

/-- C15 (field projection), counterexample: for a record whose `flags` member is
2, `fetch_field` with the name `F` returns 0, not the flags: the `switch` of
`fetch_field` has no case for `FC_FIELD_NAME_FLAGS`. -/
theorem fetch_field_flags_counterexample :
    fetch_field syn_pkt FC_FIELD_NAME_FLAGS = 0 ∧ syn_pkt.flags = 2 ∧
    fetch_field syn_pkt FC_FIELD_NAME_FLAGS ≠ syn_pkt.flags := by
  decide

/-- C15 (field projection), amended: for every record `fetch_field` returns the
named member promoted to 32 bits for the eight names S, D, E, A, P, L, s and u
(`ts_sec` converted to `uint32_t`), and 0 for the name F. -/
theorem fetch_field_projection (r : fc_pkt_t) :
    fetch_field r FC_FIELD_NAME_SADDR = r.saddr ∧
    fetch_field r FC_FIELD_NAME_DADDR = r.daddr ∧
    fetch_field r FC_FIELD_NAME_SPORT = r.sport ∧
    fetch_field r FC_FIELD_NAME_DPORT = r.dport ∧
    fetch_field r FC_FIELD_NAME_PROTO = r.proto ∧
    fetch_field r FC_FIELD_NAME_LEN = r.len ∧
    fetch_field r FC_FIELD_NAME_SEC = toU32 r.ts.ts_sec ∧
    fetch_field r FC_FIELD_NAME_USEC = r.ts.ts_usec ∧
    fetch_field r FC_FIELD_NAME_FLAGS = 0 :=
  ⟨rfl, rfl, rfl, rfl, rfl, rfl, rfl, rfl, rfl⟩

/-! ### Mask monotonicity -/

theorem width_mask_and (w1 w2 : Nat) (h1 : 1 ≤ w1) (h12 : w1 ≤ w2) (h2 : w2 ≤ 32) :
    width_mask w2 &&& width_mask w1 = width_mask w1 := by
  interval_cases w2 <;> interval_cases w1 <;> rfl

theorem apply_width_mono (w1 w2 x v : Nat) (h1 : 1 ≤ w1) (h12 : w1 ≤ w2) (h2 : w2 ≤ 32)
    (h : apply_width w2 x = apply_width w2 v) : apply_width w1 x = apply_width w1 v := by
  have hw1 : w1 > 0 := by omega
  have hw2 : w2 > 0 := by omega
  simp only [apply_width, if_pos hw1, if_pos hw2] at h ⊢
  rw [← width_mask_and w1 w2 h1 h12 h2, ← Nat.land_assoc, ← Nat.land_assoc, h]

/-- C16 (mask monotonicity), counterexample: with `w1 = 0 <= w2 = 8` the record
from 10.1.2.3 is accepted by the filter `S8=10.0.0.0` and rejected by
`S=10.0.0.0`: width 0 is the exact 32-bit match, not the widest prefix. -/
theorem mask_monotonicity_counterexample :
    (0 : Nat) ≤ 8 ∧ (8 : Nat) ≤ 32 ∧
    fc_filter_pkt (mk_pkt 167838211 6 0) (one_field_filter FC_FIELD_NAME_SADDR 8 167772160) = 1 ∧
    fc_filter_pkt (mk_pkt 167838211 6 0) (one_field_filter FC_FIELD_NAME_SADDR 0 167772160) = 0 := by
  decide

/-- C16 (mask monotonicity), amended: for every record, field name, value and
widths `1 <= w1 <= w2 <= 32`, a record accepted by `fc_filter_pkt` under the
one-field filter `(name, w2, value)` is accepted under `(name, w1, value)`. -/
theorem mask_monotonicity (pkt : fc_pkt_t) (name : fc_field_name_t) (value w1 w2 : Nat)
    (h1 : 1 ≤ w1) (h12 : w1 ≤ w2) (h2 : w2 ≤ 32)
    (h : fc_filter_pkt pkt (one_field_filter name w2 value) = 1) :
    fc_filter_pkt pkt (one_field_filter name w1 value) = 1 := by
  simp only [fc_filter_pkt, one_field_filter, filter_fields] at h ⊢
  by_cases heq : apply_width w2 (fetch_field pkt name) = apply_width w2 value
  · rw [if_neg (not_not.mpr (apply_width_mono w1 w2 _ _ h1 h12 h2 heq))]
  · rw [if_pos heq] at h
    exact absurd h (by decide)

/-- Witness for C16 (amended): the record from 10.1.2.3 under `S16=10.1.0.0`
and `S8=10.1.0.0`. -/
theorem mask_monotonicity_witness :
    ((1 : Nat) ≤ 8 ∧ (8 : Nat) ≤ 16 ∧ (16 : Nat) ≤ 32 ∧
      fc_filter_pkt (mk_pkt 167838211 6 0) (one_field_filter FC_FIELD_NAME_SADDR 16 167837696) = 1) ∧
    fc_filter_pkt (mk_pkt 167838211 6 0) (one_field_filter FC_FIELD_NAME_SADDR 8 167837696) = 1 :=
  ⟨by decide,
   mask_monotonicity (mk_pkt 167838211 6 0) FC_FIELD_NAME_SADDR 167837696 8 16 (by decide)
     (by decide) (by decide) (by decide)⟩

/-! ### Normalization -/

theorem norm_pairs_append (l1 l2 : List fc_line) :
    norm_pairs (l1 ++ l2) = norm_pairs l1 ++ norm_pairs l2 := by
  induction l1 with
  | nil => rfl
  | cons a l ih => cases a <;> simp [norm_pairs, ih]

theorem norm_pairs_count_map (st : Nat) (chunk : fc_chunk_t) (l : List fc_count_order_t) :
    norm_pairs (l.map (fun c => fc_line.count c.count st (chunk.at c.index))) = [] := by
  induction l with
  | nil => rfl
  | cons a l ih => simp [norm_pairs, ih]

theorem norm_pairs_norm_map (st n : Nat) (chunk : fc_chunk_t) (l : List fc_count_order_t) :
    norm_pairs (l.map (fun c => fc_line.norm c.count n st (chunk.at c.index))) =
      l.map (fun c => (c.count, n)) := by
  induction l with
  | nil => rfl
  | cons a l ih => simp [norm_pairs, ih]

theorem norm_pairs_subset (chunk : fc_chunk_t) (base count : Nat) (query : fc_query_t)
    (start_time : Nat) (h : 0 < count) :
    norm_pairs (fc_compute_counts_subset chunk base count query start_time true) =
      (select_counts query
        (group_counts chunk query (fc_create_index chunk base count query))).map
        (fun c => (c.count, count)) := by
  unfold fc_compute_counts_subset
  rw [if_neg (by omega)]
  simp only [norm_pairs_append, norm_pairs_count_map, norm_pairs_norm_map,
    length_fc_create_index, if_true, List.nil_append]
  simp [norm_pairs]

theorem select_counts_perm (query : fc_query_t) (counts : List fc_count_order_t)
    (h : counts.length ≤ query.show_max) : (select_counts query counts).Perm counts := by
  unfold select_counts
  rw [if_neg (by omega)]
  by_cases h0 : query.show_max > 0
  · rw [if_pos h0]; exact qsort_perm _ _
  · rw [if_neg h0]

theorem sum_map_div (n : Nat) (l : List fc_count_order_t) :
    (l.map (fun c => ((c.count, n).1 : ℚ) / ((c.count, n).2 : ℚ))).sum =
      (((l.map fc_count_order_t.count).sum : Nat) : ℚ) / (n : ℚ) := by
  induction l with
  | nil => simp
  | cons a l ih =>
    simp only [List.map_cons, List.sum_cons, ih, Nat.cast_add]
    ring

/-- C11 (normalization): for a non-empty window of `count` records, the
normalized lines are those of the kept groups, each with numerator the group
count and denominator `count` (the window total, also under top-N truncation:
with protocols 6, 6, 17 and `show_max = 1` the only normalized line is 2/3);
when no group is truncated the fractions sum to 1 in exact rational arithmetic.
The conversion to `double` and the `%g` output format are outside the
embedding. -/
theorem normalization (chunk : fc_chunk_t) (base count : Nat) (query : fc_query_t)
    (start_time : Nat) (h : 0 < count) :
    norm_pairs (fc_compute_counts_subset chunk base count query start_time true) =
      (select_counts query
        (group_counts chunk query (fc_create_index chunk base count query))).map
        (fun c => (c.count, count)) ∧
    ((group_counts chunk query (fc_create_index chunk base count query)).length ≤
        query.show_max →
      (norm_fractions
        (fc_compute_counts_subset chunk base count query start_time true)).sum = 1) ∧
    norm_pairs (fc_compute_counts_subset
      { pkts := [mk_pkt 0 6 0, mk_pkt 0 6 1, mk_pkt 0 17 2] } 0 3 (query_P 1) 0 true) =
        [(2, 3)] := by
  refine ⟨norm_pairs_subset chunk base count query start_time h, fun hall => ?_, by decide⟩
  unfold norm_fractions
  rw [norm_pairs_subset chunk base count query start_time h, List.map_map]
  have hperm := select_counts_perm query _ hall
  have hsum := (hperm.map fc_count_order_t.count).sum_eq
  rw [sum_group_counts, length_fc_create_index] at hsum
  have := sum_map_div count (select_counts query
    (group_counts chunk query (fc_create_index chunk base count query)))
  simp only [Function.comp_def]
  rw [this, hsum]
  have hc : (count : ℚ) ≠ 0 := by exact_mod_cast (Nat.pos_iff_ne_zero.mp h)
  exact div_self hc

/-- Witness for C11: the three-record window under the query `S24P`. -/
theorem normalization_witness :
    0 < 3 ∧
    (norm_pairs (fc_compute_counts_subset split_window 0 3 query_S24P 0 true) =
      (select_counts query_S24P
        (group_counts split_window query_S24P (fc_create_index split_window 0 3 query_S24P))).map
        (fun c => (c.count, 3)) ∧
    ((group_counts split_window query_S24P
        (fc_create_index split_window 0 3 query_S24P)).length ≤ query_S24P.show_max →
      (norm_fractions (fc_compute_counts_subset split_window 0 3 query_S24P 0 true)).sum = 1) ∧
    norm_pairs (fc_compute_counts_subset
      { pkts := [mk_pkt 0 6 0, mk_pkt 0 6 1, mk_pkt 0 17 2] } 0 3 (query_P 1) 0 true) =
        [(2, 3)]) :=
  ⟨by decide, normalization split_window 0 3 query_S24P 0 (by decide)⟩

/-! ### FC5 layout -/

theorem store32_ntohl (le : Bool) (x : Nat) (h : x < 4294967296) :
    store32 le (ntohl le x) = be32 x := by
  cases le
  · simp only [store32, ntohl, be32, if_false, Bool.false_eq_true, Nat.mod_eq_of_lt h]
  · obtain ⟨k0, k1, k2, k3⟩ := bytes4 (x % 256) (x / 256 % 256) (x / 65536 % 256)
      (x / 16777216 % 256) (Nat.mod_lt _ (by decide)) (Nat.mod_lt _ (by decide))
      (Nat.mod_lt _ (by decide)) (Nat.mod_lt _ (by decide))
    simp only [store32, ntohl, be32, if_true, bswap32, k0, k1, k2, k3]

theorem store16_ntohs (le : Bool) (x : Nat) (h : x < 65536) :
    store16 le (ntohs le x) = be16 x := by
  cases le
  · simp only [store16, ntohs, be16, if_false, Bool.false_eq_true, Nat.mod_eq_of_lt h]
  · obtain ⟨k0, k1⟩ := bytes2 (x % 256) (x / 256 % 256) (Nat.mod_lt _ (by decide))
      (Nat.mod_lt _ (by decide))
    simp only [store16, ntohs, be16, if_true, bswap16, k0, k1]

theorem fc5_write_pkt_layout (le : Bool) (r : fc_pkt_t) (hr : r.wf) :
    fc5_write_pkt le r = fc5_layout r := by
  obtain ⟨h1, h2, h3, h4, h5, h6, h7, h8, h9, h10⟩ := hr
  unfold fc5_write_pkt fc5_layout
  rw [store32_ntohl le _ h1, store32_ntohl le _ h2, store16_ntohs le _ h3,
    store16_ntohs le _ h4, store16_ntohs le _ h7, store32_ntohl le _ h10,
    toU32_toI32 _ (ntohl_lt le _), store32_ntohl le _ (toU32_lt _),
    Nat.mod_eq_of_lt h5, Nat.mod_eq_of_lt h6]

theorem length_fc5_layout (r : fc_pkt_t) : (fc5_layout r).length = 24 := rfl

theorem fc_fc5_write_layout (le : Bool) (rs : List fc_pkt_t) (hwf : ∀ r ∈ rs, r.wf) :
    fc_fc5_write le { pkts := rs } = rs.flatMap fc5_layout := by
  unfold fc_fc5_write
  induction rs with
  | nil => rfl
  | cons r rs ih =>
    rw [List.flatMap_cons, List.flatMap_cons, fc5_write_pkt_layout le r (hwf r (List.mem_cons_self _ _)),
      ih (fun x hx => hwf x (List.mem_cons_of_mem _ hx))]

/-- C18 (FC5 layout): on a host of either byte order, for records in the range
of their C types, `fc_fc5_write` emits for each record, with no header and
nothing between records, the 24-byte block `saddr`, `daddr` (4 bytes each),
`sport`, `dport` (2 bytes each), `proto`, `flags` (1 byte each), `len`
(2 bytes), `ts_sec`, `ts_usec` (4 bytes each), multi-byte values big-endian;
and `fc_fc5_read` decodes this layout back to the records. -/
theorem fc5_layout_correct (le : Bool) (rs : List fc_pkt_t) (hwf : ∀ r ∈ rs, r.wf) :
    fc_fc5_write le { pkts := rs } = rs.flatMap fc5_layout ∧
    (∀ r : fc_pkt_t, (fc5_layout r).length = 24) ∧
    (fc_fc5_write le { pkts := rs }).length = 24 * rs.length ∧
    pcap_chain_to_chunk (fc_fc5_read le (rs.flatMap fc5_layout) none).2 = { pkts := rs } := by
  have hw := fc_fc5_write_layout le rs hwf
  refine ⟨hw, length_fc5_layout, ?_, ?_⟩
  · rw [hw]
    clear hw hwf
    induction rs with
    | nil => rfl
    | cons r rs ih =>
      rw [List.flatMap_cons, List.length_append, ih, length_fc5_layout, List.length_cons]
      omega
  · rw [← hw]
    simp only [pcap_chain_to_chunk, fc_fc5_read,
      fc5_read_loop_write le rs hwf { linked := [], curr := none } (fun _ => rfl)]
    rfl

/-- Witness for C18: two records on a little-endian host; the first block is
written out byte by byte. -/
theorem fc5_layout_correct_witness :
    (∀ r ∈ [syn_pkt, mk_pkt 16843009 6 (-5)], r.wf) ∧
    (fc_fc5_write true { pkts := [syn_pkt, mk_pkt 16843009 6 (-5)] } =
      [syn_pkt, mk_pkt 16843009 6 (-5)].flatMap fc5_layout ∧
    (∀ r : fc_pkt_t, (fc5_layout r).length = 24) ∧
    (fc_fc5_write true { pkts := [syn_pkt, mk_pkt 16843009 6 (-5)] }).length =
      24 * [syn_pkt, mk_pkt 16843009 6 (-5)].length ∧
    pcap_chain_to_chunk
      (fc_fc5_read true ([syn_pkt, mk_pkt 16843009 6 (-5)].flatMap fc5_layout) none).2 =
      { pkts := [syn_pkt, mk_pkt 16843009 6 (-5)] }) ∧
    fc5_layout syn_pkt =
      [10, 1, 2, 3, 10, 1, 2, 4, 156, 64, 0, 80, 6, 2, 0, 60, 0, 0, 0, 100, 0, 0, 0, 5] :=
  ⟨by decide, fc5_layout_correct true [syn_pkt, mk_pkt 16843009 6 (-5)] (by decide), by decide⟩

/-! ### Inline filtering and merge -/

theorem chunks_store_extend_reject (chain : pkt_chain_t) (r : fc_pkt_t)
    (hinv : chain.curr = none → chain.linked = []) :
    (chain_store (fc_extend_chain chain) r false).chunks.flatMap pkt_chunk_t.contents =
      chain.chunks.flatMap pkt_chunk_t.contents := by
  have hstale : ∀ c : pkt_chunk_t, pkt_chunk_t.contents
      { pkts := fun i => if i = c.cnt then r else c.pkts i, cnt := c.cnt } = c.contents := by
    intro c
    simp only [pkt_chunk_t.contents]
    apply List.map_congr_left
    intro i hi
    have hne : i ≠ c.cnt := by
      have := List.mem_range.mp hi
      omega
    rw [if_neg hne]
  obtain ⟨linked, curr⟩ := chain
  cases curr with
  | none =>
    have hl : linked = [] := hinv rfl
    subst hl
    simp only [fc_extend_chain, chain_store, pkt_chain_t.chunks, Bool.false_eq_true, if_false,
      Option.toList, List.flatMap_append, List.flatMap_cons, List.flatMap_nil, List.append_nil,
      List.nil_append, hstale, contents_new_chunk]
  | some c =>
    by_cases hfull : c.cnt = PKTS_PER_CHUNK
    · simp only [fc_extend_chain, if_pos hfull, chain_store, pkt_chain_t.chunks,
        Bool.false_eq_true, if_false, Option.toList, List.flatMap_append, List.flatMap_cons,
        List.flatMap_nil, List.append_nil, hstale, contents_new_chunk, List.nil_append]
    · simp only [fc_extend_chain, if_neg hfull, chain_store, pkt_chain_t.chunks,
        Bool.false_eq_true, if_false, Option.toList, List.flatMap_append, List.flatMap_cons,
        List.flatMap_nil, List.append_nil, hstale]

theorem fc5_read_write_pkt_filter (le : Bool) (f : fc_filter_t) (r : fc_pkt_t) (hr : r.wf)
    (rest : List Nat) (chain : pkt_chain_t) :
    fc5_read_loop le (some f) (fc5_write_pkt le r ++ rest) chain =
      fc5_read_loop le (some f) rest
        (chain_store (fc_extend_chain chain) r (fc_filter_pkt r f != 0)) := by
  obtain ⟨h1, h2, h3, h4, h5, h6, h7, h8, h9, h10⟩ := hr
  have e1 := ntohl_ntohl le r.saddr h1
  have e2 := ntohl_ntohl le r.daddr h2
  have e3 := ntohs_ntohs le r.sport h3
  have e4 := ntohs_ntohs le r.dport h4
  have e5 : r.proto % 256 = r.proto := Nat.mod_eq_of_lt h5
  have e6 : r.flags % 256 = r.flags := Nat.mod_eq_of_lt h6
  have e7 := ntohs_ntohs le r.len h7
  have e8 := ntohl_ntohl le (toU32 r.ts.ts_sec) (toU32_lt _)
  have e9 := toI32_toU32 r.ts.ts_sec h8 h9
  have e10 := ntohl_ntohl le r.ts.ts_usec h10
  have m32 : ∀ x, ntohl le x % 4294967296 = ntohl le x :=
    fun x => Nat.mod_eq_of_lt (ntohl_lt le x)
  have m16 : ∀ x, ntohs le x % 65536 = ntohs le x :=
    fun x => Nat.mod_eq_of_lt (ntohs_lt le x)
  have u32 : ∀ x, toU32 (toI32 ((ntohl le x : Nat) : Int)) = ntohl le x :=
    fun x => toU32_toI32 _ (ntohl_lt le x)
  cases le
  · simp only [fc5_write_pkt, store32, store16, if_false, Bool.false_eq_true,
      List.cons_append, List.nil_append, List.append_assoc]
    rw [fc5_read_loop]
    simp only [(load32_store32 false _).2 rfl, (load16_store16 false _).2 rfl, u32, m32, m16,
      e1, e2, e3, e4, e5, e6, e7, e8, e9, e10]
  · simp only [fc5_write_pkt, store32, store16, if_true,
      List.cons_append, List.nil_append, List.append_assoc]
    rw [fc5_read_loop]
    simp only [(load32_store32 true _).1 rfl, (load16_store16 true _).1 rfl, u32, m32, m16,
      e1, e2, e3, e4, e5, e6, e7, e8, e9, e10]

theorem fc5_read_loop_write_filter (le : Bool) (f : fc_filter_t) :
    ∀ (rs : List fc_pkt_t), (∀ r ∈ rs, r.wf) → ∀ chain : pkt_chain_t,
      (chain.curr = none → chain.linked = []) →
      (fc5_read_loop le (some f) (fc_fc5_write le { pkts := rs }) chain).chunks.flatMap
          pkt_chunk_t.contents =
        chain.chunks.flatMap pkt_chunk_t.contents ++
          rs.filter (fun r => fc_filter_pkt r f != 0)
  | [], _, chain, _ => by
    simp only [fc_fc5_write, List.flatMap_nil, List.filter_nil, List.append_nil]
    rw [fc5_read_loop]
    intros; contradiction
  | r :: rs, h, chain, hinv => by
    have ih := fc5_read_loop_write_filter le f rs (fun x hx => h x (List.mem_cons_of_mem _ hx))
      (chain_store (fc_extend_chain chain) r (fc_filter_pkt r f != 0))
      (fun hc => absurd hc (curr_store_extend chain r _))
    simp only [fc_fc5_write, List.flatMap_cons] at ih ⊢
    rw [fc5_read_write_pkt_filter le f r (h r (List.mem_cons_self _ _)), ih]
    by_cases hk : (fc_filter_pkt r f != 0) = true
    · rw [hk, chunks_store_extend chain r hinv]
      simp only [List.filter_cons, hk, if_true, List.append_assoc, List.singleton_append]
    · rw [Bool.not_eq_true] at hk
      rw [hk, chunks_store_extend_reject chain r hinv]
      simp only [List.filter_cons, hk, Bool.false_eq_true, if_false]

theorem fc_merge_chains_perm (chains : List pkt_chain_t) :
    (fc_merge_chains chains).2.pkts.Perm
      (chains.flatMap (fun c => c.chunks.flatMap pkt_chunk_t.contents)) := by
  unfold fc_merge_chains
  by_cases h : (chains.flatMap (fun c => c.chunks.flatMap pkt_chunk_t.contents)).length = 0
  · rw [if_pos h, List.eq_nil_of_length_eq_zero h]
  · rw [if_neg h]
    exact qsort_perm _ _

theorem contents_read_inline (le : Bool) (f : fc_filter_t) (rs : List fc_pkt_t)
    (hwf : ∀ r ∈ rs, r.wf) :
    (read_inline le f rs).chunks.flatMap pkt_chunk_t.contents =
      rs.filter (fun r => fc_filter_pkt r f != 0) := by
  simp only [read_inline, fc_fc5_read,
    fc5_read_loop_write_filter le f rs hwf { linked := [], curr := none } (fun _ => rfl)]
  rfl

theorem contents_read_plain (le : Bool) (rs : List fc_pkt_t) (hwf : ∀ r ∈ rs, r.wf) :
    (read_plain le rs).chunks.flatMap pkt_chunk_t.contents = rs := by
  simp only [read_plain, fc_fc5_read,
    fc5_read_loop_write le rs hwf { linked := [], curr := none } (fun _ => rfl)]
  rfl

theorem map_at_range (chunk : fc_chunk_t) :
    (List.range' 0 chunk.count).map chunk.at = chunk.pkts := by
  obtain ⟨pkts⟩ := chunk
  apply List.ext_getElem
  · simp [fc_chunk_t.count]
  · intro n h1 h2
    simp only [List.getElem_map, List.getElem_range', fc_chunk_t.at, Nat.zero_add, Nat.one_mul]
    exact List.getD_eq_getElem _ _ h2

theorem map_at_fc_apply_filter (f : fc_filter_t) (chunk : fc_chunk_t) :
    (fc_apply_filter f chunk 0 chunk.count).map chunk.at =
      chunk.pkts.filter (fun r => fc_filter_pkt r f != 0) := by
  unfold fc_apply_filter
  have h := List.filter_map (f := chunk.at) (p := fun r => fc_filter_pkt r f != 0)
    (l := List.range' 0 chunk.count)
  rw [map_at_range] at h
  rw [h]
  rfl

theorem flatMap_contents_inline (le : Bool) (f : fc_filter_t) :
    ∀ rss : List (List fc_pkt_t), (∀ rs ∈ rss, ∀ r ∈ rs, r.wf) →
      (rss.map (read_inline le f)).flatMap (fun c => c.chunks.flatMap pkt_chunk_t.contents) =
        (rss.flatMap id).filter (fun r => fc_filter_pkt r f != 0)
  | [], _ => rfl
  | rs :: rss, h => by
    rw [List.map_cons, List.flatMap_cons, List.flatMap_cons, List.filter_append,
      contents_read_inline le f rs (h rs (List.mem_cons_self _ _)),
      flatMap_contents_inline le f rss (fun x hx => h x (List.mem_cons_of_mem _ hx))]
    rfl

theorem flatMap_contents_plain (le : Bool) :
    ∀ rss : List (List fc_pkt_t), (∀ rs ∈ rss, ∀ r ∈ rs, r.wf) →
      (rss.map (read_plain le)).flatMap (fun c => c.chunks.flatMap pkt_chunk_t.contents) =
        rss.flatMap id
  | [], _ => rfl
  | rs :: rss, h => by
    rw [List.map_cons, List.flatMap_cons, List.flatMap_cons,
      contents_read_plain le rs (h rs (List.mem_cons_self _ _)),
      flatMap_contents_plain le rss (fun x hx => h x (List.mem_cons_of_mem _ hx))]
    rfl

/-- C17 (filter commutes with merge): for sources holding records in the range
of their C types and any filter, merging the chains read with the filter
applied inline gives a permutation of the records that `fc_apply_filter`
selects from the merge of the unfiltered chains, and every inline-filtered
chain flattens to the accepted records of its source in input order. -/
theorem filter_commutes_with_merge (le : Bool) (f : fc_filter_t) (rss : List (List fc_pkt_t))
    (hwf : ∀ rs ∈ rss, ∀ r ∈ rs, r.wf) :
    (fc_merge_chains (rss.map (read_inline le f))).2.pkts.Perm
      ((fc_apply_filter f (fc_merge_chains (rss.map (read_plain le))).2 0
          (fc_merge_chains (rss.map (read_plain le))).2.count).map
        (fc_merge_chains (rss.map (read_plain le))).2.at) ∧
    (∀ rs ∈ rss, pcap_chain_to_chunk (read_inline le f rs) =
      { pkts := rs.filter (fun r => fc_filter_pkt r f != 0) }) := by
  constructor
  · rw [map_at_fc_apply_filter]
    refine (fc_merge_chains_perm _).trans ?_
    rw [flatMap_contents_inline le f rss hwf]
    refine (List.Perm.filter _ ?_).symm
    have := fc_merge_chains_perm (rss.map (read_plain le))
    rw [flatMap_contents_plain le rss hwf] at this
    exact this
  · intro rs hrs
    simp only [pcap_chain_to_chunk, contents_read_inline le f rs (hwf rs hrs)]

/-- Witness for C17: two sources and the filter `P=6`. -/
theorem filter_commutes_with_merge_witness :
    (∀ rs ∈ [[syn_pkt, mk_pkt 1 17 7], [mk_pkt 2 6 3]], ∀ r ∈ rs, r.wf) ∧
    ((fc_merge_chains ([[syn_pkt, mk_pkt 1 17 7], [mk_pkt 2 6 3]].map
        (read_inline true (one_field_filter FC_FIELD_NAME_PROTO 0 6)))).2.pkts.Perm
      ((fc_apply_filter (one_field_filter FC_FIELD_NAME_PROTO 0 6)
          (fc_merge_chains ([[syn_pkt, mk_pkt 1 17 7], [mk_pkt 2 6 3]].map
            (read_plain true))).2 0
          (fc_merge_chains ([[syn_pkt, mk_pkt 1 17 7], [mk_pkt 2 6 3]].map
            (read_plain true))).2.count).map
        (fc_merge_chains ([[syn_pkt, mk_pkt 1 17 7], [mk_pkt 2 6 3]].map
            (read_plain true))).2.at) ∧
    (∀ rs ∈ [[syn_pkt, mk_pkt 1 17 7], [mk_pkt 2 6 3]],
      pcap_chain_to_chunk (read_inline true (one_field_filter FC_FIELD_NAME_PROTO 0 6) rs) =
        { pkts := rs.filter
            (fun r => fc_filter_pkt r (one_field_filter FC_FIELD_NAME_PROTO 0 6) != 0) })) :=
  ⟨by decide,
   filter_commutes_with_merge true (one_field_filter FC_FIELD_NAME_PROTO 0 6)
     [[syn_pkt, mk_pkt 1 17 7], [mk_pkt 2 6 3]] (by decide)⟩

/-! ### FC5 truncated input -/

theorem exists_block (t : List Nat) (h : 24 ≤ t.length) :
    ∃ (a0 a1 a2 a3 d0 d1 d2 d3 e0 e1 p0 p1 pr fl l0 l1 s0 s1 s2 s3 u0 u1 u2 u3 : Nat) (rest : List Nat),
      t = a0 :: a1 :: a2 :: a3 :: d0 :: d1 :: d2 :: d3 :: e0 :: e1 :: p0 :: p1 :: pr :: fl :: l0 :: l1 :: s0 :: s1 :: s2 :: s3 :: u0 :: u1 :: u2 :: u3 :: rest := by
  obtain ⟨a0, t, rfl⟩ := List.exists_cons_of_length_pos (by omega : 0 < t.length)
  simp only [List.length_cons] at h
  obtain ⟨a1, t, rfl⟩ := List.exists_cons_of_length_pos (by omega : 0 < t.length)
  simp only [List.length_cons] at h
  obtain ⟨a2, t, rfl⟩ := List.exists_cons_of_length_pos (by omega : 0 < t.length)
  simp only [List.length_cons] at h
  obtain ⟨a3, t, rfl⟩ := List.exists_cons_of_length_pos (by omega : 0 < t.length)
  simp only [List.length_cons] at h
  obtain ⟨d0, t, rfl⟩ := List.exists_cons_of_length_pos (by omega : 0 < t.length)
  simp only [List.length_cons] at h
  obtain ⟨d1, t, rfl⟩ := List.exists_cons_of_length_pos (by omega : 0 < t.length)
  simp only [List.length_cons] at h
  obtain ⟨d2, t, rfl⟩ := List.exists_cons_of_length_pos (by omega : 0 < t.length)
  simp only [List.length_cons] at h
  obtain ⟨d3, t, rfl⟩ := List.exists_cons_of_length_pos (by omega : 0 < t.length)
  simp only [List.length_cons] at h
  obtain ⟨e0, t, rfl⟩ := List.exists_cons_of_length_pos (by omega : 0 < t.length)
  simp only [List.length_cons] at h
  obtain ⟨e1, t, rfl⟩ := List.exists_cons_of_length_pos (by omega : 0 < t.length)
  simp only [List.length_cons] at h
  obtain ⟨p0, t, rfl⟩ := List.exists_cons_of_length_pos (by omega : 0 < t.length)
  simp only [List.length_cons] at h
  obtain ⟨p1, t, rfl⟩ := List.exists_cons_of_length_pos (by omega : 0 < t.length)
  simp only [List.length_cons] at h
  obtain ⟨pr, t, rfl⟩ := List.exists_cons_of_length_pos (by omega : 0 < t.length)
  simp only [List.length_cons] at h
  obtain ⟨fl, t, rfl⟩ := List.exists_cons_of_length_pos (by omega : 0 < t.length)
  simp only [List.length_cons] at h
  obtain ⟨l0, t, rfl⟩ := List.exists_cons_of_length_pos (by omega : 0 < t.length)
  simp only [List.length_cons] at h
  obtain ⟨l1, t, rfl⟩ := List.exists_cons_of_length_pos (by omega : 0 < t.length)
  simp only [List.length_cons] at h
  obtain ⟨s0, t, rfl⟩ := List.exists_cons_of_length_pos (by omega : 0 < t.length)
  simp only [List.length_cons] at h
  obtain ⟨s1, t, rfl⟩ := List.exists_cons_of_length_pos (by omega : 0 < t.length)
  simp only [List.length_cons] at h
  obtain ⟨s2, t, rfl⟩ := List.exists_cons_of_length_pos (by omega : 0 < t.length)
  simp only [List.length_cons] at h
  obtain ⟨s3, t, rfl⟩ := List.exists_cons_of_length_pos (by omega : 0 < t.length)
  simp only [List.length_cons] at h
  obtain ⟨u0, t, rfl⟩ := List.exists_cons_of_length_pos (by omega : 0 < t.length)
  simp only [List.length_cons] at h
  obtain ⟨u1, t, rfl⟩ := List.exists_cons_of_length_pos (by omega : 0 < t.length)
  simp only [List.length_cons] at h
  obtain ⟨u2, t, rfl⟩ := List.exists_cons_of_length_pos (by omega : 0 < t.length)
  simp only [List.length_cons] at h
  obtain ⟨u3, t, rfl⟩ := List.exists_cons_of_length_pos (by omega : 0 < t.length)
  simp only [List.length_cons] at h
  exact ⟨a0, a1, a2, a3, d0, d1, d2, d3, e0, e1, p0, p1, pr, fl, l0, l1, s0, s1, s2, s3, u0, u1, u2, u3, t, rfl⟩

theorem length_fc5_decode (le : Bool) (input : List Nat) :
    (fc5_decode le input).length = input.length / 24 := by
  induction input using fc5_decode.induct le with
  | case1 a0 a1 a2 a3 d0 d1 d2 d3 e0 e1 p0 p1 pr fl l0 l1 s0 s1 s2 s3 u0 u1 u2 u3 rest ih =>
    rw [fc5_decode, List.length_cons, ih]
    simp only [List.length_cons]
    omega
  | case2 t hno =>
    have e2 : fc5_decode le t = [] := by
      rw [fc5_decode]
      exact hno
    rw [e2]
    have hlt : t.length < 24 := by
      by_contra hge
      obtain ⟨a0, a1, a2, a3, d0, d1, d2, d3, e0, e1, p0, p1, pr, fl, l0, l1, s0, s1, s2, s3, u0, u1, u2, u3, rest, ht⟩ := exists_block t (by omega)
      exact hno _ _ _ _ _ _ _ _ _ _ _ _ _ _ _ _ _ _ _ _ _ _ _ _ _ ht
    simp only [List.length_nil]
    omega

theorem fc5_decode_take (le : Bool) (input : List Nat) :
    fc5_decode le (input.take (24 * (input.length / 24))) = fc5_decode le input := by
  induction input using fc5_decode.induct le with
  | case1 a0 a1 a2 a3 d0 d1 d2 d3 e0 e1 p0 p1 pr fl l0 l1 s0 s1 s2 s3 u0 u1 u2 u3 rest ih =>
    have hlen : (a0 :: a1 :: a2 :: a3 :: d0 :: d1 :: d2 :: d3 :: e0 :: e1 :: p0 :: p1 :: pr :: fl :: l0 :: l1 :: s0 :: s1 :: s2 :: s3 :: u0 :: u1 :: u2 :: u3 :: rest).length / 24 = rest.length / 24 + 1 := by
      simp only [List.length_cons]
      omega
    have hmul : 24 * (rest.length / 24 + 1) = 24 * (rest.length / 24) + 24 := by ring
    rw [hlen, hmul]
    simp only [List.take_succ_cons]
    rw [fc5_decode, fc5_decode, ih]
  | case2 t hno =>
    have hlt : t.length < 24 := by
      by_contra hge
      obtain ⟨a0, a1, a2, a3, d0, d1, d2, d3, e0, e1, p0, p1, pr, fl, l0, l1, s0, s1, s2, s3, u0, u1, u2, u3, rest, ht⟩ := exists_block t (by omega)
      exact hno _ _ _ _ _ _ _ _ _ _ _ _ _ _ _ _ _ _ _ _ _ _ _ _ _ ht
    have h0 : t.length / 24 = 0 := by omega
    have e2 : fc5_decode le t = [] := by
      rw [fc5_decode]
      exact hno
    rw [h0, Nat.mul_zero, List.take_zero, e2]
    rfl

theorem fc5_read_loop_decode (le : Bool) (input : List Nat) :
    ∀ chain : pkt_chain_t, (chain.curr = none → chain.linked = []) →
      (fc5_read_loop le none input chain).chunks.flatMap pkt_chunk_t.contents =
        chain.chunks.flatMap pkt_chunk_t.contents ++ fc5_decode le input := by
  induction input using fc5_decode.induct le with
  | case1 a0 a1 a2 a3 d0 d1 d2 d3 e0 e1 p0 p1 pr fl l0 l1 s0 s1 s2 s3 u0 u1 u2 u3 rest ih =>
    intro chain hinv
    rw [fc5_read_loop, fc5_decode, ih _ (fun hc => absurd hc (curr_store_extend chain _ true)),
      chunks_store_extend chain _ hinv, List.append_assoc, List.singleton_append]
  | case2 t hno =>
    intro chain _
    have e1 : fc5_read_loop le none t chain = chain := by
      rw [fc5_read_loop]
      exact hno
    have e2 : fc5_decode le t = [] := by
      rw [fc5_decode]
      exact hno
    rw [e1, e2, List.append_nil]

/-- C19 (FC5 truncated input): for every byte string of length `n`,
`fc_fc5_read` without a filter returns 0 and the chain holds exactly
`n / 24` records, the ones the complete 24-byte blocks decode to; they depend
only on the first `24 * (n / 24)` bytes, so the `n % 24` trailing bytes are
ignored and are not an error. -/
theorem fc5_truncated_input (le : Bool) (input : List Nat) :
    (fc_fc5_read le input none).1 = 0 ∧
    (pcap_chain_to_chunk (fc_fc5_read le input none).2).count = input.length / 24 ∧
    pcap_chain_to_chunk (fc_fc5_read le input none).2 = { pkts := fc5_decode le input } ∧
    fc5_decode le input = fc5_decode le (input.take (24 * (input.length / 24))) ∧
    pcap_chain_to_chunk (fc_fc5_read le input none).2 =
      pcap_chain_to_chunk (fc_fc5_read le (input.take (24 * (input.length / 24))) none).2 := by
  have h : ∀ l : List Nat,
      pcap_chain_to_chunk (fc_fc5_read le l none).2 = { pkts := fc5_decode le l } := by
    intro l
    simp only [pcap_chain_to_chunk, fc_fc5_read,
      fc5_read_loop_decode le l { linked := [], curr := none } (fun _ => rfl)]
    rfl
  refine ⟨rfl, ?_, h input, (fc5_decode_take le input).symm, ?_⟩
  · rw [h input]
    exact length_fc5_decode le input
  · rw [h input, h, fc5_decode_take]

/-! ### Scanning lemmas -/

theorem isdigit_facts (c : Char) (h : isdigit c = true) :
    isspace c = false ∧ c ≠ '-' ∧ c ≠ '+' := by
  simp only [isdigit, Bool.and_eq_true, decide_eq_true_eq] at h
  refine ⟨?_, ?_, ?_⟩
  · simp only [isspace, Bool.or_eq_false_iff, decide_eq_false_iff_not, Bool.and_eq_false_imp,
      decide_eq_true_eq]
    omega
  · intro hc; subst hc; revert h; decide
  · intro hc; subst hc; revert h; decide

theorem takeWhile_digits (ds rest : List Char) (hd : all_digits ds)
    (hstop : ∀ c, rest.head? = some c → isdigit c = false) :
    (ds ++ rest).takeWhile isdigit = ds ∧ (ds ++ rest).dropWhile isdigit = rest := by
  induction ds with
  | nil =>
    cases rest with
    | nil => exact ⟨rfl, rfl⟩
    | cons c r =>
      have := hstop c rfl
      simp only [List.nil_append, List.takeWhile_cons, List.dropWhile_cons, this,
        Bool.false_eq_true, if_false, and_self]
  | cons d ds ih =>
    have hdd := hd d (List.mem_cons_self _ _)
    have := ih (fun c hc => hd c (List.mem_cons_of_mem _ hc))
    simp only [List.cons_append, List.takeWhile_cons, List.dropWhile_cons, hdd, if_true,
      this.1, this.2, and_self]

theorem skip_prefix_digit (d : Char) (t : List Char) (hd : isdigit d = true) :
    skip_sign ((d :: t).dropWhile isspace) = (false, d :: t) := by
  obtain ⟨h1, h2, h3⟩ := isdigit_facts d hd
  simp only [List.dropWhile_cons, h1, Bool.false_eq_true, if_false, skip_sign, h2, h3]

theorem skip_prefix_stop (p : List Char) (h : stops_scan p) :
    skip_sign (p.dropWhile isspace) = (false, p) := by
  cases p with
  | nil => rfl
  | cons c r =>
    obtain ⟨_, h1, h2, h3⟩ := h c rfl
    simp only [List.dropWhile_cons, h1, Bool.false_eq_true, if_false, skip_sign, h2, h3]

theorem strtol_digits (ds rest : List Char) (hd : all_digits ds) (hne : ds ≠ [])
    (hstop : ∀ c, rest.head? = some c → isdigit c = false)
    (hv : digits_value ds ≤ 9223372036854775807) :
    strtol (ds ++ rest) = ((digits_value ds : Int), rest) := by
  obtain ⟨d, t, rfl⟩ := List.exists_cons_of_ne_nil hne
  have htw := takeWhile_digits (d :: t) rest hd hstop
  unfold strtol
  simp only [List.cons_append] at htw ⊢
  rw [skip_prefix_digit d (t ++ rest) (hd d (List.mem_cons_self _ _))]
  simp only [htw.1, htw.2, reduceCtorEq, if_false, Bool.false_eq_true]
  congr 1
  omega

theorem strtol_no_digits (p : List Char) (h : stops_scan p) : strtol p = (0, p) := by
  unfold strtol
  rw [skip_prefix_stop p h]
  have : p.takeWhile isdigit = [] := by
    cases p with
    | nil => rfl
    | cons c r =>
      have := (h c rfl).1
      simp only [List.takeWhile_cons, this, Bool.false_eq_true, if_false]
  simp only [this, if_true]

theorem digits_value_nil : digits_value [] = 0 := rfl

/-- `strtol` on an optional run of digits followed by a character that stops
the scan. -/
theorem strtol_optional (ds rest : List Char) (hd : all_digits ds) (hstop : stops_scan rest)
    (hv : digits_value ds ≤ 9223372036854775807) :
    strtol (ds ++ rest) = ((digits_value ds : Int), rest) := by
  by_cases hne : ds = []
  · subst hne
    rw [List.nil_append, strtol_no_digits rest hstop]
    rfl
  · exact strtol_digits ds rest hd hne (fun c hc => (hstop c hc).1) hv

/-! ### Query compilation -/

theorem stops_scan_of_not (c : Char) (rest : List Char) (h1 : isdigit c = false)
    (h2 : isspace c = false) (h3 : c ≠ '-') (h4 : c ≠ '+') : stops_scan (c :: rest) := by
  intro d hd
  simp only [List.head?_cons, Option.some.injEq] at hd
  subst hd
  exact ⟨h1, h2, h3, h4⟩

theorem stops_scan_nil : stops_scan [] := by
  intro d hd
  simp at hd

theorem stops_scan_name (n : fc_field_name_t) (rest : List Char) :
    stops_scan (name_char n :: rest) := by
  apply stops_scan_of_not <;> cases n <;> decide

theorem stops_scan_render_query (toks : List query_token) : stops_scan (render_query toks) := by
  cases toks with
  | nil => exact stops_scan_nil
  | cons t ts => exact stops_scan_name t.name _

theorem query_step (fuel : Nat) (t : query_token) (ht : t.wf) (tail : List Char)
    (hstop : stops_scan tail) (acc : List fc_query_field_t) :
    str2query_loop (fuel + 1) (t.text ++ tail) acc =
      str2query_loop fuel tail (acc ++ [t.compile]) := by
  obtain ⟨hn, hd, hw⟩ := ht
  have hs := strtol_optional t.width tail hd hstop (by omega)
  have hname : is_query_name (name_char t.name) := by
    unfold is_query_name
    revert hn
    cases t.name <;> decide
  have hsel : (if name_char t.name = 'S' then FC_FIELD_NAME_SADDR
      else if name_char t.name = 'D' then FC_FIELD_NAME_DADDR
      else if name_char t.name = 'E' then FC_FIELD_NAME_SPORT
      else if name_char t.name = 'A' then FC_FIELD_NAME_DPORT
      else if name_char t.name = 'P' then FC_FIELD_NAME_PROTO
      else if name_char t.name = 's' then FC_FIELD_NAME_SEC
      else if name_char t.name = 'u' then FC_FIELD_NAME_USEC
      else FC_FIELD_NAME_LEN) = t.name := by
    revert hn
    cases t.name <;> decide
  have hwidth : toU32 ((digits_value t.width : Nat) : Int) % 256 = digits_value t.width := by
    simp only [toU32]; omega
  have hptr : (if tail.length ≠ (t.width ++ tail).length then tail else t.width ++ tail) =
      tail := by
    by_cases hl : tail.length ≠ (t.width ++ tail).length
    · rw [if_pos hl]
    · rw [if_neg hl]
      have : t.width.length = 0 := by
        simp only [List.length_append] at hl; omega
      rw [List.eq_nil_of_length_eq_zero this, List.nil_append]
  unfold is_query_name at hname
  simp only [query_token.text, List.cons_append, str2query_loop, if_pos hname, List.append_eq,
    hs, hsel, hwidth, hptr, query_token.compile]

theorem query_loop_compiles : ∀ (toks : List query_token) (fuel : Nat)
    (acc : List fc_query_field_t), (∀ t ∈ toks, t.wf) → (render_query toks).length < fuel →
    str2query_loop fuel (render_query toks) acc = some (0, acc ++ toks.map query_token.compile)
  | [], fuel, acc, _, hf => by
    obtain ⟨f, rfl⟩ : ∃ f, fuel = f + 1 := ⟨fuel - 1, by omega⟩
    simp [render_query, str2query_loop]
  | t :: ts, fuel, acc, hwf, hf => by
    obtain ⟨f, rfl⟩ : ∃ f, fuel = f + 1 := ⟨fuel - 1, by omega⟩
    have hr : render_query (t :: ts) = t.text ++ render_query ts := rfl
    rw [hr] at hf ⊢
    rw [query_step f t (hwf t (List.mem_cons_self _ _)) _ (stops_scan_render_query ts),
      query_loop_compiles ts f _ (fun x hx => hwf x (List.mem_cons_of_mem _ hx))
        (by simp only [List.length_append, query_token.text, List.length_cons] at hf; omega)]
    simp

theorem query_loop_rejects : ∀ (toks : List query_token) (fuel : Nat)
    (acc : List fc_query_field_t) (c : Char) (rest : List Char), (∀ t ∈ toks, t.wf) →
    ¬ is_query_name c → stops_scan (c :: rest) →
    (render_query toks ++ c :: rest).length < fuel →
    str2query_loop fuel (render_query toks ++ c :: rest) acc = some (-1, [])
  | [], fuel, acc, c, rest, _, hc, _, hf => by
    obtain ⟨f, rfl⟩ : ∃ f, fuel = f + 1 := ⟨fuel - 1, by omega⟩
    unfold is_query_name at hc
    simp only [render_query, List.flatMap_nil, List.nil_append, str2query_loop, if_neg hc]
  | t :: ts, fuel, acc, c, rest, hwf, hc, hs, hf => by
    obtain ⟨f, rfl⟩ : ∃ f, fuel = f + 1 := ⟨fuel - 1, by omega⟩
    have hr : render_query (t :: ts) ++ c :: rest = t.text ++ (render_query ts ++ c :: rest) := by
      simp [render_query]
    have hstop : stops_scan (render_query ts ++ c :: rest) := by
      cases ts with
      | nil => exact hs
      | cons t2 ts2 => exact stops_scan_name t2.name _
    rw [hr] at hf ⊢
    rw [query_step f t (hwf t (List.mem_cons_self _ _)) _ hstop,
      query_loop_rejects ts f _ c rest (fun x hx => hwf x (List.mem_cons_of_mem _ hx)) hc hs
        (by simp only [List.length_append, query_token.text, List.length_cons] at hf ⊢; omega)]

theorem fc_str2query_accepts (toks : List query_token) (q : fc_query_t)
    (hwf : ∀ t ∈ toks, t.wf) :
    (fc_str2query (render_query toks) q).map (fun r => (r.1, r.2.fields)) =
      some (0, toks.map query_token.compile) := by
  unfold fc_str2query
  rw [query_loop_compiles toks _ [] hwf (Nat.lt_succ_self _)]
  rfl

theorem fc_str2query_rejects (toks : List query_token) (q : fc_query_t)
    (hwf : ∀ t ∈ toks, t.wf) (c : Char) (rest : List Char) (hc : ¬ is_query_name c)
    (hs : stops_scan (c :: rest)) :
    (fc_str2query (render_query toks ++ c :: rest) q).map (fun r => r.1) = some (-1) := by
  unfold fc_str2query
  rw [query_loop_rejects toks _ [] c rest hwf hc hs (Nat.lt_succ_self _)]
  rfl

/-- C14 (query compilation), counterexample: in `D 24P` the token after `D`
starts with a space, a character that is not a name, yet `fc_str2query`
returns 0 with the fields `(D, 24), (P, 0)`: `strtol` skips the white space
and reads 24 as the width of `D`. -/
theorem fc_str2query_counterexample :
    (fc_str2query "D 24P".toList default).map (fun r => (r.1, r.2.fields)) =
      some (0, [{ name := FC_FIELD_NAME_DADDR, width := 24 },
                { name := FC_FIELD_NAME_PROTO, width := 0 }]) ∧
    ¬ is_query_name ' ' := by
  decide

/-- C14 (query compilation), amended: for every string made of 1 to 16 adjacent
tokens `NAME[WIDTH]` with `NAME` in {S, D, E, A, P, s, u, L} and `WIDTH` absent
or a decimal in `[0, 32]`, `fc_str2query` returns 0 with `n_fields` the number
of tokens and the fields `(name, width)` in the order written, width 0 when
absent (`PAD24` gives `(P, 0), (A, 0), (D, 24)`); when such tokens (or none)
are followed by a character that is not a name and is neither a digit, white
space nor a sign (such as `F`), it returns -1. -/
theorem fc_str2query_compiles (toks : List query_token) (q : fc_query_t)
    (h1 : 1 ≤ toks.length) (h16 : toks.length ≤ 16) (hwf : ∀ t ∈ toks, t.wf) :
    (fc_str2query (render_query toks) q).map (fun r => (r.1, r.2.fields)) =
      some (0, toks.map query_token.compile) ∧
    (toks.map query_token.compile).length = toks.length ∧
    (∀ (c : Char) (rest : List Char), ¬ is_query_name c → stops_scan (c :: rest) →
      (fc_str2query (render_query toks ++ c :: rest) q).map (fun r => r.1) = some (-1) ∧
      (fc_str2query (c :: rest) q).map (fun r => r.1) = some (-1)) ∧
    (fc_str2query "PAD24".toList q).map (fun r => (r.1, r.2.fields)) =
      some (0, [{ name := FC_FIELD_NAME_PROTO, width := 0 },
                { name := FC_FIELD_NAME_DPORT, width := 0 },
                { name := FC_FIELD_NAME_DADDR, width := 24 }]) ∧
    (fc_str2query "PF".toList q).map (fun r => r.1) = some (-1) := by
  refine ⟨fc_str2query_accepts toks q hwf, List.length_map _ _, ?_, ?_, ?_⟩
  · intro c rest hc hs
    exact ⟨fc_str2query_rejects toks q hwf c rest hc hs,
      fc_str2query_rejects [] q (fun _ h => absurd h (List.not_mem_nil _)) c rest hc hs⟩
  · exact fc_str2query_accepts [⟨FC_FIELD_NAME_PROTO, []⟩, ⟨FC_FIELD_NAME_DPORT, []⟩,
      ⟨FC_FIELD_NAME_DADDR, ['2', '4']⟩] q (by decide)
  · exact fc_str2query_rejects [⟨FC_FIELD_NAME_PROTO, []⟩] q (by decide) 'F' [] (by decide)
      (stops_scan_of_not _ _ (by decide) (by decide) (by decide) (by decide))

/-- Witness for C14 (amended): the query `S24P`. -/
theorem fc_str2query_compiles_witness :
    (1 ≤ tokens_S24P.length ∧ tokens_S24P.length ≤ 16 ∧ (∀ t ∈ tokens_S24P, t.wf) ∧
      render_query tokens_S24P = "S24P".toList) ∧
    ((fc_str2query (render_query tokens_S24P) default).map (fun r => (r.1, r.2.fields)) =
      some (0, tokens_S24P.map query_token.compile) ∧
    (tokens_S24P.map query_token.compile).length = tokens_S24P.length ∧
    (∀ (c : Char) (rest : List Char), ¬ is_query_name c → stops_scan (c :: rest) →
      (fc_str2query (render_query tokens_S24P ++ c :: rest) default).map (fun r => r.1) =
        some (-1) ∧
      (fc_str2query (c :: rest) default).map (fun r => r.1) = some (-1)) ∧
    (fc_str2query "PAD24".toList default).map (fun r => (r.1, r.2.fields)) =
      some (0, [{ name := FC_FIELD_NAME_PROTO, width := 0 },
                { name := FC_FIELD_NAME_DPORT, width := 0 },
                { name := FC_FIELD_NAME_DADDR, width := 24 }]) ∧
    (fc_str2query "PF".toList default).map (fun r => r.1) = some (-1)) :=
  ⟨by decide,
   fc_str2query_compiles tokens_S24P default (by decide) (by decide) (by decide)⟩

/-! ### Filter compilation -/

/-- C13 (filter grammar errors): the claim fails on the code.  `fc_str2filter`
returns 0 for `P=` (missing value: `strtol` converts nothing and the field
gets the value 0), for `P=6/` (trailing `/`: the loop ends at the NUL) and for
`S40=1.2.3.4` (width 40 is stored unchecked).  An unknown name and a missing
`=` are rejected with -1, as is `S=` in the address branch. -/
theorem fc_str2filter_accepts_bad_input :
    fc_str2filter "P=".toList =
      some (0, { fields := [{ name := FC_FIELD_NAME_PROTO, width := 0, value := 0 }] }) ∧
    fc_str2filter "P=6/".toList =
      some (0, { fields := [{ name := FC_FIELD_NAME_PROTO, width := 0, value := 6 }] }) ∧
    fc_str2filter "S40=1.2.3.4".toList =
      some (0, { fields := [{ name := FC_FIELD_NAME_SADDR, width := 40, value := 16909060 }] }) ∧
    (fc_str2filter "X=1".toList).map (fun r => r.1) = some (-1) ∧
    (fc_str2filter "P6".toList).map (fun r => r.1) = some (-1) ∧
    (fc_str2filter "S=".toList).map (fun r => r.1) = some (-1) := by
  decide

theorem scan_hhu_digits (ds rest : List Char) (hd : digits_upto 255 ds)
    (hstop : ∀ c, rest.head? = some c → isdigit c = false) :
    scan_hhu (ds ++ rest) = some (digits_value ds, rest) := by
  obtain ⟨hall, hne, hv⟩ := hd
  obtain ⟨d, t, rfl⟩ := List.exists_cons_of_ne_nil hne
  have htw := takeWhile_digits (d :: t) rest hall hstop
  unfold scan_hhu
  simp only [List.cons_append] at htw ⊢
  rw [skip_prefix_digit d (t ++ rest) (hall d (List.mem_cons_self _ _))]
  simp only [htw.1, htw.2, reduceCtorEq, if_false, Bool.false_eq_true, Option.some.injEq,
    Prod.mk.injEq, and_true, ulong_value]
  rw [if_neg (by omega)]
  omega

theorem dot_stops (rest : List Char) : ∀ c, ('.' :: rest).head? = some c → isdigit c = false := by
  intro c hc
  simp only [List.head?_cons, Option.some.injEq] at hc
  subst hc
  decide

theorem sscanf_quad_text (o3 o2 o1 o0 tail : List Char) (h3 : digits_upto 255 o3)
    (h2 : digits_upto 255 o2) (h1 : digits_upto 255 o1) (h0 : digits_upto 255 o0)
    (hstop : ∀ c, tail.head? = some c → isdigit c = false) :
    sscanf_quad (o3 ++ '.' :: (o2 ++ '.' :: (o1 ++ '.' :: (o0 ++ tail)))) =
      some (digits_value o3, digits_value o2, digits_value o1, digits_value o0, tail) := by
  unfold sscanf_quad
  simp only [scan_hhu_digits o3 _ h3 (dot_stops _), scan_hhu_digits o2 _ h2 (dot_stops _),
    scan_hhu_digits o1 _ h1 (dot_stops _), scan_hhu_digits o0 _ h0 hstop, Option.some_bind,
    scan_lit, if_true]

theorem quad_value (b3 b2 b1 b0 : Nat) (h3 : b3 ≤ 255) (h2 : b2 ≤ 255) (h1 : b1 ≤ 255)
    (h0 : b0 ≤ 255) :
    (b3 <<< 24 ||| b2 <<< 16 ||| b1 <<< 8 ||| b0) % 4294967296 =
      b3 * 16777216 + b2 * 65536 + b1 * 256 + b0 := by
  have e0 : 2 ^ 8 * (b3 * 65536 + b2 * 256 + b1) + b0 =
      2 ^ 8 * (b3 * 65536 + b2 * 256 + b1) ||| b0 :=
    Nat.mul_add_lt_is_or (by omega) _
  have e1 : 2 ^ 16 * (b3 * 256 + b2) + b1 * 256 = 2 ^ 16 * (b3 * 256 + b2) ||| b1 * 256 :=
    Nat.mul_add_lt_is_or (by omega) _
  have e2 : 2 ^ 24 * b3 + b2 * 65536 = 2 ^ 24 * b3 ||| b2 * 65536 :=
    Nat.mul_add_lt_is_or (by omega) _
  have s3 : b3 <<< 24 = 2 ^ 24 * b3 := by rw [Nat.shiftLeft_eq]; ring
  have s2 : b2 <<< 16 = b2 * 65536 := by rw [Nat.shiftLeft_eq]
  have s1 : b1 <<< 8 = b1 * 256 := by rw [Nat.shiftLeft_eq]
  have r2 : 2 ^ 24 * b3 + b2 * 65536 = 2 ^ 16 * (b3 * 256 + b2) := by ring
  have r1 : 2 ^ 16 * (b3 * 256 + b2) + b1 * 256 = 2 ^ 8 * (b3 * 65536 + b2 * 256 + b1) := by
    ring
  rw [s3, s2, s1, ← e2, r2, ← e1, r1, ← e0]
  omega

theorem width_field (width : List Char) (hw : digits_value width ≤ 32) :
    toU32 ((digits_value width : Nat) : Int) % 256 = digits_value width := by
  simp only [toU32]; omega

theorem eq_stops (rest : List Char) : stops_scan ('=' :: rest) :=
  stops_scan_of_not _ _ (by decide) (by decide) (by decide) (by decide)

theorem filter_step_addr (f : Nat) (src : Bool) (width o3 o2 o1 o0 tail : List Char)
    (ht : (filter_token.addr src width o3 o2 o1 o0).wf)
    (hstop : ∀ c, tail.head? = some c → isdigit c = false) (acc : List fc_filter_field_t) :
    str2filter_loop (f + 1) ((filter_token.addr src width o3 o2 o1 o0).text ++ tail) acc =
      filter_field_end tail (acc ++ [(filter_token.addr src width o3 o2 o1 o0).compile])
        (fun s => str2filter_loop f s
          (acc ++ [(filter_token.addr src width o3 o2 o1 o0).compile])) := by
  obtain ⟨hd, hw, h3, h2, h1, h0⟩ := ht
  have htext : (filter_token.addr src width o3 o2 o1 o0).text ++ tail =
      (if src then 'S' else 'D') ::
        (width ++ '=' :: (o3 ++ '.' :: (o2 ++ '.' :: (o1 ++ '.' :: (o0 ++ tail))))) := by
    simp only [filter_token.text, List.cons_append, List.append_assoc]
  have hs := strtol_optional width
    ('=' :: (o3 ++ '.' :: (o2 ++ '.' :: (o1 ++ '.' :: (o0 ++ tail))))) hd (eq_stops _) (by omega)
  have hq := sscanf_quad_text o3 o2 o1 o0 tail h3 h2 h1 h0 hstop
  have hv := quad_value (digits_value o3) (digits_value o2) (digits_value o1) (digits_value o0)
    h3.2.2 h2.2.2 h1.2.2 h0.2.2
  rw [htext]
  cases src
  · simp only [Bool.false_eq_true, if_false, str2filter_loop, List.append_eq, hs, deref,
      List.head?_cons, List.tail_cons, hq, hv, width_field width hw, filter_token.compile,
      ne_eq, not_true_eq_false, reduceCtorEq, Char.reduceEq, or_true, true_or, if_true]
  · simp only [if_true, if_false, str2filter_loop, List.append_eq, hs, deref,
      List.head?_cons, List.tail_cons, hq, hv, width_field width hw, filter_token.compile,
      ne_eq, not_true_eq_false, reduceCtorEq, Char.reduceEq, or_true, true_or]

theorem filter_step_num (f : Nat) (name : fc_field_name_t) (width value tail : List Char)
    (ht : (filter_token.num name width value).wf)
    (hstop : ∀ c, tail.head? = some c → isdigit c = false) (acc : List fc_filter_field_t) :
    str2filter_loop (f + 1) ((filter_token.num name width value).text ++ tail) acc =
      filter_field_end tail (acc ++ [(filter_token.num name width value).compile])
        (fun s => str2filter_loop f s
          (acc ++ [(filter_token.num name width value).compile])) := by
  obtain ⟨hn, hd, hw, hvd, hvne, hvv⟩ := ht
  have htext : (filter_token.num name width value).text ++ tail =
      name_char name :: (width ++ '=' :: (value ++ tail)) := by
    simp only [filter_token.text, List.cons_append, List.append_assoc]
  have hs := strtol_optional width ('=' :: (value ++ tail)) hd (eq_stops _) (by omega)
  have hval := strtol_digits value tail hvd hvne hstop (by omega)
  have hu : toU32 ((digits_value value : Nat) : Int) = digits_value value := by
    simp only [toU32]; omega
  have hptr : (if tail.length + 1 ≠ (value ++ tail).length then tail else (value ++ tail).tail) =
      tail := by
    by_cases hl : tail.length + 1 ≠ (value ++ tail).length
    · rw [if_pos hl]
    · rw [if_neg hl]
      obtain ⟨d, t, rfl⟩ := List.exists_cons_of_ne_nil hvne
      have : t.length = 0 := by
        simp only [List.length_append, List.length_cons] at hl; omega
      rw [List.eq_nil_of_length_eq_zero this]
      rfl
  rw [htext]
  rcases hn with h | h | h | h <;> subst h <;>
    simp only [name_char, str2filter_loop, List.append_eq, hs, deref, List.head?_cons,
      List.tail_cons, hval, hu, hptr, width_field width hw, filter_token.compile, ne_eq,
      not_true_eq_false, reduceCtorEq, Char.reduceEq, or_true, true_or, or_false, false_or,
      if_true, if_false]

theorem filter_step (f : Nat) (t : filter_token) (tail : List Char) (ht : t.wf)
    (hstop : ∀ c, tail.head? = some c → isdigit c = false) (acc : List fc_filter_field_t) :
    str2filter_loop (f + 1) (t.text ++ tail) acc =
      filter_field_end tail (acc ++ [t.compile])
        (fun s => str2filter_loop f s (acc ++ [t.compile])) := by
  cases t with
  | addr src width o3 o2 o1 o0 => exact filter_step_addr f src width o3 o2 o1 o0 tail ht hstop acc
  | num name width value => exact filter_step_num f name width value tail ht hstop acc

theorem length_text_pos (t : filter_token) : 0 < t.text.length := by
  cases t <;> simp [filter_token.text]

theorem filter_loop_compiles : ∀ (toks : List filter_token) (fuel : Nat)
    (acc : List fc_filter_field_t), (∀ t ∈ toks, t.wf) → (render_filter toks).length < fuel →
    str2filter_loop fuel (render_filter toks) acc =
      some (0, { fields := acc ++ toks.map filter_token.compile })
  | [], fuel, acc, _, hf => by
    obtain ⟨f, rfl⟩ : ∃ f, fuel = f + 1 := ⟨fuel - 1, by omega⟩
    simp [render_filter, str2filter_loop]
  | [t], fuel, acc, hwf, hf => by
    obtain ⟨f, rfl⟩ : ∃ f, fuel = f + 1 := ⟨fuel - 1, by omega⟩
    have h := filter_step f t [] (hwf t (List.mem_cons_self _ _))
      (fun c hc => by simp at hc) acc
    rw [List.append_nil] at h
    rw [render_filter, h]
    rfl
  | t :: t2 :: ts, fuel, acc, hwf, hf => by
    obtain ⟨f, rfl⟩ : ∃ f, fuel = f + 1 := ⟨fuel - 1, by omega⟩
    have h := filter_step f t ('/' :: render_filter (t2 :: ts)) (hwf t (List.mem_cons_self _ _))
      (fun c hc => by
        simp only [List.head?_cons, Option.some.injEq] at hc
        subst hc; decide) acc
    rw [render_filter] at hf ⊢
    rw [h]
    simp only [filter_field_end, if_true]
    rw [filter_loop_compiles (t2 :: ts) f _ (fun x hx => hwf x (List.mem_cons_of_mem _ hx))
      (by simp only [List.length_append, List.length_cons] at hf; omega)]
    simp

theorem width_mask_eq_mul (w : Nat) (h1 : 1 ≤ w) (h2 : w ≤ 32) :
    width_mask w = 2 ^ (32 - w) * (2 ^ w - 1) := by
  interval_cases w <;> rfl

/-- Masking a 32-bit value to a prefix of `w` bits clears its low `32 - w` bits. -/
theorem and_width_mask (w x : Nat) (h1 : 1 ≤ w) (h2 : w ≤ 32) (hx : x < 4294967296) :
    x &&& width_mask w = 2 ^ (32 - w) * (x / 2 ^ (32 - w)) := by
  rw [width_mask_eq_mul w h1 h2]
  apply Nat.eq_of_testBit_eq
  intro i
  rw [Nat.testBit_and, Nat.testBit_mul_pow_two, Nat.testBit_mul_pow_two,
    Nat.testBit_two_pow_sub_one, ← Nat.shiftRight_eq_div_pow, Nat.testBit_shiftRight]
  by_cases hi : i ≥ 32 - w
  · have e : 32 - w + (i - (32 - w)) = i := by omega
    rw [e]
    by_cases hlt : i - (32 - w) < w
    · simp [hi, hlt]
    · have hx2 : x < 2 ^ i :=
        Nat.lt_of_lt_of_le hx (Nat.pow_le_pow_right (n := 2) (by decide) (by omega : 32 ≤ i))
      simp [hi, hlt, Nat.testBit_lt_two_pow hx2]
  · simp [hi]

theorem apply_width_eq_iff (w x v : Nat) (h1 : 1 ≤ w) (h2 : w ≤ 32) (hx : x < 4294967296)
    (hv : v < 4294967296) :
    apply_width w x = apply_width w v ↔ x / 2 ^ (32 - w) = v / 2 ^ (32 - w) := by
  have hw : w > 0 := by omega
  simp only [apply_width, if_pos hw, and_width_mask w x h1 h2 hx, and_width_mask w v h1 h2 hv]
  constructor
  · intro h
    exact Nat.eq_of_mul_eq_mul_left (Nat.two_pow_pos _) h
  · intro h
    rw [h]

theorem filter_S24_D24_P_matches (pkt : fc_pkt_t) (hp : pkt.wf) :
    fc_filter_pkt pkt filter_S24_D24_P = 1 ↔
      pkt.saddr / 256 = 65793 ∧ pkt.daddr / 256 = 131586 ∧ pkt.proto = 6 := by
  have hs := apply_width_eq_iff 24 pkt.saddr 16843008 (by decide) (by decide) hp.1 (by decide)
  have hd := apply_width_eq_iff 24 pkt.daddr 33686016 (by decide) (by decide) hp.2.1
    (by decide)
  have hpr : ∀ x v : Nat, apply_width 0 x = apply_width 0 v ↔ x = v := by
    intro x v
    simp [apply_width]
  simp only [fc_filter_pkt, filter_S24_D24_P, filter_fields, fetch_field, ne_eq]
  by_cases h1 : apply_width 24 pkt.saddr = apply_width 24 16843008
  · by_cases h2 : apply_width 24 pkt.daddr = apply_width 24 33686016
    · by_cases h3 : apply_width 0 pkt.proto = apply_width 0 6
      · have a := hs.mp h1
        have b := hd.mp h2
        have c := (hpr _ _).mp h3
        simp only [h1, h2, h3, not_true_eq_false, if_false, true_iff]
        norm_num at a b
        exact ⟨a, b, c⟩
      · simp only [h1, h2, h3, not_true_eq_false, not_false_eq_true, if_false, if_true]
        constructor
        · intro h; exact absurd h (by decide)
        · intro h; exact absurd ((hpr _ _).mpr h.2.2) h3
    · simp only [h1, h2, not_true_eq_false, not_false_eq_true, if_false, if_true]
      constructor
      · intro h; exact absurd h (by decide)
      · intro h
        refine absurd (hd.mpr ?_) h2
        norm_num
        exact h.2.1
  · simp only [h1, not_false_eq_true, if_true]
    constructor
    · intro h; exact absurd h (by decide)
    · intro h
      refine absurd (hs.mpr ?_) h1
      norm_num
      exact h.1

/-- C12 (filter compilation): for every text `FIELD ('/' FIELD)*` of 1 to 16
fields of the grammar (width absent or a decimal in `[0, 32]`, a dotted quad
with octets at most 255 for S and D, a decimal below `2 ^ 32` for E, A, P, s),
`fc_str2filter` returns 0 and yields exactly those fields in order, width 0
when absent and value `a * 2^24 + b * 2^16 + c * 2^8 + d` for `a.b.c.d`;
`S24=1.1.1.0/D24=2.2.2.0/P=6` accepts exactly the records from 1.1.1.0/24 to
2.2.2.0/24 with protocol 6, and `S8=10.0.0.0` keeps 10.1.2.3 and drops
11.0.0.0. -/
theorem fc_str2filter_compiles (toks : List filter_token) (h1 : toks ≠ [])
    (h16 : toks.length ≤ 16) (hwf : ∀ t ∈ toks, t.wf) :
    fc_str2filter (render_filter toks) =
      some (0, { fields := toks.map filter_token.compile }) ∧
    fc_str2filter "S24=1.1.1.0/D24=2.2.2.0/P=6".toList = some (0, filter_S24_D24_P) ∧
    (∀ pkt : fc_pkt_t, pkt.wf →
      (fc_filter_pkt pkt filter_S24_D24_P = 1 ↔
        pkt.saddr / 256 = 65793 ∧ pkt.daddr / 256 = 131586 ∧ pkt.proto = 6)) ∧
    fc_str2filter "S8=10.0.0.0".toList =
      some (0, one_field_filter FC_FIELD_NAME_SADDR 8 167772160) ∧
    fc_filter_pkt (mk_pkt 167838211 6 0) (one_field_filter FC_FIELD_NAME_SADDR 8 167772160) = 1 ∧
    fc_filter_pkt (mk_pkt 184549376 6 0) (one_field_filter FC_FIELD_NAME_SADDR 8 167772160) = 0 := by
  refine ⟨?_, by decide, filter_S24_D24_P_matches, by decide, by decide, by decide⟩
  unfold fc_str2filter
  rw [filter_loop_compiles toks _ [] hwf (Nat.lt_succ_self _)]
  rfl

/-- Witness for C12: the filter text `S24=1.1.1.0/P=6`. -/
theorem fc_str2filter_compiles_witness :
    (tokens_S24_P ≠ [] ∧ tokens_S24_P.length ≤ 16 ∧ (∀ t ∈ tokens_S24_P, t.wf) ∧
      render_filter tokens_S24_P = "S24=1.1.1.0/P=6".toList) ∧
    (fc_str2filter (render_filter tokens_S24_P) =
      some (0, { fields := tokens_S24_P.map filter_token.compile }) ∧
    fc_str2filter "S24=1.1.1.0/D24=2.2.2.0/P=6".toList = some (0, filter_S24_D24_P) ∧
    (∀ pkt : fc_pkt_t, pkt.wf →
      (fc_filter_pkt pkt filter_S24_D24_P = 1 ↔
        pkt.saddr / 256 = 65793 ∧ pkt.daddr / 256 = 131586 ∧ pkt.proto = 6)) ∧
    fc_str2filter "S8=10.0.0.0".toList =
      some (0, one_field_filter FC_FIELD_NAME_SADDR 8 167772160) ∧
    fc_filter_pkt (mk_pkt 167838211 6 0) (one_field_filter FC_FIELD_NAME_SADDR 8 167772160) = 1 ∧
    fc_filter_pkt (mk_pkt 184549376 6 0) (one_field_filter FC_FIELD_NAME_SADDR 8 167772160) =
      0) :=
  ⟨by decide, fc_str2filter_compiles tokens_S24_P (by decide) (by decide) (by decide)⟩

/-! ### The CSV reader -/

theorem strtol_csv_int (n : csv_int) (rest : List Char) (hwf : n.wf) (hfits : n.fits)
    (hstop : ∀ c, rest.head? = some c → isdigit c = false) :
    strtol (n.text ++ rest) = (n.value, rest) := by
  obtain ⟨neg, ds⟩ := n
  obtain ⟨hne, hd⟩ := hwf
  obtain ⟨hlo, hhi⟩ := hfits
  cases neg with
  | false =>
    simp only [csv_int.value, csv_int.text, Bool.false_eq_true, if_false] at hlo hhi ⊢
    exact strtol_digits ds rest hd hne hstop (by omega)
  | true =>
    simp only [csv_int.value, csv_int.text, if_true] at hlo hhi ⊢
    have htw := takeWhile_digits ds rest hd hstop
    have hsp : isspace '-' = false := by decide
    have hds : ds ≠ [] := hne
    unfold strtol
    simp only [List.cons_append, List.dropWhile_cons, hsp, Bool.false_eq_true, if_false,
      skip_sign, if_true, htw.1, htw.2, hds]
    congr 1
    omega

theorem strchr_plain (f rest : List Char) (hf : plain_field f) :
    strchr ',' (f ++ ',' :: rest) = some (',' :: rest) := by
  induction f with
  | nil => simp only [List.nil_append, strchr, if_true]
  | cons c f ih =>
    have hc := (hf c (List.mem_cons_self _ _)).1
    simp only [List.cons_append, strchr, hc, if_false]
    exact ih (fun x hx => hf x (List.mem_cons_of_mem _ hx))

theorem strtod_end_fraction (frac rest : List Char) (c : Char) (hne : frac ≠ [])
    (hd : all_digits frac) (hc : c = ',' ∨ c = '\n') :
    strtod_end ('.' :: (frac ++ c :: rest)) = c :: rest := by
  have hcd : isdigit c = false := by rcases hc with h | h <;> subst h <;> decide
  have hce : ¬ (c = 'e' ∨ c = 'E') := by rcases hc with h | h <;> subst h <;> decide
  have htw := takeWhile_digits frac (c :: rest) hd (by
    intro x hx
    simp only [List.head?_cons, Option.some.injEq] at hx
    subst hx
    exact hcd)
  have h1 : isspace '.' = false := by decide
  have h2 : isdigit '.' = false := by decide
  have h3 : ¬ ('.' = '-') := by decide
  have h4 : ¬ ('.' = '+') := by decide
  unfold strtod_end
  simp only [List.dropWhile_cons, h1, Bool.false_eq_true, if_false, skip_sign, h3, h4,
    List.takeWhile_cons, h2, scan_lit, if_true, htw.1, htw.2, hne, and_false, hce]

theorem fgets_chars_line (body rest : List Char) (hb : ∀ c ∈ body, c ≠ '\n') :
    ∀ room, body.length < room →
      fgets_chars room (body ++ '\n' :: rest) = (body ++ ['\n'], rest) := by
  induction body with
  | nil =>
    intro room h
    obtain ⟨k, rfl⟩ : ∃ k, room = k + 1 := ⟨room - 1, by simp only [List.length_nil] at h; omega⟩
    simp only [List.nil_append, fgets_chars, if_true]
  | cons c body ih =>
    intro room h
    obtain ⟨k, rfl⟩ : ∃ k, room = k + 1 := ⟨room - 1, by omega⟩
    have hc := hb c (List.mem_cons_self _ _)
    have := ih (fun x hx => hb x (List.mem_cons_of_mem _ hx)) k
      (by simp only [List.length_cons] at h; omega)
    simp only [List.cons_append, fgets_chars, hc, if_false, List.append_eq, this, List.cons]

theorem c_string_of_no_nul (t : List Char) (h : ∀ c ∈ t, c ≠ '\x00') : c_string t = t := by
  unfold c_string
  rw [List.takeWhile_eq_self_iff]
  intro c hc
  simpa using h c hc

theorem c_bytes_no_nul (t : List Char) (h : c_bytes t) : ∀ c ∈ t, c ≠ '\x00' := by
  intro c hc hce
  have := (h c hc).1
  subst hce
  revert this
  decide

theorem fgets_line (body rest : List Char) (hb : ∀ c ∈ body, c ≠ '\n') (n : Nat)
    (hroom : body.length + 1 < n) :
    fgets n (body ++ '\n' :: rest) = some (c_string (body ++ ['\n']), rest) := by
  have hne : body ++ '\n' :: rest ≠ [] := by
    cases body <;> simp
  unfold fgets
  rw [if_neg hne, fgets_chars_line body rest hb _ (by omega)]

theorem csv_int_no_newline (n : csv_int) (hwf : n.wf) : ∀ c ∈ n.text, c ≠ '\n' := by
  intro c hc
  have hdig : ∀ x ∈ n.digits, x ≠ '\n' := by
    intro x hx hxe
    have := hwf.2 x hx
    subst hxe
    revert this
    decide
  unfold csv_int.text at hc
  by_cases hn : n.neg = true
  · rw [if_pos hn] at hc
    rcases List.mem_cons.mp hc with h | h
    · subst h; decide
    · exact hdig c h
  · rw [if_neg hn] at hc
    exact hdig c hc

theorem comma_stops : ∀ (rest : List Char) (c : Char),
    (',' :: rest).head? = some c → isdigit c = false := by
  intro rest c hc
  simp only [List.head?_cons, Option.some.injEq] at hc
  subst hc
  decide

theorem dot_stops_digits : ∀ (rest : List Char) (c : Char),
    ('.' :: rest).head? = some c → isdigit c = false := by
  intro rest c hc
  simp only [List.head?_cons, Option.some.injEq] at hc
  subst hc
  decide

theorem csv_row_fraction_end (r : csv_row) :
    ∃ c rest, (c = ',' ∨ c = '\n') ∧ r.fraction = '.' :: (r.frac ++ c :: rest) := by
  unfold csv_row.fraction
  cases r.more with
  | none => exact ⟨'\n', [], Or.inr rfl, rfl⟩
  | some m => exact ⟨',', m ++ ['\n'], Or.inl rfl, rfl⟩

theorem csv_skip_fields_succ (n : Nat) (f rest : List Char) (hf : plain_field f) :
    csv_skip_fields (n + 1) (',' :: (f ++ ',' :: rest)) = csv_skip_fields n (',' :: rest) := by
  rw [csv_skip_fields, List.tail_cons, strchr_plain f rest hf]
  simp [deref]

theorem csv_skip_fields_three (f1 f2 f3 rest : List Char) (h1 : plain_field f1)
    (h2 : plain_field f2) (h3 : plain_field f3) :
    csv_skip_fields 3 (',' :: (f1 ++ ',' :: (f2 ++ ',' :: (f3 ++ ',' :: rest)))) =
      .ok (',' :: rest) := by
  rw [csv_skip_fields_succ 2 f1 _ h1, csv_skip_fields_succ 1 f2 _ h2,
    csv_skip_fields_succ 0 f3 _ h3, csv_skip_fields]

theorem csv_parse_line_row (usec : List Char → Nat) (r : csv_row) (hwf : r.wf)
    (hfits : r.fits) : csv_parse_line usec r.text = .ok (r.record usec) := by
  unfold csv_row.wf at hwf
  unfold csv_row.fits at hfits
  obtain ⟨w1, w2, w3, w4, w5, w6, w7, g1, g2, g3, w8, hne, hd, _⟩ := hwf
  obtain ⟨b1, b2, b3, b4, b5, b6, b7, b8⟩ := hfits
  obtain ⟨c, rest, hc, hfr⟩ := csv_row_fraction_end r
  have e1 := fun t => strtol_csv_int r.s (',' :: t) w1 b1 (comma_stops t)
  have e2 := fun t => strtol_csv_int r.d (',' :: t) w2 b2 (comma_stops t)
  have e3 := fun t => strtol_csv_int r.p (',' :: t) w3 b3 (comma_stops t)
  have e4 := fun t => strtol_csv_int r.sp (',' :: t) w4 b4 (comma_stops t)
  have e5 := fun t => strtol_csv_int r.dp (',' :: t) w5 b5 (comma_stops t)
  have e6 := fun t => strtol_csv_int r.x (',' :: t) w6 b6 (comma_stops t)
  have e7 := fun t => strtol_csv_int r.len (',' :: t) w7 b7 (comma_stops t)
  have e8 := fun t => strtol_csv_int r.sec ('.' :: t) w8 b8 (dot_stops_digits t)
  have k := fun t => csv_skip_fields_three r.f1 r.f2 r.f3 t g1 g2 g3
  have hsd := strtod_end_fraction r.frac rest c hne hd hc
  have hend : ¬ (deref (c :: rest) ≠ some ',' ∧ deref (c :: rest) ≠ some '\n') := by
    rcases hc with h | h <;> subst h <;> simp [deref]
  have hdot : ¬ (deref ('.' :: (r.frac ++ c :: rest)) ≠ some '.') := by simp [deref]
  have hcomma : ∀ t : List Char, ¬ (deref (',' :: t) ≠ some ',') := by intro t; simp [deref]
  unfold csv_parse_line
  rw [csv_row.text, hfr]
  simp only [e1, e2, e3, e4, e5, e6, e7, hcomma, List.tail_cons, if_false]
  rw [csv_parse_tail, k]
  simp only [e8, hsd, List.tail_cons, if_false, hend, hdot]
  simp only [csv_row.record, hfr, toU32, toI32, csv_scan.ok.injEq, fc_pkt_t.mk.injEq,
    fc_timeval_t.mk.injEq, true_and, and_true]
  refine ⟨?_, ?_, ?_, ?_, ?_⟩ <;> omega

theorem no_newline_append (a b : List Char) (ha : ∀ c ∈ a, c ≠ '\n')
    (hb : ∀ c ∈ b, c ≠ '\n') : ∀ c ∈ a ++ b, c ≠ '\n' := by
  intro c hc
  rcases List.mem_append.mp hc with h | h
  · exact ha c h
  · exact hb c h

theorem no_newline_cons (x : Char) (b : List Char) (hx : x ≠ '\n')
    (hb : ∀ c ∈ b, c ≠ '\n') : ∀ c ∈ x :: b, c ≠ '\n' := by
  intro c hc
  rcases List.mem_cons.mp hc with h | h
  · subst h; exact hx
  · exact hb c h

theorem digits_no_newline (ds : List Char) (hd : all_digits ds) : ∀ c ∈ ds, c ≠ '\n' := by
  intro c hc hce
  have := hd c hc
  subst hce
  revert this
  decide

theorem plain_no_newline (f : List Char) (hf : plain_field f) : ∀ c ∈ f, c ≠ '\n' :=
  fun c hc => (hf c hc).2

theorem csv_row_line (r : csv_row) (hwf : r.wf) :
    ∃ body, r.text = body ++ ['\n'] ∧ ∀ c ∈ body, c ≠ '\n' := by
  unfold csv_row.wf at hwf
  obtain ⟨w1, w2, w3, w4, w5, w6, w7, g1, g2, g3, w8, _, hd, hmore⟩ := hwf
  obtain ⟨tail, hfr, htail⟩ : ∃ tail, r.fraction = '.' :: (r.frac ++ (tail ++ ['\n'])) ∧
      ∀ c ∈ tail, c ≠ '\n' := by
    unfold csv_row.fraction
    rcases hm : r.more with _ | m
    · exact ⟨[], rfl, by intro c hc; cases hc⟩
    · rw [hm] at hmore
      exact ⟨',' :: m, rfl, no_newline_cons _ _ (by decide) hmore⟩
  refine ⟨r.s.text ++ ',' :: (r.d.text ++ ',' :: (r.p.text ++ ',' :: (r.sp.text ++ ',' ::
    (r.dp.text ++ ',' :: (r.x.text ++ ',' :: (r.len.text ++ ',' :: (r.f1 ++ ',' ::
      (r.f2 ++ ',' :: (r.f3 ++ ',' :: (r.sec.text ++ '.' :: (r.frac ++ tail))))))))))),
    ?_, ?_⟩
  · rw [csv_row.text, hfr]
    simp only [List.append_assoc, List.cons_append]
  · have hc : (',' : Char) ≠ '\n' := by decide
    have hdot : ('.' : Char) ≠ '\n' := by decide
    exact no_newline_append _ _ (csv_int_no_newline _ w1) <| no_newline_cons _ _ hc <|
      no_newline_append _ _ (csv_int_no_newline _ w2) <| no_newline_cons _ _ hc <|
      no_newline_append _ _ (csv_int_no_newline _ w3) <| no_newline_cons _ _ hc <|
      no_newline_append _ _ (csv_int_no_newline _ w4) <| no_newline_cons _ _ hc <|
      no_newline_append _ _ (csv_int_no_newline _ w5) <| no_newline_cons _ _ hc <|
      no_newline_append _ _ (csv_int_no_newline _ w6) <| no_newline_cons _ _ hc <|
      no_newline_append _ _ (csv_int_no_newline _ w7) <| no_newline_cons _ _ hc <|
      no_newline_append _ _ (plain_no_newline _ g1) <| no_newline_cons _ _ hc <|
      no_newline_append _ _ (plain_no_newline _ g2) <| no_newline_cons _ _ hc <|
      no_newline_append _ _ (plain_no_newline _ g3) <| no_newline_cons _ _ hc <|
      no_newline_append _ _ (csv_int_no_newline _ w8) <| no_newline_cons _ _ hdot <|
      no_newline_append _ _ (digits_no_newline _ hd) htail

theorem fgets_row_cut (r : csv_row) (rest : List Char) (hwf : r.wf)
    (hlen : r.text.length < MAX_LINE_LEN) :
    fgets MAX_LINE_LEN (r.text ++ rest) = some (c_string r.text, rest) := by
  obtain ⟨body, hb, hnl⟩ := csv_row_line r hwf
  rw [hb] at hlen ⊢
  have hroom : body.length + 1 < MAX_LINE_LEN := by
    simp only [List.length_append, List.length_cons, List.length_nil] at hlen
    exact hlen
  rw [List.append_assoc, List.singleton_append, fgets_line body rest hnl _ hroom]

theorem fgets_row (r : csv_row) (rest : List Char) (hwf : r.wf)
    (hlen : r.text.length < MAX_LINE_LEN) (hbytes : c_bytes r.text) :
    fgets MAX_LINE_LEN (r.text ++ rest) = some (r.text, rest) := by
  rw [fgets_row_cut r rest hwf hlen, c_string_of_no_nul _ (c_bytes_no_nul _ hbytes)]

theorem csv_read_loop_row (usec : List Char → Nat) (r : csv_row) (rest : List Char)
    (hwf : r.wf) (hfits : r.fits) (hlen : r.text.length < MAX_LINE_LEN)
    (hbytes : c_bytes r.text) (fuel : Nat) (chain : pkt_chain_t) :
    csv_read_loop usec none (fuel + 1) (r.text ++ rest) chain =
      csv_read_loop usec none fuel rest
        (chain_store (fc_extend_chain chain) (r.record usec) true) := by
  rw [csv_read_loop, fgets_row r rest hwf hlen hbytes]
  simp only [csv_parse_line_row usec r hwf hfits]

theorem csv_read_loop_rows (usec : List Char → Nat) :
    ∀ (rows : List csv_row), (∀ r ∈ rows, r.wf) → (∀ r ∈ rows, r.fits) →
      (∀ r ∈ rows, r.text.length < MAX_LINE_LEN) → (∀ r ∈ rows, c_bytes r.text) →
      ∀ (fuel : Nat) (chain : pkt_chain_t),
      rows.length < fuel → (chain.curr = none → chain.linked = []) →
      ∃ chain', csv_read_loop usec none fuel (rows.flatMap csv_row.text) chain =
          some (.returned 0 chain') ∧
        chain'.chunks.flatMap pkt_chunk_t.contents =
          chain.chunks.flatMap pkt_chunk_t.contents ++ rows.map (csv_row.record usec)
  | [], _, _, _, _, fuel, chain, hfuel, _ => by
    obtain ⟨k, rfl⟩ : ∃ k, fuel = k + 1 := ⟨fuel - 1, by
      simp only [List.length_nil] at hfuel; omega⟩
    refine ⟨chain, ?_, ?_⟩
    · simp only [List.flatMap_nil, csv_read_loop, fgets, if_true]
    · simp only [List.map_nil, List.append_nil]
  | r :: rows, hwf, hfits, hlen, hbytes, fuel, chain, hfuel, hinv => by
    obtain ⟨k, rfl⟩ : ∃ k, fuel = k + 1 := ⟨fuel - 1, by
      simp only [List.length_cons] at hfuel; omega⟩
    obtain ⟨chain', h1, h2⟩ := csv_read_loop_rows usec rows
      (fun x hx => hwf x (List.mem_cons_of_mem _ hx))
      (fun x hx => hfits x (List.mem_cons_of_mem _ hx))
      (fun x hx => hlen x (List.mem_cons_of_mem _ hx))
      (fun x hx => hbytes x (List.mem_cons_of_mem _ hx)) k
      (chain_store (fc_extend_chain chain) (r.record usec) true)
      (by simp only [List.length_cons] at hfuel; omega)
      (fun hc => absurd hc (curr_store_extend chain (r.record usec) true))
    refine ⟨chain', ?_, ?_⟩
    · rw [List.flatMap_cons, csv_read_loop_row usec r _ (hwf r (List.mem_cons_self _ _))
        (hfits r (List.mem_cons_self _ _)) (hlen r (List.mem_cons_self _ _))
        (hbytes r (List.mem_cons_self _ _)), h1]
    · rw [h2, chunks_store_extend chain _ hinv, List.append_assoc, List.singleton_append,
        List.map_cons]

theorem length_le_flatMap_text : ∀ (rows : List csv_row),
    rows.length ≤ (rows.flatMap csv_row.text).length
  | [] => Nat.le_refl _
  | r :: rows => by
    have ih := length_le_flatMap_text rows
    have h1 : 1 ≤ r.text.length := by
      rw [csv_row.text]
      simp only [List.length_append, List.length_cons]
      omega
    simp only [List.flatMap_cons, List.length_append, List.length_cons]
    omega

/-- C20 (CSV row parsing), amended: for every file made of lines
`s,d,p,sp,dp,x,len,f1,f2,f3,SEC.FRAC`, each followed by a newline or by `,`,
further text and a newline, where the eight integers are decimal (an optional
minus sign and digits) and in the range of `long long`, `f1`, `f2`, `f3`
carry no comma, `FRAC` is a non-empty run of digits, every character of the
line is a byte other than NUL and the line with its newline has fewer than
`MAX_LINE_LEN` = 2048 bytes, `fc_csv_read` without a filter returns 0 and the
chain holds one record per line, in order, with `saddr = s mod 2^32`,
`daddr = d mod 2^32`, `proto = p mod 2^8`, `sport = sp mod 2^16`,
`dport = dp mod 2^16`, `len = len mod 2^16`, `flags = 0` and `ts_sec` the
value of `SEC` reduced to a signed 32-bit integer, which is `SEC` itself when
`-2^31 ≤ SEC < 2^31`; the sixth column does not enter the record. -/
theorem fc_csv_read_rows (usec : List Char → Nat) (rows : List csv_row)
    (hwf : ∀ r ∈ rows, r.wf) (hfits : ∀ r ∈ rows, r.fits)
    (hlen : ∀ r ∈ rows, r.text.length < MAX_LINE_LEN)
    (hbytes : ∀ r ∈ rows, c_bytes r.text) :
    (fc_csv_read usec (rows.flatMap csv_row.text) none).map csv_result.rc = some (some 0) ∧
    (fc_csv_read usec (rows.flatMap csv_row.text) none).map csv_result.records =
      some (rows.map (csv_row.record usec)) ∧
    ∀ r ∈ rows, -2147483648 ≤ r.sec.value → r.sec.value < 2147483648 →
      (r.record usec).ts.ts_sec = r.sec.value := by
  obtain ⟨chain', h1, h2⟩ := csv_read_loop_rows usec rows hwf hfits hlen hbytes
    ((rows.flatMap csv_row.text).length + 1) { linked := [], curr := none }
    (by have := length_le_flatMap_text rows; omega) (fun _ => rfl)
  refine ⟨?_, ?_, ?_⟩
  · rw [fc_csv_read, h1]; rfl
  · rw [fc_csv_read, h1]
    simp only [Option.map_some', csv_result.records, pcap_chain_to_chunk, h2]
    rfl
  · intro r _ hlo hhi
    simp only [csv_row.record, toI32]
    omega

/-- Witness for C20: a file of two lines, the second with a trailing field. -/
theorem fc_csv_read_rows_witness :
    (∀ r ∈ [sample_row "7", { sample_row "1700000000" with more := some ['z'] }], r.wf) ∧
    (∀ r ∈ [sample_row "7", { sample_row "1700000000" with more := some ['z'] }], r.fits) ∧
    (∀ r ∈ [sample_row "7", { sample_row "1700000000" with more := some ['z'] }],
      r.text.length < MAX_LINE_LEN) ∧
    (∀ r ∈ [sample_row "7", { sample_row "1700000000" with more := some ['z'] }],
      c_bytes r.text) ∧
    ((fc_csv_read (fun _ => 500000)
        ([sample_row "7", { sample_row "1700000000" with more := some ['z'] }].flatMap
          csv_row.text) none).map csv_result.rc = some (some 0) ∧
     (fc_csv_read (fun _ => 500000)
        ([sample_row "7", { sample_row "1700000000" with more := some ['z'] }].flatMap
          csv_row.text) none).map csv_result.records =
      some ([sample_row "7", { sample_row "1700000000" with more := some ['z'] }].map
        (csv_row.record (fun _ => 500000))) ∧
     ∀ r ∈ [sample_row "7", { sample_row "1700000000" with more := some ['z'] }],
      -2147483648 ≤ r.sec.value → r.sec.value < 2147483648 →
      (r.record (fun _ => 500000)).ts.ts_sec = r.sec.value) :=
  ⟨by decide, by decide, by decide, by decide,
    fc_csv_read_rows (fun _ => 500000)
      [sample_row "7", { sample_row "1700000000" with more := some ['z'] }]
      (by decide) (by decide) (by decide) (by decide)⟩

/-- C20 as stated fails on four inputs.  The line
`1,2,6,3,4,0,60,a,b,c,3000000000.5` is read with return code 0 and
`ts_sec = -1294967296`, not 3000000000.  With the first column
`9223372036854775808` the record has `saddr = 4294967295` although the column
is 0 modulo `2 ^ 32`.  On a line of 2064 characters `fgets` delivers the first
2047 only, `strchr` finds no comma and its NULL result is dereferenced.  On
the line whose eighth column is a NUL byte the C string ends there, `strchr`
finds no comma and its NULL result is dereferenced. -/
theorem fc_csv_read_counterexample :
    ((sample_row "3000000000").wf ∧ (sample_row "3000000000").fits ∧
      (sample_row "3000000000").text.length < MAX_LINE_LEN ∧
      (sample_row "3000000000").sec.value = 3000000000 ∧
      (fc_csv_read (fun _ => 500000) (sample_row "3000000000").text none).map csv_result.rc =
        some (some 0) ∧
      (fc_csv_read (fun _ => 500000) (sample_row "3000000000").text none).map
        (fun res => res.records.map (fun pkt => pkt.ts.ts_sec)) = some [-1294967296]) ∧
    (wide_row.wf ∧ wide_row.text.length < MAX_LINE_LEN ∧
      wide_row.s.value % 4294967296 = 0 ∧
      (fc_csv_read (fun _ => 500000) wide_row.text none).map
        (fun res => res.records.map (fun pkt => pkt.saddr)) = some [4294967295]) ∧
    (long_row.wf ∧ long_row.fits ∧
      (fc_csv_read (fun _ => 500000) long_row.text none).map csv_result.rc = some none) ∧
    (nul_row.wf ∧ nul_row.fits ∧ nul_row.text.length < MAX_LINE_LEN ∧
      (fc_csv_read (fun _ => 500000) nul_row.text none).map csv_result.rc = some none) :=
  ⟨by decide, by decide, by decide!, by decide⟩

/-! ### Malformed CSV lines -/

theorem strtol_csv_int_end (n : csv_int) (rest : List Char) (hwf : n.wf)
    (hstop : ∀ c, rest.head? = some c → isdigit c = false) :
    (strtol (n.text ++ rest)).2 = rest := by
  obtain ⟨neg, ds⟩ := n
  obtain ⟨hne, hd⟩ := hwf
  have htw := takeWhile_digits ds rest hd hstop
  have hds : ds ≠ [] := hne
  cases neg with
  | false =>
    obtain ⟨d, t, rfl⟩ := List.exists_cons_of_ne_nil hds
    simp only [csv_int.text, Bool.false_eq_true, if_false]
    unfold strtol
    simp only [List.cons_append] at htw ⊢
    rw [skip_prefix_digit d (t ++ rest) (hd d (List.mem_cons_self _ _))]
    simp only [htw.1, htw.2, reduceCtorEq, if_false]
  | true =>
    have hsp : isspace '-' = false := by decide
    simp only [csv_int.text, if_true]
    unfold strtol
    simp only [List.cons_append, List.dropWhile_cons, hsp, Bool.false_eq_true, if_false,
      skip_sign, if_true, htw.1, htw.2, hds]

theorem next_is_not_digit (cs t : List Char) (h : next_is_not cs t) :
    ∀ c, t.head? = some c → isdigit c = false :=
  fun c hc => (h c hc).1

theorem next_is_not_deref (cs t : List Char) (c : Char) (h : next_is_not cs t) (hc : c ∈ cs) :
    deref t ≠ some c := by
  intro hd
  exact (h c hd).2 hc

theorem csv_parse_line_leading (usec : List Char → Nat) (ints : List csv_int) (n : csv_int)
    (t : List Char) (hlen : ints.length < 7) (hints : ∀ m ∈ ints, m.wf) (hn : n.wf)
    (ht : next_is_not [','] t) :
    csv_parse_line usec (csv_leading ints (n.text ++ t)) =
      .error (-((ints.length : Int) + 1)) := by
  have e : ∀ m ∈ ints, ∀ r, (strtol (m.text ++ ',' :: r)).2 = ',' :: r :=
    fun m hm r => strtol_csv_int_end m (',' :: r) (hints m hm) (comma_stops r)
  have en : (strtol (n.text ++ t)).2 = t :=
    strtol_csv_int_end n t hn (next_is_not_digit _ _ ht)
  have hd : deref t ≠ some ',' := next_is_not_deref _ t ',' ht (List.mem_singleton.mpr rfl)
  have hcomma : ∀ r : List Char, ¬ (deref (',' :: r) ≠ some ',') := by intro r; simp [deref]
  rcases ints with _ | ⟨a1, _ | ⟨a2, _ | ⟨a3, _ | ⟨a4, _ | ⟨a5, _ | ⟨a6, _ | ⟨a7, l⟩⟩⟩⟩⟩⟩⟩
  case cons.cons.cons.cons.cons.cons.cons =>
    simp only [List.length_cons] at hlen
    omega
  all_goals
    unfold csv_parse_line
    simp only [csv_leading, e, en, hd, hcomma, List.tail_cons, if_false, if_true, ne_eq,
      not_false_eq_true, List.mem_cons, List.mem_singleton, true_or, or_true, List.length_cons,
      List.length_nil, List.not_mem_nil, or_false]
    rfl

theorem csv_parse_line_seven (usec : List Char → Nat) (ints : List csv_int) (t : List Char)
    (hlen : ints.length = 7) (hints : ∀ m ∈ ints, m.wf) :
    ∃ a b c d e f, csv_parse_line usec (csv_leading ints t) =
      csv_parse_tail usec a b c d e f (',' :: t) := by
  have e : ∀ m ∈ ints, ∀ r, (strtol (m.text ++ ',' :: r)).2 = ',' :: r :=
    fun m hm r => strtol_csv_int_end m (',' :: r) (hints m hm) (comma_stops r)
  have hcomma : ∀ r : List Char, ¬ (deref (',' :: r) ≠ some ',') := by intro r; simp [deref]
  rcases ints with _ | ⟨a1, _ | ⟨a2, _ | ⟨a3, _ | ⟨a4, _ | ⟨a5, _ | ⟨a6, _ | ⟨a7, l⟩⟩⟩⟩⟩⟩⟩
  case cons.cons.cons.cons.cons.cons.cons =>
    have hl : l = [] := by
      simp only [List.length_cons] at hlen
      exact List.length_eq_zero.mp (by omega)
    subst hl
    have key : ∀ q : csv_scan fc_pkt_t → Prop,
        (∀ a b c d e f, q (csv_parse_tail usec a b c d e f (',' :: t))) →
        q (csv_parse_line usec (csv_leading [a1, a2, a3, a4, a5, a6, a7] t)) := by
      intro q hq
      unfold csv_parse_line
      simp only [csv_leading, e, hcomma, List.tail_cons, if_false, List.mem_cons,
        List.mem_singleton, true_or, or_true]
      exact hq _ _ _ _ _ _
    exact key (fun x => ∃ a b c d e f, x = csv_parse_tail usec a b c d e f (',' :: t))
      (fun a b c d e f => ⟨a, b, c, d, e, f, rfl⟩)
  all_goals
    simp only [List.length_cons, List.length_nil] at hlen
    omega

theorem csv_parse_tail_seconds (usec : List Char → Nat) (a b c d e f : Int)
    (f1 f2 f3 : List Char) (sec : csv_int) (t : List Char) (h1 : plain_field f1)
    (h2 : plain_field f2) (h3 : plain_field f3) (hsec : sec.wf) (ht : next_is_not ['.'] t) :
    csv_parse_tail usec a b c d e f
      (',' :: (f1 ++ ',' :: (f2 ++ ',' :: (f3 ++ ',' :: (sec.text ++ t))))) = .error (-9) := by
  have en : (strtol (sec.text ++ t)).2 = t :=
    strtol_csv_int_end sec t hsec (next_is_not_digit _ _ ht)
  have hd : deref t ≠ some '.' := next_is_not_deref _ t '.' ht (List.mem_singleton.mpr rfl)
  rw [csv_parse_tail, csv_skip_fields_three f1 f2 f3 _ h1 h2 h3]
  simp only [List.tail_cons, en, hd, ne_eq, not_false_eq_true, if_true]

theorem strtod_end_digits (frac t : List Char) (hne : frac ≠ []) (hd : all_digits frac)
    (hnd : ∀ c, t.head? = some c → isdigit c = false) (hexp : starts_exponent t = false) :
    strtod_end ('.' :: (frac ++ t)) = t := by
  have htw := takeWhile_digits frac t hd hnd
  have h1 : isspace '.' = false := by decide
  have h2 : isdigit '.' = false := by decide
  have h3 : ¬ ('.' = '-') := by decide
  have h4 : ¬ ('.' = '+') := by decide
  have hs : ∀ r : List Char, skip_sign ('.' :: r) = (false, '.' :: r) := by
    intro r
    simp only [skip_sign, h3, h4, if_false]
  unfold strtod_end
  simp only [List.dropWhile_cons, h1, Bool.false_eq_true, if_false, hs,
    List.takeWhile_cons, h2, scan_lit, if_true, htw.1, htw.2, hne, and_false]
  cases t with
  | nil => rfl
  | cons x r =>
    simp only
    by_cases hx : x = 'e' ∨ x = 'E'
    · rw [if_pos hx]
      have hnone : (skip_sign r).2.takeWhile isdigit = [] := by
        have hb : (x == 'e' || x == 'E') = true := by
          rcases hx with h | h <;> subst h <;> decide
        simp only [starts_exponent, hb, Bool.true_and] at hexp
        cases hs : (skip_sign r).2 with
        | nil => rfl
        | cons y z =>
          rw [hs] at hexp
          simp only [List.head?_cons, Option.map_some', Option.getD_some] at hexp
          simp only [List.takeWhile_cons, hexp, Bool.false_eq_true, if_false]
      rw [if_pos hnone]
    · rw [if_neg hx]

theorem strtod_end_no_digits (t : List Char)
    (hnd : ∀ c, t.head? = some c → isdigit c = false) :
    strtod_end ('.' :: t) = '.' :: t := by
  have htw : t.takeWhile isdigit = [] := by
    cases t with
    | nil => rfl
    | cons x r => simp only [List.takeWhile_cons, hnd x rfl, Bool.false_eq_true, if_false]
  have h1 : isspace '.' = false := by decide
  have h2 : isdigit '.' = false := by decide
  have h3 : ¬ ('.' = '-') := by decide
  have h4 : ¬ ('.' = '+') := by decide
  unfold strtod_end
  simp only [List.dropWhile_cons, h1, Bool.false_eq_true, if_false, skip_sign, h3, h4,
    List.takeWhile_cons, h2, scan_lit, if_true, htw, and_self]

theorem csv_parse_tail_fraction (usec : List Char → Nat) (a b c d e f : Int)
    (f1 f2 f3 : List Char) (sec : csv_int) (frac t : List Char) (h1 : plain_field f1)
    (h2 : plain_field f2) (h3 : plain_field f3) (hsec : sec.wf) (hfrac : all_digits frac)
    (ht : next_is_not [',', '\n'] t) (hexp : starts_exponent t = false) :
    csv_parse_tail usec a b c d e f
      (',' :: (f1 ++ ',' :: (f2 ++ ',' :: (f3 ++ ',' :: (sec.text ++ '.' :: (frac ++ t)))))) =
      .error (-10) := by
  have en : (strtol (sec.text ++ '.' :: (frac ++ t))).2 = '.' :: (frac ++ t) :=
    strtol_csv_int_end sec _ hsec (dot_stops_digits _)
  have hdot : ¬ (deref ('.' :: (frac ++ t)) ≠ some '.') := by simp [deref]
  have hc1 : deref t ≠ some ',' := next_is_not_deref _ t ',' ht (by simp)
  have hc2 : deref t ≠ some '\n' := next_is_not_deref _ t '\n' ht (by simp)
  rw [csv_parse_tail, csv_skip_fields_three f1 f2 f3 _ h1 h2 h3]
  simp only [List.tail_cons, en, hdot, if_false]
  by_cases hne : frac = []
  · subst hne
    have hp1 : deref ('.' :: t) ≠ some ',' := by simp [deref]
    have hp2 : deref ('.' :: t) ≠ some '\n' := by simp [deref]
    rw [List.nil_append, strtod_end_no_digits t (next_is_not_digit _ _ ht), if_pos ⟨hp1, hp2⟩]
  · rw [strtod_end_digits frac t hne hfrac (next_is_not_digit _ _ ht) hexp, if_pos ⟨hc1, hc2⟩]

theorem csv_leading_append (ints : List csv_int) (a b : List Char) :
    csv_leading ints (a ++ b) = csv_leading ints a ++ b := by
  induction ints with
  | nil => rfl
  | cons n ns ih => simp only [csv_leading, ih, List.append_assoc, List.cons_append]

theorem csv_leading_no_newline (ints : List csv_int) (a : List Char)
    (hints : ∀ m ∈ ints, m.wf) (ha : ∀ c ∈ a, c ≠ '\n') :
    ∀ c ∈ csv_leading ints a, c ≠ '\n' := by
  induction ints with
  | nil => exact ha
  | cons n ns ih =>
    exact no_newline_append _ _ (csv_int_no_newline n (hints n (List.mem_cons_self _ _)))
      (no_newline_cons _ _ (by decide) (ih (fun m hm => hints m (List.mem_cons_of_mem _ hm))))

theorem csv_bad_line_body (b : csv_bad_line) (hwf : b.wf) :
    ∃ body, b.text = body ++ ['\n'] ∧ ∀ c ∈ body, c ≠ '\n' := by
  have hc : (',' : Char) ≠ '\n' := by decide
  have hdot : ('.' : Char) ≠ '\n' := by decide
  cases b with
  | leading ints n tail =>
    obtain ⟨_, hints, hn, htail, _⟩ := hwf
    refine ⟨csv_leading ints (n.text ++ tail), ?_, ?_⟩
    · simp only [csv_bad_line.text, ← csv_leading_append, List.append_assoc]
    · exact csv_leading_no_newline ints _ hints
        (no_newline_append _ _ (csv_int_no_newline n hn) htail)
  | seconds ints f1 f2 f3 sec tail =>
    obtain ⟨_, hints, h1, h2, h3, hsec, htail, _⟩ := hwf
    refine ⟨csv_leading ints (f1 ++ ',' :: (f2 ++ ',' :: (f3 ++ ',' :: (sec.text ++ tail)))),
      ?_, ?_⟩
    · simp only [csv_bad_line.text, ← csv_leading_append, List.append_assoc, List.cons_append]
    · exact csv_leading_no_newline ints _ hints <|
        no_newline_append _ _ (plain_no_newline _ h1) <| no_newline_cons _ _ hc <|
        no_newline_append _ _ (plain_no_newline _ h2) <| no_newline_cons _ _ hc <|
        no_newline_append _ _ (plain_no_newline _ h3) <| no_newline_cons _ _ hc <|
        no_newline_append _ _ (csv_int_no_newline sec hsec) htail
  | fraction ints f1 f2 f3 sec frac tail =>
    obtain ⟨_, hints, h1, h2, h3, hsec, hfrac, htail, _⟩ := hwf
    refine ⟨csv_leading ints (f1 ++ ',' :: (f2 ++ ',' :: (f3 ++ ',' ::
      (sec.text ++ '.' :: (frac ++ tail))))), ?_, ?_⟩
    · simp only [csv_bad_line.text, ← csv_leading_append, List.append_assoc, List.cons_append]
    · exact csv_leading_no_newline ints _ hints <|
        no_newline_append _ _ (plain_no_newline _ h1) <| no_newline_cons _ _ hc <|
        no_newline_append _ _ (plain_no_newline _ h2) <| no_newline_cons _ _ hc <|
        no_newline_append _ _ (plain_no_newline _ h3) <| no_newline_cons _ _ hc <|
        no_newline_append _ _ (csv_int_no_newline sec hsec) <| no_newline_cons _ _ hdot <|
        no_newline_append _ _ (digits_no_newline _ hfrac) htail

theorem csv_parse_line_bad (usec : List Char → Nat) (b : csv_bad_line) (hwf : b.wf) :
    csv_parse_line usec b.text = .error (-(b.stage : Int)) := by
  cases b with
  | leading ints n tail =>
    obtain ⟨hlen, hints, hn, _, ht⟩ := hwf
    rw [csv_bad_line.text, csv_parse_line_leading usec ints n _ hlen hints hn ht]
    simp only [csv_bad_line.stage, Nat.cast_add, Nat.cast_one]
  | seconds ints f1 f2 f3 sec tail =>
    obtain ⟨hlen, hints, h1, h2, h3, hsec, _, ht⟩ := hwf
    obtain ⟨a, b, c, d, e, f, h⟩ := csv_parse_line_seven usec ints
      (f1 ++ ',' :: (f2 ++ ',' :: (f3 ++ ',' :: (sec.text ++ (tail ++ ['\n']))))) hlen hints
    rw [csv_bad_line.text, h, csv_parse_tail_seconds usec a b c d e f f1 f2 f3 sec _ h1 h2 h3
      hsec ht]
    rfl
  | fraction ints f1 f2 f3 sec frac tail =>
    obtain ⟨hlen, hints, h1, h2, h3, hsec, hfrac, _, ht, hexp⟩ := hwf
    have hexp2 : starts_exponent (tail ++ ['\n']) = false := by
      cases tail with
      | nil => rfl
      | cons x r =>
        have hd : ∀ c, (x :: r).head? = some c → True := fun _ _ => trivial
        by_cases hx : (x == 'e' || x == 'E') = true
        · simp only [starts_exponent, hx, Bool.true_and, List.cons_append] at hexp ⊢
          cases r with
          | nil => rfl
          | cons y z =>
            revert hexp
            simp only [skip_sign, List.cons_append]
            split_ifs with hy1 hy2
            · cases z with
              | nil => intro _; rfl
              | cons w v => exact id
            · cases z with
              | nil => intro _; rfl
              | cons w v => exact id
            · exact id
        · simp only [starts_exponent, List.cons_append, Bool.not_eq_true] at hx ⊢
          rw [hx, Bool.false_and]
    obtain ⟨a, b, c, d, e, f, h⟩ := csv_parse_line_seven usec ints
      (f1 ++ ',' :: (f2 ++ ',' :: (f3 ++ ',' :: (sec.text ++ '.' :: (frac ++ (tail ++ ['\n'])))))) hlen hints
    rw [csv_bad_line.text, h, csv_parse_tail_fraction usec a b c d e f f1 f2 f3 sec frac _
      h1 h2 h3 hsec hfrac ht hexp2]
    rfl

theorem fgets_bad_line (b : csv_bad_line) (rest : List Char) (hwf : b.wf)
    (hlen : b.text.length < MAX_LINE_LEN) (hbytes : c_bytes b.text) :
    fgets MAX_LINE_LEN (b.text ++ rest) = some (b.text, rest) := by
  have hnul := c_string_of_no_nul _ (c_bytes_no_nul _ hbytes)
  obtain ⟨body, hb, hnl⟩ := csv_bad_line_body b hwf
  rw [hb] at hlen hnul ⊢
  have hroom : body.length + 1 < MAX_LINE_LEN := by
    simp only [List.length_append, List.length_cons, List.length_nil] at hlen
    exact hlen
  rw [List.append_assoc, List.singleton_append, fgets_line body rest hnl _ hroom, hnul]

theorem csv_read_loop_bad (usec : List Char → Nat) (b : csv_bad_line) (rest : List Char)
    (hwf : b.wf) (hlen : b.text.length < MAX_LINE_LEN) (hbytes : c_bytes b.text) (fuel : Nat)
    (chain : pkt_chain_t) :
    csv_read_loop usec none (fuel + 1) (b.text ++ rest) chain =
      some (.returned (-(b.stage : Int)) chain) := by
  rw [csv_read_loop, fgets_bad_line b rest hwf hlen hbytes]
  simp only [csv_parse_line_bad usec b hwf]

theorem csv_read_loop_rows_append (usec : List Char → Nat) (rest : List Char) :
    ∀ (rows : List csv_row), (∀ r ∈ rows, r.wf) → (∀ r ∈ rows, r.fits) →
      (∀ r ∈ rows, r.text.length < MAX_LINE_LEN) → (∀ r ∈ rows, c_bytes r.text) →
      ∀ (fuel : Nat) (chain : pkt_chain_t),
      (chain.curr = none → chain.linked = []) →
      ∃ chain', csv_read_loop usec none (rows.length + fuel)
          (rows.flatMap csv_row.text ++ rest) chain =
          csv_read_loop usec none fuel rest chain' ∧
        chain'.chunks.flatMap pkt_chunk_t.contents =
          chain.chunks.flatMap pkt_chunk_t.contents ++ rows.map (csv_row.record usec)
  | [], _, _, _, _, fuel, chain, _ => by
    refine ⟨chain, ?_, ?_⟩
    · simp only [List.flatMap_nil, List.nil_append, List.length_nil, Nat.zero_add]
    · simp only [List.map_nil, List.append_nil]
  | r :: rows, hwf, hfits, hlen, hbytes, fuel, chain, hinv => by
    obtain ⟨chain', h1, h2⟩ := csv_read_loop_rows_append usec rest rows
      (fun x hx => hwf x (List.mem_cons_of_mem _ hx))
      (fun x hx => hfits x (List.mem_cons_of_mem _ hx))
      (fun x hx => hlen x (List.mem_cons_of_mem _ hx))
      (fun x hx => hbytes x (List.mem_cons_of_mem _ hx)) fuel
      (chain_store (fc_extend_chain chain) (r.record usec) true)
      (fun hc => absurd hc (curr_store_extend chain (r.record usec) true))
    refine ⟨chain', ?_, ?_⟩
    · have hf : (r :: rows).length + fuel = (rows.length + fuel) + 1 := by
        simp only [List.length_cons]; omega
      rw [hf, List.flatMap_cons, List.append_assoc,
        csv_read_loop_row usec r _ (hwf r (List.mem_cons_self _ _))
        (hfits r (List.mem_cons_self _ _)) (hlen r (List.mem_cons_self _ _))
        (hbytes r (List.mem_cons_self _ _)), h1]
    · rw [h2, chunks_store_extend chain _ hinv, List.append_assoc, List.singleton_append,
        List.map_cons]

/-- C21 (CSV error codes), amended: in a file whose first lines are well-formed
rows, a following line of fewer than `MAX_LINE_LEN` = 2048 bytes with its
newline, all bytes of these lines being other than NUL, makes `fc_csv_read`
return `-k` when the `k`-th of the seven leading decimal integers
(`k = 1..7`) is the first one not followed by `,`, `-9` when the seconds are
not followed by `.`, and `-10` when the character after the digits of the
fraction is neither `,` nor a newline and starts no exponent.  The code is
negative and determined by the stage (1..7, 9 or 10), and the chain holds the
records of the preceding rows only: none is appended for the offending
line. -/
theorem fc_csv_read_error_codes (usec : List Char → Nat) (rows : List csv_row)
    (hwf : ∀ r ∈ rows, r.wf) (hfits : ∀ r ∈ rows, r.fits)
    (hlen : ∀ r ∈ rows, r.text.length < MAX_LINE_LEN)
    (hbytes : ∀ r ∈ rows, c_bytes r.text)
    (bad : csv_bad_line) (hbad : bad.wf) (hblen : bad.text.length < MAX_LINE_LEN)
    (hbbytes : c_bytes bad.text) (rest : List Char) :
    csv_outcome usec (rows.flatMap csv_row.text ++ (bad.text ++ rest)) =
      some (some (-(bad.stage : Int)), rows.map (csv_row.record usec)) ∧
    -(bad.stage : Int) < 0 ∧ bad.stage ∈ [1, 2, 3, 4, 5, 6, 7, 9, 10] := by
  refine ⟨?_, ?_, ?_⟩
  · have hge := length_le_flatMap_text rows
    obtain ⟨k, hk⟩ : ∃ k, (rows.flatMap csv_row.text ++ (bad.text ++ rest)).length + 1 =
        rows.length + (k + 1) :=
      ⟨(rows.flatMap csv_row.text ++ (bad.text ++ rest)).length - rows.length, by
        simp only [List.length_append] at hge ⊢
        omega⟩
    obtain ⟨chain', h1, h2⟩ := csv_read_loop_rows_append usec (bad.text ++ rest) rows hwf
      hfits hlen hbytes (k + 1) { linked := [], curr := none } (fun _ => rfl)
    rw [csv_outcome, fc_csv_read, hk, h1, csv_read_loop_bad usec bad rest hbad hblen hbbytes]
    simp only [Option.map_some', csv_result.rc, csv_result.records, pcap_chain_to_chunk, h2]
    rfl
  · cases bad <;> simp only [csv_bad_line.stage] <;> omega
  · cases bad with
    | leading ints n tail =>
      have := hbad.1
      simp only [csv_bad_line.stage]
      have h7 : ints.length + 1 = 1 ∨ ints.length + 1 = 2 ∨ ints.length + 1 = 3 ∨
          ints.length + 1 = 4 ∨ ints.length + 1 = 5 ∨ ints.length + 1 = 6 ∨
          ints.length + 1 = 7 := by omega
      rcases h7 with h | h | h | h | h | h | h <;> rw [h] <;> decide
    | seconds => simp only [csv_bad_line.stage]; decide
    | fraction => simp only [csv_bad_line.stage]; decide

/-- Witness for C21: after one well-formed row, the lines `1,2x` (second
integer), `1,2,6,3,4,0,60,a,b,c,7:5` (seconds) and
`1,2,6,3,4,0,60,a,b,c,7.5;` (fraction), each followed by another row. -/
theorem fc_csv_read_error_codes_witness :
    ((∀ r ∈ [sample_row "7"], r.wf) ∧ (∀ r ∈ [sample_row "7"], r.fits) ∧
      (∀ r ∈ [sample_row "7"], r.text.length < MAX_LINE_LEN) ∧
      (∀ r ∈ [sample_row "7"], c_bytes r.text) ∧
      bad_second.wf ∧ bad_second.text.length < MAX_LINE_LEN ∧ c_bytes bad_second.text ∧
      bad_second.stage = 2 ∧
      bad_seconds.wf ∧ bad_seconds.text.length < MAX_LINE_LEN ∧ c_bytes bad_seconds.text ∧
      bad_seconds.stage = 9 ∧
      bad_fraction.wf ∧ bad_fraction.text.length < MAX_LINE_LEN ∧ c_bytes bad_fraction.text ∧
      bad_fraction.stage = 10) ∧
    (csv_outcome (fun _ => 500000)
        ([sample_row "7"].flatMap csv_row.text ++ (bad_second.text ++ (sample_row "8").text)) =
        some (some (-(bad_second.stage : Int)),
          [sample_row "7"].map (csv_row.record (fun _ => 500000))) ∧
      -(bad_second.stage : Int) < 0 ∧ bad_second.stage ∈ [1, 2, 3, 4, 5, 6, 7, 9, 10]) ∧
    (csv_outcome (fun _ => 500000)
        ([sample_row "7"].flatMap csv_row.text ++ (bad_seconds.text ++ (sample_row "8").text)) =
        some (some (-(bad_seconds.stage : Int)),
          [sample_row "7"].map (csv_row.record (fun _ => 500000))) ∧
      -(bad_seconds.stage : Int) < 0 ∧ bad_seconds.stage ∈ [1, 2, 3, 4, 5, 6, 7, 9, 10]) ∧
    (csv_outcome (fun _ => 500000)
        ([sample_row "7"].flatMap csv_row.text ++ (bad_fraction.text ++ (sample_row "8").text)) =
        some (some (-(bad_fraction.stage : Int)),
          [sample_row "7"].map (csv_row.record (fun _ => 500000))) ∧
      -(bad_fraction.stage : Int) < 0 ∧ bad_fraction.stage ∈ [1, 2, 3, 4, 5, 6, 7, 9, 10]) :=
  ⟨by decide,
    fc_csv_read_error_codes (fun _ => 500000) [sample_row "7"] (by decide) (by decide)
      (by decide) (by decide) bad_second (by decide) (by decide) (by decide)
      (sample_row "8").text,
    fc_csv_read_error_codes (fun _ => 500000) [sample_row "7"] (by decide) (by decide)
      (by decide) (by decide) bad_seconds (by decide) (by decide) (by decide)
      (sample_row "8").text,
    fc_csv_read_error_codes (fun _ => 500000) [sample_row "7"] (by decide) (by decide)
      (by decide) (by decide) bad_fraction (by decide) (by decide) (by decide)
      (sample_row "8").text⟩

/-- C21 as stated fails on three inputs.  On the line of 2064 characters whose
seconds are followed by `:`, `fgets` delivers the first 2047 characters only,
`strchr` finds no comma and its NULL result is dereferenced: no code is
returned.  On the line `1,2,6,3,4,0,60,a,b,c,7.5e3` the character after the
fraction `7.5` is `e`, yet `strtod` reads the exponent: the return code is 0
and a record is appended.  On the line whose eighth column is a NUL byte and
whose seconds are followed by `:`, the C string ends at the NUL, `strchr`
finds no comma and its NULL result is dereferenced: no code is returned. -/
theorem fc_csv_read_error_codes_counterexample :
    (long_bad_seconds.wf ∧ long_bad_seconds.stage = 9 ∧
      csv_outcome (fun _ => 500000) long_bad_seconds.text = some (none, [])) ∧
    (exponent_line = "1,2,6,3,4,0,60,a,b,c,7.5e3\n".toList ∧
      (csv_outcome (fun _ => 500000) exponent_line).map
        (fun r => (r.1, r.2.length)) = some (some 0, 1)) ∧
    (nul_bad_seconds.wf ∧ nul_bad_seconds.stage = 9 ∧
      nul_bad_seconds.text.length < MAX_LINE_LEN ∧
      csv_outcome (fun _ => 500000) nul_bad_seconds.text = some (none, [])) :=
  ⟨by decide!, by decide, by decide⟩

/-! ### The pcap reader -/

theorem ntohs_load16 (le : Bool) (b0 b1 : Nat) (h0 : b0 < 256) (h1 : b1 < 256) :
    ntohs le (load16 le b0 b1) = b0 * 256 + b1 := by
  cases le
  · simp only [ntohs, load16, if_false, Bool.false_eq_true]; omega
  · simp only [ntohs, load16, if_true, bswap16]; omega

theorem handler_record_some (le : Bool) (pkthdr : pcap_pkthdr) (packet : Nat → Nat)
    (hbytes : ∀ i, packet i < 256) (info : fc_pkt_t)
    (h : handler_record le pkthdr packet = some info) :
    word_at packet 12 = ETHERTYPE_IP ∧
    info.sport = word_at packet (14 + (packet 14 % 16) * 4) ∧
    info.dport = word_at packet (14 + (packet 14 % 16) * 4 + 2) ∧
    info.proto = packet 23 := by
  unfold handler_record at h
  rw [ntohs_load16 le _ _ (hbytes 12) (hbytes 13)] at h
  by_cases he : packet 12 * 256 + packet 13 = ETHERTYPE_IP
  · simp only [he, ne_eq, not_true_eq_false, if_false, Option.some.injEq] at h
    subst h
    refine ⟨he, ?_, ?_, rfl⟩
    · exact ntohs_load16 le _ _ (hbytes _) (hbytes _)
    · exact ntohs_load16 le _ _ (hbytes _) (hbytes _)
  · simp only [he, ne_eq, not_false_eq_true, if_true, reduceCtorEq] at h

/-- C22 (engine port extraction), amended: for every frame that the handler of
`fc_pcap_read` accepts (bytes below 256, on either host byte order), the
record appended to the chain has `sport` and `dport` equal to the big-endian
16-bit words at bytes 0-1 and 2-3 after the IP header, whatever the protocol
is; these are the ports of the specification when the protocol is 6, 17 or
132. -/
theorem handler_ports (le : Bool) (pkthdr : pcap_pkthdr) (packet : Nat → Nat)
    (hbytes : ∀ i, packet i < 256) (info : fc_pkt_t)
    (h : handler_record le pkthdr packet = some info) (chain : pkt_chain_t)
    (hinv : chain.curr = none → chain.linked = []) :
    (pcap_chain_to_chunk (handler le none pkthdr packet chain)).pkts =
      (pcap_chain_to_chunk chain).pkts ++ [info] ∧
    info.sport = word_at packet (14 + (packet 14 % 16) * 4) ∧
    info.dport = word_at packet (14 + (packet 14 % 16) * 4 + 2) ∧
    (info.proto = 6 ∨ info.proto = 17 ∨ info.proto = 132 →
      (info.sport, info.dport) =
        spec_ports info.proto (packet (14 + (packet 14 % 16) * 4))
          (packet (14 + (packet 14 % 16) * 4 + 1)) (packet (14 + (packet 14 % 16) * 4 + 2))
          (packet (14 + (packet 14 % 16) * 4 + 3))) := by
  obtain ⟨_, hs, hd, _⟩ := handler_record_some le pkthdr packet hbytes info h
  refine ⟨?_, hs, hd, ?_⟩
  · simp only [handler, h, pcap_chain_to_chunk, chunks_store_extend chain info hinv]
  · intro hp
    simp only [spec_ports, hp, if_true, hs, hd, word_at]

theorem frame_of_lt (bytes : List Nat) (h : ∀ b ∈ bytes, b < 256) :
    ∀ i, frame_of bytes i < 256 := by
  intro i
  unfold frame_of
  by_cases hi : i < bytes.length
  · rw [List.getD_eq_getElem _ _ hi]
    exact h _ (List.getElem_mem hi)
  · rw [List.getD_eq_default _ _ (by omega)]
    decide

/-- Witness for C22: a TCP segment from port 49152 to port 443 on a
little-endian host, appended to the empty chain. -/
theorem handler_ports_witness :
    (∀ i, frame_of tcp_frame i < 256) ∧
    handler_record true (sample_hdr 54) (frame_of tcp_frame) = some tcp_record ∧
    ((pcap_chain_to_chunk (handler true none (sample_hdr 54) (frame_of tcp_frame)
          { linked := [], curr := none })).pkts =
        (pcap_chain_to_chunk { linked := [], curr := none }).pkts ++ [tcp_record] ∧
      tcp_record.sport = word_at (frame_of tcp_frame) (14 + (frame_of tcp_frame 14 % 16) * 4) ∧
      tcp_record.dport =
        word_at (frame_of tcp_frame) (14 + (frame_of tcp_frame 14 % 16) * 4 + 2) ∧
      (tcp_record.proto = 6 ∨ tcp_record.proto = 17 ∨ tcp_record.proto = 132 →
        (tcp_record.sport, tcp_record.dport) =
          spec_ports tcp_record.proto
            (frame_of tcp_frame (14 + (frame_of tcp_frame 14 % 16) * 4))
            (frame_of tcp_frame (14 + (frame_of tcp_frame 14 % 16) * 4 + 1))
            (frame_of tcp_frame (14 + (frame_of tcp_frame 14 % 16) * 4 + 2))
            (frame_of tcp_frame (14 + (frame_of tcp_frame 14 % 16) * 4 + 3)))) :=
  ⟨frame_of_lt tcp_frame (by decide), by decide,
    handler_ports true (sample_hdr 54) (frame_of tcp_frame) (frame_of_lt tcp_frame (by decide))
      tcp_record (by decide) { linked := [], curr := none } (fun _ => rfl)⟩

/-- C22 as stated fails for ICMP and for protocols without ports.  For the
ICMP echo request (type 8, code 0, checksum `0xf7ff`) the handler stores
`sport = 2048` and `dport = 63487`, the two big-endian words, where the
specification has type 8 and code 0; for the GRE packet it stores
`sport = 8192` and `dport = 35006` where the specification has zeros. -/
theorem handler_ports_counterexample :
    ((handler_record true (sample_hdr 42) (frame_of icmp_frame)).map
        (fun info => (info.proto, info.sport, info.dport)) = some (1, 2048, 63487) ∧
      (List.range 4).map (fun i => frame_of icmp_frame (34 + i)) = [8, 0, 0xf7, 0xff] ∧
      spec_ports 1 8 0 0xf7 0xff = (8, 0)) ∧
    ((handler_record true (sample_hdr 42) (frame_of gre_frame)).map
        (fun info => (info.proto, info.sport, info.dport)) = some (47, 8192, 35006) ∧
      (List.range 4).map (fun i => frame_of gre_frame (34 + i)) = [0x20, 0, 0x88, 0xbe] ∧
      spec_ports 47 0x20 0 0x88 0xbe = (0, 0)) := by
  decide

/-- C23 (engine packet validity) fails: the handler of `fc_pcap_read` drops a
frame exactly when its ethertype is not IPv4.  It never reads the capture
length or the fragment offset, so every frame with the IPv4 ethertype yields
a record: the UDP fragment with offset 185 and the capture of 14 bytes are
both appended although they do not meet the validity conditions. -/
theorem handler_validity :
    (∀ (le : Bool) (filter : Option fc_filter_t) (pkthdr : pcap_pkthdr) (packet : Nat → Nat)
        (chain : pkt_chain_t), (∀ i, packet i < 256) → word_at packet 12 ≠ ETHERTYPE_IP →
        handler le filter pkthdr packet chain = chain) ∧
    (∀ (le : Bool) (pkthdr : pcap_pkthdr) (packet : Nat → Nat), (∀ i, packet i < 256) →
        word_at packet 12 = ETHERTYPE_IP → (handler_record le pkthdr packet).isSome = true) ∧
    (¬ spec_valid (sample_hdr 42) (frame_of fragment_frame) ∧
      (pcap_chain_to_chunk (handler true none (sample_hdr 42) (frame_of fragment_frame)
        { linked := [], curr := none })).pkts.length = 1) ∧
    (¬ spec_valid (sample_hdr 14) (frame_of short_frame) ∧
      (pcap_chain_to_chunk (handler true none (sample_hdr 14) (frame_of short_frame)
        { linked := [], curr := none })).pkts.length = 1) := by
  refine ⟨?_, ?_, by decide, by decide⟩
  · intro le filter pkthdr packet chain hbytes hne
    have : handler_record le pkthdr packet = none := by
      unfold handler_record
      rw [ntohs_load16 le _ _ (hbytes 12) (hbytes 13)]
      exact if_pos hne
    simp only [handler, this]
  · intro le pkthdr packet hbytes he
    unfold handler_record
    rw [ntohs_load16 le _ _ (hbytes 12) (hbytes 13)]
    have he2 : ¬ (packet 12 * 256 + packet 13 ≠ ETHERTYPE_IP) := fun hn => hn he
    rw [if_neg he2]
    rfl

/-! ### Link headers -/

theorem ethertype_at (le : Bool) (packet : Nat → Nat) (hbytes : ∀ i, packet i < 256)
    (i : Nat) :
    ntohs le (load16 le (packet (i * 4 + 12)) (packet (i * 4 + 13))) =
      word_at packet (12 + 4 * i) := by
  rw [ntohs_load16 le _ _ (hbytes _) (hbytes _), word_at]
  have h1 : i * 4 + 12 = 12 + 4 * i := by omega
  have h2 : i * 4 + 13 = 12 + 4 * i + 1 := by omega
  rw [h1, h2]

theorem dlt_offset_loop_skip (le : Bool) (packet : Nat → Nat) (hbytes : ∀ i, packet i < 256) :
    ∀ (k n i : Nat), (∀ j < k, word_at packet (12 + 4 * (i + j)) = ETHERTYPE_VLAN) →
      dlt_offset_loop le packet (n + k) i = dlt_offset_loop le packet n (i + k)
  | 0, n, i, _ => rfl
  | k + 1, n, i, h => by
    have h0 : word_at packet (12 + 4 * i) = ETHERTYPE_VLAN := by
      have := h 0 (by omega)
      rwa [Nat.add_zero] at this
    have hne : ¬ (ETHERTYPE_VLAN = ETHERTYPE_IP) := by decide
    have ih := dlt_offset_loop_skip le packet hbytes k n (i + 1) (by
      intro j hj
      have := h (j + 1) (by omega)
      have e : i + (j + 1) = i + 1 + j := by omega
      rwa [e] at this)
    have e1 : n + (k + 1) = (n + k) + 1 := by omega
    have e2 : i + (k + 1) = i + 1 + k := by omega
    rw [e1, e2, dlt_offset_loop, ethertype_at le packet hbytes i, h0, if_neg hne]
    simp only [ne_eq, not_true_eq_false, if_false]
    exact ih

/-- C24 (link-header offset) fails at four VLAN tags.  `dlt_offset` returns 0
for raw IP and 16 for Linux cooked capture; for Ethernet it returns
`14 + 4 * k` when `k <= 3` VLAN tags are followed by the IPv4 ethertype, and
-1 when the ethertype after `k` tags is neither IPv4 nor VLAN.  With four
tags the loop ends after the fourth ethertype and the function returns -1,
not 30, also when the IPv4 ethertype follows. -/
theorem dlt_offset_vlan :
    (∀ (le : Bool) (packet : Nat → Nat), dlt_offset le DLT_RAW packet = 0 ∧
        dlt_offset le DLT_LINUX_SLL packet = 16) ∧
    (∀ (le : Bool) (packet : Nat → Nat) (k : Nat), (∀ i, packet i < 256) → k ≤ 3 →
        vlan_tags k packet → word_at packet (12 + 4 * k) = ETHERTYPE_IP →
        dlt_offset le DLT_EN10MB packet = 14 + 4 * (k : Int)) ∧
    (∀ (le : Bool) (packet : Nat → Nat) (k : Nat), (∀ i, packet i < 256) →
        vlan_tags k packet → word_at packet (12 + 4 * k) ≠ ETHERTYPE_IP →
        word_at packet (12 + 4 * k) ≠ ETHERTYPE_VLAN →
        dlt_offset le DLT_EN10MB packet = -1) ∧
    (∀ (le : Bool) (packet : Nat → Nat), (∀ i, packet i < 256) → vlan_tags 4 packet →
        dlt_offset le DLT_EN10MB packet = -1) ∧
    (vlan_tags 4 (frame_of four_tags_frame) ∧
      word_at (frame_of four_tags_frame) (12 + 4 * 4) = ETHERTYPE_IP ∧
      dlt_offset true DLT_EN10MB (frame_of four_tags_frame) = -1) := by
  have hen : ∀ (le : Bool) (packet : Nat → Nat),
      dlt_offset le DLT_EN10MB packet = dlt_offset_loop le packet 4 0 := by
    intro le packet
    have h1 : ¬ (DLT_EN10MB = DLT_RAW) := by decide
    rw [dlt_offset, if_neg h1, if_pos rfl]
  have hfour : ∀ (le : Bool) (packet : Nat → Nat), (∀ i, packet i < 256) →
      vlan_tags 4 packet → dlt_offset le DLT_EN10MB packet = -1 := by
    intro le packet hbytes htags
    rw [hen, dlt_offset_loop_skip le packet hbytes 4 0 0 (by
      intro j hj
      rw [Nat.zero_add]
      exact htags j hj)]
    rfl
  refine ⟨?_, ?_, ?_, hfour, ?_⟩
  · intro le packet
    refine ⟨by rw [dlt_offset, if_pos rfl], ?_⟩
    have h1 : ¬ (DLT_LINUX_SLL = DLT_RAW) := by decide
    have h2 : ¬ (DLT_LINUX_SLL = DLT_EN10MB) := by decide
    rw [dlt_offset, if_neg h1, if_neg h2, if_pos rfl]
  · intro le packet k hbytes hk htags hip
    obtain ⟨n, hn⟩ : ∃ n, 4 = (n + 1) + k := ⟨3 - k, by omega⟩
    rw [hen, hn, dlt_offset_loop_skip le packet hbytes k (n + 1) 0 (by
      intro j hj
      rw [Nat.zero_add]
      exact htags j hj), Nat.zero_add, dlt_offset_loop, ethertype_at le packet hbytes k, hip,
      if_pos rfl]
    omega
  · intro le packet k hbytes htags hip hvlan
    by_cases hk : k ≤ 3
    · obtain ⟨n, hn⟩ : ∃ n, 4 = (n + 1) + k := ⟨3 - k, by omega⟩
      rw [hen, hn, dlt_offset_loop_skip le packet hbytes k (n + 1) 0 (by
        intro j hj
        rw [Nat.zero_add]
        exact htags j hj), Nat.zero_add, dlt_offset_loop, ethertype_at le packet hbytes k,
        if_neg hip, if_pos hvlan]
    · exact hfour le packet hbytes (fun j hj => htags j (by omega))
  · refine ⟨?_, by decide, by decide⟩
    intro j hj
    have h4 : j = 0 ∨ j = 1 ∨ j = 2 ∨ j = 3 := by omega
    rcases h4 with h | h | h | h <;> subst h <;> decide

/-! ### Reader selection -/

theorem suffix_test (suffix fname : List Char) :
    (fname.length ≥ suffix.length ∧ suffix = fname.drop (fname.length - suffix.length)) ↔
      suffix <:+ fname := by
  constructor
  · intro h
    exact List.suffix_iff_eq_drop.mpr h.2
  · intro h
    exact ⟨h.length_le, List.suffix_iff_eq_drop.mp h⟩

theorem suffixes_disjoint :
    ∀ e1 ∈ suffixes, ∀ e2 ∈ suffixes, e1.1 <:+ e2.1 → e1 = e2 := by
  decide

theorem suffixes_unique (fname : List Char) :
    ∀ e1 ∈ suffixes, ∀ e2 ∈ suffixes, e1.1 <:+ fname → e2.1 <:+ fname → e1 = e2 := by
  intro e1 h1 e2 h2 s1 s2
  rcases List.suffix_or_suffix_of_suffix s1 s2 with h | h
  · exact suffixes_disjoint e1 h1 e2 h2 h
  · exact (suffixes_disjoint e2 h2 e1 h1 h).symm

theorem find_input_type_loop_none (fname : List Char) :
    ∀ tbl : List (List Char × fc_input_type_t), (∀ e ∈ tbl, ¬ e.1 <:+ fname) →
      find_input_type_loop fname tbl = FC_INPUT_ERROR
  | [], _ => rfl
  | (suffix, code) :: rest, h => by
    have hno : ¬ (fname.length ≥ suffix.length ∧
        suffix = fname.drop (fname.length - suffix.length)) :=
      fun hc => h (suffix, code) (List.mem_cons_self _ _) ((suffix_test suffix fname).mp hc)
    rw [find_input_type_loop, if_neg hno]
    exact find_input_type_loop_none fname rest (fun e he => h e (List.mem_cons_of_mem _ he))

theorem find_input_type_loop_some (fname : List Char) (e : List Char × fc_input_type_t)
    (hs : e.1 <:+ fname) :
    ∀ tbl : List (List Char × fc_input_type_t), e ∈ tbl →
      (∀ e' ∈ tbl, e'.1 <:+ fname → e' = e) → find_input_type_loop fname tbl = e.2
  | [], he, _ => by cases he
  | (suffix, code) :: rest, he, hu => by
    by_cases hc : fname.length ≥ suffix.length ∧
        suffix = fname.drop (fname.length - suffix.length)
    · rw [find_input_type_loop, if_pos hc]
      have := hu (suffix, code) (List.mem_cons_self _ _) ((suffix_test suffix fname).mp hc)
      rw [← this]
    · rw [find_input_type_loop, if_neg hc]
      rcases List.mem_cons.mp he with h | h
      · subst h
        exact absurd ((suffix_test _ fname).mpr hs) hc
      · exact find_input_type_loop_some fname e hs rest h
          (fun e' he' => hu e' (List.mem_cons_of_mem _ he'))

theorem find_input_type_of_suffix (fname : List Char) (e : List Char × fc_input_type_t)
    (he : e ∈ suffixes) (hs : e.1 <:+ fname) : find_input_type fname = e.2 :=
  find_input_type_loop_some fname e hs suffixes he
    (fun e' he' hs' => suffixes_unique fname e' he' e he hs' hs)

theorem find_input_type_error (fname : List Char) (h : ∀ e ∈ suffixes, ¬ e.1 <:+ fname) :
    find_input_type fname = FC_INPUT_ERROR :=
  find_input_type_loop_none fname suffixes h

theorem find_input_type_cases (fname : List Char) :
    (find_input_type fname = FC_INPUT_ERROR ∧ ∀ e ∈ suffixes, ¬ e.1 <:+ fname) ∨
    ∃ e ∈ suffixes, e.1 <:+ fname ∧ find_input_type fname = e.2 := by
  by_cases h : ∃ e ∈ suffixes, e.1 <:+ fname
  · obtain ⟨e, he, hs⟩ := h
    exact Or.inr ⟨e, he, hs, find_input_type_of_suffix fname e he hs⟩
  · have h2 : ∀ e ∈ suffixes, ¬ e.1 <:+ fname := fun e he hs => h ⟨e, he, hs⟩
    exact Or.inl ⟨find_input_type_error fname h2, h2⟩

/-- C25 (reader selection): the table of `find_input_type` holds the nine
suffixes `.pcap`, `.pcap.gz`, `.pcap.lz4`, `.csv`, `.csv.gz`, `.csv.lz4`,
`.fc5`, `.fc5.gz`, `.fc5.lz4` with their input types; for every file name
`find_input_type` returns the type of the suffix the name ends with, at most
one suffix of the table matches, and when none matches it returns
`FC_INPUT_ERROR` and `fc_read_file` runs no reader, writes
`ERROR: unknown input type` to `stderr` and returns -1. -/
theorem find_input_type_suffix (fname : List Char) :
    suffixes.map (fun e => (String.mk e.1, e.2)) =
      [(".pcap", FC_INPUT_PCAP), (".pcap.gz", FC_INPUT_PCAP_GZ),
       (".pcap.lz4", FC_INPUT_PCAP_LZ4), (".csv", FC_INPUT_CSV), (".csv.gz", FC_INPUT_CSV_GZ),
       (".csv.lz4", FC_INPUT_CSV_LZ4), (".fc5", FC_INPUT_FC5), (".fc5.gz", FC_INPUT_FC5_GZ),
       (".fc5.lz4", FC_INPUT_FC5_LZ4)] ∧
    (∀ e ∈ suffixes, e.1 <:+ fname → find_input_type fname = e.2) ∧
    (∀ e1 ∈ suffixes, ∀ e2 ∈ suffixes, e1.1 <:+ fname → e2.1 <:+ fname → e1 = e2) ∧
    ((∀ e ∈ suffixes, ¬ e.1 <:+ fname) →
      find_input_type fname = FC_INPUT_ERROR ∧
      ∀ (opens : Bool) (read_rc : Int),
        fc_read_file opens read_rc fname =
          { rc := -1, reader := none,
            stderr := ["ERROR: unknown input type [" ++ String.mk fname ++ "]\n",
                       "ERROR: unknown input type [type=0]\n"] }) := by
  refine ⟨by decide, fun e he hs => find_input_type_of_suffix fname e he hs,
    suffixes_unique fname, ?_⟩
  intro h
  have herr := find_input_type_error fname h
  refine ⟨herr, ?_⟩
  intro opens read_rc
  simp only [fc_read_file, herr, reader_of, fc_input_open, fc_input_type_t.code]
  rfl

theorem find_input_type_iff (fname : List Char) (e : List Char × fc_input_type_t)
    (he : e ∈ suffixes) : find_input_type fname = e.2 ↔ e.1 <:+ fname := by
  constructor
  · intro h
    rcases find_input_type_cases fname with ⟨herr, _⟩ | ⟨e', he', hs', hf'⟩
    · have hne : ∀ x ∈ suffixes, x.2 ≠ FC_INPUT_ERROR := by decide
      exact absurd (h.symm.trans herr) (hne e he)
    · have hinj : ∀ x ∈ suffixes, ∀ y ∈ suffixes, x.2 = y.2 → x = y := by decide
      have := hinj e' he' e he (hf'.symm.trans h)
      rw [← this]
      exact hs'
  · exact find_input_type_of_suffix fname e he

theorem fc_read_stdin_reader (type : List Char) (read_rc : Int) :
    (fc_read_stdin (some type) read_rc).reader =
      if find_input_type ('.' :: type) = FC_INPUT_PCAP then some .pcap
      else if find_input_type ('.' :: type) = FC_INPUT_CSV then some .csv
      else if find_input_type ('.' :: type) = FC_INPUT_FC5 then some .fc5
      else none := by
  cases h : find_input_type ('.' :: type) <;>
    simp [fc_read_stdin, h, reader_of]

/-- C26 (stdin type) fails: `fc_read_stdin` runs the CSV, pcap or FC5 reader
for the types `csv` (also for a NULL type), `pcap` and `fc5`, but it tests the
type by appending it to a dot and looking for a file suffix, so it accepts
every type that ends with `.csv`, `.pcap` or `.fc5` as well: the type `x.csv`
runs the CSV reader and returns its result.  A reader runs exactly when the
fake name `.TYPE` ends with `.pcap`, `.csv` or `.fc5`; otherwise -1 is
returned without reading. -/
theorem fc_read_stdin_types :
    (∀ read_rc : Int,
      (fc_read_stdin none read_rc).reader = some .csv ∧
      (fc_read_stdin (some "csv".toList) read_rc).reader = some .csv ∧
      (fc_read_stdin (some "pcap".toList) read_rc).reader = some .pcap ∧
      (fc_read_stdin (some "fc5".toList) read_rc).reader = some .fc5) ∧
    fc_read_stdin (some "x.csv".toList) 0 = { rc := 0, reader := some .csv, stderr := [] } ∧
    (∀ (type : List Char) (read_rc : Int),
      (fc_read_stdin (some type) read_rc).reader.isSome = true ↔
        (".pcap".toList <:+ '.' :: type ∨ ".csv".toList <:+ '.' :: type ∨
          ".fc5".toList <:+ '.' :: type)) ∧
    (∀ (type : List Char) (read_rc : Int),
      (fc_read_stdin (some type) read_rc).reader = none →
        (fc_read_stdin (some type) read_rc).rc = -1) := by
  refine ⟨?_, by decide, ?_, ?_⟩
  · intro read_rc
    have h1 : find_input_type ('.' :: "csv".toList) = FC_INPUT_CSV := by decide
    have h2 : find_input_type ('.' :: "pcap".toList) = FC_INPUT_PCAP := by decide
    have h3 : find_input_type ('.' :: "fc5".toList) = FC_INPUT_FC5 := by decide
    refine ⟨?_, ?_, ?_, ?_⟩
    · exact (fc_read_stdin_reader "csv".toList read_rc).trans (by rw [h1]; rfl)
    · exact (fc_read_stdin_reader "csv".toList read_rc).trans (by rw [h1]; rfl)
    · exact (fc_read_stdin_reader "pcap".toList read_rc).trans (by rw [h2]; rfl)
    · exact (fc_read_stdin_reader "fc5".toList read_rc).trans (by rw [h3]; rfl)
  · intro type read_rc
    have k1 := find_input_type_iff ('.' :: type) (".pcap".toList, FC_INPUT_PCAP) (by decide)
    have k2 := find_input_type_iff ('.' :: type) (".csv".toList, FC_INPUT_CSV) (by decide)
    have k3 := find_input_type_iff ('.' :: type) (".fc5".toList, FC_INPUT_FC5) (by decide)
    rw [fc_read_stdin_reader, ← k1, ← k2, ← k3]
    by_cases c1 : find_input_type ('.' :: type) = FC_INPUT_PCAP
    · simp only [c1, if_true, Option.isSome_some, true_or]
    · by_cases c2 : find_input_type ('.' :: type) = FC_INPUT_CSV
      · simp only [c2, if_true, Option.isSome_some, true_or, or_true, reduceCtorEq, if_false]
      · by_cases c3 : find_input_type ('.' :: type) = FC_INPUT_FC5
        · simp only [c3, if_true, Option.isSome_some, or_true, reduceCtorEq, if_false]
        · simp only [c1, c2, c3, if_false, Option.isSome_none, or_self, Bool.false_eq_true]
  · intro type read_rc
    cases h : find_input_type ('.' :: type) <;>
      simp [fc_read_stdin, h, reader_of]

/-- C27 (field-count bound) fails: neither parser tests `field_index` against
the array size.  `fc_str2query` on a text of any number of tokens, and
`fc_str2filter` likewise, return 0 with one field per token; the query
`SSSSSSSSSSSSSSSSS` and the filter made of seventeen fields `P=6` return 0
with `n_fields = 17`, the seventeenth field being stored past the end of the
16-entry array. -/
theorem field_count_unbounded :
    (∀ (toks : List query_token) (q : fc_query_t), (∀ t ∈ toks, t.wf) →
      (fc_str2query (render_query toks) q).map (fun r => (r.1, r.2.fields.length)) =
        some (0, toks.length)) ∧
    (∀ toks : List filter_token, (∀ t ∈ toks, t.wf) →
      (fc_str2filter (render_filter toks)).map (fun r => (r.1, r.2.fields.length)) =
        some (0, toks.length)) ∧
    (fc_str2query (List.replicate 17 'S') default).map (fun r => (r.1, r.2.fields.length)) =
      some (0, 17) ∧
    (seventeen_fields.filter (fun c => c == 'P')).length = 17 ∧
    (fc_str2filter seventeen_fields).map (fun r => (r.1, r.2.fields.length)) = some (0, 17) := by
  refine ⟨?_, ?_, by decide, by decide, by decide⟩
  · intro toks q hwf
    have h := fc_str2query_accepts toks q hwf
    cases hr : fc_str2query (render_query toks) q with
    | none => rw [hr] at h; cases h
    | some r =>
      rw [hr] at h
      simp only [Option.map_some', Option.some.injEq, Prod.mk.injEq] at h ⊢
      rw [h.1, h.2, List.length_map]
      exact ⟨rfl, rfl⟩
  · intro toks hwf
    unfold fc_str2filter
    rw [filter_loop_compiles toks _ [] hwf (Nat.lt_succ_self _)]
    simp only [Option.map_some', List.nil_append, List.length_map]

/-! ### Output text and the evaluation in `main` -/

/-- C28 (empty input): when the aligned chunk holds no record, the program
writes for each configured query, in order, the one line
`T,0,start_time,0,<query>` and nothing else; this is the text of a terminator
line with total 0 and start time 0. -/
theorem empty_input_output (fmt_g : Nat → Nat → String) (alignment : Int)
    (queries : List fc_query_t) (interval : Int) (normalized : Bool)
    (chunk aligned : fc_chunk_t) (ha : main_align alignment chunk = some aligned)
    (h0 : aligned.count = 0) :
    main_evaluate fmt_g alignment queries interval normalized chunk =
      some (queries.map (fun q => "T,0,start_time,0," ++ q.query_str ++ "\n")) ∧
    (∀ q ∈ queries, "T,0,start_time,0," ++ q.query_str ++ "\n" =
      (fc_line.term 0 0 q.query_str).text fmt_g q) := by
  constructor
  · simp only [main_evaluate, ha, Option.some_bind, main_output, h0, if_true]
  · intro q _
    have h : "T," ++ fmt_d (toI64 ((0 : Nat) : Int)) ++ ",start_time," ++
        fmt_d (toI32 ((0 : Nat) : Int)) ++ "," = "T,0,start_time,0," := by decide
    simp only [fc_line.text, h]

/-- Witness for C28: no record at all, and two records none of which is
aligned on 10 seconds, with the queries `S24P` and `P`. -/
theorem empty_input_output_witness :
    (main_align 0 { pkts := [] } = some { pkts := [] } ∧
      ({ pkts := [] } : fc_chunk_t).count = 0 ∧
      main_align 10 { pkts := [mk_ts 11 0, mk_ts 12 5] } = some { pkts := [] }) ∧
    (main_evaluate (fun _ _ => "") 0 sample_queries 900 false { pkts := [] } =
      some (sample_queries.map (fun q => "T,0,start_time,0," ++ q.query_str ++ "\n")) ∧
    (∀ q ∈ sample_queries, "T,0,start_time,0," ++ q.query_str ++ "\n" =
      (fc_line.term 0 0 q.query_str).text (fun _ _ => "") q)) ∧
    (main_evaluate (fun _ _ => "") 10 sample_queries 900 false
        { pkts := [mk_ts 11 0, mk_ts 12 5] } =
      some (sample_queries.map (fun q => "T,0,start_time,0," ++ q.query_str ++ "\n")) ∧
    (∀ q ∈ sample_queries, "T,0,start_time,0," ++ q.query_str ++ "\n" =
      (fc_line.term 0 0 q.query_str).text (fun _ _ => "") q)) :=
  ⟨by decide,
    empty_input_output (fun _ _ => "") 0 sample_queries 900 false { pkts := [] }
      { pkts := [] } (by decide) (by decide),
    empty_input_output (fun _ _ => "") 10 sample_queries 900 false
      { pkts := [mk_ts 11 0, mk_ts 12 5] } { pkts := [] } (by decide) (by decide)⟩

theorem tmod_eq_zero_iff (a b : Int) : a.tmod b = 0 ↔ a % b = 0 :=
  ⟨fun h => Int.emod_eq_zero_of_dvd (Int.dvd_of_tmod_eq_zero h),
   fun h => Int.tmod_eq_zero_of_dvd (Int.dvd_of_emod_eq_zero h)⟩

theorem align_loop_index (A : Int) (chunk : fc_chunk_t) (hc : chunk.count < 4294967296) :
    ∀ (n i fuel : Nat), i + n = chunk.count → n < fuel →
      (∀ j < i, (chunk.at j).ts.ts_sec % A ≠ 0) →
      ∃ k, k ≤ chunk.count ∧ align_loop A chunk fuel i = some { pkts := chunk.pkts.drop k } ∧
        (∀ j < k, (chunk.at j).ts.ts_sec % A ≠ 0) ∧
        (k < chunk.count → (chunk.at k).ts.ts_sec % A = 0)
  | 0, i, fuel, hi, hf, hbefore => by
    obtain ⟨f, rfl⟩ : ∃ f, fuel = f + 1 := ⟨fuel - 1, by omega⟩
    refine ⟨chunk.count, Nat.le_refl _, ?_, ?_, ?_⟩
    · have hlt : ¬ (i < chunk.count) := by omega
      rw [align_loop, if_neg hlt]
      have : chunk.pkts.drop chunk.count = [] := List.drop_eq_nil_of_le (Nat.le_refl _)
      rw [this]
    · intro j hj
      exact hbefore j (by omega)
    · intro h
      omega
  | n + 1, i, fuel, hi, hf, hbefore => by
    obtain ⟨f, rfl⟩ : ∃ f, fuel = f + 1 := ⟨fuel - 1, by omega⟩
    have hlt : i < chunk.count := by omega
    by_cases hal : (chunk.at i).ts.ts_sec % A = 0
    · refine ⟨i, Nat.le_of_lt hlt, ?_, hbefore, fun _ => hal⟩
      rw [align_loop, if_pos hlt, if_pos ((tmod_eq_zero_iff _ _).mpr hal)]
    · have hmod : (i + 1) % 4294967296 = i + 1 := Nat.mod_eq_of_lt (by omega)
      obtain ⟨k, hk, hres, hb, ha⟩ := align_loop_index A chunk hc n (i + 1) f (by omega)
        (by omega) (by
          intro j hj
          by_cases hji : j < i
          · exact hbefore j hji
          · have : j = i := by omega
            subst this
            exact hal)
      refine ⟨k, hk, ?_, hb, ha⟩
      rw [align_loop, if_pos hlt, if_neg (fun h => hal ((tmod_eq_zero_iff _ _).mp h)), hmod]
      exact hres

theorem huge_chunk_count : huge_chunk.count = 4294967296 := by
  simp only [huge_chunk, fc_chunk_t.count, List.length_replicate]

theorem huge_chunk_at (i : Nat) (hi : i < 4294967296) : huge_chunk.at i = mk_ts 1 0 := by
  have hl : i < (List.replicate 4294967296 (mk_ts 1 0)).length := by
    rw [List.length_replicate]; exact hi
  simp only [huge_chunk, fc_chunk_t.at]
  rw [List.getD_eq_getElem _ _ hl, List.getElem_replicate]

theorem align_loop_huge : ∀ (fuel i : Nat), i < 4294967296 →
    align_loop 2 huge_chunk fuel i = none
  | 0, _, _ => rfl
  | fuel + 1, i, hi => by
    have hlt : i < huge_chunk.count := by rw [huge_chunk_count]; exact hi
    have hno : ¬ ((huge_chunk.at i).ts.ts_sec.tmod 2 = 0) := by
      rw [huge_chunk_at i hi]
      decide
    rw [align_loop, if_pos hlt, if_neg hno]
    exact align_loop_huge fuel _ (Nat.mod_lt _ (by decide))

/-- C29 (alignment trimming) holds for arrays of fewer than `2 ^ 32` records
and fails from `2 ^ 32` records on.  With alignment 0 the array is unchanged.
With `A > 0` and fewer than `2 ^ 32` records the aligned array is the suffix
starting at the smallest index `k` with `ts_sec[k] mod A = 0`, and it is
empty (`k = count`) when there is none.  The loop index is a `uint32_t`
compared with the 64-bit count: on `2 ^ 32` records none of which is aligned
the index wraps to 0 and the loop never ends, so nothing is evaluated. -/
theorem alignment_trimming :
    (∀ chunk : fc_chunk_t, main_align 0 chunk = some chunk) ∧
    (∀ (A : Int) (chunk : fc_chunk_t), 0 < A → chunk.count < 4294967296 →
      ∃ k, k ≤ chunk.count ∧ main_align A chunk = some { pkts := chunk.pkts.drop k } ∧
        (∀ j < k, (chunk.at j).ts.ts_sec % A ≠ 0) ∧
        (k < chunk.count → (chunk.at k).ts.ts_sec % A = 0)) ∧
    (huge_chunk.count = 4294967296 ∧
      (∀ i < huge_chunk.count, (huge_chunk.at i).ts.ts_sec % 2 ≠ 0) ∧
      (∀ fuel : Nat, align_loop 2 huge_chunk fuel 0 = none) ∧
      main_align 2 huge_chunk = none) := by
  refine ⟨fun chunk => rfl, ?_, huge_chunk_count, ?_, ?_, ?_⟩
  · intro A chunk hA hc
    have hpos : A > 0 := hA
    rw [main_align, if_pos hpos]
    exact align_loop_index A chunk hc chunk.count 0 align_fuel (by omega)
      (by simp only [align_fuel]; omega) (fun j hj => absurd hj (Nat.not_lt_zero _))
  · intro i hi
    rw [huge_chunk_count] at hi
    rw [huge_chunk_at i hi]
    decide
  · intro fuel
    exact align_loop_huge fuel 0 (by decide)
  · have hpos : (2 : Int) > 0 := by decide
    rw [main_align, if_pos hpos]
    exact align_loop_huge align_fuel 0 (by decide)

theorem byte_and (x : Nat) : 255 &&& x = x % 256 := by
  have := Nat.and_pow_two_sub_one_eq_mod x 8
  norm_num at this
  rw [Nat.and_comm, this]

theorem fmt_quad_eq (v : Nat) : fmt_quad v = spec_quad v := by
  simp only [fmt_quad, spec_quad, fmt_u, byte_and, Nat.shiftRight_eq_div_pow]

theorem masked_eq_clear_low (w v : Nat) (h1 : 1 ≤ w) (h2 : w ≤ 32) (hv : v < 4294967296) :
    width_mask w &&& v = clear_low w v := by
  rw [Nat.and_comm, and_width_mask w v h1 h2 hv, clear_low, Nat.mul_comm]

/-- C30 (count-line fields): for every group representative in the range of
the C types and every query field of width `1 <= w <= 32`, `print_count`
writes `,<letter><w>,<value>` when `w <= 31` and `,<letter>,<value>` when
`w = 32`, the value being the field with its low `32 - w` bits cleared, as a
dotted quad for S and D (followed by `/<w>` when `w <= 31`) and in decimal
otherwise; with S24 the last octet printed is 0. -/
theorem print_count_fields (pkt : fc_pkt_t) (f : fc_query_field_t) (hwf : pkt.wf)
    (h1 : 1 ≤ f.width) (h32 : f.width ≤ 32) :
    print_count_field pkt f = spec_field_text pkt f ∧
    print_count_field pkt { name := FC_FIELD_NAME_SADDR, width := 24 } =
      ",S24," ++ toString (pkt.saddr / 16777216 % 256) ++ "." ++
        toString (pkt.saddr / 65536 % 256) ++ "." ++ toString (pkt.saddr / 256 % 256) ++
        ".0/24" := by
  have key : ∀ g : fc_query_field_t, 1 ≤ g.width → g.width ≤ 32 →
      print_count_field pkt g = spec_field_text pkt g := by
    intro g g1 g32
    have hm := masked_eq_clear_low g.width (fetch_field pkt g.name) g1 g32
      (fetch_field_lt pkt hwf g.name)
    have hpos : g.width > 0 := g1
    by_cases hw : g.width = 32
    · have hc : ¬ (g.width > 0 ∧ g.width ≠ 32) := fun h => h.2 hw
      by_cases hn : g.name = FC_FIELD_NAME_SADDR ∨ g.name = FC_FIELD_NAME_DADDR
      · simp only [print_count_field, spec_field_text, hm, if_pos hn, if_neg hc, if_pos hw,
          fmt_quad_eq, String.append_empty]
      · simp only [print_count_field, spec_field_text, hm, if_neg hn, if_neg hc, if_pos hw,
          fmt_u, String.append_empty]
    · have hc : g.width > 0 ∧ g.width ≠ 32 := ⟨hpos, hw⟩
      by_cases hn : g.name = FC_FIELD_NAME_SADDR ∨ g.name = FC_FIELD_NAME_DADDR
      · simp only [print_count_field, spec_field_text, hm, if_pos hn, if_pos hc, if_neg hw,
          fmt_quad_eq, fmt_u, String.append_assoc]
      · simp only [print_count_field, spec_field_text, hm, if_neg hn, if_pos hc, if_neg hw,
          fmt_u, String.append_assoc]
  refine ⟨key f h1 h32, ?_⟩
  rw [key { name := FC_FIELD_NAME_SADDR, width := 24 } (by decide) (by decide)]
  have hlast : clear_low 24 pkt.saddr % 256 = 0 := by
    simp only [clear_low]; omega
  have h3 : clear_low 24 pkt.saddr / 16777216 % 256 = pkt.saddr / 16777216 % 256 := by
    simp only [clear_low]; omega
  have h2 : clear_low 24 pkt.saddr / 65536 % 256 = pkt.saddr / 65536 % 256 := by
    simp only [clear_low]; omega
  have h1 : clear_low 24 pkt.saddr / 256 % 256 = pkt.saddr / 256 % 256 := by
    simp only [clear_low]; omega
  have e1 : "," ++ String.singleton (name_char FC_FIELD_NAME_SADDR) ++ toString 24 ++ "," =
      ",S24," := by decide
  have e2 : "." ++ (toString 0 ++ ("/" ++ toString 24)) = ".0/24" := by decide
  simp only [spec_field_text, fetch_field, true_or, if_true, spec_quad, hlast, h3, h2, h1,
    reduceCtorEq, if_false, Nat.reduceEqDiff]
  simp only [String.append_assoc]
  simp only [← String.append_assoc, e1]
  simp only [String.append_assoc, e2]

/-- Witness for C30: the record from 10.1.2.3 under the field `S24`, printed
as `,S24,10.1.2.0/24`. -/
theorem print_count_fields_witness :
    (syn_pkt.wf ∧ 1 ≤ (24 : Nat) ∧ (24 : Nat) ≤ 32 ∧
      print_count_field syn_pkt { name := FC_FIELD_NAME_SADDR, width := 24 } =
        ",S24,10.1.2.0/24") ∧
    (print_count_field syn_pkt { name := FC_FIELD_NAME_SADDR, width := 24 } =
        spec_field_text syn_pkt { name := FC_FIELD_NAME_SADDR, width := 24 } ∧
      print_count_field syn_pkt { name := FC_FIELD_NAME_SADDR, width := 24 } =
        ",S24," ++ toString (syn_pkt.saddr / 16777216 % 256) ++ "." ++
          toString (syn_pkt.saddr / 65536 % 256) ++ "." ++
          toString (syn_pkt.saddr / 256 % 256) ++ ".0/24") :=
  ⟨by decide,
    print_count_fields syn_pkt { name := FC_FIELD_NAME_SADDR, width := 24 } (by decide)
      (by decide) (by decide)⟩

/-! ### Narrow fields, default width, chain invariant -/

theorem fetch_field_narrow (pkt : fc_pkt_t) (hwf : pkt.wf) (name : fc_field_name_t)
    (hname : name = FC_FIELD_NAME_SPORT ∨ name = FC_FIELD_NAME_DPORT ∨
      name = FC_FIELD_NAME_PROTO) : fetch_field pkt name < 65536 := by
  obtain ⟨_, _, h3, h4, h5, _⟩ := hwf
  rcases hname with h | h | h <;> subst h <;> simp only [fetch_field] <;> omega

theorem apply_width_narrow (w x : Nat) (h1 : 1 ≤ w) (h16 : w ≤ 16) (hx : x < 65536) :
    apply_width w x = 0 := by
  have hw : w > 0 := by omega
  have hpow : 65536 ≤ 2 ^ (32 - w) := by
    have : (2 : Nat) ^ 16 ≤ 2 ^ (32 - w) := Nat.pow_le_pow_right (by decide) (by omega)
    simpa using this
  rw [apply_width, if_pos hw, and_width_mask w x h1 (by omega) (by omega),
    Nat.div_eq_of_lt (by omega), Nat.mul_zero]

/-- C40 (prefix widths on narrow fields): for every record in the range of the
C types and every one-field filter on E, A or P with width `1 <= w <= 16` and
value below `2 ^ 16`, `fc_filter_pkt` returns 1: the mask keeps bits from 16
up only, so the masked record value and the masked filter value are both 0. -/
theorem narrow_field_widths (pkt : fc_pkt_t) (hwf : pkt.wf) (name : fc_field_name_t)
    (hname : name = FC_FIELD_NAME_SPORT ∨ name = FC_FIELD_NAME_DPORT ∨
      name = FC_FIELD_NAME_PROTO)
    (w value : Nat) (h1 : 1 ≤ w) (h16 : w ≤ 16) (hv : value < 65536) :
    fc_filter_pkt pkt (one_field_filter name w value) = 1 ∧
    apply_width w (fetch_field pkt name) = 0 ∧ apply_width w value = 0 := by
  have e1 := apply_width_narrow w (fetch_field pkt name) h1 h16
    (fetch_field_narrow pkt hwf name hname)
  have e2 := apply_width_narrow w value h1 h16 hv
  refine ⟨?_, e1, e2⟩
  simp only [fc_filter_pkt, one_field_filter, filter_fields, e1, e2, ne_eq, not_true_eq_false,
    if_false]

/-- Witness for C40: the filter `P8=17` accepts a record of protocol 6. -/
theorem narrow_field_widths_witness :
    (syn_pkt.wf ∧ syn_pkt.proto = 6 ∧ 1 ≤ (8 : Nat) ∧ (8 : Nat) ≤ 16 ∧ (17 : Nat) < 65536) ∧
    (fc_filter_pkt syn_pkt (one_field_filter FC_FIELD_NAME_PROTO 8 17) = 1 ∧
      apply_width 8 (fetch_field syn_pkt FC_FIELD_NAME_PROTO) = 0 ∧ apply_width 8 17 = 0) :=
  ⟨by decide,
    narrow_field_widths syn_pkt (by decide) FC_FIELD_NAME_PROTO (Or.inr (Or.inr rfl)) 8 17
      (by decide) (by decide) (by decide)⟩

/-- C36 (default width prints all bits): for every group representative in
the range of the C types and every field name, `print_count` writes for
width 0 the bare letter and the full 32-bit field value, as a dotted quad for
S and D and in decimal otherwise, the same text as for width 32.  The shift
count of `1 << (32 - width)` is 32 here; it is taken modulo 32, as x86-64 and
AArch64 do (the C standard leaves this shift undefined). -/
theorem default_width_prints_all (pkt : fc_pkt_t) (hwf : pkt.wf) (name : fc_field_name_t) :
    print_count_field pkt { name := name, width := 0 } =
      print_count_field pkt { name := name, width := 32 } ∧
    print_count_field pkt { name := name, width := 0 } =
      "," ++ String.singleton (name_char name) ++ "," ++
        (if name = FC_FIELD_NAME_SADDR ∨ name = FC_FIELD_NAME_DADDR then
          spec_quad (fetch_field pkt name)
         else toString (fetch_field pkt name)) := by
  have hlt := fetch_field_lt pkt hwf name
  have h0 : width_mask 0 &&& fetch_field pkt name = fetch_field pkt name := by
    have : width_mask 0 = 4294967295 := by decide
    rw [this, Nat.and_comm, and_full _ hlt]
  have h32 : width_mask 32 &&& fetch_field pkt name = fetch_field pkt name := by
    have : width_mask 32 = 4294967295 := by decide
    rw [this, Nat.and_comm, and_full _ hlt]
  have c0 : ¬ ((0 : Nat) > 0 ∧ (0 : Nat) ≠ 32) := by decide
  have c32 : ¬ ((32 : Nat) > 0 ∧ (32 : Nat) ≠ 32) := by decide
  by_cases hn : name = FC_FIELD_NAME_SADDR ∨ name = FC_FIELD_NAME_DADDR
  · simp only [print_count_field, h0, h32, if_pos hn, if_neg c0, if_neg c32, fmt_quad_eq,
      and_self]
  · simp only [print_count_field, h0, h32, if_neg hn, if_neg c0, if_neg c32, fmt_u, and_self]

/-- Witness for C36: the source address and the protocol of a record from
10.1.2.3 with protocol 6. -/
theorem default_width_prints_all_witness :
    (syn_pkt.wf ∧
      print_count_field syn_pkt { name := FC_FIELD_NAME_SADDR, width := 0 } = ",S,10.1.2.3" ∧
      print_count_field syn_pkt { name := FC_FIELD_NAME_PROTO, width := 0 } = ",P,6") ∧
    (print_count_field syn_pkt { name := FC_FIELD_NAME_SADDR, width := 0 } =
        print_count_field syn_pkt { name := FC_FIELD_NAME_SADDR, width := 32 } ∧
      print_count_field syn_pkt { name := FC_FIELD_NAME_SADDR, width := 0 } =
        "," ++ String.singleton (name_char FC_FIELD_NAME_SADDR) ++ "," ++
          (if FC_FIELD_NAME_SADDR = FC_FIELD_NAME_SADDR ∨
              FC_FIELD_NAME_SADDR = FC_FIELD_NAME_DADDR then
            spec_quad (fetch_field syn_pkt FC_FIELD_NAME_SADDR)
           else toString (fetch_field syn_pkt FC_FIELD_NAME_SADDR))) :=
  ⟨by decide, default_width_prints_all syn_pkt (by decide) FC_FIELD_NAME_SADDR⟩

theorem extend_chain_contents (chain : pkt_chain_t)
    (hinv : chain.curr = none → chain.linked = []) :
    (fc_extend_chain chain).chunks.flatMap pkt_chunk_t.contents =
      chain.chunks.flatMap pkt_chunk_t.contents := by
  obtain ⟨linked, curr⟩ := chain
  cases curr with
  | none =>
    have hl : linked = [] := hinv rfl
    subst hl
    simp only [fc_extend_chain, pkt_chain_t.chunks, Option.toList, List.flatMap_append,
      List.flatMap_cons, List.flatMap_nil, List.append_nil, contents_new_chunk]
  | some c =>
    by_cases hfull : c.cnt = PKTS_PER_CHUNK
    · simp only [fc_extend_chain, if_pos hfull, pkt_chain_t.chunks, Option.toList,
        List.flatMap_append, List.flatMap_cons, List.flatMap_nil, List.append_nil,
        contents_new_chunk]
    · simp only [fc_extend_chain, if_neg hfull]

theorem extend_chain_room (chain : pkt_chain_t)
    (hcurr : ∀ c, chain.curr = some c → c.cnt ≤ PKTS_PER_CHUNK) :
    ∃ c, (fc_extend_chain chain).curr = some c ∧ c.cnt < PKTS_PER_CHUNK := by
  obtain ⟨linked, curr⟩ := chain
  cases curr with
  | none => exact ⟨new_chunk, rfl, by decide⟩
  | some c =>
    by_cases hfull : c.cnt = PKTS_PER_CHUNK
    · exact ⟨new_chunk, by simp only [fc_extend_chain, if_pos hfull], by decide⟩
    · refine ⟨c, by simp only [fc_extend_chain, if_neg hfull], ?_⟩
      have := hcurr c rfl
      omega

theorem append_step_inv (chain : pkt_chain_t) (pkt : fc_pkt_t) (keep : Bool)
    (hl : ∀ c ∈ chain.linked, c.cnt = PKTS_PER_CHUNK)
    (hc : ∀ c, chain.curr = some c → c.cnt ≤ PKTS_PER_CHUNK) :
    (∀ c ∈ (chain_store (fc_extend_chain chain) pkt keep).linked, c.cnt = PKTS_PER_CHUNK) ∧
    (∀ c, (chain_store (fc_extend_chain chain) pkt keep).curr = some c →
      c.cnt ≤ PKTS_PER_CHUNK) := by
  obtain ⟨linked, curr⟩ := chain
  have hnew : new_chunk.cnt = 0 := rfl
  cases curr with
  | none =>
    simp only [fc_extend_chain, chain_store, Option.some.injEq]
    refine ⟨fun c hc' => absurd hc' (List.not_mem_nil c), ?_⟩
    intro c hc'
    subst hc'
    simp only [hnew, PKTS_PER_CHUNK]
    split <;> omega
  | some c0 =>
    have h0 := hc c0 rfl
    by_cases hfull : c0.cnt = PKTS_PER_CHUNK
    · simp only [fc_extend_chain, if_pos hfull, chain_store, Option.some.injEq]
      refine ⟨?_, ?_⟩
      · intro c hc'
        rcases List.mem_append.mp hc' with h | h
        · exact hl c h
        · rw [List.mem_singleton.mp h]; exact hfull
      · intro c hc'
        subst hc'
        simp only [hnew, PKTS_PER_CHUNK]
        split <;> omega
    · simp only [fc_extend_chain, if_neg hfull, chain_store, Option.some.injEq]
      refine ⟨hl, ?_⟩
      intro c hc'
      subst hc'
      simp only
      split <;> omega

theorem append_steps_inv : ∀ (steps : List (fc_pkt_t × Bool)) (chain : pkt_chain_t),
    (∀ c ∈ chain.linked, c.cnt = PKTS_PER_CHUNK) →
    (∀ c, chain.curr = some c → c.cnt ≤ PKTS_PER_CHUNK) →
    (chain.curr = none → chain.linked = []) →
    (∀ c ∈ (append_steps steps chain).linked, c.cnt = PKTS_PER_CHUNK) ∧
    (∀ c, (append_steps steps chain).curr = some c → c.cnt ≤ PKTS_PER_CHUNK) ∧
    ((append_steps steps chain).curr = none → (append_steps steps chain).linked = []) ∧
    (append_steps steps chain).chunks.flatMap pkt_chunk_t.contents =
      chain.chunks.flatMap pkt_chunk_t.contents ++
        (steps.filter (fun s => s.2)).map (fun s => s.1)
  | [], chain, hl, hc, hinv => by
    simp only [append_steps, List.foldl_nil, List.filter_nil, List.map_nil, List.append_nil]
    exact ⟨hl, hc, hinv, trivial⟩
  | s :: steps, chain, hl, hc, hinv => by
    obtain ⟨h1, h2⟩ := append_step_inv chain s.1 s.2 hl hc
    obtain ⟨k1, k2, k3, k4⟩ := append_steps_inv steps
      (chain_store (fc_extend_chain chain) s.1 s.2) h1 h2
      (fun h => absurd h (curr_store_extend chain s.1 s.2))
    have hfold : append_steps (s :: steps) chain =
        append_steps steps (chain_store (fc_extend_chain chain) s.1 s.2) := rfl
    rw [hfold]
    refine ⟨k1, k2, k3, ?_⟩
    rw [k4]
    cases hk : s.2 with
    | true =>
      rw [chunks_store_extend chain s.1 hinv, List.filter_cons_of_pos (by simpa using hk),
        List.map_cons, List.append_assoc, List.singleton_append]
    | false =>
      rw [chunks_store_extend_reject chain s.1 hinv,
        List.filter_cons_of_neg (by simpa using hk)]

/-- C34 (chain invariant): after any sequence of append steps on the empty
chain, every chunk has `cnt <= 262144`, every chunk before the tail has
`cnt = 262144`, `fc_extend_chain` leaves a tail chunk with `cnt < 262144` and
the records of the chain unchanged, and the chunk contents concatenated in
link order are the accepted records in append order. -/
theorem chain_invariant (steps : List (fc_pkt_t × Bool)) :
    PKTS_PER_CHUNK = 262144 ∧
    (∀ c ∈ (append_steps steps { linked := [], curr := none }).chunks, c.cnt ≤ 262144) ∧
    (∀ c ∈ (append_steps steps { linked := [], curr := none }).linked, c.cnt = 262144) ∧
    (∃ c, (fc_extend_chain (append_steps steps { linked := [], curr := none })).curr = some c ∧
      c.cnt < 262144) ∧
    (pcap_chain_to_chunk
        (fc_extend_chain (append_steps steps { linked := [], curr := none }))).pkts =
      (pcap_chain_to_chunk (append_steps steps { linked := [], curr := none })).pkts ∧
    (pcap_chain_to_chunk (append_steps steps { linked := [], curr := none })).pkts =
      (steps.filter (fun s => s.2)).map (fun s => s.1) := by
  obtain ⟨k1, k2, k3, k4⟩ := append_steps_inv steps { linked := [], curr := none }
    (fun c hc => absurd hc (List.not_mem_nil c)) (fun c hc => by cases hc) (fun _ => rfl)
  have hp : PKTS_PER_CHUNK = 262144 := by decide
  rw [hp] at k1 k2
  refine ⟨hp, ?_, k1, ?_, ?_, ?_⟩
  · intro c hc
    simp only [pkt_chain_t.chunks, List.mem_append, Option.mem_toList, Option.mem_def] at hc
    rcases hc with h | h
    · exact Nat.le_of_eq (k1 c h)
    · exact k2 c h
  · have := extend_chain_room (append_steps steps { linked := [], curr := none })
      (by rw [hp]; exact k2)
    rwa [hp] at this
  · simp only [pcap_chain_to_chunk, extend_chain_contents _ k3]
  · simp only [pcap_chain_to_chunk, k4]
    rfl

/-! ### Missing CSV fields -/

theorem strchr_some (c : Char) : ∀ (s e : List Char), strchr c s = some e →
    deref e = some c ∧ s.count c = e.tail.count c + 1
  | [], e, h => by cases h
  | d :: rest, e, h => by
    by_cases hd : d = c
    · rw [strchr, if_pos hd] at h
      cases h
      subst hd
      exact ⟨rfl, by simp only [List.count_cons_self, List.tail_cons]⟩
    · rw [strchr, if_neg hd] at h
      obtain ⟨h1, h2⟩ := strchr_some c rest e h
      refine ⟨h1, ?_⟩
      rw [List.count_cons_of_ne (fun hc => hd hc.symm), h2]

theorem csv_skip_fields_no_error : ∀ (n : Nat) (e : List Char) (rc : Int),
    csv_skip_fields n e ≠ .error rc
  | 0, e, rc => by
    rw [csv_skip_fields]
    intro h
    cases h
  | n + 1, e, rc => by
    rw [csv_skip_fields]
    cases hs : strchr ',' e.tail with
    | none =>
      intro h
      cases h
    | some e' =>
      have hd := (strchr_some ',' e.tail e' hs).1
      have hno : ¬ (deref e' ≠ some ',') := fun hn => hn hd
      simp only [if_neg hno]
      exact csv_skip_fields_no_error n e' rc

theorem csv_skip_fields_fault : ∀ (n : Nat) (e : List Char), e.tail.count ',' < n →
    csv_skip_fields n e = .fault
  | 0, e, h => by omega
  | n + 1, e, h => by
    rw [csv_skip_fields]
    cases hs : strchr ',' e.tail with
    | none => rfl
    | some e' =>
      obtain ⟨hd, hcount⟩ := strchr_some ',' e.tail e' hs
      have hno : ¬ (deref e' ≠ some ',') := fun hn => hn hd
      simp only [if_neg hno]
      exact csv_skip_fields_fault n e' (by omega)

theorem csv_parse_tail_no_eight (usec : List Char → Nat) (a b c d e f : Int)
    (endptr : List Char) : csv_parse_tail usec a b c d e f endptr ≠ .error (-8) := by
  intro h
  cases hs : csv_skip_fields 3 endptr with
  | fault =>
    rw [csv_parse_tail, hs] at h
    cases h
  | error rc => exact csv_skip_fields_no_error 3 endptr rc hs
  | ok p =>
    rw [csv_parse_tail, hs] at h
    simp only at h
    split_ifs at h <;> cases h

theorem csv_parse_line_no_eight (usec : List Char → Nat) (p : List Char) :
    csv_parse_line usec p ≠ .error (-8) := by
  intro h
  unfold csv_parse_line at h
  simp only at h
  split_ifs at h
  all_goals first
    | exact csv_parse_tail_no_eight usec _ _ _ _ _ _ _ h
    | cases h

theorem c_string_append_no_nul (a b : List Char) (ha : ∀ c ∈ a, c ≠ '\x00') :
    c_string (a ++ b) = a ++ c_string b := by
  induction a with
  | nil => rfl
  | cons x a ih =>
    have hx : (x != '\x00') = true := by simpa using ha x (List.mem_cons_self _ _)
    have := ih (fun c hc => ha c (List.mem_cons_of_mem _ hc))
    unfold c_string at this ⊢
    simp only [List.cons_append, List.takeWhile_cons, hx, if_true, this]

theorem c_string_cons_no_nul (x : Char) (b : List Char) (hx : x ≠ '\x00') :
    c_string (x :: b) = x :: c_string b :=
  c_string_append_no_nul [x] b (fun c hc => by
    rw [List.mem_singleton] at hc
    subst hc
    exact hx)

theorem c_string_append_nul (a b : List Char) (ha : '\x00' ∈ a) :
    c_string (a ++ b) = c_string a := by
  induction a with
  | nil => cases ha
  | cons x a ih =>
    by_cases hx : x = '\x00'
    · subst hx
      rfl
    · have hmem : '\x00' ∈ a := by
        rcases List.mem_cons.mp ha with h | h
        · exact absurd h.symm hx
        · exact h
      rw [List.cons_append, c_string_cons_no_nul x _ hx, c_string_cons_no_nul x _ hx, ih hmem]

theorem count_c_string_le (a : List Char) (c : Char) : (c_string a).count c ≤ a.count c :=
  (List.takeWhile_sublist _).count_le c

theorem csv_int_no_nul (n : csv_int) (hwf : n.wf) : ∀ c ∈ n.text, c ≠ '\x00' := by
  intro c hc
  have hdig : ∀ x ∈ n.digits, x ≠ '\x00' := by
    intro x hx hxe
    have := hwf.2 x hx
    subst hxe
    revert this
    decide
  unfold csv_int.text at hc
  by_cases hn : n.neg = true
  · rw [if_pos hn] at hc
    rcases List.mem_cons.mp hc with h | h
    · subst h; decide
    · exact hdig c h
  · rw [if_neg hn] at hc
    exact hdig c hc

theorem digits_no_nul (ds : List Char) (hd : all_digits ds) : ∀ c ∈ ds, c ≠ '\x00' := by
  intro c hc hce
  have := hd c hc
  subst hce
  revert this
  decide

theorem csv_leading_c_string (ints : List csv_int) (tail : List Char)
    (hints : ∀ m ∈ ints, m.wf) :
    c_string (csv_leading ints tail) = csv_leading ints (c_string tail) := by
  induction ints with
  | nil => rfl
  | cons n ns ih =>
    rw [csv_leading, c_string_append_no_nul _ _ (csv_int_no_nul n (hints n (List.mem_cons_self _ _))),
      c_string_cons_no_nul _ _ (by decide), ih (fun m hm => hints m (List.mem_cons_of_mem _ hm)),
      csv_leading]

theorem plain_count (f : List Char) (hf : plain_field f) : f.count ',' = 0 :=
  List.count_eq_zero.mpr (fun h => (hf _ h).1 rfl)

theorem csv_parse_line_few_commas (usec : List Char → Nat) (ints : List csv_int)
    (t : List Char) (hlen : ints.length = 7) (hints : ∀ m ∈ ints, m.wf)
    (hcount : t.count ',' < 3) : csv_parse_line usec (csv_leading ints t) = .fault := by
  obtain ⟨a, b, c, d, e, f, h⟩ := csv_parse_line_seven usec ints t hlen hints
  rw [h, csv_parse_tail, csv_skip_fields_fault 3 _ (by simpa using hcount)]

theorem csv_parse_tail_ok (usec : List Char → Nat) (a b c d e f : Int)
    (f1 f2 f3 : List Char) (sec : csv_int) (frac rest : List Char) (x : Char)
    (h1 : plain_field f1) (h2 : plain_field f2) (h3 : plain_field f3) (hsec : sec.wf)
    (hne : frac ≠ []) (hfrac : all_digits frac) (hx : x = ',' ∨ x = '\n') :
    ∃ pkt, csv_parse_tail usec a b c d e f
      (',' :: (f1 ++ ',' :: (f2 ++ ',' :: (f3 ++ ',' ::
        (sec.text ++ '.' :: (frac ++ x :: rest)))))) = .ok pkt := by
  have en : (strtol (sec.text ++ '.' :: (frac ++ x :: rest))).2 = '.' :: (frac ++ x :: rest) :=
    strtol_csv_int_end sec _ hsec (dot_stops_digits _)
  have hsd := strtod_end_fraction frac rest x hne hfrac hx
  have hdot : ¬ (deref ('.' :: (frac ++ x :: rest)) ≠ some '.') := by simp [deref]
  have hend : ¬ (deref (x :: rest) ≠ some ',' ∧ deref (x :: rest) ≠ some '\n') := by
    rcases hx with h | h <;> subst h <;> simp [deref]
  rw [csv_parse_tail, csv_skip_fields_three f1 f2 f3 _ h1 h2 h3]
  simp only [List.tail_cons, en, hdot, if_false, hsd, hend]
  exact ⟨_, rfl⟩

theorem csv_row_text_leading (r : csv_row) :
    r.text = csv_leading [r.s, r.d, r.p, r.sp, r.dp, r.x, r.len]
      (r.f1 ++ ',' :: (r.f2 ++ ',' :: (r.f3 ++ ',' :: (r.sec.text ++ r.fraction)))) := rfl

theorem c_string_fraction (r : csv_row) (hwf : r.wf) :
    ∃ x rest, (x = ',' ∨ x = '\n') ∧ c_string r.fraction = '.' :: (r.frac ++ x :: rest) := by
  have hd := digits_no_nul r.frac hwf.2.2.2.2.2.2.2.2.2.2.2.2.1
  unfold csv_row.fraction
  cases r.more with
  | none =>
    refine ⟨'\n', [], Or.inr rfl, ?_⟩
    rw [c_string_cons_no_nul _ _ (by decide), c_string_append_no_nul _ _ hd]
    rfl
  | some m =>
    refine ⟨',', c_string (m ++ ['\n']), Or.inl rfl, ?_⟩
    simp only
    rw [c_string_cons_no_nul _ _ (by decide), c_string_append_no_nul _ _ hd,
      c_string_cons_no_nul _ _ (by decide)]

theorem csv_parse_line_row_cut (usec : List Char → Nat) (r : csv_row) (hwf : r.wf) :
    csv_parse_line usec (c_string r.text) = .fault ∨
      ∃ pkt, csv_parse_line usec (c_string r.text) = .ok pkt := by
  have hints : ∀ m ∈ [r.s, r.d, r.p, r.sp, r.dp, r.x, r.len], m.wf := by
    obtain ⟨w1, w2, w3, w4, w5, w6, w7, _⟩ := hwf
    intro m hm
    simp only [List.mem_cons, List.mem_singleton, List.not_mem_nil, or_false] at hm
    rcases hm with h | h | h | h | h | h | h <;> subst h <;> assumption
  obtain ⟨_, _, _, _, _, _, _, g1, g2, g3, w8, hne, hd, _⟩ := id hwf
  have c1 := plain_count r.f1 g1
  have c2 := plain_count r.f2 g2
  have c3 := plain_count r.f3 g3
  have k1 := count_c_string_le r.f1 ','
  have k2 := count_c_string_le r.f2 ','
  have k3 := count_c_string_le r.f3 ','
  have hcomma : (',' : Char) ≠ '\x00' := by decide
  rw [csv_row_text_leading, csv_leading_c_string _ _ hints]
  by_cases n1 : '\x00' ∈ r.f1
  · left
    apply csv_parse_line_few_commas usec [r.s, r.d, r.p, r.sp, r.dp, r.x, r.len] _ rfl hints
    rw [c_string_append_nul _ _ n1]
    omega
  have m1 : ∀ c ∈ r.f1, c ≠ '\x00' := fun c hc he => n1 (he ▸ hc)
  by_cases n2 : '\x00' ∈ r.f2
  · left
    apply csv_parse_line_few_commas usec [r.s, r.d, r.p, r.sp, r.dp, r.x, r.len] _ rfl hints
    rw [c_string_append_no_nul _ _ m1, c_string_cons_no_nul _ _ hcomma,
      c_string_append_nul _ _ n2]
    simp only [List.count_append, List.count_cons_self]
    omega
  have m2 : ∀ c ∈ r.f2, c ≠ '\x00' := fun c hc he => n2 (he ▸ hc)
  by_cases n3 : '\x00' ∈ r.f3
  · left
    apply csv_parse_line_few_commas usec [r.s, r.d, r.p, r.sp, r.dp, r.x, r.len] _ rfl hints
    rw [c_string_append_no_nul _ _ m1, c_string_cons_no_nul _ _ hcomma,
      c_string_append_no_nul _ _ m2, c_string_cons_no_nul _ _ hcomma,
      c_string_append_nul _ _ n3]
    simp only [List.count_append, List.count_cons_self]
    omega
  have m3 : ∀ c ∈ r.f3, c ≠ '\x00' := fun c hc he => n3 (he ▸ hc)
  right
  obtain ⟨x, rest, hx, hfr⟩ := c_string_fraction r hwf
  obtain ⟨a, b, c, d, e, f, h⟩ := csv_parse_line_seven usec [r.s, r.d, r.p, r.sp, r.dp, r.x, r.len]
    (c_string (r.f1 ++ ',' :: (r.f2 ++ ',' :: (r.f3 ++ ',' :: (r.sec.text ++ r.fraction)))))
    rfl hints
  rw [h, c_string_append_no_nul _ _ m1, c_string_cons_no_nul _ _ hcomma,
    c_string_append_no_nul _ _ m2, c_string_cons_no_nul _ _ hcomma,
    c_string_append_no_nul _ _ m3, c_string_cons_no_nul _ _ hcomma,
    c_string_append_no_nul _ _ (csv_int_no_nul r.sec w8), hfr]
  exact csv_parse_tail_ok usec a b c d e f r.f1 r.f2 r.f3 r.sec r.frac rest x g1 g2 g3 w8 hne hd hx

theorem csv_read_loop_rows_cut (usec : List Char → Nat) (rest : List Char) :
    ∀ (rows : List csv_row), (∀ r ∈ rows, r.wf) →
      (∀ r ∈ rows, r.text.length < MAX_LINE_LEN) → ∀ (fuel : Nat) (chain : pkt_chain_t),
      csv_read_loop usec none (rows.length + fuel) (rows.flatMap csv_row.text ++ rest) chain =
          some .fault ∨
        ∃ chain', csv_read_loop usec none (rows.length + fuel)
          (rows.flatMap csv_row.text ++ rest) chain = csv_read_loop usec none fuel rest chain'
  | [], _, _, fuel, chain => by
    right
    refine ⟨chain, ?_⟩
    simp only [List.flatMap_nil, List.nil_append, List.length_nil, Nat.zero_add]
  | r :: rows, hwf, hlen, fuel, chain => by
    have hf : (r :: rows).length + fuel = (rows.length + fuel) + 1 := by
      simp only [List.length_cons]; omega
    rw [hf, List.flatMap_cons, List.append_assoc, csv_read_loop,
      fgets_row_cut r _ (hwf r (List.mem_cons_self _ _)) (hlen r (List.mem_cons_self _ _))]
    rcases csv_parse_line_row_cut usec r (hwf r (List.mem_cons_self _ _)) with h | ⟨pkt, h⟩
    · left
      simp only [h]
    · simp only [h]
      exact csv_read_loop_rows_cut usec rest rows
        (fun x hx => hwf x (List.mem_cons_of_mem _ hx))
        (fun x hx => hlen x (List.mem_cons_of_mem _ hx)) fuel _

theorem csv_read_loop_missing (usec : List Char → Nat) (ints : List csv_int)
    (tail rest : List Char) (hlen : ints.length = 7) (hints : ∀ m ∈ ints, m.wf)
    (htail : ∀ c ∈ tail, c ≠ '\n') (hcount : tail.count ',' < 3)
    (hroom : (csv_leading ints (tail ++ ['\n'])).length < MAX_LINE_LEN) (fuel : Nat)
    (chain : pkt_chain_t) :
    csv_read_loop usec none (fuel + 1) (csv_leading ints (tail ++ ['\n']) ++ rest) chain =
      some .fault := by
  have hparse : csv_parse_line usec (c_string (csv_leading ints (tail ++ ['\n']))) =
      .fault := by
    rw [csv_leading_c_string _ _ hints]
    apply csv_parse_line_few_commas usec _ _ hlen hints
    have hle := count_c_string_le (tail ++ ['\n']) ','
    have hn : ¬ ('\n' = ',') := by decide
    simp only [List.count_append, List.count_cons, List.count_nil, beq_iff_eq, hn,
      if_false] at hle
    omega
  have hfg : fgets MAX_LINE_LEN (csv_leading ints (tail ++ ['\n']) ++ rest) =
      some (c_string (csv_leading ints (tail ++ ['\n'])), rest) := by
    have hnl := csv_leading_no_newline ints tail hints htail
    rw [csv_leading_append] at hroom ⊢
    have hr : (csv_leading ints tail).length + 1 < MAX_LINE_LEN := by
      simp only [List.length_append, List.length_cons, List.length_nil] at hroom
      exact hroom
    rw [List.append_assoc, List.singleton_append, fgets_line _ rest hnl _ hr]
  rw [csv_read_loop, hfg]
  simp only [hparse]

/-- C35 (CSV missing-fields error) fails: the code -8 is never returned.  The
test `*endptr != ','` follows `endptr = strchr(endptr + 1, ',')`, which
returns either a pointer to a comma or NULL.  For every line of fewer than
2048 characters whose seven leading integers are each followed by `,` and
which has fewer than three commas after that, also after well-formed rows,
`strchr` returns NULL and the NULL pointer is dereferenced: `fc_csv_read`
returns no code at all. -/
theorem csv_missing_fields :
    (∀ (usec : List Char → Nat) (p : List Char), csv_parse_line usec p ≠ .error (-8)) ∧
    (∀ (usec : List Char → Nat) (rows : List csv_row) (ints : List csv_int)
        (tail rest : List Char),
      (∀ r ∈ rows, r.wf) → (∀ r ∈ rows, r.fits) →
      (∀ r ∈ rows, r.text.length < MAX_LINE_LEN) →
      ints.length = 7 → (∀ m ∈ ints, m.wf) → (∀ c ∈ tail, c ≠ '\n') → tail.count ',' < 3 →
      (csv_leading ints (tail ++ ['\n'])).length < MAX_LINE_LEN →
      csv_outcome usec (rows.flatMap csv_row.text ++ (csv_leading ints (tail ++ ['\n']) ++ rest)) =
        some (none, [])) ∧
    (csv_leading sample_ints "a,b\n".toList = "1,2,6,3,4,0,60,a,b\n".toList ∧
      csv_outcome (fun _ => 0) "1,2,6,3,4,0,60,a,b\n".toList = some (none, [])) := by
  refine ⟨csv_parse_line_no_eight, ?_, by decide⟩
  intro usec rows ints tail rest hwf hfits hlen hseven hints htail hcount hroom
  have hge := length_le_flatMap_text rows
  obtain ⟨k, hk⟩ : ∃ k,
      (rows.flatMap csv_row.text ++ (csv_leading ints (tail ++ ['\n']) ++ rest)).length + 1 =
        rows.length + (k + 1) :=
    ⟨(rows.flatMap csv_row.text ++ (csv_leading ints (tail ++ ['\n']) ++ rest)).length -
        rows.length, by
      simp only [List.length_append] at hge ⊢
      omega⟩
  rcases csv_read_loop_rows_cut usec (csv_leading ints (tail ++ ['\n']) ++ rest) rows hwf
    hlen (k + 1) { linked := [], curr := none } with h1 | ⟨chain', h1⟩
  · rw [csv_outcome, fc_csv_read, hk, h1]
    rfl
  · rw [csv_outcome, fc_csv_read, hk, h1,
      csv_read_loop_missing usec ints tail rest hseven hints htail hcount hroom]
    rfl

/-! ### Command line -/

theorem length_group_runs_le (chunk : fc_chunk_t) (query : fc_query_t) :
    ∀ (fuel : Nat) (l : List Nat), (group_runs chunk query fuel l).length ≤ l.length
  | 0, l => by simp [group_runs]
  | fuel + 1, [] => by simp [group_runs]
  | fuel + 1, head :: rest => by
    have ih := length_group_runs_le chunk query fuel
      (rest.dropWhile (fun t => comparator_group chunk query head t == 0))
    have hd := (List.dropWhile_sublist
      (fun t => comparator_group chunk query head t == 0) (l := rest)).length_le
    simp only [group_runs, List.length_cons]
    omega

theorem length_group_counts_le (chunk : fc_chunk_t) (query : fc_query_t) (order : List Nat) :
    (group_counts chunk query order).length ≤ order.length := by
  simp only [group_counts, List.length_map]
  exact length_group_runs_le chunk query _ _

theorem parse_opts_state (opts : List fc_opt) :
    ∀ (args r : firecracker_args_t), parse_opts opts args = .inl r →
      r.query_strs = args.query_strs ++ query_options opts ∧
      (no_show_max opts → r.show_max = args.show_max) := by
  induction opts with
  | nil =>
    intro args r h
    simp only [parse_opts, Sum.inl.injEq] at h
    subst h
    simp [query_options]
  | cons o rest ih =>
    intro args r h
    have hrest : no_show_max (o :: rest) → no_show_max rest :=
      fun hm x hx => hm x (List.mem_cons_of_mem _ hx)
    cases o with
    | A optarg =>
      simp only [parse_opts] at h
      split_ifs at h
      obtain ⟨h1, h2⟩ := ih _ _ h
      exact ⟨by simpa [query_options] using h1, fun hm => by simpa using h2 (hrest hm)⟩
    | h => simp [parse_opts] at h
    | F optarg =>
      simp only [parse_opts] at h
      obtain ⟨h1, h2⟩ := ih _ _ h
      exact ⟨by simpa [query_options] using h1, fun hm => by simpa using h2 (hrest hm)⟩
    | I optarg =>
      simp only [parse_opts] at h
      split_ifs at h
      obtain ⟨h1, h2⟩ := ih _ _ h
      exact ⟨by simpa [query_options] using h1, fun hm => by simpa using h2 (hrest hm)⟩
    | m optarg =>
      simp only [parse_opts] at h
      split_ifs at h
      obtain ⟨h1, _⟩ := ih _ _ h
      exact ⟨by simpa [query_options] using h1,
        fun hm => absurd rfl (hm _ (List.mem_cons_self _ _) optarg)⟩
    | n =>
      simp only [parse_opts] at h
      obtain ⟨h1, h2⟩ := ih _ _ h
      exact ⟨by simpa [query_options] using h1, fun hm => by simpa using h2 (hrest hm)⟩
    | o optarg =>
      simp only [parse_opts] at h
      obtain ⟨h1, h2⟩ := ih _ _ h
      exact ⟨by simpa [query_options] using h1, fun hm => by simpa using h2 (hrest hm)⟩
    | s optarg =>
      simp only [parse_opts] at h
      obtain ⟨h1, h2⟩ := ih _ _ h
      exact ⟨by simpa [query_options] using h1, fun hm => by simpa using h2 (hrest hm)⟩
    | t optarg =>
      simp only [parse_opts] at h
      split_ifs at h
      obtain ⟨h1, h2⟩ := ih _ _ h
      exact ⟨by simpa [query_options] using h1, fun hm => by simpa using h2 (hrest hm)⟩
    | T =>
      simp only [parse_opts] at h
      obtain ⟨h1, h2⟩ := ih _ _ h
      exact ⟨by simpa [query_options] using h1, fun hm => by simpa using h2 (hrest hm)⟩
    | bad => simp [parse_opts] at h

theorem parse_queries_spec (show_max : Int) (show_query : Bool) :
    ∀ (strs : List (List Char)) (qs : List fc_query_t),
      parse_queries show_max show_query strs = some (some qs) →
      (∀ q ∈ qs, q.show_max = toU64 show_max ∧ q.show_query = show_query) ∧
      qs.map fc_query_t.query_str = strs.map String.mk := by
  intro strs
  induction strs with
  | nil =>
    intro qs h
    simp only [parse_queries, Option.some.injEq] at h
    subst h
    simp
  | cons str rest ih =>
    intro qs h
    rw [parse_queries] at h
    cases hq : fc_str2query str default with
    | none => rw [hq] at h; cases h
    | some r =>
      obtain ⟨rc, q⟩ := r
      rw [hq] at h
      simp only at h
      split_ifs at h with hrc
      · cases h
      · cases hr : parse_queries show_max show_query rest with
        | none => rw [hr] at h; cases h
        | some o =>
          cases o with
          | none => rw [hr] at h; cases h
          | some qs2 =>
            rw [hr] at h
            simp only [Option.map_some', Option.some.injEq] at h
            subst h
            obtain ⟨h1, h2⟩ := ih qs2 hr
            refine ⟨?_, by simp [h2]⟩
            intro x hx
            rcases List.mem_cons.mp hx with hx | hx
            · subst hx; exact ⟨rfl, rfl⟩
            · exact h1 x hx

theorem parse_args_parsed (opts : List fc_opt) (files : List (List Char))
    (args : firecracker_args_t) (h : parse_args opts files = some (.parsed args)) :
    ∃ a, parse_opts opts initial_args = .inl a ∧ args.show_max = a.show_max ∧
      parse_queries a.show_max
        (if (if a.query_strs = [] then ["PA".toList] else a.query_strs).length > 1 then true
         else a.show_query)
        (if a.query_strs = [] then ["PA".toList] else a.query_strs) = some (some args.queries) := by
  unfold parse_args at h
  cases ho : parse_opts opts initial_args with
  | inr e =>
    rw [ho] at h
    simp only [Option.some.injEq] at h
    subst h
    exfalso
    revert ho
    generalize initial_args = st
    induction opts generalizing st with
    | nil => simp [parse_opts]
    | cons o rest ih =>
      cases o <;> simp only [parse_opts] <;> intro hh
      all_goals first
        | exact ih _ hh
        | cases hh
        | (split_ifs at hh <;> first | cases hh | exact ih _ hh)
  | inl a =>
    rw [ho] at h
    refine ⟨a, rfl, ?_⟩
    simp only at h
    cases hq : parse_queries a.show_max
        (if (if a.query_strs = [] then ["PA".toList] else a.query_strs).length > 1 then true
         else a.show_query)
        (if a.query_strs = [] then ["PA".toList] else a.query_strs) with
    | none => rw [hq] at h; cases h
    | some o =>
      rw [hq] at h
      cases o with
      | none => simp at h
      | some qs =>
        simp only at h
        cases hf : a.filter_str with
        | none =>
          rw [hf] at h
          simp only [Option.some.injEq, parse_outcome.parsed.injEq] at h
          subst h
          exact ⟨rfl, rfl⟩
        | some fs =>
          rw [hf] at h
          simp only at h
          cases hs : fc_str2filter fs with
          | none => rw [hs] at h; cases h
          | some r =>
            rw [hs] at h
            simp only at h
            by_cases hrc : r.1 ≠ 0
            · rw [if_pos hrc] at h; cases h
            · rw [if_neg hrc] at h
              simp only [Option.some.injEq, parse_outcome.parsed.injEq] at h
              subst h
              exact ⟨rfl, rfl⟩

/-- C31 (unlimited default): when the options hold no `-m` and `parse_args`
returns 0, the `int` member `show_max` is -1, every compiled query has
`show_max = 2 ^ 64 - 1`, and for every window of `count` records
(`0 < count < 2 ^ 64`, the range of the `uint64_t` parameter)
`fc_compute_counts_subset` writes one count line (and, when normalized, one
normalized line) for every entry of a permutation of all groups of the window,
followed by the terminator: no group is dropped. -/
theorem unlimited_default (opts : List fc_opt) (files : List (List Char))
    (args : firecracker_args_t) (hm : no_show_max opts)
    (hp : parse_args opts files = some (.parsed args)) :
    args.show_max = -1 ∧
    (∀ q ∈ args.queries, q.show_max = 18446744073709551615) ∧
    ∀ q ∈ args.queries, ∀ (chunk : fc_chunk_t) (base count start_time : Nat)
      (normalized : Bool), 0 < count → count < 18446744073709551616 →
      ∃ shown : List fc_count_order_t,
        shown.Perm (group_counts chunk q (fc_create_index chunk base count q)) ∧
        fc_compute_counts_subset chunk base count q start_time normalized =
          shown.map (fun c => fc_line.count c.count start_time (chunk.at c.index)) ++
          (if normalized then
            shown.map (fun c => fc_line.norm c.count count start_time (chunk.at c.index))
           else []) ++
          [fc_line.term count start_time q.query_str] := by
  obtain ⟨a, ha, hsm, hq⟩ := parse_args_parsed opts files args hp
  have hs := (parse_opts_state opts initial_args a ha).2 hm
  have hneg : args.show_max = -1 := by rw [hsm, hs]; rfl
  have hall : ∀ q ∈ args.queries, q.show_max = 18446744073709551615 := by
    intro q hqm
    have := ((parse_queries_spec _ _ _ _ hq).1 q hqm).1
    rw [this, hs]
    decide
  refine ⟨hneg, hall, ?_⟩
  intro q hqm chunk base count start_time normalized h0 hlt
  refine ⟨select_counts q (group_counts chunk q (fc_create_index chunk base count q)), ?_, ?_⟩
  · apply select_counts_perm
    have := length_group_counts_le chunk q (fc_create_index chunk base count q)
    rw [length_fc_create_index] at this
    rw [hall q hqm]
    omega
  · unfold fc_compute_counts_subset
    rw [if_neg (by omega)]
    simp only [length_fc_create_index]

/-- Witness for C31: the command line `-t P -n` with one input file. -/
theorem unlimited_default_witness :
    no_show_max [.t "P".toList, .n] ∧
    parse_args [.t "P".toList, .n] ["a.csv".toList] = some (.parsed sample_args) ∧
    sample_args.show_max = -1 ∧
    (∀ q ∈ sample_args.queries, q.show_max = 18446744073709551615) :=
  ⟨by decide, by decide,
   (unlimited_default [.t "P".toList, .n] ["a.csv".toList] sample_args (by decide)
      (by decide)).1,
   (unlimited_default [.t "P".toList, .n] ["a.csv".toList] sample_args (by decide)
      (by decide)).2.1⟩

/-- C39 (query string retention): the claim fails on the code.  Whenever
`fc_str2query` returns 0 the `query_str` it stores is the empty string: the
copy is taken with `strdup(str)` after the loop has advanced `str` to the
terminating NUL.  For the string `PA` the result is 0 and `query_str` is
empty, not `PA`.  The terminator written by `fc_compute_counts_subset` ends with the
`query_str` of the query it is given; the text appears in the output of the
program because `parse_args` stores the option string into `query_str` after
the call. -/
theorem query_str_not_retained :
    (∀ (str : List Char) (q r : fc_query_t),
      fc_str2query str q = some (0, r) → r.query_str = "") ∧
    (fc_str2query "PA".toList default).map (fun r => (r.1, r.2.query_str)) = some (0, "") ∧
    (∀ (chunk : fc_chunk_t) (base count : Nat) (q : fc_query_t) (start_time : Nat)
        (normalized : Bool),
      (fc_compute_counts_subset chunk base count q start_time normalized).getLast? =
        some (fc_line.term count start_time q.query_str)) ∧
    (∀ (opts : List fc_opt) (files : List (List Char)) (args : firecracker_args_t),
      parse_args opts files = some (.parsed args) →
      args.queries.map fc_query_t.query_str =
        (if query_options opts = [] then ["PA".toList] else query_options opts).map
          String.mk) := by
  refine ⟨?_, by decide, ?_, ?_⟩
  · intro str q r h
    unfold fc_str2query at h
    cases hl : str2query_loop (str.length + 1) str [] with
    | none => rw [hl] at h; cases h
    | some x =>
      rw [hl] at h
      simp only [Option.map_some', Option.some.injEq] at h
      split_ifs at h with hx
      · simp only [Prod.mk.injEq, true_and] at h
        rw [← h]
      · simp only [Prod.mk.injEq] at h
        exact absurd h.1 hx
  · intro chunk base count q start_time normalized
    unfold fc_compute_counts_subset
    split_ifs with h0
    · subst h0; rfl
    · simp only [length_fc_create_index, List.getLast?_append, List.getLast?_singleton]
      rfl
    · simp only [length_fc_create_index, List.getLast?_append, List.getLast?_singleton]
      rfl
  · intro opts files args h
    obtain ⟨a, ha, _, hq⟩ := parse_args_parsed opts files args h
    have hs := (parse_opts_state opts initial_args a ha).1
    have hs2 : a.query_strs = query_options opts := by rw [hs]; rfl
    rw [← hs2]
    exact (parse_queries_spec _ _ _ _ hq).2

/-! ### Records read by the evaluation -/

theorem group_runs_subset (chunk : fc_chunk_t) (query : fc_query_t) :
    ∀ (fuel : Nat) (l : List Nat), ∀ run ∈ group_runs chunk query fuel l,
      run ≠ [] ∧ ∀ x ∈ run, x ∈ l
  | 0, l, run, h => by simp [group_runs] at h
  | fuel + 1, [], run, h => by simp [group_runs] at h
  | fuel + 1, head :: rest, run, h => by
    simp only [group_runs, List.mem_cons] at h
    rcases h with h | h
    · subst h
      refine ⟨List.cons_ne_nil _ _, ?_⟩
      intro x hx
      rcases List.mem_cons.mp hx with hx | hx
      · subst hx; exact List.mem_cons_self _ _
      · exact List.mem_cons_of_mem _ ((List.takeWhile_sublist _).subset hx)
    · obtain ⟨h1, h2⟩ := group_runs_subset chunk query fuel _ run h
      exact ⟨h1, fun x hx =>
        List.mem_cons_of_mem _ ((List.dropWhile_sublist _).subset (h2 x hx))⟩

theorem group_runs_flatten (chunk : fc_chunk_t) (query : fc_query_t) :
    ∀ (fuel : Nat) (l : List Nat), l.length ≤ fuel →
      (group_runs chunk query fuel l).flatten = l
  | 0, l, h => by
    have : l = [] := List.eq_nil_of_length_eq_zero (by omega)
    subst this; rfl
  | fuel + 1, [], _ => rfl
  | fuel + 1, head :: rest, h => by
    have hd := (List.dropWhile_sublist
      (fun t => comparator_group chunk query head t == 0) (l := rest)).length_le
    have ih := group_runs_flatten chunk query fuel
      (rest.dropWhile (fun t => comparator_group chunk query head t == 0))
      (by simp only [List.length_cons] at h; omega)
    simp only [group_runs, List.flatten_cons, ih, List.cons_append,
      List.takeWhile_append_dropWhile]

theorem mem_fc_create_index (chunk : fc_chunk_t) (base count : Nat) (query : fc_query_t)
    (x : Nat) : x ∈ fc_create_index chunk base count query ↔ base ≤ x ∧ x < base + count := by
  rw [fc_create_index, (qsort_perm _ _).mem_iff, List.mem_range']
  constructor
  · rintro ⟨i, hi, rfl⟩; omega
  · rintro ⟨h1, h2⟩; exact ⟨x - base, by omega, by omega⟩

theorem chunk_at_wf (chunk : fc_chunk_t) (hwf : ∀ p ∈ chunk.pkts, p.wf) (i : Nat) :
    (chunk.at i).wf := by
  unfold fc_chunk_t.at
  by_cases hi : i < chunk.pkts.length
  · rw [List.getD_eq_getElem _ _ hi]
    exact hwf _ (List.getElem_mem hi)
  · rw [List.getD_eq_default _ _ (by omega)]
    decide

theorem apply_width_le (w x y : Nat) (hw : w ≤ 32) (hx : x < 4294967296)
    (hy : y < 4294967296) (h : x ≤ y) : apply_width w x ≤ apply_width w y := by
  unfold apply_width
  by_cases h0 : w > 0
  · rw [if_pos h0, if_pos h0, and_width_mask w x (by omega) hw hx,
      and_width_mask w y (by omega) hw hy]
    exact Nat.mul_le_mul_left _ (Nat.div_le_div_right h)
  · rw [if_neg h0, if_neg h0]; exact h

theorem comparator_group_single (chunk : fc_chunk_t) (query : fc_query_t)
    (f : fc_query_field_t) (hq : query.fields = [f]) (a b : Nat) :
    (comparator_group chunk query a b == 0) =
      decide (apply_width f.width (fetch_field (chunk.at a) f.name) =
        apply_width f.width (fetch_field (chunk.at b) f.name)) := by
  simp only [comparator_group, hq, List.map_cons, List.map_nil, compare_fields]
  split_ifs with h1 h2
  · have : ¬ (apply_width f.width (fetch_field (chunk.at a) f.name) =
        apply_width f.width (fetch_field (chunk.at b) f.name)) := by omega
    simp [this]
  · have : ¬ (apply_width f.width (fetch_field (chunk.at a) f.name) =
        apply_width f.width (fetch_field (chunk.at b) f.name)) := by omega
    simp [this]
  · have : apply_width f.width (fetch_field (chunk.at a) f.name) =
        apply_width f.width (fetch_field (chunk.at b) f.name) := by omega
    simp [this]

theorem comparator_sort_single (chunk : fc_chunk_t) (query : fc_query_t)
    (f : fc_query_field_t) (hq : query.fields = [f]) (a b : Nat) :
    comparator_sort chunk query a b ≤ 0 ↔
      (fetch_field (chunk.at a) f.name < fetch_field (chunk.at b) f.name ∨
        (fetch_field (chunk.at a) f.name = fetch_field (chunk.at b) f.name ∧
          ((chunk.at a).ts.ts_sec < (chunk.at b).ts.ts_sec ∨
            ((chunk.at a).ts.ts_sec = (chunk.at b).ts.ts_sec ∧
              (chunk.at a).ts.ts_usec ≤ (chunk.at b).ts.ts_usec)))) := by
  simp only [comparator_sort, hq, List.map_cons, List.map_nil, compare_fields]
  split_ifs <;> omega

theorem fc_create_index_sorted (chunk : fc_chunk_t) (base count : Nat) (query : fc_query_t)
    (f : fc_query_field_t) (hq : query.fields = [f]) :
    (fc_create_index chunk base count query).Pairwise
      (fun a b => fetch_field (chunk.at a) f.name ≤ fetch_field (chunk.at b) f.name) := by
  haveI : IsTotal Nat (fun a b => comparator_sort chunk query a b ≤ 0) :=
    ⟨fun a b => by
      simp only [comparator_sort_single chunk query f hq]
      omega⟩
  haveI : IsTrans Nat (fun a b => comparator_sort chunk query a b ≤ 0) :=
    ⟨fun a b c => by
      simp only [comparator_sort_single chunk query f hq]
      omega⟩
  have hs := List.sorted_insertionSort (fun a b => comparator_sort chunk query a b ≤ 0)
    (List.range' base count)
  refine List.Pairwise.imp ?_ hs
  intro a b hab
  have := (comparator_sort_single chunk query f hq a b).mp hab
  omega

theorem dropWhile_key_gt (key : Nat → Nat) (k : Nat) :
    ∀ rest : List Nat, rest.Pairwise (fun a b => key a ≤ key b) →
      (∀ x ∈ rest, k ≤ key x) →
      ∀ x ∈ rest.dropWhile (fun t => decide (k = key t)), k < key x := by
  intro rest
  induction rest with
  | nil => intro _ _ x hx; cases hx
  | cons r rs ih =>
    intro hp hk x hx
    rw [List.pairwise_cons] at hp
    by_cases hr : k = key r
    · rw [List.dropWhile_cons_of_pos (by simpa using hr)] at hx
      exact ih hp.2 (fun y hy => hk y (List.mem_cons_of_mem _ hy)) x hx
    · rw [List.dropWhile_cons_of_neg (by simpa using hr)] at hx
      have h1 := hk r (List.mem_cons_self _ _)
      rcases List.mem_cons.mp hx with hx | hx
      · subst hx; omega
      · have := hp.1 x hx
        omega

theorem group_runs_classes (chunk : fc_chunk_t) (query : fc_query_t) (key : Nat → Nat)
    (hg : ∀ a b, (comparator_group chunk query a b == 0) = decide (key a = key b)) :
    ∀ (fuel : Nat) (l : List Nat), l.length ≤ fuel →
      l.Pairwise (fun a b => key a ≤ key b) →
      ∀ i ∈ l, ∀ j ∈ l,
        ((∃ run ∈ group_runs chunk query fuel l, i ∈ run ∧ j ∈ run) ↔ key i = key j)
  | 0, l, h, _, i, hi, j, _ => by
    have : l = [] := List.eq_nil_of_length_eq_zero (by omega)
    subst this; cases hi
  | fuel + 1, [], _, _, i, hi, j, _ => by cases hi
  | fuel + 1, head :: rest, h, hp, i, hi, j, hj => by
    have hfun : (fun t => comparator_group chunk query head t == 0) =
        (fun t => decide (key head = key t)) := funext (hg head)
    rw [List.pairwise_cons] at hp
    have hsub := List.dropWhile_sublist (fun t => decide (key head = key t)) (l := rest)
    have hsplit := List.takeWhile_append_dropWhile (fun t => decide (key head = key t)) rest
    have htw : ∀ x ∈ rest.takeWhile (fun t => decide (key head = key t)),
        key x = key head := by
      intro x hx
      have := List.mem_takeWhile_imp hx
      simp only [decide_eq_true_eq] at this
      exact this.symm
    have hdw := dropWhile_key_gt key (key head) rest hp.2 hp.1
    have hrun0 : ∀ x ∈ head :: rest.takeWhile (fun t => decide (key head = key t)),
        key x = key head := by
      intro x hx
      rcases List.mem_cons.mp hx with hx | hx
      · rw [hx]
      · exact htw x hx
    have hmem : ∀ x ∈ head :: rest,
        x ∈ head :: rest.takeWhile (fun t => decide (key head = key t)) ∨
        x ∈ rest.dropWhile (fun t => decide (key head = key t)) := by
      intro x hx
      rcases List.mem_cons.mp hx with hx | hx
      · left; rw [hx]; exact List.mem_cons_self _ _
      · rw [← hsplit] at hx
        rcases List.mem_append.mp hx with hx | hx
        · left; exact List.mem_cons_of_mem _ hx
        · right; exact hx
    have ih := group_runs_classes chunk query key hg fuel
      (rest.dropWhile (fun t => decide (key head = key t)))
      (by have := hsub.length_le; simp only [List.length_cons] at h; omega)
      (hp.2.sublist hsub)
    simp only [group_runs, hfun, List.mem_cons]
    constructor
    · rintro ⟨run, hrun | hrun, hir, hjr⟩
      · subst hrun
        rw [hrun0 i hir, hrun0 j hjr]
      · obtain ⟨_, hs⟩ := group_runs_subset chunk query fuel _ run hrun
        exact (ih i (hs i hir) j (hs j hjr)).mp ⟨run, hrun, hir, hjr⟩
    · intro hk
      rcases hmem i hi with hi0 | hi1
      · rcases hmem j hj with hj0 | hj1
        · exact ⟨_, Or.inl rfl, hi0, hj0⟩
        · have h1 := hrun0 i hi0
          have h2 := hdw j hj1
          omega
      · rcases hmem j hj with hj0 | hj1
        · have h1 := hrun0 j hj0
          have h2 := hdw i hi1
          omega
        · obtain ⟨run, hrun, hir, hjr⟩ := (ih i hi1 j hj1).mpr hk
          exact ⟨run, Or.inr hrun, hir, hjr⟩

/-- C37 (single-field grouping): for a chunk of well-formed records, a window
`[base, base + count)` and a query with exactly one field of width at most 32,
the runs formed by the grouping loop of `fc_compute_counts_subset` list the
sorted index of the window, the `counts` array holds the head and the length
of each run, and two records of the window lie in a common run if and only if
their field values masked to the width are equal. -/
theorem single_field_grouping (chunk : fc_chunk_t) (base count : Nat) (query : fc_query_t)
    (f : fc_query_field_t) (hq : query.fields = [f]) (hw : f.width ≤ 32)
    (hwf : ∀ p ∈ chunk.pkts, p.wf) :
    (window_runs chunk base count query).flatten = fc_create_index chunk base count query ∧
    group_counts chunk query (fc_create_index chunk base count query) =
      (window_runs chunk base count query).map
        (fun run => { index := run.headD 0, count := run.length }) ∧
    ∀ i j : Nat, base ≤ i → i < base + count → base ≤ j → j < base + count →
      ((∃ run ∈ window_runs chunk base count query, i ∈ run ∧ j ∈ run) ↔
        apply_width f.width (fetch_field (chunk.at i) f.name) =
          apply_width f.width (fetch_field (chunk.at j) f.name)) := by
  refine ⟨group_runs_flatten chunk query _ _ (le_refl _), rfl, ?_⟩
  intro i j hi1 hi2 hj1 hj2
  have hsorted := fc_create_index_sorted chunk base count query f hq
  have hkey : (fc_create_index chunk base count query).Pairwise
      (fun a b => apply_width f.width (fetch_field (chunk.at a) f.name) ≤
        apply_width f.width (fetch_field (chunk.at b) f.name)) := by
    refine List.Pairwise.imp ?_ hsorted
    intro a b hab
    exact apply_width_le f.width _ _ hw (fetch_field_lt _ (chunk_at_wf chunk hwf a) _)
      (fetch_field_lt _ (chunk_at_wf chunk hwf b) _) hab
  exact group_runs_classes chunk query
    (fun x => apply_width f.width (fetch_field (chunk.at x) f.name))
    (comparator_group_single chunk query f hq) _ _ (le_refl _) hkey
    i ((mem_fc_create_index chunk base count query i).mpr ⟨hi1, hi2⟩)
    j ((mem_fc_create_index chunk base count query j).mpr ⟨hj1, hj2⟩)

/-- Witness for C37: four records with sources in 1.1.2.0/24 and 1.1.1.0/24,
interleaved, under the query `S24`: the sort brings the records of each
subnet together and the loop forms the two runs. -/
theorem single_field_grouping_witness :
    query_S24.fields = [{ name := FC_FIELD_NAME_SADDR, width := 24 }] ∧
    (∀ p ∈ mixed_window.pkts, p.wf) ∧
    window_runs mixed_window 0 4 query_S24 = [[3, 1], [0, 2]] ∧
    ((window_runs mixed_window 0 4 query_S24).flatten =
        fc_create_index mixed_window 0 4 query_S24 ∧
      group_counts mixed_window query_S24 (fc_create_index mixed_window 0 4 query_S24) =
        (window_runs mixed_window 0 4 query_S24).map
          (fun run => { index := run.headD 0, count := run.length }) ∧
      ∀ i j : Nat, 0 ≤ i → i < 0 + 4 → 0 ≤ j → j < 0 + 4 →
        ((∃ run ∈ window_runs mixed_window 0 4 query_S24, i ∈ run ∧ j ∈ run) ↔
          apply_width 24 (fetch_field (mixed_window.at i) FC_FIELD_NAME_SADDR) =
            apply_width 24 (fetch_field (mixed_window.at j) FC_FIELD_NAME_SADDR))) :=
  ⟨rfl, by decide, by decide,
   single_field_grouping mixed_window 0 4 query_S24
     { name := FC_FIELD_NAME_SADDR, width := 24 } rfl (by decide) (by decide)⟩

/-! ### The row filter -/

theorem fgets_chars_length : ∀ (room : Nat) (file : List Char),
    (fgets_chars room file).2.length ≤ file.length
  | 0, file => by simp [fgets_chars]
  | _ + 1, [] => by simp [fgets_chars]
  | room + 1, c :: rest => by
    have ih := fgets_chars_length room rest
    simp only [fgets_chars, List.length_cons]
    split_ifs
    · simp
    · simp only; omega

theorem fgets_shorter (n : Nat) (hn : 2 ≤ n) (file buf rest : List Char)
    (h : fgets n file = some (buf, rest)) : rest.length < file.length := by
  unfold fgets at h
  split_ifs at h with he
  simp only [Option.some.injEq] at h
  obtain ⟨m, rfl⟩ : ∃ m, n = m + 2 := ⟨n - 2, by omega⟩
  cases file with
  | nil => exact absurd rfl he
  | cons c t =>
    have hl := fgets_chars_length m t
    simp only [Nat.add_sub_cancel, fgets_chars] at h
    split_ifs at h
    · simp only [Prod.mk.injEq] at h
      rw [← h.2]; simp
    · simp only [Prod.mk.injEq] at h
      rw [← h.2]; simp only [List.length_cons]; omega

theorem read_subnets_loop_total : ∀ (fuel : Nat) (file : List Char) (seen : List Nat),
    file.length < fuel → ∃ r, read_subnets_loop fuel file seen = some r
  | 0, file, seen, h => by omega
  | fuel + 1, file, seen, h => by
    unfold read_subnets_loop
    cases hf : fgets SUBNET_BUFSIZE file with
    | none => exact ⟨_, rfl⟩
    | some br =>
      obtain ⟨buf, rest⟩ := br
      have hlt := fgets_shorter SUBNET_BUFSIZE (by decide) file buf rest hf
      simp only
      split_ifs
      all_goals first
        | exact ⟨_, rfl⟩
        | exact read_subnets_loop_total fuel rest _ (by omega)

theorem filter_ip_addresses_total (args : filter_ip_args)
    (fopen : List Char → Option (List Char)) : ∃ r, filter_ip_addresses args fopen = some r := by
  unfold filter_ip_addresses
  cases args.fname with
  | none =>
    cases args.subnet with
    | none => exact ⟨_, rfl⟩
    | some s => exact ⟨_, rfl⟩
  | some fname =>
    simp only [read_subnets]
    cases fopen fname with
    | none => exact ⟨_, rfl⟩
    | some text => exact read_subnets_loop_total _ _ _ (Nat.lt_succ_self _)

theorem filter_ip_row_quad (args : filter_ip_args) (addresses : List Nat) (lineno : Nat)
    (line : List Char) (hq : args.format = 'q') :
    (filter_ip_row args addresses lineno line).2.1 = [] ∧
    (∀ field, '\n' ∈ line → strnthchr line args.sep (args.nth - 1) = some field →
      (filter_ip_row args addresses lineno line).1 = some (-1)) := by
  have hd : ¬ ('q' : Char) = 'd' := by decide
  have hx : ¬ ('q' : Char) = 'x' := by decide
  simp only [filter_ip_row, hq, hd, hx, if_false]
  constructor
  · by_cases hnl : '\n' ∉ line
    · rw [if_pos hnl]
    · rw [if_neg hnl]
      cases strnthchr line args.sep (args.nth - 1) with
      | none => rfl
      | some field =>
        simp only
        split_ifs <;> rfl
  · intro field hnl hf
    rw [if_neg (by simpa using hnl), hf]
    simp only
    split_ifs <;> rfl

theorem filter_ip_rows_quad (args : filter_ip_args) (addresses : List Nat)
    (hq : args.format = 'q') :
    ∀ (fuel : Nat) (stdin : List Char) (lineno : Nat), stdin.length < fuel →
      ∃ r, filter_ip_rows args addresses fuel stdin lineno = some r ∧ r.stdout = []
  | 0, stdin, lineno, h => by omega
  | fuel + 1, stdin, lineno, h => by
    unfold filter_ip_rows
    cases hf : fgets FILTER_BUFSIZE stdin with
    | none => exact ⟨_, rfl, rfl⟩
    | some br =>
      obtain ⟨line, rest⟩ := br
      have hlt := fgets_shorter FILTER_BUFSIZE (by decide) stdin line rest hf
      have hrow := (filter_ip_row_quad args addresses (lineno + 1) line hq).1
      simp only
      cases hr : (filter_ip_row args addresses (lineno + 1) line).1 with
      | some rc => exact ⟨_, rfl, hrow⟩
      | none =>
        obtain ⟨t, ht, hs⟩ := filter_ip_rows_quad args addresses hq fuel rest (lineno + 1)
          (by omega)
        refine ⟨_, by rw [ht]; rfl, ?_⟩
        simp only [hrow, hs, List.append_nil]

theorem filter_ip_rows_subnet (args : filter_ip_args) (subnet : Option (List Char))
    (addresses : List Nat) :
    ∀ (fuel : Nat) (stdin : List Char) (lineno : Nat),
      filter_ip_rows { args with subnet := subnet } addresses fuel stdin lineno =
        filter_ip_rows args addresses fuel stdin lineno
  | 0, _, _ => rfl
  | fuel + 1, stdin, lineno => by
    have hrow : ∀ n l, filter_ip_row { args with subnet := subnet } addresses n l =
        filter_ip_row args addresses n l := fun _ _ => rfl
    unfold filter_ip_rows
    cases fgets FILTER_BUFSIZE stdin with
    | none => rfl
    | some br =>
      obtain ⟨line, rest⟩ := br
      simp only [hrow, filter_ip_rows_subnet args subnet addresses fuel]

/-- C32 (dotted-quad format): the claim fails on the code.  With the address
format `q` the loop body of `main` never writes the row, and every row that
has the selected column ends the program with -1: the block of `case 'q'`
does not end with `break`, so after the address is computed control reaches
`default`, which reports `unsupported format [q]`.  Hence every run with
format `q` ends and writes no row.  For the row `10.0.0.1,x` the run stops
with that message, while format `d` writes the row `167772161,x` of the same
address, which is in no subnet. -/
theorem quad_format_stops :
    (∀ (args : filter_ip_args) (addresses : List Nat) (lineno : Nat) (line : List Char),
      args.format = 'q' →
      (filter_ip_row args addresses lineno line).2.1 = [] ∧
      (∀ field, '\n' ∈ line → strnthchr line args.sep (args.nth - 1) = some field →
        (filter_ip_row args addresses lineno line).1 = some (-1))) ∧
    (∀ (args : filter_ip_args) (fopen : List Char → Option (List Char)) (stdin : List Char),
      args.format = 'q' →
      ∃ r, filter_ip_main args fopen stdin = some r ∧ r.stdout = []) ∧
    filter_ip_main { filter_ip_defaults with format := 'q' } sample_fopen "10.0.0.1,x\n".toList =
      some { rc := -1, stdout := [], stderr := ["ERROR: unsupported format [q]\n"] } ∧
    filter_ip_main { filter_ip_defaults with format := 'd' } sample_fopen
        "167772161,x\n".toList =
      some { rc := 0, stdout := ["167772161,x\n".toList], stderr := [] } ∧
    10 * 2 ^ 24 + 0 * 2 ^ 16 + 0 * 2 ^ 8 + 1 = 167772161 := by
  refine ⟨filter_ip_row_quad, ?_, by decide, by decide, by decide⟩
  intro args fopen stdin hq
  obtain ⟨built, hb⟩ := filter_ip_addresses_total args fopen
  unfold filter_ip_main
  rw [hb]
  simp only [Option.some_bind]
  by_cases hrc : built.1 ≠ 0
  · rw [if_pos hrc]
    exact ⟨_, rfl, rfl⟩
  · rw [if_neg hrc]
    obtain ⟨t, ht, hs⟩ := filter_ip_rows_quad args
      (if built.2.1.length > 0 then qsort uint32_compare built.2.1 else built.2.1) hq
      (stdin.length + 1) stdin 0 (Nat.lt_succ_self _)
    rw [ht]
    exact ⟨_, rfl, hs⟩

/-- C33 (subnet option): the claim fails on the code.  When a file name is
given, `main` builds the address set from the file alone and the subnet of
`-s` is not looked at (`else if (subnet != NULL)`), so the run is the one
without `-s`.  With the file holding `10.0.0.0/30` and `-s 192.168.1.0/30`,
the row of the address 192.168.1.1 (3232235777), which the subnet of `-s`
contains, is written, and with `-r` it is not; with `-s` alone the row is
suppressed. -/
theorem subnet_option_ignored :
    (∀ (args : filter_ip_args) (fopen : List Char → Option (List Char)) (stdin : List Char)
        (fname : List Char), args.fname = some fname →
      filter_ip_main args fopen stdin =
        filter_ip_main { args with subnet := none } fopen stdin) ∧
    filter_ip_main { filter_ip_defaults with
        fname := some "nets".toList, subnet := some "192.168.1.0/30".toList }
        sample_fopen "3232235777,x\n".toList =
      some { rc := 0, stdout := ["3232235777,x\n".toList], stderr := [] } ∧
    filter_ip_main { filter_ip_defaults with
        fname := some "nets".toList, subnet := some "192.168.1.0/30".toList, inverse := true }
        sample_fopen "3232235777,x\n".toList =
      some { rc := 0, stdout := [], stderr := [] } ∧
    filter_ip_main { filter_ip_defaults with subnet := some "192.168.1.0/30".toList }
        sample_fopen "3232235777,x\n".toList =
      some { rc := 0, stdout := [], stderr := [] } ∧
    add_subnet "192.168.1.0/30".toList [] =
      (0, [3232235776, 3232235777, 3232235778, 3232235779], []) ∧
    read_subnets "nets".toList (sample_fopen "nets".toList) [] =
      some (0, [167772160, 167772161, 167772162, 167772163], []) := by
  refine ⟨?_, by decide, by decide, by decide, by decide, by decide⟩
  intro args fopen stdin fname hf
  have ha : filter_ip_addresses { args with subnet := none } fopen =
      filter_ip_addresses args fopen := by
    simp only [filter_ip_addresses, hf]
  unfold filter_ip_main
  rw [ha]
  simp only [filter_ip_rows_subnet]

end Firecracker
